import Mathlib

/-!
OsirisAndExtra: the frame snapshot (GameData) and the overlay boxes (StreamProofESP)

A shallow embedding of `Osiris/GameData.cpp` and of the bounding box, the
convex hull and the configuration-resolving part of the renderer of
`Osiris/Hacks/StreamProofESP.cpp`, followed by theorems about it.

Conventions of the embedding.

* A C++ `float` is the rational it denotes (`ℚ`). Where a statement depends
  on rounding (`PlayerData.fadingAlpha`, the expiry of projectiles, the
  visibility gate, the convex hull as `convexHullF32`) every operation is
  rounded to single precision by `toFloat32`; elsewhere the arithmetic is
  written without rounding, and `convexHull` and the bounding box are the code
  in exact arithmetic. Infinities and NaN are not modelled.
  `int` is `Int`; a pointer to an entity is the entity's observation record,
  and two pointers are equal when the records carry the same `addr`.
* Everything the code reads from the running game (`interfaces`, `memory`,
  `localPlayer`, `config`) is a field of `Game`.  One value of `Game` is the
  world as it stands during one call.
* The file-scope and function-scope statics of `GameData.cpp` are the fields
  of `State`; `GameData.update` maps the state before a call to the state
  after it.
* Declarations of the headers that are not part of the sources (`GameData.h`,
  `SDK/Vector.h`, `Helpers.h`, ...) are either taken as parameters (`Header`,
  fields of `Game`) or modelled from the specification, and say so.
-/

namespace Osiris

/-! ## Vectors and matrices -/

/-- Modelled from the spec: the three-component vector of `SDK/Vector.h`, a
header that is not among the sources.  Equality is component-wise. -/
structure Vector where
  x : ℚ
  y : ℚ
  z : ℚ
deriving DecidableEq

/-- Modelled from the spec: the 3x4 local-to-world transform of
`SDK/matrix3x4.h`; row `i` is `(mi0, mi1, mi2, mi3)`. -/
structure matrix3x4 where
  m00 : ℚ
  m01 : ℚ
  m02 : ℚ
  m03 : ℚ
  m10 : ℚ
  m11 : ℚ
  m12 : ℚ
  m13 : ℚ
  m20 : ℚ
  m21 : ℚ
  m22 : ℚ
  m23 : ℚ
deriving DecidableEq

/-- The world-to-screen matrix; only stored and handed on by this code. -/
structure Matrix4x4 where
  cells : List ℚ
deriving DecidableEq

/-- The two-component screen vector of the drawing library; its default
constructor gives `(0, 0)`. -/
structure ImVec2 where
  x : ℚ
  y : ℚ
deriving DecidableEq

namespace Vector

/-- Modelled from the spec: `Vector + Vector`, component-wise. -/
def add (a b : Vector) : Vector := ⟨a.x + b.x, a.y + b.y, a.z + b.z⟩

/-- Modelled from the spec: `Vector - Vector`, component-wise. -/
def sub (a b : Vector) : Vector := ⟨a.x - b.x, a.y - b.y, a.z - b.z⟩

/-- Modelled from the spec: `Vector * float`. -/
def scale (a : Vector) (k : ℚ) : Vector := ⟨a.x * k, a.y * k, a.z * k⟩

/-- Modelled from the spec: `Vector * Vector`, component-wise (the per-axis
scaling of section 4.3). -/
def mul (a b : Vector) : Vector := ⟨a.x * b.x, a.y * b.y, a.z * b.z⟩

/-- Modelled from the spec: `Vector + float`, the scalar added to every
component. -/
def addScalar (a : Vector) (k : ℚ) : Vector := ⟨a.x + k, a.y + k, a.z + k⟩

/-- Modelled from the spec: `Vector - float`. -/
def subScalar (a : Vector) (k : ℚ) : Vector := ⟨a.x - k, a.y - k, a.z - k⟩

/-- Modelled from the spec: `Vector::transform(const matrix3x4&)`, the affine
local-to-world map. -/
def transform (v : Vector) (m : matrix3x4) : Vector :=
  ⟨m.m00 * v.x + m.m01 * v.y + m.m02 * v.z + m.m03,
   m.m10 * v.x + m.m11 * v.y + m.m12 * v.z + m.m13,
   m.m20 * v.x + m.m21 * v.y + m.m22 * v.z + m.m23⟩

end Vector

/-- Modelled from the spec: `matrix3x4::origin()`, the translation column. -/
def matrix3x4.origin (m : matrix3x4) : Vector := ⟨m.m03, m.m13, m.m23⟩

/-- Embeds `std::min(a, b)`: `b` when `b < a`, else `a`. -/
def stdMin (a b : ℚ) : ℚ := if b < a then b else a

/-- Embeds `std::max(a, b)`: `b` when `a < b`, else `a`. -/
def stdMax (a b : ℚ) : ℚ := if a < b then b else a

/-- Embeds `std::clamp(v, lo, hi)`. -/
def stdClamp (v lo hi : ℚ) : ℚ := if v < lo then lo else if hi < v then hi else v

/-- Embeds `std::clamp` on `int`. -/
def stdClampInt (v lo hi : Int) : Int := if v < lo then lo else if hi < v then hi else v

/-- Embeds `static_cast<int>(float)`: truncation toward zero. -/
def truncToInt (q : ℚ) : Int := Int.tdiv q.num q.den

/-! ## Single-precision floating point

A `float` is modelled by the rational it denotes. Where a claim depends on
rounding, every arithmetic operation of the code is followed by `toFloat32`,
the rounding of IEEE 754 binary32 in the default mode (to nearest, ties to
even): 24 significant bits, exponent of the last place at least -149.
Operations are rounded one by one, as C++ evaluates `float` expressions without
contraction. Results of magnitude `2 ^ 128` and more, which the hardware
replaces by an infinity, are not modelled, nor are NaNs. -/

/-- Rounding of a rational to the nearest integer, ties to the even one. -/
def roundTiesToEven (x : ℚ) : Int :=
  let f := Int.floor x
  let r := x - f
  if r < 1 / 2 then f
  else if 1 / 2 < r then f + 1
  else if f % 2 = 0 then f else f + 1

/-- Number of halvings that bring `n` below 2, at most `fuel` of them. -/
def halvings : Nat → Nat → Nat
  | 0, _ => 0
  | fuel + 1, n => if n < 2 then 0 else halvings fuel (n / 2) + 1

/-- The integer `e` with `2 ^ e ≤ x < 2 ^ (e + 1)`, for positive `x`. -/
def floorLog2 (x : ℚ) : Int :=
  let e : Int := (halvings x.num.natAbs x.num.natAbs : Int) - (halvings x.den x.den : Int)
  if (2 : ℚ) ^ e ≤ x then e else e - 1

/-- Exponent of the unit in the last place of the binary32 values next to a
positive `x`: 24 significant bits, and no exponent below -149. -/
def float32Exponent (x : ℚ) : Int :=
  max (floorLog2 x - 23) (-149)

/-- The binary32 value nearest to a positive `x`, ties to the even significand. -/
def float32Nearest (x : ℚ) : ℚ :=
  (roundTiesToEven (x / 2 ^ float32Exponent x) : ℚ) * 2 ^ float32Exponent x

/-- The binary32 value nearest to `x`, ties to the even significand: the result
of a `float` operation whose exact result is `x`. -/
def toFloat32 (x : ℚ) : ℚ :=
  if 0 < x then float32Nearest x
  else if x < 0 then -float32Nearest (-x)
  else 0

/-! ## StreamProofESP.cpp: the bounding box -/

/-- Embeds `std::numeric_limits<float>::max()`, `(2 - 2^-23) * 2^127`. -/
def FLT_MAX : ℚ := 340282346638528859811704183484516925440

/-- The file-local `operator-(float, const std::array<float, 3>&)`
(StreamProofESP.cpp:22-25). -/
def floatMinusArray (sub : ℚ) (a : ℚ × ℚ × ℚ) : Vector :=
  ⟨sub - a.1, sub - a.2.1, sub - a.2.2⟩

/-- The `struct BoundingBox`: `valid`, the envelope `min`/`max` and the 8
projected vertices. -/
structure BoundingBox where
  valid : Bool
  min : ImVec2
  max : ImVec2
  vertices : List ImVec2
deriving DecidableEq

/-- Embeds `scaledMins` of the constructor (StreamProofESP.cpp:39). -/
def scaledMins (mins maxs : Vector) (scale : ℚ × ℚ × ℚ) : Vector :=
  mins.add (((maxs.sub mins).scale 2).mul (floatMinusArray (1 / 4) scale))

/-- Embeds `scaledMaxs` of the constructor (StreamProofESP.cpp:40). -/
def scaledMaxs (mins maxs : Vector) (scale : ℚ × ℚ × ℚ) : Vector :=
  maxs.sub (((maxs.sub mins).scale 2).mul (floatMinusArray (1 / 4) scale))

/-- Corner `i` of the scaled box: bit 0 of `i` picks x, bit 1 picks y, bit 2
picks z (StreamProofESP.cpp:43-45). -/
def cornerPoint (smins smaxs : Vector) (i : Nat) : Vector :=
  ⟨if i &&& 1 ≠ 0 then smaxs.x else smins.x,
   if i &&& 2 ≠ 0 then smaxs.y else smins.y,
   if i &&& 4 ≠ 0 then smaxs.z else smins.z⟩

/-- The point handed to `worldToScreen`: `matrix ? point.transform(*matrix) : point`. -/
def placed (matrix : Option matrix3x4) (point : Vector) : Vector :=
  match matrix with
  | some m => point.transform m
  | none => point

/-- The body of the constructor's `for` loop, run over the remaining indices.
`worldToScreen` is `Helpers::worldToScreen` (declared in `Helpers.h`, not among
the sources): `none` is a `false` return, `some v` a `true` return that wrote
`v` to the output parameter. A failure sets `valid = false` and returns at
once; running off the end of the loop sets `valid = true`. -/
def BoundingBox.loop (worldToScreen : Vector → Option ImVec2) (matrix : Option matrix3x4)
    (smins smaxs : Vector) : List Nat → BoundingBox → BoundingBox
  | [], b => { b with valid := true }
  | i :: rest, b =>
    match worldToScreen (placed matrix (cornerPoint smins smaxs i)) with
    | none => { b with valid := false }
    | some v =>
      BoundingBox.loop worldToScreen matrix smins smaxs rest
        { valid := b.valid
          min := ⟨stdMin b.min.x v.x, stdMin b.min.y v.y⟩
          max := ⟨stdMax b.max.x v.x, stdMax b.max.y v.y⟩
          vertices := b.vertices.set i v }

/-- The object as it stands before the loop: `min = FLT_MAX`, `max = -FLT_MAX`,
eight default-constructed vertices; `valid` is not yet written (every path
through the loop writes it). -/
def BoundingBox.start : BoundingBox :=
  { valid := false
    min := ⟨FLT_MAX, FLT_MAX⟩
    max := ⟨-FLT_MAX, -FLT_MAX⟩
    vertices := List.replicate 8 ⟨0, 0⟩ }

/-- Embeds `BoundingBox::BoundingBox(mins, maxs, scale, matrix)`
(StreamProofESP.cpp:34-58). -/
def BoundingBox.make (worldToScreen : Vector → Option ImVec2) (mins maxs : Vector)
    (scale : ℚ × ℚ × ℚ) (matrix : Option matrix3x4) : BoundingBox :=
  BoundingBox.loop worldToScreen matrix (scaledMins mins maxs scale) (scaledMaxs mins maxs scale)
    (List.range 8) BoundingBox.start

/-- Embeds `BoundingBox::BoundingBox(const Vector& center)`: the fixed dot box
(StreamProofESP.cpp:61). -/
def BoundingBox.ofCenter (worldToScreen : Vector → Option ImVec2) (center : Vector) : BoundingBox :=
  BoundingBox.make worldToScreen (center.subScalar 2) (center.addScalar 2) (1 / 4, 1 / 4, 1 / 4) none

/-- The corners handed to `worldToScreen`, in loop order. -/
def boxCorners (mins maxs : Vector) (scale : ℚ × ℚ × ℚ) (matrix : Option matrix3x4) : List Vector :=
  (List.range 8).map fun i =>
    placed matrix (cornerPoint (scaledMins mins maxs scale) (scaledMaxs mins maxs scale) i)

/-! ## What the code reads from the game -/

/-- The `ClassId` values that `GameData.cpp` names; every other class is
`other`. The numbering lives in `SDK/ClientClass.h`. -/
inductive ClassId
  | BaseCSGrenadeProjectile | BreachChargeProjectile | BumpMineProjectile | DecoyProjectile
  | MolotovProjectile | SensorGrenadeProjectile | SmokeGrenadeProjectile | SnowballProjectile
  | DynamicProp | EconEntity | Chicken | PlantedC4 | Hostage | Dronegun | Cash | AmmoBox
  | RadarJammer | SnowballPile | LootCrate | Inferno | other
deriving DecidableEq

/-- The `ObsMode` values that `GameData.cpp` names. -/
inductive ObsMode
  | InEye | Roaming | Deathcam | other
deriving DecidableEq

/-- The `WeaponType` values that `GameData.cpp` names. -/
inductive WeaponType
  | Pistol | SubMachinegun | Rifle | SniperRifle | Shotgun | Machinegun | Grenade | Melee | other
deriving DecidableEq

/-- The `WeaponId` values that `GameData.cpp` names. -/
inductive WeaponId
  | Glock | Hkp2000 | Usp_s | Elite | P250 | Tec9 | Fiveseven | Cz75a | Deagle | Revolver
  | Mac10 | Mp9 | Mp7 | Mp5sd | Ump45 | P90 | Bizon
  | GalilAr | Famas | Ak47 | M4A1 | M4a1_s | Sg553 | Aug
  | Ssg08 | Awp | G3SG1 | Scar20
  | Nova | Xm1014 | Sawedoff | Mag7
  | M249 | Negev
  | Flashbang | HeGrenade | SmokeGrenade | Molotov | Decoy | IncGrenade | TaGrenade | Firebomb
  | Diversion | FragGrenade | Snowball
  | Axe | Hammer | Spanner
  | C4 | Healthshot | BumpMine | ZoneRepulsor | Shield
  | Bayonet | Flip | Gut | Karambit | M9Bayonet | Huntsman | Bowie | Butterfly | Daggers | Falchion
  | ClassicKnife | Knife | KnifeT | GhostKnife | GoldenKnife | NomadKnife | SkeletonKnife
  | SurvivalKnife | Ursus | Stiletto | Talon | Paracord | Navaja | Taser
  | other
deriving DecidableEq

/-- What is read through `model->` : the name and the render bounds. -/
structure Model where
  name : String
  mins : Vector
  maxs : Vector

/-- What is read through `getWeaponData()`. -/
structure WeaponInfo where
  type : WeaponType
  name : String
  maxClip : Int

/-- What is read through the pointer returned by `getActiveWeapon()`. -/
structure ActiveWeapon where
  index : Int
  itemDefinitionIndex2 : WeaponId
  getWeaponData : Option WeaponInfo
  clip : Int
  getInaccuracy : ℚ
  getSpread : ℚ
  isInReload : Bool
  isSniperRifle : Bool
  isPistol : Bool
  nextPrimaryAttack : ℚ

/-- What is read through the pointer returned by `getObserverTarget()`. -/
structure EntityRef where
  addr : Nat
  handle : Int
  getAbsOrigin : Vector

/-- One bone of a studio model: `parent` and whether
`flags & BONE_USED_BY_HITBOX` is set. -/
structure Bone where
  parent : Int
  usedByHitbox : Bool

/-- The head hitbox, `set->getHitbox(0)`. -/
structure Hitbox where
  bbMin : Vector
  bbMax : Vector
  bone : Int
  capsuleRadius : ℚ

/-- What is read through `getStudioModel(model)`: `getBone(i)` for
`i < numBones` (a null bone is `none`) and the head hitbox of
`getHitboxSet(entity->hitboxSet())` (a null set is `none`). -/
structure StudioModel where
  bones : List (Option Bone)
  headBox : Option Hitbox

/-- One entry of an inferno: `fireIsBurning[i]` and the three deltas. -/
structure FirePoint where
  burning : Bool
  dx : Int
  dy : Int
  dz : Int

/-- An `Entity*`: the values its accessors return during this call. `addr`
is the pointer itself. -/
structure Entity where
  addr : Nat
  index : Int
  handle : Int
  isPlayer : Bool
  isDormant : Bool
  isAlive : Bool
  isWeapon : Bool
  ownerEntity : Int
  classId : ClassId
  classIdInt : Int
  shouldDraw : Bool
  didSmokeEffect : Bool
  getModel : Option Model
  getAbsOrigin : Vector
  collideableObbMins : Vector
  collideableObbMaxs : Vector
  toWorldTransform : matrix3x4
  thrower : Int
  getUserId : Int
  getSteamId : Nat
  avatarRGBA : Option (List Nat)
  money : Int
  getPlayerName : String
  getTeamNumber : Int
  getEyePosition : Vector
  eyeAngles : Vector
  health : Int
  gunGameImmunity : Bool
  flashDuration : ℚ
  spotted : Bool
  visibleTo : Nat → Bool
  getActiveWeapon : Option ActiveWeapon
  getObserverTarget : Option EntityRef
  getObserverMode : ObsMode
  velocityModifier : ℚ
  isScoped : Bool
  shotsFired : Int
  fov : Int
  defaultFov : Int
  getAimPunch : Vector
  studioModel : Option StudioModel
  boneCache : Option (List matrix3x4)
  clip : Int
  reserveAmmoCount : Int
  getWeaponData : Option WeaponInfo
  itemDefinitionIndex2 : WeaponId
  fires : List FirePoint

/-- What is read through `*memory->playerResource`. -/
structure PlayerResource where
  armor : Int → Int
  competitiveRanking : Int → Int
  competitiveWins : Int → Int
  playerC4Index : Int
  getClan : Int → Option String
  isAlive : Int → Bool
  getPlayerHealth : Int → Int
  bombsiteCenterA : Vector
  bombsiteCenterB : Vector

/-- What is read through `(*memory->plantedC4s)[0]`. -/
structure PlantedBomb where
  c4Ticking : Bool
  c4BlowTime : ℚ
  c4TimerLength : ℚ
  c4Defuser : Int
  c4DefuseCountDown : ℚ
  c4DefuseLength : ℚ
  origin : Vector

/-- The part of `config->visuals` that `GameData::update` reads. -/
structure FogConfig where
  noFog : Bool
  enabled : Bool
  rainbow : Bool
  rainbowSpeed : ℚ
  color : ℚ × ℚ × ℚ
  start : ℚ
  finish : ℚ
  density : ℚ

/-- The game as one call of `GameData::update` finds it. -/
structure Game where
  /-- Value of `memory->globalVars->framecount`. -/
  framecount : Int
  /-- Value of `memory->globalVars->realtime`. -/
  realtime : ℚ
  /-- Value of `memory->globalVars->serverTime()`. -/
  serverTime : ℚ
  /-- Result of `getNetworkChannel()`: `none` for a null channel, else its `getLatency(0)`. -/
  networkLatency : Option ℚ
  /-- The lookup `interfaces->localize->findAsUTF8`. -/
  localize : String → String
  /-- The global `localPlayer`; `none` when the pointer is null. -/
  localPlayer : Option Entity
  /-- Value of `memory->getGameModeName(false)`. -/
  gameModeName : String
  /-- Value of `interfaces->engine->worldToScreenMatrix()`. -/
  worldToScreenMatrix : Matrix4x4
  /-- Value of `interfaces->engine->getViewAngles()`. -/
  viewAngles : Vector
  /-- Value of `getHighestEntityIndex()`. -/
  highestEntityIndex : Int
  /-- The lookup `interfaces->entityList->getEntity(i)`. -/
  getEntity : Int → Option Entity
  /-- The lookup `interfaces->entityList->getEntityFromHandle(handle)`. -/
  getEntityFromHandle : Int → Option Entity
  /-- Value of `dynamicClassId->fogController`. -/
  fogController : Int
  /-- The fog settings of `config->visuals`. -/
  fog : FogConfig
  /-- The helper `rainbowColor(speed)`. -/
  rainbowColor : ℚ → ℚ × ℚ × ℚ
  /-- Value of `*memory->playerResource`. -/
  playerResource : Option PlayerResource
  /-- The array `*memory->plantedC4s`. -/
  plantedC4s : List (Option PlantedBomb)
  /-- Result of `*memory->gameRules`: `none` when null, else its `mapHasBombTarget()`. -/
  mapHasBombTarget : Option Bool
  /-- The `soundSource` of each active sound channel, in list order. -/
  activeSoundSources : List Int
  /-- The test `memory->isOtherEnemy(a, b)`, on the two pointers. -/
  isOtherEnemy : Nat → Nat → Bool
  /-- The test `interfaces->engine->cullBox(mins, maxs)`. -/
  cullBox : Vector → Vector → Bool
  /-- The `trace.endpos` of `traceRay` from `start` to `end`, skipping the entity at the address. -/
  traceRayEnd : Vector → Vector → Nat → Vector
  /-- The helper `Vector::fromAngle`. -/
  fromAngle : Vector → Vector
  /-- The helper `Helpers::rad2deg`. -/
  rad2deg : ℚ → ℚ
  /-- The method `Vector::distTo` (a square root; kept abstract). -/
  distTo : Vector → Vector → ℚ
  /-- What a read of a never-written `matrix3x4 boneMatrices[i]` finds. -/
  uninitMatrix : matrix3x4

/-! ## GameData.cpp: the records of the snapshot -/

/-- The `struct BaseData`. -/
structure BaseData where
  distanceToLocal : ℚ
  obbMins : Vector
  obbMaxs : Vector
  coordinateFrame : matrix3x4
deriving DecidableEq

/-- Embeds `BoundingBox::BoundingBox(const BaseData& data, scale)`: the box of a
record's cached bounds under its transform (StreamProofESP.cpp:60). -/
def BoundingBox.ofData (worldToScreen : Vector → Option ImVec2) (data : BaseData)
    (scale : ℚ × ℚ × ℚ) : BoundingBox :=
  BoundingBox.make worldToScreen data.obbMins data.obbMaxs scale (some data.coordinateFrame)

/-- The `struct LocalPlayerData`, the fields `LocalPlayerData::update` writes. -/
structure LocalPlayerData where
  «exists» : Bool
  alive : Bool
  inaccuracy : Vector
  team : Int
  velocityModifier : ℚ
  inReload : Bool
  noScope : Bool
  nextWeaponAttack : ℚ
  shooting : Bool
  fov : Int
  handle : Int
  flashDuration : ℚ
  aimPunch : Vector
  origin : Vector
deriving DecidableEq

/-- The `struct PlayerData : BaseData`, the fields `GameData.cpp` writes. -/
structure PlayerData extends BaseData where
  userId : Int
  steamID : Nat
  handle : Int
  money : Int
  name : String
  armor : Int
  skillgroup : Int
  competitiveWins : Int
  hasBomb : Bool
  clanTag : String
  dormant : Bool
  alive : Bool
  lastContactTime : ℚ
  health : Int
  team : Int
  origin : Vector
  inViewFrustum : Bool
  lookingAt : Vector
  enemy : Bool
  visible : Bool
  audible : Bool
  spotted : Bool
  immune : Bool
  flashDuration : ℚ
  theName : String
  activeWeaponIcon : String
  ammoInClip : Int
  MaxAmmo : Int
  activeWeapon : String
  bones : List (Vector × Vector)
  headMins : Vector
  headMaxs : Vector
deriving DecidableEq

/-- The `struct ObserverData`. -/
structure ObserverData where
  playerHandle : Int
  targetHandle : Int
  targetIsLocalPlayer : Bool
deriving DecidableEq

/-- The `struct WeaponData : BaseData`. -/
structure WeaponData extends BaseData where
  clip : Int
  reserveAmmo : Int
  group : String
  name : String
  displayName : String
deriving DecidableEq

/-- The `struct EntityData : BaseData`. -/
structure EntityData extends BaseData where
  name : String
deriving DecidableEq

/-- The `struct LootCrateData : BaseData`; a null `name` is `none`. -/
structure LootCrateData extends BaseData where
  name : Option String
deriving DecidableEq

/-- The `struct ProjectileData : BaseData`; `trajectory` is the vector of
`(time, position)` pairs, oldest first. -/
structure ProjectileData extends BaseData where
  name : String
  thrownByLocalPlayer : Bool
  thrownByEnemy : Bool
  handle : Int
  exploded : Bool
  trajectory : List (ℚ × Vector)
deriving DecidableEq

/-- The `struct InfernoData`; `owner` is the stored pointer. -/
structure InfernoData where
  owner : Option Nat
  points : List Vector
deriving DecidableEq

/-- The `struct SmokeData`. -/
structure SmokeData where
  origin : Vector
deriving DecidableEq

/-- The `struct BombData`. -/
structure BombData where
  blowTime : ℚ
  timerLength : ℚ
  defuserHandle : Int
  defuseCountDown : ℚ
  defuseLength : ℚ
  bombsite : Bool
deriving DecidableEq

/-- The values written to one fog controller (GameData.cpp:216-220). -/
structure FogWrite where
  entity : Nat
  enable : Int
  start : ℚ
  finish : ℚ
  density : ℚ
  color : List Int
deriving DecidableEq

/-- What `GameData.h`, which is not among the sources, declares and
`GameData.cpp` relies on: the value a member has when a constructor does not
assign it (its in-class initialiser), and the `operator<` that `std::sort`
uses for each sorted record type. -/
structure Header where
  /-- A `BaseData` before its constructor body runs. -/
  baseInit : BaseData
  /-- A `PlayerData` before its constructor runs. -/
  playerInit : PlayerData
  /-- A `WeaponData` before its constructor runs. -/
  weaponInit : WeaponData
  /-- A `LootCrateData` before its constructor runs. -/
  lootCrateInit : LootCrateData
  /-- A `ProjectileData` before its constructor runs. -/
  projectileInit : ProjectileData
  /-- The `operator<` of `PlayerData`. -/
  playerLess : PlayerData → PlayerData → Bool
  /-- The `operator<` of `WeaponData`. -/
  weaponLess : WeaponData → WeaponData → Bool
  /-- The `operator<` of `EntityData`. -/
  entityLess : EntityData → EntityData → Bool
  /-- The `operator<` of `LootCrateData`. -/
  lootCrateLess : LootCrateData → LootCrateData → Bool

/-- The statics of `GameData.cpp`: the file-scope variables (lines 34-48, 66,
262) and the function-scope `lastFrame` and `skillgroupNamesInitialized` of
`GameData::update`. `fogWrites` is the record of what the call wrote into fog
controller entities of the game, latest last. -/
structure State where
  lastFrame : Int
  skillgroupNamesInitialized : Bool
  nextPlayerVisibilityUpdateTime : ℚ
  viewMatrix : Matrix4x4
  localPlayerData : LocalPlayerData
  playerData : List PlayerData
  observerData : List ObserverData
  weaponData : List WeaponData
  entityData : List EntityData
  lootCrateData : List LootCrateData
  projectileData : List ProjectileData
  bombData : BombData
  infernoData : List InfernoData
  smokeData : List SmokeData
  netOutgoingLatency : Int
  gameModeName : String
  skillGroupNames : List String
  skillGroupNamesDangerzone : List String
  playerAvatars : List (Int × List Nat)
  fogWrites : List FogWrite
deriving DecidableEq

/-! ## GameData.cpp: constructors and updaters of the records -/

/-- Embeds `std::strstr(haystack, needle) != nullptr`. -/
def strstr (haystack needle : String) : Bool := decide (needle.data <:+: haystack.data)

/-- Embeds `BaseData::BaseData(Entity*)` (GameData.cpp:383-397). `lp` is the static
`localPlayerData`. Without a model, a non-player leaves `obbMins`/`obbMaxs` as
they were before the constructor body. -/
def BaseData.make (hd : Header) (g : Game) (lp : LocalPlayerData) (entity : Entity) : BaseData :=
  { distanceToLocal := g.distTo entity.getAbsOrigin lp.origin
    obbMins :=
      if entity.isPlayer then entity.collideableObbMins
      else match entity.getModel with
        | some model => model.mins
        | none => hd.baseInit.obbMins
    obbMaxs :=
      if entity.isPlayer then entity.collideableObbMaxs
      else match entity.getModel with
        | some model => model.maxs
        | none => hd.baseInit.obbMaxs
    coordinateFrame := entity.toWorldTransform }

/-- The name lambda of `EntityData::EntityData` (GameData.cpp:401-415). -/
def EntityData.nameOf (classId : ClassId) : String :=
  match classId with
  | .EconEntity => "Defuse Kit"
  | .Chicken => "Chicken"
  | .PlantedC4 => "Planted C4"
  | .Hostage => "Hostage"
  | .Dronegun => "Sentry"
  | .Cash => "Cash"
  | .AmmoBox => "Ammo Box"
  | .RadarJammer => "Radar Jammer"
  | .SnowballPile => "Snowball Pile"
  | .DynamicProp => "Collectable Coin"
  | _ => "unknown"

/-- Embeds `EntityData::EntityData(Entity*)`. -/
def EntityData.make (hd : Header) (g : Game) (lp : LocalPlayerData) (entity : Entity) : EntityData :=
  { toBaseData := BaseData.make hd g lp entity, name := EntityData.nameOf entity.classId }

/-- The name lambda of `ProjectileData::ProjectileData` (GameData.cpp:420-436). -/
def ProjectileData.nameOf (projectile : Entity) : String :=
  match projectile.classId with
  | .BaseCSGrenadeProjectile =>
    match projectile.getModel with
    | some model => if strstr model.name "flashbang" then "Flashbang" else "HE Grenade"
    | none => "HE Grenade"
  | .BreachChargeProjectile => "Breach Charge"
  | .BumpMineProjectile => "Bump Mine"
  | .DecoyProjectile => "Decoy Grenade"
  | .MolotovProjectile => "Molotov"
  | .SensorGrenadeProjectile => "TA Grenade"
  | .SmokeGrenadeProjectile => "Smoke Grenade"
  | .SnowballProjectile => "Snowball"
  | _ => "unknown"

/-- Embeds `ProjectileData::ProjectileData(Entity*)` (GameData.cpp:418-446). The
constructor writes the base, the name, possibly one thrower flag, and the
handle; `trajectory` is a default-constructed, empty vector. -/
def ProjectileData.make (hd : Header) (g : Game) (lp : LocalPlayerData) (projectile : Entity) :
    ProjectileData :=
  let p0 : ProjectileData :=
    { hd.projectileInit with
      toBaseData := BaseData.make hd g lp projectile
      name := ProjectileData.nameOf projectile
      trajectory := [] }
  let p1 : ProjectileData :=
    match g.getEntityFromHandle projectile.thrower, g.localPlayer with
    | some thrower, some lpl =>
      if thrower.addr = lpl.addr then { p0 with thrownByLocalPlayer := true }
      else { p0 with thrownByEnemy := g.isOtherEnemy lpl.addr thrower.addr }
    | _, _ => p0
  { p1 with handle := projectile.handle }

/-- Embeds `ProjectileData::update(Entity*)` (GameData.cpp:448-454). -/
def ProjectileData.update (hd : Header) (g : Game) (lp : LocalPlayerData) (p : ProjectileData)
    (projectile : Entity) : ProjectileData :=
  let p1 : ProjectileData := { p with toBaseData := BaseData.make hd g lp projectile }
  let pos := projectile.getAbsOrigin
  match p1.trajectory.getLast? with
  | none => { p1 with trajectory := p1.trajectory ++ [(g.realtime, pos)] }
  | some last =>
    if last.2 ≠ pos then { p1 with trajectory := p1.trajectory ++ [(g.realtime, pos)] }
    else p1

/-- Modelled from the spec: `operator==(const ProjectileData&, int)` of
`GameData.h`, which `std::find` uses on the projectile list; the list is
keyed by handle. -/
def ProjectileData.eqHandle (p : ProjectileData) (handle : Int) : Bool := p.handle == handle

/-- Embeds `ObserverData::ObserverData` (GameData.cpp:901). -/
def ObserverData.make (entity : Entity) (obs : EntityRef) (targetIsLocalPlayer : Bool) :
    ObserverData :=
  { playerHandle := entity.handle, targetHandle := obs.handle
    targetIsLocalPlayer := targetIsLocalPlayer }

/-- Embeds `SmokeData::SmokeData` (GameData.cpp:938-941). -/
def SmokeData.make (smoke : Entity) : SmokeData := { origin := smoke.getAbsOrigin }

/-- Embeds `InfernoData::InfernoData` (GameData.cpp:925-936). -/
def InfernoData.make (g : Game) (inferno : Entity) : InfernoData :=
  let origin := inferno.getAbsOrigin
  { owner := (g.getEntityFromHandle inferno.ownerEntity).map Entity.addr
    points := (inferno.fires.filter FirePoint.burning).map fun f =>
      ⟨(f.dx : ℚ) + origin.x, (f.dy : ℚ) + origin.y, (f.dz : ℚ) + origin.z⟩ }

/-- The name lambda of `LootCrateData::LootCrateData` (GameData.cpp:890-898);
the hash comparison is read as comparison of the names. -/
def LootCrateData.nameOf (modelName : String) : Option String :=
  if modelName = "models/props_survival/cases/case_pistol.mdl" then some "Pistol Case"
  else if modelName = "models/props_survival/cases/case_light_weapon.mdl" then some "Light Case"
  else if modelName = "models/props_survival/cases/case_heavy_weapon.mdl" then some "Heavy Case"
  else if modelName = "models/props_survival/cases/case_explosive.mdl" then some "Explosive Case"
  else if modelName = "models/props_survival/cases/case_tools.mdl" then some "Tools Case"
  else if modelName = "models/props_survival/cash/dufflebag.mdl" then some "Cash Dufflebag"
  else none

/-- Embeds `LootCrateData::LootCrateData` (GameData.cpp:884-899). -/
def LootCrateData.make (hd : Header) (g : Game) (lp : LocalPlayerData) (entity : Entity) :
    LootCrateData :=
  let c0 : LootCrateData := { hd.lootCrateInit with toBaseData := BaseData.make hd g lp entity }
  match entity.getModel with
  | none => c0
  | some model => { c0 with name := LootCrateData.nameOf model.name }

/-- Embeds `BombData::update` (GameData.cpp:903-923). -/
def BombData.update (g : Game) (b : BombData) : BombData :=
  let gate : Bool :=
    decide (0 < g.plantedC4s.length) &&
      (match g.mapHasBombTarget with
       | none => true
       | some has => has)
  let ticking : Option PlantedBomb :=
    if gate then
      match g.plantedC4s.head? with
      | some (some bomb) => if bomb.c4Ticking then some bomb else none
      | _ => none
    else none
  match ticking with
  | some bomb =>
    let b1 : BombData :=
      { b with blowTime := bomb.c4BlowTime, timerLength := bomb.c4TimerLength
               defuserHandle := bomb.c4Defuser }
    let b2 : BombData :=
      if b1.defuserHandle ≠ -1 then
        { b1 with defuseCountDown := bomb.c4DefuseCountDown, defuseLength := bomb.c4DefuseLength }
      else b1
    match g.playerResource with
    | some pr =>
      { b2 with bombsite :=
          decide (g.distTo bomb.origin pr.bombsiteCenterA > g.distTo bomb.origin pr.bombsiteCenterB) }
    | none => b2
  | none => { b with blowTime := 0 }

/-- Embeds `LocalPlayerData::update` (GameData.cpp:350-381). -/
def LocalPlayerData.update (g : Game) (d : LocalPlayerData) : LocalPlayerData :=
  match g.localPlayer with
  | none => { d with «exists» := false }
  | some lpl =>
    let d1 : LocalPlayerData :=
      { d with «exists» := true, alive := lpl.isAlive, inaccuracy := ⟨0, 0, 0⟩
               team := lpl.getTeamNumber, velocityModifier := lpl.velocityModifier }
    let d2 : LocalPlayerData :=
      match lpl.getActiveWeapon with
      | some activeWeapon =>
        let inReload := activeWeapon.isInReload
        let nextWeaponAttack := activeWeapon.nextPrimaryAttack
        { d1 with
          inaccuracy :=
            lpl.getEyePosition.add
              ((g.fromAngle (g.viewAngles.add
                ⟨g.rad2deg (activeWeapon.getInaccuracy + activeWeapon.getSpread), 0, 0⟩)).scale 1000)
          inReload := inReload
          noScope := activeWeapon.isSniperRifle && !lpl.isScoped
          nextWeaponAttack := nextWeaponAttack
          shooting :=
            if activeWeapon.isPistol then !inReload && decide (nextWeaponAttack > g.serverTime)
            else decide (lpl.shotsFired > 1) }
      | none => d1
    let obsMode := lpl.getObserverMode
    { d2 with
      fov := if lpl.fov ≠ 0 then lpl.fov else lpl.defaultFov
      handle := lpl.handle
      flashDuration := lpl.flashDuration
      aimPunch := lpl.getEyePosition.add ((g.fromAngle (g.viewAngles.add lpl.getAimPunch)).scale 1000)
      origin :=
        match lpl.getObserverTarget with
        | some obs =>
          if obsMode ≠ ObsMode.Roaming ∧ obsMode ≠ ObsMode.Deathcam then obs.getAbsOrigin
          else lpl.getAbsOrigin
        | none => lpl.getAbsOrigin }

/-- The group lambda of `WeaponData::WeaponData` (GameData.cpp:789-809). -/
def WeaponData.groupOf (type : WeaponType) (weaponId : WeaponId) : String :=
  match type with
  | .Pistol => "Pistols"
  | .SubMachinegun => "SMGs"
  | .Rifle => "Rifles"
  | .SniperRifle => "Sniper Rifles"
  | .Shotgun => "Shotguns"
  | .Machinegun => "Machineguns"
  | .Grenade => "Grenades"
  | .Melee => "Melee"
  | .other =>
    match weaponId with
    | .C4 | .Healthshot | .BumpMine | .ZoneRepulsor | .Shield => "Other"
    | _ => "All"

/-- The name lambda of `WeaponData::WeaponData` (GameData.cpp:810-872). -/
def WeaponData.nameOf (weaponId : WeaponId) : String :=
  match weaponId with
  | .Glock => "Glock-18" | .Hkp2000 => "P2000" | .Usp_s => "USP-S" | .Elite => "Dual Berettas"
  | .P250 => "P250" | .Tec9 => "Tec-9" | .Fiveseven => "Five-SeveN" | .Cz75a => "CZ75-Auto"
  | .Deagle => "Desert Eagle" | .Revolver => "R8 Revolver"
  | .Mac10 => "MAC-10" | .Mp9 => "MP9" | .Mp7 => "MP7" | .Mp5sd => "MP5-SD" | .Ump45 => "UMP-45"
  | .P90 => "P90" | .Bizon => "PP-Bizon"
  | .GalilAr => "Galil AR" | .Famas => "FAMAS" | .Ak47 => "AK-47" | .M4A1 => "M4A4"
  | .M4a1_s => "M4A1-S" | .Sg553 => "SG 553" | .Aug => "AUG"
  | .Ssg08 => "SSG 08" | .Awp => "AWP" | .G3SG1 => "G3SG1" | .Scar20 => "SCAR-20"
  | .Nova => "Nova" | .Xm1014 => "XM1014" | .Sawedoff => "Sawed-Off" | .Mag7 => "MAG-7"
  | .M249 => "M249" | .Negev => "Negev"
  | .Flashbang => "Flashbang" | .HeGrenade => "HE Grenade" | .SmokeGrenade => "Smoke Grenade"
  | .Molotov => "Molotov" | .Decoy => "Decoy Grenade" | .IncGrenade => "Incendiary"
  | .TaGrenade => "TA Grenade" | .Firebomb => "Fire Bomb" | .Diversion => "Diversion"
  | .FragGrenade => "Frag Grenade" | .Snowball => "Snowball"
  | .Axe => "Axe" | .Hammer => "Hammer" | .Spanner => "Wrench"
  | .C4 => "C4" | .Healthshot => "Healthshot" | .BumpMine => "Bump Mine"
  | .ZoneRepulsor => "Zone Repulsor" | .Shield => "Shield"
  | _ => "All"

/-- Embeds `WeaponData::WeaponData` (GameData.cpp:782-876). -/
def WeaponData.make (hd : Header) (g : Game) (lp : LocalPlayerData) (entity : Entity) : WeaponData :=
  let w0 : WeaponData :=
    { hd.weaponInit with
      toBaseData := BaseData.make hd g lp entity
      clip := entity.clip
      reserveAmmo := entity.reserveAmmoCount }
  match entity.getWeaponData with
  | some weaponInfo =>
    { w0 with
      group := WeaponData.groupOf weaponInfo.type entity.itemDefinitionIndex2
      name := WeaponData.nameOf entity.itemDefinitionIndex2
      displayName := g.localize weaponInfo.name }
  | none => w0

/-- The icon lambda of `PlayerData::update` (GameData.cpp:541-634). -/
def PlayerData.iconOf (weaponId : WeaponId) : String :=
  match weaponId with
  | .Glock => "E" | .Hkp2000 => "D" | .Usp_s => "G" | .Elite => "B" | .P250 => "F"
  | .Tec9 => "H" | .Fiveseven => "C" | .Cz75a => "I" | .Deagle => "A" | .Revolver => "J"
  | .Mac10 => "K" | .Mp9 => "O" | .Mp7 => "N" | .Mp5sd => "L" | .Ump45 => "L" | .P90 => "P"
  | .Bizon => "M"
  | .GalilAr => "Q" | .Famas => "R" | .Ak47 => "W" | .M4A1 => "S" | .M4a1_s => "T"
  | .Sg553 => "V" | .Aug => "U"
  | .Ssg08 => "a        " | .Awp => "Z        " | .G3SG1 => "X      " | .Scar20 => "Y      "
  | .Nova => "e    " | .Xm1014 => "b    " | .Sawedoff => "c    " | .Mag7 => "d    "
  | .M249 => "g" | .Negev => "f"
  | .Flashbang => "i" | .HeGrenade => "j" | .SmokeGrenade => "k" | .Molotov => "l"
  | .Decoy => "m" | .IncGrenade => "l" | .TaGrenade => "TA Grenade" | .Firebomb => "Fire Bomb"
  | .Diversion => "Diversion" | .FragGrenade => "Frag Grenade" | .Snowball => "Snowball"
  | .Axe => "Axe" | .Hammer => "Hammer" | .Spanner => "Wrench"
  | .C4 => "o" | .Healthshot => "Healthshot" | .BumpMine => "Bump Mine"
  | .ZoneRepulsor => "Zone Repulsor" | .Shield => "Shield"
  | .Bayonet => "1   " | .Flip => "2   " | .Gut => "3   " | .Karambit => "4   "
  | .M9Bayonet => "5   " | .Huntsman => "6   " | .Bowie => "7   " | .Butterfly => "8   "
  | .Daggers => "9   " | .Falchion => "10   " | .ClassicKnife => "1   " | .Knife => "1   "
  | .KnifeT => "1   " | .GhostKnife => "1   " | .GoldenKnife => "1   " | .NomadKnife => "1   "
  | .SkeletonKnife => "1   " | .SurvivalKnife => "1   " | .Ursus => "1   " | .Stiletto => "1   "
  | .Talon => "1   " | .Paracord => "1   " | .Navaja => "1   "
  | .Taser => "h"
  | .other => "All"

/-- The lambda `isEntityAudible` of `PlayerData::update` (GameData.cpp:526-531). -/
def isEntityAudible (g : Game) (entityIndex : Int) : Bool :=
  g.activeSoundSources.any fun soundSource => soundSource == entityIndex

/-- Embeds `shouldUpdatePlayerVisibility` (GameData.cpp:68-71), on the static
`nextPlayerVisibilityUpdateTime`. -/
def shouldUpdatePlayerVisibility (g : Game) (nextPlayerVisibilityUpdateTime : ℚ) : Bool :=
  decide (nextPlayerVisibilityUpdateTime ≤ g.realtime)

/-- Embeds `boneMatrices[i]` after the `memcpy` from the bone cache. -/
def boneMatrix (g : Game) (cache : List matrix3x4) (i : Nat) : matrix3x4 :=
  cache.getD i g.uninitMatrix

/-- The player-resource block of `PlayerData::update` (GameData.cpp:477-489). -/
def PlayerData.updateResource (g : Game) (p : PlayerData) (idx : Int) : PlayerData :=
  match g.playerResource with
  | some pr =>
    { p with
      armor := pr.armor idx
      skillgroup := pr.competitiveRanking idx
      competitiveWins := pr.competitiveWins idx
      hasBomb := decide (idx = pr.playerC4Index)
      clanTag :=
        match pr.getClan idx with
        | some clantag => if clantag ≠ "" then clantag else ""
        | none => "" }
  | none => p

/-- The dormant branch of `PlayerData::update` (GameData.cpp:492-500). -/
def PlayerData.updateDormant (g : Game) (p : PlayerData) (idx : Int) : PlayerData :=
  match g.playerResource with
  | some pr =>
    let alive := pr.isAlive idx
    { p with
      alive := alive
      lastContactTime := if !alive then 0 else p.lastContactTime
      health := pr.getPlayerHealth idx }
  | none => p

/-- The visibility block of `PlayerData::update` (GameData.cpp:517-524); `p`
already holds this frame's `inViewFrustum` and `alive`. -/
def PlayerData.updateVisibility (g : Game) (gateTime : ℚ) (p : PlayerData) (entity : Entity) :
    PlayerData :=
  match g.localPlayer with
  | some lpl =>
    let p1 : PlayerData := { p with enemy := g.isOtherEnemy entity.addr lpl.addr }
    if !p1.inViewFrustum || !p1.alive then { p1 with visible := false }
    else if shouldUpdatePlayerVisibility g gateTime then { p1 with visible := entity.visibleTo lpl.addr }
    else p1
  | none => p

/-- The active-weapon block of `PlayerData::update` (GameData.cpp:539-646).
`weaponInfo->maxClip` is read without a null check; for a null `weaponInfo`
the model leaves `MaxAmmo` as it was. -/
def PlayerData.updateWeapon (g : Game) (p : PlayerData) (entity : Entity) : PlayerData :=
  match entity.getActiveWeapon with
  | some weapon =>
    let theName := PlayerData.iconOf weapon.itemDefinitionIndex2
    let p1 : PlayerData :=
      { p with
        audible := p.audible || isEntityAudible g weapon.index
        theName := theName
        activeWeaponIcon := g.localize theName
        ammoInClip := weapon.clip }
    match weapon.getWeaponData with
    | some weaponInfo =>
      { p1 with MaxAmmo := weaponInfo.maxClip, activeWeapon := g.localize weaponInfo.name }
    | none => p1
  | none => p

/-- The bone loop of `PlayerData::update` (GameData.cpp:668-675): one segment
per non-null bone that has a parent and is used by a hitbox. -/
def boneSegments (g : Game) (cache : List matrix3x4) (bones : List (Option Bone)) :
    List (Vector × Vector) :=
  (bones.enum.filterMap fun ib =>
    match ib.2 with
    | some bone =>
      if bone.parent = -1 ∨ !bone.usedByHitbox then none
      else some ((boneMatrix g cache ib.1).origin, (boneMatrix g cache bone.parent.toNat).origin)
    | none => none)

/-- The skeleton and head-box tail of `PlayerData::update`
(GameData.cpp:647-690), with its early returns. -/
def PlayerData.updateSkeleton (g : Game) (p : PlayerData) (entity : Entity) : PlayerData :=
  if !p.alive || !p.inViewFrustum then p
  else
    match entity.getModel, entity.studioModel, entity.boneCache with
    | some _, some studioModel, some cache =>
      let p1 : PlayerData := { p with bones := boneSegments g cache studioModel.bones }
      match studioModel.headBox with
      | none => p1
      | some headBox =>
        let headMins := headBox.bbMin.transform (boneMatrix g cache headBox.bone.toNat)
        let headMaxs := headBox.bbMax.transform (boneMatrix g cache headBox.bone.toNat)
        if headBox.capsuleRadius > 0 then
          { p1 with headMins := headMins.subScalar headBox.capsuleRadius
                    headMaxs := headMaxs.addScalar headBox.capsuleRadius }
        else { p1 with headMins := headMins, headMaxs := headMaxs }
    | _, _, _ => p

/-- Embeds `PlayerData::update(Entity*)` (GameData.cpp:472-690). `lp` and `gateTime`
are the statics `localPlayerData` and `nextPlayerVisibilityUpdateTime`. -/
def PlayerData.update (hd : Header) (g : Game) (lp : LocalPlayerData) (gateTime : ℚ)
    (p : PlayerData) (entity : Entity) : PlayerData :=
  let idx := entity.index
  let p1 : PlayerData := PlayerData.updateResource g { p with name := entity.getPlayerName } idx
  let p2 : PlayerData := { p1 with dormant := entity.isDormant }
  if p2.dormant then PlayerData.updateDormant g p2 idx
  else
    let p3 : PlayerData :=
      { p2 with
        money := entity.money
        team := entity.getTeamNumber
        toBaseData := BaseData.make hd g lp entity
        origin := entity.getAbsOrigin }
    let p4 : PlayerData :=
      { p3 with
        inViewFrustum := !g.cullBox (p3.obbMins.add p3.origin) (p3.obbMaxs.add p3.origin)
        alive := entity.isAlive
        lastContactTime := if entity.isAlive then g.realtime else 0 }
    let start := entity.getEyePosition
    let finish := start.add ((g.fromAngle entity.eyeAngles).scale 1000)
    let p5 : PlayerData := { p4 with lookingAt := g.traceRayEnd start finish entity.addr }
    let p6 : PlayerData := PlayerData.updateVisibility g gateTime p5 entity
    let p7 : PlayerData :=
      { p6 with
        audible := isEntityAudible g entity.index
        spotted := entity.spotted
        health := entity.health
        immune := entity.gunGameImmunity
        flashDuration := entity.flashDuration }
    PlayerData.updateSkeleton g (PlayerData.updateWeapon g p7 entity) entity

/-- Embeds `PlayerData::PlayerData(Entity*)` (GameData.cpp:456-470): the record, and
the avatar stored under `playerAvatars[handle]` when the player has a Steam id
and `getImageRGBA` succeeded. -/
def PlayerData.make (hd : Header) (g : Game) (lp : LocalPlayerData) (gateTime : ℚ)
    (entity : Entity) : PlayerData × Option (List Nat) :=
  let p0 : PlayerData :=
    { hd.playerInit with
      toBaseData := BaseData.make hd g lp entity
      userId := entity.getUserId
      steamID := entity.getSteamId
      handle := entity.handle
      money := entity.money }
  (PlayerData.update hd g lp gateTime p0 entity,
   if p0.steamID ≠ 0 then entity.avatarRGBA else none)

/-! ## GameData.cpp: the rebuild -/

/-- Embeds `playerByHandleWritable` (GameData.cpp:51-55): the position of the first
record with that handle, the pointer the function returns; `none` is the null
pointer. -/
def playerByHandleWritable (playerData : List PlayerData) (handle : Int) : Option Nat :=
  let it := playerData.findIdx fun p => p.handle == handle
  if it < playerData.length then some it else none

/-- The `std::find(projectileData.begin(), projectileData.end(), handle)` of
GameData.cpp:154 and 166: the position of the first match, `none` for `end()`. -/
def findProjectile (projectileData : List ProjectileData) (handle : Int) : Option Nat :=
  let it := projectileData.findIdx fun p => p.eqHandle handle
  if it < projectileData.length then some it else none

/-- Embeds `updateNetLatency` (GameData.cpp:57-63): the value stored in
`netOutgoingLatency`. -/
def updateNetLatency (g : Game) : Int :=
  match g.networkLatency with
  | some latency => max (truncToInt (latency * 1000)) 0
  | none => 0

/-- Embeds `constexpr auto playerVisibilityUpdateDelay = 0.1f`: the literal
denotes the binary32 value nearest to 0.1, which is `13421773 / 134217728`. -/
def playerVisibilityUpdateDelay : ℚ := toFloat32 (1 / 10)

/-- Embeds `std::sort(first, last)` with the record's `operator<`. The standard leaves
the order of equivalent elements open; the model is a merge sort, which
returns one of the orders `std::sort` may return. -/
def stdSort {α : Type} (less : α → α → Bool) (l : List α) : List α :=
  l.mergeSort fun a b => !less b a

/-- Embeds `playerAvatars[handle] = std::move(playerAvatar)`. -/
def assignAvatar (avatars : List (Int × List Nat)) (handle : Int) (rgba : List Nat) :
    List (Int × List Nat) :=
  (handle, rgba) :: avatars.filter fun kv => kv.1 ≠ handle

/-- The player upsert of GameData.cpp:131-135. -/
def upsertPlayer (hd : Header) (g : Game) (s : State) (entity : Entity) : State :=
  match playerByHandleWritable s.playerData entity.handle with
  | some player =>
    { s with
      playerData :=
        s.playerData.modify
          (fun p => PlayerData.update hd g s.localPlayerData s.nextPlayerVisibilityUpdateTime p entity)
          player }
  | none =>
    let made := PlayerData.make hd g s.localPlayerData s.nextPlayerVisibilityUpdateTime entity
    { s with
      playerData := s.playerData ++ [made.1]
      playerAvatars :=
        match made.2 with
        | some rgba => assignAvatar s.playerAvatars entity.handle rgba
        | none => s.playerAvatars }

/-- The observer link of GameData.cpp:137-140. -/
def addObserver (g : Game) (s : State) (entity : Entity) : State :=
  if !entity.isDormant && !entity.isAlive then
    match entity.getObserverTarget with
    | some obs =>
      { s with
        observerData :=
          s.observerData ++
            [ObserverData.make entity obs
              (match g.localPlayer with
               | some lpl => decide (obs.addr = lpl.addr)
               | none => false)] }
    | none => s
  else s

/-- The `it->exploded = true` of GameData.cpp:154-155. -/
def markExploded (s : State) (handle : Int) : State :=
  match findProjectile s.projectileData handle with
  | some it =>
    { s with projectileData := s.projectileData.modify (fun p => { p with exploded := true }) it }
  | none => s

/-- The projectile upsert of GameData.cpp:166-169: `it->update(entity)` for a
known handle, `emplace_front(entity)` otherwise. -/
def upsertProjectile (hd : Header) (g : Game) (s : State) (entity : Entity) : State :=
  match findProjectile s.projectileData entity.handle with
  | some it =>
    { s with
      projectileData :=
        s.projectileData.modify (fun p => ProjectileData.update hd g s.localPlayerData p entity) it }
  | none =>
    { s with projectileData := ProjectileData.make hd g s.localPlayerData entity :: s.projectileData }

/-- The `switch (classId)` of GameData.cpp:151-192, with its fall-throughs. -/
def classSwitch (hd : Header) (g : Game) (s : State) (entity : Entity) : State :=
  match entity.classId with
  | .BaseCSGrenadeProjectile =>
    if !entity.shouldDraw then markExploded s entity.handle
    else upsertProjectile hd g s entity
  | .BreachChargeProjectile | .BumpMineProjectile | .DecoyProjectile | .MolotovProjectile
  | .SensorGrenadeProjectile | .SmokeGrenadeProjectile | .SnowballProjectile =>
    upsertProjectile hd g s entity
  | .DynamicProp =>
    match entity.getModel with
    | some model =>
      if !strstr model.name "challenge_coin" then s
      else { s with entityData := s.entityData ++ [EntityData.make hd g s.localPlayerData entity] }
    | none => s
  | .EconEntity | .Chicken | .PlantedC4 | .Hostage | .Dronegun | .Cash | .AmmoBox | .RadarJammer
  | .SnowballPile =>
    { s with entityData := s.entityData ++ [EntityData.make hd g s.localPlayerData entity] }
  | .LootCrate =>
    { s with lootCrateData := s.lootCrateData ++ [LootCrateData.make hd g s.localPlayerData entity] }
  | .Inferno => { s with infernoData := s.infernoData ++ [InfernoData.make g entity] }
  | .other => s

/-- One colour byte: `std::clamp(static_cast<int>(c * 255.0f), 0, 255)`. -/
def colorByte (c : ℚ) : Int := stdClampInt (truncToInt (c * 255)) 0 255

/-- The fog block of GameData.cpp:194-221: what is written into the fog
controller. The colour is kept as its three bytes. -/
def fogBlock (g : Game) (s : State) (entity : Entity) : State :=
  if entity.classIdInt = g.fogController ∧ !g.fog.noFog then
    let rgb : ℚ × ℚ × ℚ := if g.fog.rainbow then g.rainbowColor g.fog.rainbowSpeed else g.fog.color
    { s with
      fogWrites :=
        s.fogWrites ++
          [{ entity := entity.addr
             enable := if g.fog.enabled then 1 else 0
             start := g.fog.start
             finish := g.fog.finish
             density := g.fog.density
             color := [colorByte rgb.1, colorByte rgb.2.1, colorByte rgb.2.2] }] }
  else s

/-- The smoke test of GameData.cpp:223-224. -/
def smokeBlock (s : State) (entity : Entity) : State :=
  if entity.classId = ClassId.SmokeGrenadeProjectile ∧ entity.didSmokeEffect then
    { s with smokeData := s.smokeData ++ [SmokeData.make entity] }
  else s

/-- The `entity == localPlayer.get() || entity == observerTarget` of
GameData.cpp:128. -/
def isLocalOrTarget (lpl : Entity) (observerTarget : Option EntityRef) (entity : Entity) : Bool :=
  decide (entity.addr = lpl.addr) ||
    (match observerTarget with
     | some target => decide (entity.addr = target.addr)
     | none => false)

/-- The loop body of GameData.cpp:123-226 for one non-null entity. -/
def processEntity (hd : Header) (g : Game) (lpl : Entity) (observerTarget : Option EntityRef)
    (s : State) (entity : Entity) : State :=
  if entity.isPlayer then
    if isLocalOrTarget lpl observerTarget entity then s
    else addObserver g (upsertPlayer hd g s entity) entity
  else if entity.isDormant then s
  else if entity.isWeapon then
    if entity.ownerEntity = -1 then
      { s with weaponData := s.weaponData ++ [WeaponData.make hd g s.localPlayerData entity] }
    else s
  else smokeBlock (fogBlock g (classSwitch hd g s entity) entity) entity

/-- The entity indices the loop visits: `1 .. highestEntityIndex`. -/
def entityIndices (g : Game) : List Int :=
  (List.range g.highestEntityIndex.toNat).map fun k => (k : Int) + 1

/-- The `for` loop of GameData.cpp:122-227. -/
def entityLoop (hd : Header) (g : Game) (lpl : Entity) (observerTarget : Option EntityRef)
    (s : State) : State :=
  (entityIndices g).foldl
    (fun acc i =>
      match g.getEntity i with
      | some entity => processEntity hd g lpl observerTarget acc entity
      | none => acc)
    s

/-- The test `getEntityFromHandle(handle) == nullptr`. -/
def unresolved (g : Game) (handle : Int) : Bool := (g.getEntityFromHandle handle).isNone

/-- The `std::for_each` of GameData.cpp:234-237. -/
def explodeUnresolved (g : Game) (projectileData : List ProjectileData) : List ProjectileData :=
  projectileData.map fun projectile =>
    if unresolved g projectile.handle then { projectile with exploded := true } else projectile

/-- The predicate of the projectile `std::erase_if` (GameData.cpp:239-240). The
sum `first + 60.0f` is a `float` operation and is rounded before it is
compared. -/
def projectileExpired (g : Game) (projectile : ProjectileData) : Bool :=
  unresolved g projectile.handle &&
    (match projectile.trajectory.getLast? with
     | none => true
     | some last => decide (toFloat32 (last.1 + 60) < g.realtime))

/-- The predicate of the player `std::erase_if` (GameData.cpp:242). -/
def playerGone (g : Game) (player : PlayerData) : Bool := unresolved g player.handle

/-- The lazy initialisation of the two rank-name tables (GameData.cpp:93-107). -/
def initSkillgroupNames (g : Game) (s : State) : State :=
  if !s.skillgroupNamesInitialized then
    { s with
      skillGroupNames := (List.range 19).map fun i => g.localize ("RankName_" ++ toString i)
      skillGroupNamesDangerzone :=
        (List.range 16).map fun i => g.localize ("skillgroup_" ++ toString i ++ "dangerzone")
      skillgroupNamesInitialized := true }
  else s

/-- The part of `GameData::update` after the frame gate, up to the test of
`localPlayer` (GameData.cpp:78-107). -/
def beginRebuild (g : Game) (s : State) : State :=
  let s1 : State := { s with lastFrame := g.framecount }
  let s2 : State := { s1 with netOutgoingLatency := updateNetLatency g }
  let s3 : State :=
    { s2 with
      observerData := []
      weaponData := []
      entityData := []
      lootCrateData := []
      infernoData := []
      smokeData := [] }
  let s4 : State :=
    { s3 with
      localPlayerData := s3.localPlayerData.update g
      bombData := s3.bombData.update g }
  initSkillgroupNames g s4

/-- The part of `GameData::update` after the entity loop (GameData.cpp:229-245).
The sum `realtime + playerVisibilityUpdateDelay` of line 245 is a `float`
operation and is rounded. -/
def finishRebuild (hd : Header) (g : Game) (s : State) : State :=
  let s1 : State :=
    { s with
      playerData := stdSort hd.playerLess s.playerData
      weaponData := stdSort hd.weaponLess s.weaponData
      entityData := stdSort hd.entityLess s.entityData
      lootCrateData := stdSort hd.lootCrateLess s.lootCrateData }
  let s2 : State := { s1 with projectileData := explodeUnresolved g s1.projectileData }
  let s3 : State :=
    { s2 with projectileData := s2.projectileData.filter fun p => !projectileExpired g p }
  let s4 : State := { s3 with playerData := s3.playerData.filter fun p => !playerGone g p }
  if shouldUpdatePlayerVisibility g s4.nextPlayerVisibilityUpdateTime then
    { s4 with
      nextPlayerVisibilityUpdateTime := toFloat32 (g.realtime + playerVisibilityUpdateDelay) }
  else s4

/-- With a local player: the two assignments of GameData.cpp:116-117, the
observer target of line 119 and the entity loop. The result is the state as
the loop leaves it. -/
def scanEntities (hd : Header) (g : Game) (lpl : Entity) (s : State) : State :=
  let s1 : State :=
    { s with gameModeName := g.gameModeName, viewMatrix := g.worldToScreenMatrix }
  let observerTarget : Option EntityRef :=
    if lpl.getObserverMode = ObsMode.InEye then lpl.getObserverTarget else none
  entityLoop hd g lpl observerTarget s1

/-- The rebuild: `GameData::update` once the frame gate has let the call
through (GameData.cpp:78-246). -/
def rebuild (hd : Header) (g : Game) (s : State) : State :=
  let s0 := beginRebuild g s
  match g.localPlayer with
  | none => { s0 with playerData := [], projectileData := [], gameModeName := "" }
  | some lpl => finishRebuild hd g (scanEntities hd g lpl s0)

/-- Embeds `GameData::update` (GameData.cpp:73-246). -/
def GameData.update (hd : Header) (g : Game) (s : State) : State :=
  if s.lastFrame = g.framecount then s else rebuild hd g s

/-- The accessor `GameData::players()`. -/
def GameData.players (s : State) : List PlayerData := s.playerData

/-- The accessor `GameData::projectiles()`. -/
def GameData.projectiles (s : State) : List ProjectileData := s.projectileData

/-- The accessor `GameData::gameMode()`. -/
def GameData.gameMode (s : State) : String := s.gameModeName

/-- The accessor `GameData::local()`. -/
def GameData.local (s : State) : LocalPlayerData := s.localPlayerData

/-- The state of the statics when the process starts: zero-initialised
scalars (`lastFrame`, `nextPlayerVisibilityUpdateTime = 0.0f`,
`skillgroupNamesInitialized = false`), empty containers and strings; the two
singletons start from the given values. -/
def State.initial (lp : LocalPlayerData) (bomb : BombData) : State :=
  { lastFrame := 0
    skillgroupNamesInitialized := false
    nextPlayerVisibilityUpdateTime := 0
    viewMatrix := ⟨[]⟩
    localPlayerData := lp
    playerData := []
    observerData := []
    weaponData := []
    entityData := []
    lootCrateData := []
    projectileData := []
    bombData := bomb
    infernoData := []
    smokeData := []
    netOutgoingLatency := 0
    gameModeName := ""
    skillGroupNames := List.replicate 19 ""
    skillGroupNamesDangerzone := List.replicate 16 ""
    playerAvatars := []
    fogWrites := [] }

/-- Embeds `PlayerData::fadingAlpha` (GameData.cpp:776-780): `fadeTime` is
1.5, the hold is 0.25. Each of the two subtractions, the division and the
subtraction from 1 is a `float` operation and is rounded; the constants are
binary32 values. -/
def PlayerData.fadingAlpha (g : Game) (p : PlayerData) : ℚ :=
  stdClamp
    (toFloat32 (1 - toFloat32
      (toFloat32 (toFloat32 (g.realtime - p.lastContactTime) - 1 / 4) / (3 / 2)))) 0 1

/-! ## StreamProofESP.cpp: the convex hull -/

/-- The lambda `orientation` of `convexHull` (StreamProofESP.cpp:106-108), in
exact arithmetic; `orientationF32` is the same expression with every operation
rounded. -/
def orientation (a b c : ImVec2) : ℚ :=
  (b.x - a.x) * (c.y - a.y) - (c.x - a.x) * (b.y - a.y)

/-- The comparison handed to `std::min_element` (StreamProofESP.cpp:104):
lower `y` first, then lower `x`. -/
def lowerLeft (a b : ImVec2) : Bool :=
  decide (a.y < b.y) || (decide (a.y = b.y) && decide (a.x < b.x))

/-- The scan of `std::min_element` from position `i` on: `smallest` is the
position of the best element so far, `best` its value; a later element
replaces it only when it compares less. -/
def minElementFrom (less : ImVec2 → ImVec2 → Bool) (smallest : Nat) (best : ImVec2) :
    Nat → List ImVec2 → Nat
  | _, [] => smallest
  | i, x :: xs =>
    if less x best then minElementFrom less i x (i + 1) xs
    else minElementFrom less smallest best (i + 1) xs

/-- Embeds `std::min_element(first, last, comp)`: the position of the first
smallest element. -/
def minElement (less : ImVec2 → ImVec2 → Bool) : List ImVec2 → Nat
  | [] => 0
  | x :: xs => minElementFrom less 0 x 1 xs

/-- Embeds `std::swap(points[0], points[k])`. -/
def swapFirst (points : List ImVec2) (k : Nat) : List ImVec2 :=
  match points[0]?, points[k]? with
  | some a, some b => (points.set 0 b).set k a
  | _, _ => points

/-- The difference of two screen vectors, `ImVec2 - ImVec2` of the drawing
library. -/
def ImVec2.sub (a b : ImVec2) : ImVec2 := ⟨a.x - b.x, a.y - b.y⟩

/-- The squared length `ImLengthSqr` of the drawing library. -/
def ImLengthSqr (v : ImVec2) : ℚ := v.x * v.x + v.y * v.y

/-- The comparison handed to `std::sort` (StreamProofESP.cpp:110-113), with
`p0` the value of `points[0]`: by turn about `p0`, ties by distance from it. -/
def hullLess (p0 a b : ImVec2) : Bool :=
  let o := orientation p0 a b
  if o = 0 then decide (ImLengthSqr (p0.sub a) < ImLengthSqr (p0.sub b)) else decide (o < 0)

/-- The `while` loop of StreamProofESP.cpp:119-120, from the given `count`: the
count it ends with. Reading `hull[count - 2]` or `hull[count - 1]` outside the
array gives `none`. -/
def hullPop (hull : List ImVec2) (p : ImVec2) : Nat → Option Nat
  | 0 => some 0
  | 1 => some 1
  | count + 2 =>
    match hull[count]?, hull[count + 1]? with
    | some a, some b =>
      if orientation a b p ≥ 0 then hullPop hull p (count + 1) else some (count + 2)
    | _, _ => none

/-- One iteration of the `for` loop of StreamProofESP.cpp:118-122 on the pair
`(hull, count)`. Writing `hull[count]` outside the array gives `none`. -/
def hullPush (st : List ImVec2 × Nat) (p : ImVec2) : Option (List ImVec2 × Nat) :=
  match hullPop st.1 p st.2 with
  | some count => if count < st.1.length then some (st.1.set count p, count + 1) else none
  | none => none

/-- The `for` loop of StreamProofESP.cpp:118-122 over the remaining points. -/
def hullScan : List ImVec2 → List ImVec2 × Nat → Option (List ImVec2 × Nat)
  | [], st => some st
  | p :: rest, st =>
    match hullPush st p with
    | some next => hullScan rest next
    | none => none

/-- Embeds `convexHull` (StreamProofESP.cpp:101-125) on an array given as the
list of its elements: the pair `(hull, count)` it returns, or `none` when some
array access falls outside the array. `hull` starts as default-constructed
vectors. The arithmetic is exact; `convexHullF32` is the same code with every
`float` operation rounded. -/
def convexHull (points : List ImVec2) : Option (List ImVec2 × Nat) :=
  match swapFirst points (minElement lowerLeft points) with
  | [] => none
  | p0 :: rest =>
    hullScan (p0 :: stdSort (hullLess p0) rest) (List.replicate points.length ⟨0, 0⟩, 0)

/-- The lambda `orientation` as the machine evaluates it: the four
subtractions, the two products and the final subtraction are `float`
operations, each rounded to single precision. -/
def orientationF32 (a b c : ImVec2) : ℚ :=
  toFloat32 (toFloat32 (toFloat32 (b.x - a.x) * toFloat32 (c.y - a.y)) -
    toFloat32 (toFloat32 (c.x - a.x) * toFloat32 (b.y - a.y)))

/-- The difference `ImVec2 - ImVec2` with both subtractions rounded. -/
def ImVec2.subF32 (a b : ImVec2) : ImVec2 := ⟨toFloat32 (a.x - b.x), toFloat32 (a.y - b.y)⟩

/-- The squared length `ImLengthSqr` with its two products and its sum rounded. -/
def ImLengthSqrF32 (v : ImVec2) : ℚ :=
  toFloat32 (toFloat32 (v.x * v.x) + toFloat32 (v.y * v.y))

/-- The comparison handed to `std::sort` (StreamProofESP.cpp:110-113) as the
machine evaluates it. -/
def hullLessF32 (p0 a b : ImVec2) : Bool :=
  let o := orientationF32 p0 a b
  if o = 0 then decide (ImLengthSqrF32 (p0.subF32 a) < ImLengthSqrF32 (p0.subF32 b))
  else decide (o < 0)

/-- The `while` loop of StreamProofESP.cpp:119-120 with the rounded
orientation. -/
def hullPopF32 (hull : List ImVec2) (p : ImVec2) : Nat → Option Nat
  | 0 => some 0
  | 1 => some 1
  | count + 2 =>
    match hull[count]?, hull[count + 1]? with
    | some a, some b =>
      if orientationF32 a b p ≥ 0 then hullPopF32 hull p (count + 1) else some (count + 2)
    | _, _ => none

/-- One iteration of the `for` loop of StreamProofESP.cpp:118-122 with the
rounded orientation. -/
def hullPushF32 (st : List ImVec2 × Nat) (p : ImVec2) : Option (List ImVec2 × Nat) :=
  match hullPopF32 st.1 p st.2 with
  | some count => if count < st.1.length then some (st.1.set count p, count + 1) else none
  | none => none

/-- The `for` loop of StreamProofESP.cpp:118-122 with the rounded orientation. -/
def hullScanF32 : List ImVec2 → List ImVec2 × Nat → Option (List ImVec2 × Nat)
  | [], st => some st
  | p :: rest, st =>
    match hullPushF32 st p with
    | some next => hullScanF32 rest next
    | none => none

/-- Embeds `convexHull` (StreamProofESP.cpp:101-125) as the machine evaluates
it: the same steps as `convexHull`, with every `float` operation of
`orientation`, of `ImVec2 - ImVec2` and of `ImLengthSqr` rounded to single
precision. The comparisons of `std::min_element` involve no arithmetic. -/
def convexHullF32 (points : List ImVec2) : Option (List ImVec2 × Nat) :=
  match swapFirst points (minElement lowerLeft points) with
  | [] => none
  | p0 :: rest =>
    hullScanF32 (p0 :: stdSort (hullLessF32 p0) rest) (List.replicate points.length ⟨0, 0⟩, 0)

/-! ## GameData.cpp: the rank tables -/

/-- The conversion `std::size_t(v)` of an `int`: the value modulo `2 ^ bits`,
with `bits` the width of `std::size_t` on the platform. -/
def toSizeT (bits : Nat) (v : Int) : Nat := (v % (2 : Int) ^ bits).toNat

/-- The index expression of `getRankName` and `getRankTexture`
(GameData.cpp:694, 696, 771, 773): `std::size_t(skillgroup) < size ? skillgroup : 0`. -/
def rankIndex (bits size : Nat) (skillgroup : Int) : Int :=
  if toSizeT bits skillgroup < size then skillgroup else 0

/-- The element access `array[index]` of a `std::array` with an `int` index: the
index is converted to `std::size_t`; outside the array the access gives `none`. -/
def arrayAt {α : Type} (bits : Nat) (array : List α) (index : Int) : Option α :=
  array[toSizeT bits index]?

/-- Embeds `PlayerData::getRankName` (GameData.cpp:691-697). The sizes 16 and
19 are those of the declarations of the two tables (GameData.cpp:47-48). -/
def PlayerData.getRankName (bits : Nat) (s : State) (p : PlayerData) : Option String :=
  if s.gameModeName = "survival" then
    arrayAt bits s.skillGroupNamesDangerzone (rankIndex bits 16 p.skillgroup)
  else arrayAt bits s.skillGroupNames (rankIndex bits 19 p.skillgroup)

/-- Embeds `PlayerData::getRankTexture` (GameData.cpp:768-774), up to the call
of `getTexture()` on the chosen image: the element of `dangerZoneImages` (16
images) or of `skillgroupImages` (19 images) it is called on. The images come
from `Resources/skillgroups.h`, which is not among the sources, and are
parameters. -/
def PlayerData.getRankTexture {τ : Type} (bits : Nat) (skillgroupImages dangerZoneImages : List τ)
    (s : State) (p : PlayerData) : Option τ :=
  if s.gameModeName = "survival" then
    arrayAt bits dangerZoneImages (rankIndex bits 16 p.skillgroup)
  else arrayAt bits skillgroupImages (rankIndex bits 19 p.skillgroup)

/-! ## StreamProofESP.cpp: the renderer

The configuration structures (`Snapline`, `Box`, `Weapon`, `Player`, ...) are
declared in `Config.h`, which is not among the sources. Each is a record of the
members that the embedded functions read. A call of a drawing function that is
not embedded itself is recorded, with its arguments, as a `RenderCall`. -/

/-- The member `type` of a `Snapline`: one of the three enumerators the
`switch` of `drawSnapline` names, or any other value. -/
inductive SnaplineType
  | Bottom
  | Top
  | Crosshair
  | unknown (value : Int)
deriving DecidableEq

/-- The configuration `Snapline`, as `drawSnapline` reads it. -/
structure Snapline where
  enabled : Bool
  type : SnaplineType
  thickness : ℚ
deriving DecidableEq

/-- A configuration entry that is switched on or off (`ColorToggleThickness`),
as `renderPlayerEsp` hands it on. -/
structure Toggle where
  enabled : Bool
  thickness : ℚ
deriving DecidableEq

/-- The configuration `Box`, as far as the embedded code reads it. -/
structure Box where
  enabled : Bool
  scale : ℚ × ℚ × ℚ
deriving DecidableEq

/-- The configuration `Weapon` of one key of `streamProofESP.weapons`. -/
structure Weapon where
  enabled : Bool
  box : Box
  snapline : Snapline
deriving DecidableEq

/-- The configuration `Player` of one key of `streamProofESP.enemies` or
`streamProofESP.allies`. -/
structure Player where
  enabled : Bool
  audibleOnly : Bool
  spottedOnly : Bool
  box : Box
  headBox : Box
  skeleton : Toggle
  lineOfSight : Toggle
  snapline : Snapline
deriving DecidableEq

/-- The part of `config->streamProofESP` the embedded code reads. A map
`std::unordered_map<std::string, T>` read with `operator[]` is the function
from the key to the element; an absent key gives the default-constructed
element. -/
structure EspConfig where
  weapons : String → Weapon
  enemies : String → Player
  allies : String → Player

/-- What the renderer reads from the drawing library and from `Helpers`. -/
structure Overlay where
  /-- Value of `ImGui::GetIO().DisplaySize`. -/
  displaySize : ImVec2
  /-- The helper `Helpers::calculateColor` on a snapline configuration. -/
  snaplineColor : Snapline → Nat
  /-- The helper `Helpers::worldToScreen`: `none` is a `false` return. -/
  worldToScreen : Vector → Option ImVec2

/-- A command appended to the draw list. -/
inductive DrawCmd
  | AddLine (p1 p2 : ImVec2) (col : Nat) (thickness : ℚ)
deriving DecidableEq

/-- A call made by the embedded renderer functions, with its arguments.
`mulAlphaFactor f` is `Helpers::setAlphaFactor(Helpers::getAlphaFactor() * f)`. -/
inductive RenderCall
  | setAlphaFactor (value : ℚ)
  | mulAlphaFactor (factor : ℚ)
  | renderPlayerBox (playerData : PlayerData) (config : Player)
  | drawPlayerSkeleton (config : Toggle) (bones : List (Vector × Vector))
  | renderBox (bbox : BoundingBox) (config : Box)
  | drawLineOfSight (config : Toggle) (playerData : PlayerData)
  | renderWeaponBox (weaponData : WeaponData) (config : Weapon)
deriving DecidableEq

/-- Embeds `drawSnapline` (StreamProofESP.cpp:239-268): the commands it appends
to the draw list. -/
def drawSnapline (ov : Overlay) (config : Snapline) (min max : ImVec2) : List DrawCmd :=
  if !config.enabled then []
  else
    let screenSize := ov.displaySize
    let p1x := screenSize.x / 2
    let p2x := (min.x + max.x) / 2
    match config.type with
    | SnaplineType.Bottom =>
      [DrawCmd.AddLine ⟨p1x, screenSize.y⟩ ⟨p2x, max.y⟩ (ov.snaplineColor config) config.thickness]
    | SnaplineType.Top =>
      [DrawCmd.AddLine ⟨p1x, 0⟩ ⟨p2x, min.y⟩ (ov.snaplineColor config) config.thickness]
    | SnaplineType.Crosshair =>
      [DrawCmd.AddLine ⟨p1x, screenSize.y / 2⟩ ⟨p2x, (min.y + max.y) / 2⟩
        (ov.snaplineColor config) config.thickness]
    | SnaplineType.unknown _ => []

/-- Embeds `renderPlayerEsp` (StreamProofESP.cpp:523-548): the value it returns
and the calls it makes. -/
def renderPlayerEsp (ov : Overlay) (g : Game) (playerData : PlayerData) (playerConfig : Player) :
    Bool × List RenderCall :=
  if !playerConfig.enabled then (false, [])
  else if (playerConfig.audibleOnly && !playerData.audible && !playerConfig.spottedOnly) ||
      (playerConfig.spottedOnly && !playerData.spotted &&
        !(playerConfig.audibleOnly && playerData.audible)) then (true, [])
  else
    let headBbox :=
      BoundingBox.make ov.worldToScreen playerData.headMins playerData.headMaxs
        playerConfig.headBox.scale none
    (true,
      (if playerData.immune then [RenderCall.setAlphaFactor (1 / 2)] else []) ++
        [RenderCall.mulAlphaFactor (playerData.fadingAlpha g),
         RenderCall.renderPlayerBox playerData playerConfig,
         RenderCall.drawPlayerSkeleton playerConfig.skeleton playerData.bones] ++
        (if headBbox.valid then [RenderCall.renderBox headBbox playerConfig.headBox] else []) ++
        [RenderCall.drawLineOfSight playerConfig.lineOfSight playerData,
         RenderCall.setAlphaFactor 1])

/-- Embeds `renderWeaponEsp` (StreamProofESP.cpp:550-556): the calls it makes.
`cfg.weapons "All"` is `::config->streamProofESP.weapons["All"]`. -/
def renderWeaponEsp (cfg : EspConfig) (weaponData : WeaponData) (parentConfig itemConfig : Weapon) :
    List RenderCall :=
  let config :=
    if itemConfig.enabled then itemConfig
    else if parentConfig.enabled then parentConfig else cfg.weapons "All"
  if config.enabled then [RenderCall.renderWeaponBox weaponData config] else []

/-- The body of the weapon loop of `StreamProofESP::render`
(StreamProofESP.cpp:595-596) for one weapon record. -/
def renderWeapon (cfg : EspConfig) (weapon : WeaponData) : List RenderCall :=
  renderWeaponEsp cfg weapon (cfg.weapons weapon.group) (cfg.weapons weapon.name)

/-- The body of the player loop of `StreamProofESP::render`
(StreamProofESP.cpp:609-617) for one player record: the keys with which the
map `playerConfig` is read, in order, and the calls made. -/
def renderPlayer (ov : Overlay) (g : Game) (cfg : EspConfig) (player : PlayerData) :
    List String × List RenderCall :=
  if (player.dormant && decide (player.fadingAlpha g = 0)) || !player.alive ||
      !player.inViewFrustum then ([], [])
  else
    let playerConfig := if player.enemy then cfg.enemies else cfg.allies
    let first := renderPlayerEsp ov g player (playerConfig "All")
    if !first.1 then
      let key := if player.visible then "Visible" else "Occluded"
      (["All", key], first.2 ++ (renderPlayerEsp ov g player (playerConfig key)).2)
    else (["All"], first.2)

/-! ## Definitions used to state the theorems -/

/-- The projectile list as the `std::erase_if` of GameData.cpp:239 finds it in
a rebuild with local player `lpl`: the list the loop left, after the
`std::for_each` that marks unresolved records exploded. -/
def projectilesAtPruning (hd : Header) (g : Game) (lpl : Entity) (s : State) :
    List ProjectileData :=
  explodeUnresolved g (scanEntities hd g lpl (beginRebuild g s)).projectileData

/-- The player sequence as the entity loop leaves it in a rebuild with local
player `lpl`, before the sort and the `std::erase_if` of GameData.cpp:242. -/
def playersAfterLoop (hd : Header) (g : Game) (lpl : Entity) (s : State) : List PlayerData :=
  (scanEntities hd g lpl (beginRebuild g s)).playerData

/-- Whether the `switch` of GameData.cpp:151-170 takes a non-player entity to
the projectile upsert of lines 166-169. -/
def reachesProjectileUpsert (entity : Entity) : Bool :=
  match entity.classId with
  | .BaseCSGrenadeProjectile => entity.shouldDraw
  | .BreachChargeProjectile | .BumpMineProjectile | .DecoyProjectile | .MolotovProjectile
  | .SensorGrenadeProjectile | .SmokeGrenadeProjectile | .SnowballProjectile => true
  | _ => false

/-- Component `k` of a vector: 0 is x, 1 is y, 2 is z. -/
def Vector.axis (v : Vector) (k : Fin 3) : ℚ :=
  match k with
  | 0 => v.x
  | 1 => v.y
  | 2 => v.z

/-- Component `k` of a `std::array<float, 3>`. -/
def arrayAxis (a : ℚ × ℚ × ℚ) (k : Fin 3) : ℚ :=
  match k with
  | 0 => a.1
  | 1 => a.2.1
  | 2 => a.2.2

/-- The value `inViewFrustum` that a call of `PlayerData::update` on a
non-dormant entity computes (GameData.cpp:504-506): the cull test on the fresh
bounds moved to the entity's origin. -/
def PlayerData.frustumTest (hd : Header) (g : Game) (lp : LocalPlayerData) (entity : Entity) :
    Bool :=
  !g.cullBox ((BaseData.make hd g lp entity).obbMins.add entity.getAbsOrigin)
    ((BaseData.make hd g lp entity).obbMaxs.add entity.getAbsOrigin)

/-- Whether a call of `PlayerData::update` reaches the call
`entity->visibleTo(localPlayer.get())` of GameData.cpp:523: the entity is not
dormant (no early return at line 499), a local player exists (line 517), the
entity is in the frustum and alive (line 520) and the gate is open (line 522). -/
def PlayerData.reachesVisibleTo (hd : Header) (g : Game) (lp : LocalPlayerData) (gateTime : ℚ)
    (entity : Entity) : Bool :=
  !entity.isDormant && g.localPlayer.isSome &&
    (PlayerData.frustumTest hd g lp entity && entity.isAlive) &&
    shouldUpdatePlayerVisibility g gateTime

/-- Successive calls of `GameData::update`, one per element of `games`, in
order. -/
def GameData.updates (hd : Header) : List Game → State → State
  | [], s => s
  | g :: games, s => GameData.updates hd games (GameData.update hd g s)

/-- Whether the call of `GameData::update` on `g` from `s` is a rebuild with a
local player whose visibility gate is open, the only calls in which
`PlayerData::update` can reach the visibility test. -/
def visibilityGateOpen (g : Game) (s : State) : Bool :=
  decide (s.lastFrame ≠ g.framecount) && g.localPlayer.isSome &&
    shouldUpdatePlayerVisibility g s.nextPlayerVisibilityUpdateTime

/-- What `std::sort` asks of an `operator<`: a strict weak ordering, stated
through "not less": `a < b` excludes `b < a`, and "not less" is transitive. -/
def StrictWeakOrder {α : Type} (less : α → α → Bool) : Prop :=
  (∀ a b, less a b = true → less b a = false) ∧
    (∀ a b c, less b a = false → less c b = false → less c a = false)

/-- A sequence in non-decreasing order of `less`: no element is less than one
before it. -/
def NonDecreasing {α : Type} (less : α → α → Bool) (l : List α) : Prop :=
  l.Pairwise fun a b => less b a = false

/-- The six sequences that `GameData::update` clears at GameData.cpp:83-88. -/
def perFrameSequences (s : State) :
    List ObserverData × List WeaponData × List EntityData × List LootCrateData ×
      List InfernoData × List SmokeData :=
  (s.observerData, s.weaponData, s.entityData, s.lootCrateData, s.infernoData, s.smokeData)

/-- The part of the state that decides what the entity loop puts into the six
per-frame sequences: the sequences themselves and the origin of the
local-player record, which enters every `distanceToLocal`. -/
def frameView (s : State) :
    (List ObserverData × List WeaponData × List EntityData × List LootCrateData ×
      List InfernoData × List SmokeData) × Vector :=
  (perFrameSequences s, s.localPlayerData.origin)

/-! ## Definitions used to state and prove the theorems about the convex hull -/

/-- The polygon that a returned pair `(hull, count)` describes: the first
`count` entries of `hull`, in order. -/
def hullPolygon (r : List ImVec2 × Nat) : List ImVec2 := r.1.take r.2

/-- Vertex `i` of a polygon, with the index taken modulo the number of
vertices. -/
def polygonVertex (poly : List ImVec2) (i : Nat) : ImVec2 :=
  poly.getD (i % poly.length) ⟨0, 0⟩

/-- All points of the input lie on one line: every three of them have
orientation zero. -/
def AllCollinear (points : List ImVec2) : Prop :=
  ∀ a ∈ points, ∀ b ∈ points, ∀ c ∈ points, orientation a b c = 0

/-- The comparison `less` is a strict total order on the elements of `l`:
irreflexive, transitive, and any two different elements are ordered one way or
the other. Every sorting algorithm then returns the same sequence. -/
def StrictTotalOn {α : Type} (less : α → α → Bool) (l : List α) : Prop :=
  (∀ a ∈ l, less a a = false) ∧
  (∀ a ∈ l, ∀ b ∈ l, a ≠ b → less a b = true ∨ less b a = true) ∧
  (∀ a ∈ l, ∀ b ∈ l, ∀ c ∈ l, less a b = true → less b c = true → less a c = true)

/-- The `while` loop of `convexHull` on the hull read as a stack, top first:
the top is removed while the two top elements and `p` do not turn strictly
right. -/
def stackPop (p : ImVec2) : List ImVec2 → List ImVec2
  | y :: x :: rest => if orientation x y p ≥ 0 then stackPop p (x :: rest) else y :: x :: rest
  | st => st

/-- One iteration of the `for` loop of `convexHull` on the stack. -/
def stackPush (st : List ImVec2) (p : ImVec2) : List ImVec2 := p :: stackPop p st

/-- The point `a` is not below the pivot `p0`, and not left of it when at the
same height: what the choice of the pivot gives for every input point. -/
def InHalfPlane (p0 a : ImVec2) : Prop := p0.y < a.y ∨ (a.y = p0.y ∧ p0.x ≤ a.x)

/-- The point `a` is not after `b` in the order of `hullLess p0`. -/
def hullLe (p0 a b : ImVec2) : Prop := hullLess p0 b a = false

/-- Every edge of the stack (top first), taken from the lower element to the
upper one, has `q` on its right or on it. -/
def EdgesRightOf (q : ImVec2) : List ImVec2 → Prop
  | y :: x :: rest => orientation x y q ≤ 0 ∧ EdgesRightOf q (x :: rest)
  | _ => True

/-- The stack (top first) stands on the pivot, turns strictly right at every
element that has one below and one above, and above the pivot goes strictly
clockwise about it. -/
def GoodStack (p0 : ImVec2) : List ImVec2 → Prop
  | [] => False
  | [b] => b = p0
  | [_, b] => b = p0
  | z :: y :: x :: rest =>
    orientation x y z < 0 ∧ orientation p0 y z < 0 ∧ GoodStack p0 (y :: x :: rest)

/-- The state of the scan when the points `Q` (latest first, the pivot last)
have been processed and `st` is the stack (top first): the top is the latest
point, the stack is a `GoodStack` of processed points, every processed point is
right of every edge of the stack, and the processed points are in the order of
`hullLess` and not below the pivot. -/
structure HullInv (p0 : ImVec2) (Q st : List ImVec2) : Prop where
  top : st.head? = Q.head?
  good : GoodStack p0 st
  sub : ∀ s ∈ st, s ∈ Q
  right : ∀ q ∈ Q, EdgesRightOf q st
  sorted : Q.Pairwise (fun later earlier => hullLe p0 earlier later)
  half : ∀ q ∈ Q, InHalfPlane p0 q

/-! ## Definitions used to state the theorems about the renderer and the rank tables -/

/-- The weapon configuration as the specification resolves it: the exact name
if it is enabled, otherwise the group if it is enabled, otherwise "All". -/
def resolveWeaponConfig (cfg : EspConfig) (weapon : WeaponData) : Weapon :=
  if (cfg.weapons weapon.name).enabled then cfg.weapons weapon.name
  else if (cfg.weapons weapon.group).enabled then cfg.weapons weapon.group
  else cfg.weapons "All"

/-- The weapon is drawn: `renderWeapon` hands it to `renderWeaponBox`. -/
def drawsWeapon (cfg : EspConfig) (weapon : WeaponData) : Prop :=
  ∃ config, RenderCall.renderWeaponBox weapon config ∈ renderWeapon cfg weapon

/-- The player is drawn under the configuration: `renderPlayerEsp` hands it to
`renderPlayerBox`. -/
def drawsPlayer (ov : Overlay) (g : Game) (playerData : PlayerData) (playerConfig : Player) :
    Prop :=
  RenderCall.renderPlayerBox playerData playerConfig ∈
    (renderPlayerEsp ov g playerData playerConfig).2

/-- The map `playerConfig` of the player's side (StreamProofESP.cpp:613). -/
def playerSide (cfg : EspConfig) (player : PlayerData) : String → Player :=
  if player.enemy then cfg.enemies else cfg.allies

/-- The player passes the filter of StreamProofESP.cpp:610: it is not skipped
as dormant and faded out, dead, or outside the view frustum. -/
def passesRenderFilter (g : Game) (player : PlayerData) : Prop :=
  ¬(player.dormant = true ∧ player.fadingAlpha g = 0) ∧ player.alive = true ∧
    player.inViewFrustum = true

/-- The values of a 32-bit `int`. -/
def IsInt32 (v : Int) : Prop := -2 ^ 31 ≤ v ∧ v < 2 ^ 31

/-- The observer target that `GameData::update` computes for the local player
(GameData.cpp:119): its target when it observes in-eye, else null. -/
def inEyeTarget (lpl : Entity) : Option EntityRef :=
  if lpl.getObserverMode = ObsMode.InEye then lpl.getObserverTarget else none

/-- The observer record that the specification, amended to the test the code
makes, gives for one visited entity: for a player entity other than the local
player and its in-eye target that is not dormant, not alive and has an observer
target, the record of the player handle and the target handle, with
`targetIsLocalPlayer` true iff the target is the local player. -/
def observerLink (lpl : Entity) (entity : Entity) : Option ObserverData :=
  if entity.isPlayer = true ∧ isLocalOrTarget lpl (inEyeTarget lpl) entity = false ∧
      entity.isDormant = false ∧ entity.isAlive = false then
    entity.getObserverTarget.map fun obs =>
      { playerHandle := entity.handle, targetHandle := obs.handle
        targetIsLocalPlayer := decide (obs.addr = lpl.addr) }
  else none

/-- The body of the entity loop of GameData.cpp:122-227 at index `i`. -/
def visitIndex (hd : Header) (g : Game) (lpl : Entity) (observerTarget : Option EntityRef)
    (acc : State) (i : Int) : State :=
  match g.getEntity i with
  | some entity => processEntity hd g lpl observerTarget acc entity
  | none => acc

/-- The trajectory of the first projectile record with handle `h`, if there is
one. -/
def trajectoryOf (s : State) (h : Int) : Option (List (ℚ × Vector)) :=
  (s.projectileData.find? fun p => p.eqHandle h).map fun p => p.trajectory

/-- The projectile with handle `h` is observed in the world `g` as `entity`:
there is a local player, the handle resolves, the loop visits `entity`, which
has the handle and is taken to the projectile upsert, and no other visited
entity has the handle. -/
def ObservedProjectile (g : Game) (h : Int) (entity : Entity) : Prop :=
  g.localPlayer.isSome = true ∧ (g.getEntityFromHandle h).isSome = true ∧
    entity.handle = h ∧ entity.isPlayer = false ∧ entity.isDormant = false ∧
    entity.isWeapon = false ∧ reachesProjectileUpsert entity = true ∧
    ∃ i ∈ entityIndices g, g.getEntity i = some entity ∧
      ∀ j ∈ entityIndices g, ∀ e, g.getEntity j = some e → e.handle = h → j = i

/-- The projectile with handle `h` is gone from the world `g`: the handle does
not resolve and no visited entity has it. -/
def GoneProjectile (g : Game) (h : Int) : Prop :=
  (g.getEntityFromHandle h).isNone = true ∧
    ∀ j ∈ entityIndices g, ∀ e, g.getEntity j = some e → e.handle ≠ h

/-- The projectile list has distinct handles and a record with handle `h` and
trajectory `T`. -/
def KnownProjectile (s : State) (h : Int) (T : List (ℚ × Vector)) : Prop :=
  (s.projectileData.map ProjectileData.handle).Nodup ∧
    ∃ p ∈ s.projectileData, p.handle = h ∧ p.trajectory = T

/-- The projectile list has distinct handles and no record with handle `h`. -/
def UnknownProjectile (s : State) (h : Int) : Prop :=
  (s.projectileData.map ProjectileData.handle).Nodup ∧ ∀ p ∈ s.projectileData, p.handle ≠ h

/-- The samples that the rebuilds in the worlds `games` take of the entity
paired with each world: the time of the world and the position of the entity. -/
def samplesOf (games : List (Game × Entity)) : List (ℚ × Vector) :=
  games.map fun ge => (ge.1.realtime, ge.2.getAbsOrigin)

/-- The origin that `LocalPlayerData::update` stores for the local player
(GameData.cpp:372-378): the position of the observer target unless the observer
mode is roaming or deathcam, the local player's own position without a
target. -/
def localOrigin (lpl : Entity) : Vector :=
  match lpl.getObserverTarget with
  | some obs =>
    if lpl.getObserverMode ≠ ObsMode.Roaming ∧ lpl.getObserverMode ≠ ObsMode.Deathcam then
      obs.getAbsOrigin
    else lpl.getAbsOrigin
  | none => lpl.getAbsOrigin

/-- The weapon record that a rebuild holds for one visited entity: for a weapon
that is not dormant and has no owner, the record made from it. -/
def weaponRecord (hd : Header) (g : Game) (lp : LocalPlayerData) (entity : Entity) :
    Option WeaponData :=
  if entity.isPlayer = false ∧ entity.isDormant = false ∧ entity.isWeapon = true ∧
      entity.ownerEntity = -1 then
    some (WeaponData.make hd g lp entity)
  else none

/-- Whether the entity is neither a player nor dormant nor a weapon: the
entities whose class is looked at. -/
def isClassified (entity : Entity) : Bool :=
  !entity.isPlayer && !entity.isDormant && !entity.isWeapon

/-- The classes listed in `entities()`: defuse kits, chickens, planted bombs,
hostages, sentries, cash, ammunition boxes, radar jammers, snowball piles, and
dynamic props whose model name contains "challenge_coin". -/
def isListedEntity (entity : Entity) : Bool :=
  match entity.classId with
  | .DynamicProp =>
    match entity.getModel with
    | some model => strstr model.name "challenge_coin"
    | none => false
  | .EconEntity | .Chicken | .PlantedC4 | .Hostage | .Dronegun | .Cash | .AmmoBox | .RadarJammer
  | .SnowballPile => true
  | _ => false

/-- The entity record that a rebuild holds for one visited entity. -/
def entityRecord (hd : Header) (g : Game) (lp : LocalPlayerData) (entity : Entity) :
    Option EntityData :=
  if isClassified entity = true ∧ isListedEntity entity = true then
    some (EntityData.make hd g lp entity)
  else none

/-- The loot crate record that a rebuild holds for one visited entity. -/
def lootCrateRecord (hd : Header) (g : Game) (lp : LocalPlayerData) (entity : Entity) :
    Option LootCrateData :=
  if isClassified entity = true ∧ entity.classId = ClassId.LootCrate then
    some (LootCrateData.make hd g lp entity)
  else none

/-- The fire record that a rebuild holds for one visited entity. -/
def infernoRecord (g : Game) (entity : Entity) : Option InfernoData :=
  if isClassified entity = true ∧ entity.classId = ClassId.Inferno then
    some (InfernoData.make g entity)
  else none

/-- The smoke record that a rebuild holds for one visited entity: for a smoke
grenade whose smoke has started. -/
def smokeRecord (entity : Entity) : Option SmokeData :=
  if isClassified entity = true ∧ entity.classId = ClassId.SmokeGrenadeProjectile ∧
      entity.didSmokeEffect = true then
    some (SmokeData.make entity)
  else none

/-- The six per-frame sequences as a function of the world: the records of the
entities at the indices `1 .. highestEntityIndex`, in that order, the weapons,
entities and loot crates then sorted. `lp` is a local-player record holding the
origin of the local player. -/
def rebuiltSequences (hd : Header) (g : Game) (lpl : Entity) (lp : LocalPlayerData) :
    List ObserverData × List WeaponData × List EntityData × List LootCrateData ×
      List InfernoData × List SmokeData :=
  ((entityIndices g).filterMap fun i => (g.getEntity i).bind (observerLink lpl),
   stdSort hd.weaponLess
     ((entityIndices g).filterMap fun i => (g.getEntity i).bind (weaponRecord hd g lp)),
   stdSort hd.entityLess
     ((entityIndices g).filterMap fun i => (g.getEntity i).bind (entityRecord hd g lp)),
   stdSort hd.lootCrateLess
     ((entityIndices g).filterMap fun i => (g.getEntity i).bind (lootCrateRecord hd g lp)),
   (entityIndices g).filterMap fun i => (g.getEntity i).bind (infernoRecord g),
   (entityIndices g).filterMap fun i => (g.getEntity i).bind smokeRecord)

/-! ## Concrete inputs

A small world used to instantiate the theorems: a local player (handle 100), a
smoke grenade in flight (handle 200) and another player (handle 300), at
frame 7 and realtime 100. -/

namespace Demo

/-- The identity transform. -/
def frame : matrix3x4 := ⟨1, 0, 0, 0, 0, 1, 0, 0, 0, 0, 1, 0⟩

/-- An entity with every accessor at a neutral value. -/
def entity : Entity :=
  { addr := 0, index := 0, handle := 0, isPlayer := false, isDormant := false, isAlive := false
    isWeapon := false, ownerEntity := -1, classId := ClassId.other, classIdInt := 0
    shouldDraw := true, didSmokeEffect := false, getModel := none, getAbsOrigin := ⟨0, 0, 0⟩
    collideableObbMins := ⟨-16, -16, 0⟩, collideableObbMaxs := ⟨16, 16, 72⟩
    toWorldTransform := frame, thrower := -1, getUserId := 0, getSteamId := 0, avatarRGBA := none
    money := 0, getPlayerName := "", getTeamNumber := 0, getEyePosition := ⟨0, 0, 64⟩
    eyeAngles := ⟨0, 0, 0⟩, health := 0, gunGameImmunity := false, flashDuration := 0
    spotted := false, visibleTo := fun _ => false, getActiveWeapon := none
    getObserverTarget := none, getObserverMode := ObsMode.other, velocityModifier := 1
    isScoped := false, shotsFired := 0, fov := 0, defaultFov := 90, getAimPunch := ⟨0, 0, 0⟩
    studioModel := none, boneCache := none, clip := 0, reserveAmmoCount := 0
    getWeaponData := none, itemDefinitionIndex2 := WeaponId.other, fires := [] }

/-- The local player. -/
def localEntity : Entity :=
  { entity with addr := 100, index := 1, handle := 100, isPlayer := true, isAlive := true
                health := 100, getPlayerName := "local" }

/-- A smoke grenade in flight at `(1, 2, 3)`. -/
def grenade : Entity :=
  { entity with addr := 200, index := 2, handle := 200
                classId := ClassId.SmokeGrenadeProjectile, getAbsOrigin := ⟨1, 2, 3⟩ }

/-- Another player. -/
def enemy : Entity :=
  { entity with addr := 300, index := 3, handle := 300, isPlayer := true, isAlive := true
                health := 80, getPlayerName := "enemy", getAbsOrigin := ⟨50, 0, 0⟩ }

/-- A base record. -/
def base : BaseData := ⟨0, ⟨0, 0, 0⟩, ⟨0, 0, 0⟩, frame⟩

/-- A player record with the given handle. -/
def player (handle : Int) : PlayerData :=
  { toBaseData := base, userId := 0, steamID := 0, handle := handle, money := 0, name := ""
    armor := 0, skillgroup := 0, competitiveWins := 0, hasBomb := false, clanTag := ""
    dormant := false, alive := false, lastContactTime := 0, health := 0, team := 0
    origin := ⟨0, 0, 0⟩, inViewFrustum := false, lookingAt := ⟨0, 0, 0⟩, enemy := false
    visible := false, audible := false, spotted := false, immune := false, flashDuration := 0
    theName := "", activeWeaponIcon := "", ammoInClip := 0, MaxAmmo := 0, activeWeapon := ""
    bones := [], headMins := ⟨0, 0, 0⟩, headMaxs := ⟨0, 0, 0⟩ }

/-- A projectile record with the given handle and trajectory. -/
def projectile (handle : Int) (trajectory : List (ℚ × Vector)) : ProjectileData :=
  { toBaseData := base, name := "Smoke Grenade", thrownByLocalPlayer := false
    thrownByEnemy := false, handle := handle, exploded := false, trajectory := trajectory }

/-- In-class initialisers all neutral; every record type ordered by
decreasing distance to the local player. -/
def header : Header :=
  { baseInit := base
    playerInit := player 0
    weaponInit := { toBaseData := base, clip := 0, reserveAmmo := 0, group := "All", name := "All"
                    displayName := "" }
    lootCrateInit := { toBaseData := base, name := none }
    projectileInit := projectile 0 []
    playerLess := fun a b => decide (a.distanceToLocal > b.distanceToLocal)
    weaponLess := fun a b => decide (a.distanceToLocal > b.distanceToLocal)
    entityLess := fun a b => decide (a.distanceToLocal > b.distanceToLocal)
    lootCrateLess := fun a b => decide (a.distanceToLocal > b.distanceToLocal) }

/-- The world at frame 7, realtime 100, with the three entities at indices 1-3. -/
def game : Game :=
  { framecount := 7, realtime := 100, serverTime := 100, networkLatency := some (1 / 20)
    localize := fun key => key
    localPlayer := some localEntity
    gameModeName := "casual"
    worldToScreenMatrix := ⟨[]⟩
    viewAngles := ⟨0, 0, 0⟩
    highestEntityIndex := 3
    getEntity := fun i =>
      if i = 1 then some localEntity else if i = 2 then some grenade
      else if i = 3 then some enemy else none
    getEntityFromHandle := fun h =>
      if h = 100 then some localEntity else if h = 200 then some grenade
      else if h = 300 then some enemy else none
    fogController := 77
    fog := { noFog := true, enabled := false, rainbow := false, rainbowSpeed := 0
             color := (0, 0, 0), start := 0, finish := 0, density := 0 }
    rainbowColor := fun _ => (0, 0, 0)
    playerResource := none
    plantedC4s := []
    mapHasBombTarget := none
    activeSoundSources := []
    isOtherEnemy := fun _ _ => true
    cullBox := fun _ _ => false
    traceRayEnd := fun _ finish _ => finish
    fromAngle := fun _ => ⟨1, 0, 0⟩
    rad2deg := fun r => r * 57
    distTo := fun a b => |a.x - b.x| + |a.y - b.y| + |a.z - b.z|
    uninitMatrix := frame }

/-- The same world with no local player (not in a game). -/
def lobby : Game := { game with localPlayer := none }

/-- A local-player record before the first update. -/
def localData : LocalPlayerData :=
  { «exists» := true, alive := false, inaccuracy := ⟨0, 0, 0⟩, team := 0, velocityModifier := 0
    inReload := false, noScope := false, nextWeaponAttack := 0, shooting := false, fov := 0
    handle := 0, flashDuration := 0, aimPunch := ⟨0, 0, 0⟩, origin := ⟨0, 0, 0⟩ }

/-- A bomb record before the first update. -/
def bomb : BombData :=
  { blowTime := 0, timerLength := 0, defuserHandle := -1, defuseCountDown := 0
    defuseLength := 0, bombsite := false }

/-- A snapshot taken at frame 6: players 300 and 400, and four projectiles,
of which only 200 still resolves. Projectile 500 was last sampled at time 30,
projectile 600 at time 40.1, projectile 700 never. -/
def state : State :=
  { State.initial localData bomb with
    lastFrame := 6
    playerData := [player 300, player 400]
    projectileData :=
      [projectile 200 [(99, ⟨1, 2, 3⟩)], projectile 500 [(30, ⟨0, 0, 0⟩)],
       projectile 600 [(401 / 10, ⟨0, 0, 0⟩)], projectile 700 []] }

/-- A projection that fails behind the plane `z = 0` and otherwise drops `z`,
clamped to a 1000-unit screen. -/
def project (v : Vector) : Option ImVec2 :=
  if v.z < 0 then none else some ⟨stdClamp v.x (-1000) 1000, stdClamp v.y (-1000) 1000⟩

/-- Eight screen points: the corners of a square, its centre, a point on its
lower edge and two points inside. -/
def hullPoints : List ImVec2 :=
  [⟨1, 1⟩, ⟨2, 0⟩, ⟨2, 2⟩, ⟨0, 2⟩, ⟨0, 0⟩, ⟨1, 0⟩, ⟨3 / 2, 1 / 2⟩, ⟨1 / 2, 3 / 2⟩]

/-- Eight screen points on one line. -/
def linePoints : List ImVec2 :=
  [⟨3, 3⟩, ⟨1, 1⟩, ⟨0, 0⟩, ⟨7, 7⟩, ⟨2, 2⟩, ⟨5, 5⟩, ⟨4, 4⟩, ⟨6, 6⟩]

/-- A screen of 10 by 10; every snapline is drawn in colour 7; nothing projects. -/
def overlay : Overlay :=
  { displaySize := ⟨10, 10⟩, snaplineColor := fun _ => 7, worldToScreen := fun _ => none }

/-- An enabled snapline from the bottom of the screen. -/
def bottomLine : Snapline := ⟨true, SnaplineType.Bottom, 1⟩

/-- A box configuration of the default scale. -/
def box : Box := ⟨true, (1 / 4, 1 / 4, 1 / 4)⟩

/-- A weapon configuration, enabled or not. -/
def weaponConfig (enabled : Bool) (thickness : ℚ) : Weapon :=
  ⟨enabled, box, ⟨false, SnaplineType.Top, thickness⟩⟩

/-- A player configuration with the given switches. -/
def playerConfig (enabled audibleOnly spottedOnly : Bool) : Player :=
  ⟨enabled, audibleOnly, spottedOnly, box, box, ⟨false, 1⟩, ⟨false, 1⟩, bottomLine⟩

/-- A configuration in which only the group "Rifles" is enabled for weapons,
"All" is enabled for enemies with both filters set, and only "Occluded" is
enabled for allies. -/
def espConfig : EspConfig :=
  { weapons := fun key => if key = "Rifles" then weaponConfig true 2 else weaponConfig false 1
    enemies := fun key => playerConfig (decide (key = "All")) true true
    allies := fun key => playerConfig (decide (key = "Occluded")) false false }

/-- A rifle on the ground. -/
def rifle : WeaponData :=
  { toBaseData := base, clip := 30, reserveAmmo := 90, group := "Rifles", name := "AK-47"
    displayName := "AK-47" }

/-- A living enemy in view, neither audible nor spotted, last seen at time 100. -/
def quietEnemy : PlayerData :=
  { player 300 with alive := true, inViewFrustum := true, enemy := true, lastContactTime := 100 }

/-- A living ally in view, not visible. -/
def hiddenAlly : PlayerData :=
  { player 400 with alive := true, inViewFrustum := true, lastContactTime := 100 }

/-- The enemy of the demo world, dead and dormant, with the local player as its
observer target. -/
def dormantSpectator : Entity :=
  { enemy with isAlive := false, isDormant := true
               getObserverTarget := some ⟨100, 100, ⟨0, 0, 0⟩⟩ }

/-- The demo world with the dead, dormant spectator at index 3. -/
def spectatorGame : Game :=
  { game with
    getEntity := fun i =>
      if i = 1 then some localEntity else if i = 2 then some grenade
      else if i = 3 then some dormantSpectator else none }

/-- The demo world with the enemy at index 3 dead, not dormant, and observing
the local player. -/
def watchGame : Game :=
  { game with
    getEntity := fun i =>
      if i = 1 then some localEntity else if i = 2 then some grenade
      else if i = 3 then
        some { enemy with isAlive := false, getObserverTarget := some ⟨100, 100, ⟨0, 0, 0⟩⟩ }
      else none }

/-- The smoke grenade one frame later, at `(4, 5, 6)`. -/
def movedGrenade : Entity := { grenade with getAbsOrigin := ⟨4, 5, 6⟩ }

/-- The demo world at frame 8, realtime 101, with the grenade moved. -/
def laterGame : Game :=
  { game with
    framecount := 8
    realtime := 101
    getEntity := fun i =>
      if i = 1 then some localEntity else if i = 2 then some movedGrenade
      else if i = 3 then some enemy else none }

/-- The demo world at frame 8 without the grenade. -/
def goneGame : Game :=
  { game with
    framecount := 8
    getEntity := fun i => if i = 1 then some localEntity else if i = 3 then some enemy else none
    getEntityFromHandle := fun h =>
      if h = 100 then some localEntity else if h = 300 then some enemy else none }

/-- Eight screen points close to one line through the first of them, no three
of the last seven on a line with it: `(n / 8, (n + 1) / 8)` for seven values of
`n`, and the corner `(0, 0)`. -/
def nearLinePoints : List ImVec2 :=
  [⟨8220 / 8, 8221 / 8⟩, ⟨8217 / 8, 8218 / 8⟩, ⟨8203 / 8, 8204 / 8⟩, ⟨8211 / 8, 8212 / 8⟩,
   ⟨8212 / 8, 8213 / 8⟩, ⟨8215 / 8, 8216 / 8⟩, ⟨8224 / 8, 8225 / 8⟩, ⟨0, 0⟩]

/-- Eight screen points in sixteenths of a pixel, two of them close together
and nearly in line with the corner `(0, 0)`. -/
def reflexPoints : List ImVec2 :=
  [⟨28606 / 16, 28589 / 16⟩, ⟨11738 / 16, 13643 / 16⟩, ⟨4106 / 16, 19377 / 16⟩,
   ⟨26896 / 16, 26880 / 16⟩, ⟨5350 / 16, 23015 / 16⟩, ⟨0, 0⟩, ⟨6592 / 16, 18852 / 16⟩,
   ⟨26897 / 16, 26881 / 16⟩]

/-- Eight screen points on the line `y = 3 x`. -/
def steepLinePoints : List ImVec2 :=
  [⟨50, 150⟩, ⟨5, 15⟩, ⟨141, 423⟩, ⟨466, 1398⟩, ⟨170, 510⟩, ⟨114, 342⟩,
   ⟨25 / 131072, 75 / 131072⟩, ⟨95, 285⟩]

/-- A living player with the given handle and index, at distance `x` along the
first axis. -/
def playerAt (handle index : Int) (x : ℚ) : Entity :=
  { entity with addr := handle.toNat, index := index, handle := handle, isPlayer := true
                isAlive := true, health := 100, getAbsOrigin := ⟨x, 0, 0⟩ }

/-- An entity of the given class, at distance `x` along the first axis. -/
def itemAt (handle index : Int) (classId : ClassId) (x : ℚ) : Entity :=
  { entity with addr := handle.toNat, index := index, handle := handle, classId := classId
                getAbsOrigin := ⟨x, 0, 0⟩ }

/-- A weapon on the ground, at distance `x` along the first axis. -/
def weaponAt (handle index : Int) (x : ℚ) : Entity :=
  { itemAt handle index ClassId.other x with isWeapon := true }

/-- The entities of the busy world by index: the local player at the origin,
three players, two weapons on the ground, a chicken and a hostage, two loot
crates, a smoke grenade whose smoke has started, a fire, and a dead player who
observes the local player. Within each kind the distances from the local player
are not in order. -/
def busyEntities : List Entity :=
  [localEntity, playerAt 310 2 10, playerAt 320 3 90, playerAt 330 4 40, weaponAt 410 5 5,
   weaponAt 420 6 70, itemAt 510 7 ClassId.Chicken 20, itemAt 520 8 ClassId.Hostage 60,
   itemAt 610 9 ClassId.LootCrate 15, itemAt 620 10 ClassId.LootCrate 80,
   { itemAt 710 11 ClassId.SmokeGrenadeProjectile 30 with didSmokeEffect := true },
   itemAt 720 12 ClassId.Inferno 25,
   { playerAt 340 13 55 with isAlive := false, getObserverTarget := some ⟨100, 100, ⟨0, 0, 0⟩⟩ }]

/-- The busy world: the demo world with the entities of `busyEntities` at the
indices 1 to 13. -/
def busyGame : Game :=
  { game with
    highestEntityIndex := 13
    getEntity := fun i => if 1 ≤ i then busyEntities[(i - 1).toNat]? else none
    getEntityFromHandle := fun h => busyEntities.find? fun e => decide (e.handle = h) }

/-- The demo snapshot with stale records in all six per-frame sequences. -/
def staleFrameState : State :=
  { state with
    observerData := [⟨1, 2, false⟩]
    weaponData := [rifle]
    entityData := [{ toBaseData := base, name := "Chicken" }]
    lootCrateData := [{ toBaseData := base, name := none }]
    infernoData := [⟨none, []⟩]
    smokeData := [⟨⟨9, 9, 9⟩⟩] }

/-- The demo snapshot with three projectile records whose handles resolve to
nothing: last sample at 30, at 40.125 and at `40 - 2 ^ (-18)`. -/
def staleState : State :=
  { state with
    projectileData :=
      [projectile 500 [(30, ⟨0, 0, 0⟩)], projectile 810 [(321 / 8, ⟨0, 0, 0⟩)],
       projectile 800 [(10485759 / 262144, ⟨0, 0, 0⟩)]] }

/-- The demo world after `2 ^ 21` seconds, a little more than 24 days. -/
def lateGame : Game := { game with realtime := 2097152 }

/-- The demo world one frame on, at the realtime to which the rebuild of `game`
moves the visibility gate. -/
def soonGame : Game := { game with framecount := 8, realtime := 13120307 / 131072 }

end Demo

/-! ## Lemmas: rounding to single precision -/

theorem roundTiesToEven_cases (x : ℚ) :
    roundTiesToEven x = Int.floor x ∨ roundTiesToEven x = Int.floor x + 1 := by
  unfold roundTiesToEven
  dsimp only
  split_ifs <;> simp

theorem roundTiesToEven_mono (x y : ℚ) (h : x ≤ y) : roundTiesToEven x ≤ roundTiesToEven y := by
  have hf : Int.floor x ≤ Int.floor y := Int.floor_mono h
  rcases lt_or_eq_of_le hf with hlt | heq
  · have hx : roundTiesToEven x ≤ Int.floor x + 1 := by
      rcases roundTiesToEven_cases x with e | e <;> omega
    have hy : Int.floor y ≤ roundTiesToEven y := by
      rcases roundTiesToEven_cases y with e | e <;> omega
    omega
  · unfold roundTiesToEven
    dsimp only
    rw [← heq]
    have hr : x - (Int.floor x : ℚ) ≤ y - (Int.floor x : ℚ) := by linarith
    split_ifs <;> first | omega | linarith

theorem roundTiesToEven_intCast (n : Int) : roundTiesToEven (n : ℚ) = n := by
  unfold roundTiesToEven
  simp

theorem halvings_spec (fuel n : Nat) (h0 : 0 < n) (hf : n ≤ fuel) :
    2 ^ halvings fuel n ≤ n ∧ n < 2 ^ (halvings fuel n + 1) := by
  induction fuel generalizing n with
  | zero => omega
  | succ fuel ih =>
    unfold halvings
    by_cases h2 : n < 2
    · rw [if_pos h2]
      simp only [pow_zero, zero_add, pow_one]
      omega
    · rw [if_neg h2]
      have hd : 0 < n / 2 := Nat.div_pos (by omega) (by omega)
      have hle : n / 2 ≤ fuel := by omega
      obtain ⟨a, b⟩ := ih (n / 2) hd hle
      rw [pow_succ, pow_succ]
      constructor <;> omega

theorem floorLog2_spec (x : ℚ) (hx : 0 < x) :
    (2 : ℚ) ^ floorLog2 x ≤ x ∧ x < (2 : ℚ) ^ (floorLog2 x + 1) := by
  have hnum : 0 < x.num := Rat.num_pos.mpr hx
  have hN : 0 < x.num.natAbs := Int.natAbs_pos.mpr hnum.ne'
  obtain ⟨a1, a2⟩ := halvings_spec x.num.natAbs x.num.natAbs hN (le_refl _)
  obtain ⟨b1, b2⟩ := halvings_spec x.den x.den x.den_pos (le_refl _)
  have hxe : x = (x.num.natAbs : ℚ) / (x.den : ℚ) := by
    have h1 : ((x.num.natAbs : Int) : ℚ) = (x.num : ℚ) := by
      rw [Int.natAbs_of_nonneg hnum.le]
    have h2 : ((x.num.natAbs : Int) : ℚ) = (x.num.natAbs : ℚ) := Int.cast_natCast _
    rw [← h2, h1]
    exact (Rat.num_div_den x).symm
  have hD : (0 : ℚ) < (x.den : ℚ) := by exact_mod_cast x.den_pos
  have a1q : (2 : ℚ) ^ ((halvings x.num.natAbs x.num.natAbs : Nat) : Int) ≤
      (x.num.natAbs : ℚ) := by
    rw [zpow_natCast]
    exact_mod_cast a1
  have a2q : (x.num.natAbs : ℚ) <
      (2 : ℚ) ^ (((halvings x.num.natAbs x.num.natAbs : Nat) : Int) + 1) := by
    rw [← Nat.cast_one, ← Nat.cast_add, zpow_natCast]
    exact_mod_cast a2
  have b1q : (2 : ℚ) ^ ((halvings x.den x.den : Nat) : Int) ≤ (x.den : ℚ) := by
    rw [zpow_natCast]
    exact_mod_cast b1
  have b2q : (x.den : ℚ) < (2 : ℚ) ^ (((halvings x.den x.den : Nat) : Int) + 1) := by
    rw [← Nat.cast_one, ← Nat.cast_add, zpow_natCast]
    exact_mod_cast b2
  have h2 : (2 : ℚ) ≠ 0 := by norm_num
  have hpos : ∀ e : Int, (0 : ℚ) < 2 ^ e := fun e => zpow_pos (by norm_num) e
  have hlow : (2 : ℚ) ^ (((halvings x.num.natAbs x.num.natAbs : Nat) : Int) -
      ((halvings x.den x.den : Nat) : Int) - 1) ≤ x := by
    refine le_of_le_of_eq ((le_div_iff₀ hD).mpr ?_) hxe.symm
    calc (2 : ℚ) ^ (((halvings x.num.natAbs x.num.natAbs : Nat) : Int) -
            ((halvings x.den x.den : Nat) : Int) - 1) * (x.den : ℚ)
        ≤ (2 : ℚ) ^ (((halvings x.num.natAbs x.num.natAbs : Nat) : Int) -
            ((halvings x.den x.den : Nat) : Int) - 1) *
            (2 : ℚ) ^ (((halvings x.den x.den : Nat) : Int) + 1) :=
          mul_le_mul_of_nonneg_left b2q.le (hpos _).le
      _ = (2 : ℚ) ^ ((halvings x.num.natAbs x.num.natAbs : Nat) : Int) := by
          rw [← zpow_add₀ h2]
          congr 1
          ring
      _ ≤ (x.num.natAbs : ℚ) := a1q
  have hhigh : x < (2 : ℚ) ^ (((halvings x.num.natAbs x.num.natAbs : Nat) : Int) -
      ((halvings x.den x.den : Nat) : Int) + 1) := by
    refine lt_of_eq_of_lt hxe ((div_lt_iff₀ hD).mpr ?_)
    calc (x.num.natAbs : ℚ)
        < (2 : ℚ) ^ (((halvings x.num.natAbs x.num.natAbs : Nat) : Int) + 1) := a2q
      _ = (2 : ℚ) ^ (((halvings x.num.natAbs x.num.natAbs : Nat) : Int) -
            ((halvings x.den x.den : Nat) : Int) + 1) *
            (2 : ℚ) ^ ((halvings x.den x.den : Nat) : Int) := by
          rw [← zpow_add₀ h2]
          congr 1
          ring
      _ ≤ (2 : ℚ) ^ (((halvings x.num.natAbs x.num.natAbs : Nat) : Int) -
            ((halvings x.den x.den : Nat) : Int) + 1) * (x.den : ℚ) :=
          mul_le_mul_of_nonneg_left b1q (hpos _).le
  unfold floorLog2
  dsimp only
  split_ifs with h
  · exact ⟨h, hhigh⟩
  · refine ⟨hlow, ?_⟩
    rw [sub_add_cancel]
    exact not_le.mp h

theorem floorLog2_mono (x y : ℚ) (hx : 0 < x) (h : x ≤ y) : floorLog2 x ≤ floorLog2 y := by
  obtain ⟨a, _⟩ := floorLog2_spec x hx
  obtain ⟨_, b⟩ := floorLog2_spec y (lt_of_lt_of_le hx h)
  have hlt : (2 : ℚ) ^ floorLog2 x < (2 : ℚ) ^ (floorLog2 y + 1) :=
    lt_of_le_of_lt (a.trans h) b
  have := (zpow_lt_zpow_iff_right₀ (by norm_num : (1 : ℚ) < 2)).mp hlt
  omega

theorem float32Exponent_mono (x y : ℚ) (hx : 0 < x) (h : x ≤ y) :
    float32Exponent x ≤ float32Exponent y := by
  unfold float32Exponent
  have := floorLog2_mono x y hx h
  omega

theorem float32Nearest_nonneg (x : ℚ) (hx : 0 < x) : 0 ≤ float32Nearest x := by
  unfold float32Nearest
  have hp : (0 : ℚ) < 2 ^ float32Exponent x := zpow_pos (by norm_num) _
  have h0 : roundTiesToEven 0 ≤ roundTiesToEven (x / 2 ^ float32Exponent x) :=
    roundTiesToEven_mono _ _ (div_pos hx hp).le
  have hz : roundTiesToEven 0 = 0 := by
    have := roundTiesToEven_intCast 0
    simpa using this
  rw [hz] at h0
  have hq : (0 : ℚ) ≤ (roundTiesToEven (x / 2 ^ float32Exponent x) : ℚ) := by exact_mod_cast h0
  exact mul_nonneg hq hp.le

/-- A power of two at or above the last place of `x` that bounds `x` from above
bounds its rounding. -/
theorem float32Nearest_le_pow (x : ℚ) (k : Int) (hk : float32Exponent x ≤ k)
    (h : x ≤ 2 ^ k) : float32Nearest x ≤ 2 ^ k := by
  unfold float32Nearest
  have h2 : (2 : ℚ) ≠ 0 := by norm_num
  have hp : (0 : ℚ) < 2 ^ float32Exponent x := zpow_pos (by norm_num) _
  obtain ⟨n, hn⟩ : ∃ n : Nat, k - float32Exponent x = n := ⟨(k - float32Exponent x).toNat, by omega⟩
  have hdiv : x / 2 ^ float32Exponent x ≤ (((2 : Int) ^ n : Int) : ℚ) := by
    rw [div_le_iff₀ hp]
    push_cast
    rw [← zpow_natCast, ← hn, ← zpow_add₀ h2]
    simpa using h
  have hr := roundTiesToEven_mono _ _ hdiv
  rw [roundTiesToEven_intCast] at hr
  have hq : (roundTiesToEven (x / 2 ^ float32Exponent x) : ℚ) ≤ (((2 : Int) ^ n : Int) : ℚ) := by
    exact_mod_cast hr
  calc (roundTiesToEven (x / 2 ^ float32Exponent x) : ℚ) * 2 ^ float32Exponent x
      ≤ (((2 : Int) ^ n : Int) : ℚ) * 2 ^ float32Exponent x :=
        mul_le_mul_of_nonneg_right hq hp.le
    _ = 2 ^ k := by
        push_cast
        rw [← zpow_natCast, ← hn, ← zpow_add₀ h2]
        congr 1
        ring

/-- A power of two at or above the last place of `x` that bounds `x` from below
bounds its rounding. -/
theorem float32Nearest_ge_pow (x : ℚ) (k : Int) (hk : float32Exponent x ≤ k)
    (h : 2 ^ k ≤ x) : 2 ^ k ≤ float32Nearest x := by
  unfold float32Nearest
  have h2 : (2 : ℚ) ≠ 0 := by norm_num
  have hp : (0 : ℚ) < 2 ^ float32Exponent x := zpow_pos (by norm_num) _
  obtain ⟨n, hn⟩ : ∃ n : Nat, k - float32Exponent x = n := ⟨(k - float32Exponent x).toNat, by omega⟩
  have hdiv : (((2 : Int) ^ n : Int) : ℚ) ≤ x / 2 ^ float32Exponent x := by
    rw [le_div_iff₀ hp]
    push_cast
    rw [← zpow_natCast, ← hn, ← zpow_add₀ h2]
    simpa using h
  have hr := roundTiesToEven_mono _ _ hdiv
  rw [roundTiesToEven_intCast] at hr
  have hq : (((2 : Int) ^ n : Int) : ℚ) ≤ (roundTiesToEven (x / 2 ^ float32Exponent x) : ℚ) := by
    exact_mod_cast hr
  calc (2 : ℚ) ^ k = (((2 : Int) ^ n : Int) : ℚ) * 2 ^ float32Exponent x := by
        push_cast
        rw [← zpow_natCast, ← hn, ← zpow_add₀ h2]
        congr 1
        ring
    _ ≤ (roundTiesToEven (x / 2 ^ float32Exponent x) : ℚ) * 2 ^ float32Exponent x :=
        mul_le_mul_of_nonneg_right hq hp.le

theorem float32Nearest_mono (x y : ℚ) (hx : 0 < x) (h : x ≤ y) :
    float32Nearest x ≤ float32Nearest y := by
  have hy : 0 < y := lt_of_lt_of_le hx h
  have hu := float32Exponent_mono x y hx h
  rcases lt_or_eq_of_le hu with hlt | heq
  · obtain ⟨_, xhi⟩ := floorLog2_spec x hx
    obtain ⟨ylo, _⟩ := floorLog2_spec y hy
    have huy : float32Exponent y = floorLog2 y - 23 := by
      unfold float32Exponent at hlt ⊢
      omega
    have hux : floorLog2 x - 23 ≤ float32Exponent x := by
      unfold float32Exponent
      omega
    have hxy : (2 : ℚ) ^ (floorLog2 x + 1) ≤ 2 ^ floorLog2 y :=
      zpow_le_zpow_right₀ (by norm_num) (by omega)
    exact (float32Nearest_le_pow x (floorLog2 y) (by omega) (xhi.le.trans hxy)).trans
      (float32Nearest_ge_pow y (floorLog2 y) (by omega) ylo)
  · unfold float32Nearest
    rw [← heq]
    have hp : (0 : ℚ) < 2 ^ float32Exponent x := zpow_pos (by norm_num) _
    have hr := roundTiesToEven_mono (x / 2 ^ float32Exponent x) (y / 2 ^ float32Exponent x)
      (div_le_div_of_nonneg_right h hp.le)
    have hq : (roundTiesToEven (x / 2 ^ float32Exponent x) : ℚ) ≤
        (roundTiesToEven (y / 2 ^ float32Exponent x) : ℚ) := by exact_mod_cast hr
    exact mul_le_mul_of_nonneg_right hq hp.le

/-- Rounding to single precision is monotone. -/
theorem toFloat32_mono (x y : ℚ) (h : x ≤ y) : toFloat32 x ≤ toFloat32 y := by
  unfold toFloat32
  by_cases hx : 0 < x
  · have hy : 0 < y := lt_of_lt_of_le hx h
    rw [if_pos hx, if_pos hy]
    exact float32Nearest_mono x y hx h
  · rw [if_neg hx]
    by_cases hy : 0 < y
    · rw [if_pos hy]
      have := float32Nearest_nonneg y hy
      split_ifs with hx2
      · have := float32Nearest_nonneg (-x) (by linarith)
        linarith
      · exact this
    · rw [if_neg hy]
      by_cases hy2 : y < 0
      · have hx2 : x < 0 := lt_of_le_of_lt h hy2
        rw [if_pos hx2, if_pos hy2]
        have := float32Nearest_mono (-y) (-x) (by linarith) (by linarith)
        linarith
      · rw [if_neg hy2]
        split_ifs with hx2
        · have := float32Nearest_nonneg (-x) (by linarith)
          linarith
        · exact le_refl _

theorem toFloat32_nonneg (x : ℚ) (h : 0 ≤ x) : 0 ≤ toFloat32 x := by
  have := toFloat32_mono 0 x h
  have h0 : toFloat32 0 = 0 := by simp [toFloat32]
  rwa [h0] at this

theorem toFloat32_nonpos (x : ℚ) (h : x ≤ 0) : toFloat32 x ≤ 0 := by
  have := toFloat32_mono x 0 h
  have h0 : toFloat32 0 = 0 := by simp [toFloat32]
  rwa [h0] at this

theorem roundTiesToEven_near (x : ℚ) :
    x - 1 / 2 ≤ (roundTiesToEven x : ℚ) ∧ (roundTiesToEven x : ℚ) ≤ x + 1 / 2 := by
  have h1 : (Int.floor x : ℚ) ≤ x := Int.floor_le x
  have h2 : x < (Int.floor x : ℚ) + 1 := Int.lt_floor_add_one x
  unfold roundTiesToEven
  dsimp only
  split_ifs with a b c
  · constructor <;> linarith
  · push_cast
    constructor <;> linarith
  · constructor <;> linarith
  · push_cast
    constructor <;> linarith

/-- The rounding error of a positive number below `2 ^ k` is at most half a unit
in the last place of that range, `2 ^ (k - 25)`. -/
theorem float32Nearest_error (x : ℚ) (hx : 0 < x) (k : Int) (hk : -125 ≤ k) (h : x < 2 ^ k) :
    x - 2 ^ (k - 25) ≤ float32Nearest x ∧ float32Nearest x ≤ x + 2 ^ (k - 25) := by
  have h2 : (2 : ℚ) ≠ 0 := by norm_num
  obtain ⟨lo, _⟩ := floorLog2_spec x hx
  have he : floorLog2 x < k :=
    (zpow_lt_zpow_iff_right₀ (by norm_num : (1 : ℚ) < 2)).mp (lt_of_le_of_lt lo h)
  have hu : float32Exponent x ≤ k - 24 := by
    unfold float32Exponent
    omega
  have hp : (0 : ℚ) < 2 ^ float32Exponent x := zpow_pos (by norm_num) _
  have hhalf : (2 : ℚ) ^ float32Exponent x * (1 / 2) ≤ 2 ^ (k - 25) := by
    have : (2 : ℚ) ^ float32Exponent x * (1 / 2) = 2 ^ (float32Exponent x - 1) := by
      rw [zpow_sub_one₀ h2]
      ring
    rw [this]
    exact zpow_le_zpow_right₀ (by norm_num) (by omega)
  obtain ⟨a, b⟩ := roundTiesToEven_near (x / 2 ^ float32Exponent x)
  have hx2 : x / 2 ^ float32Exponent x * 2 ^ float32Exponent x = x := div_mul_cancel₀ x hp.ne'
  unfold float32Nearest
  constructor
  · have := mul_le_mul_of_nonneg_right a hp.le
    rw [sub_mul, hx2] at this
    linarith
  · have := mul_le_mul_of_nonneg_right b hp.le
    rw [add_mul, hx2] at this
    linarith

/-- The rounding error of a number of magnitude below `2 ^ k` is at most
`2 ^ (k - 25)`. -/
theorem toFloat32_error (x : ℚ) (k : Int) (hk : -125 ≤ k) (h : |x| < 2 ^ k) :
    x - 2 ^ (k - 25) ≤ toFloat32 x ∧ toFloat32 x ≤ x + 2 ^ (k - 25) := by
  have hp : (0 : ℚ) < 2 ^ (k - 25) := zpow_pos (by norm_num) _
  unfold toFloat32
  by_cases hx : 0 < x
  · rw [if_pos hx]
    exact float32Nearest_error x hx k hk (lt_of_le_of_lt (le_abs_self x) h)
  · rw [if_neg hx]
    by_cases hx2 : x < 0
    · rw [if_pos hx2]
      obtain ⟨a, b⟩ := float32Nearest_error (-x) (by linarith) k hk
        (lt_of_le_of_lt (neg_le_abs x) h)
      constructor <;> linarith
    · rw [if_neg hx2]
      have : x = 0 := le_antisymm (not_lt.mp hx) (not_lt.mp hx2)
      subst this
      constructor <;> linarith

theorem toFloat32_zero : toFloat32 0 = 0 := by decide!

theorem toFloat32_one : toFloat32 1 = 1 := by decide!

theorem toFloat32_quarter : toFloat32 (1 / 4) = 1 / 4 := by decide!

theorem toFloat32_three_halves : toFloat32 (3 / 2) = 3 / 2 := by decide!

theorem toFloat32_seven_quarters : toFloat32 (7 / 4) = 7 / 4 := by decide!

/-! ## Lemmas: arithmetic and lists -/

theorem stdMin_eq_min (a b : ℚ) : stdMin a b = min a b := by
  unfold stdMin
  split_ifs with h
  · exact (min_eq_right h.le).symm
  · exact (min_eq_left (not_lt.mp h)).symm

theorem stdMax_eq_max (a b : ℚ) : stdMax a b = max a b := by
  unfold stdMax
  split_ifs with h
  · exact (max_eq_right h.le).symm
  · exact (max_eq_left (not_lt.mp h)).symm

theorem stdClamp_bounds (v lo hi : ℚ) (h : lo ≤ hi) :
    lo ≤ stdClamp v lo hi ∧ stdClamp v lo hi ≤ hi := by
  unfold stdClamp
  split_ifs with h1 h2
  · exact ⟨le_refl _, h⟩
  · exact ⟨h, le_refl _⟩
  · exact ⟨not_lt.mp h1, not_lt.mp h2⟩

theorem foldl_stdMin_le_init (l : List ℚ) (a : ℚ) : l.foldl stdMin a ≤ a := by
  induction l generalizing a with
  | nil => simp
  | cons b l ih =>
    simp only [List.foldl_cons]
    exact (ih _).trans (by rw [stdMin_eq_min]; exact min_le_left _ _)

theorem foldl_stdMin_le_mem (l : List ℚ) (a : ℚ) : ∀ b ∈ l, l.foldl stdMin a ≤ b := by
  induction l generalizing a with
  | nil => simp
  | cons c l ih =>
    intro b hb
    simp only [List.foldl_cons]
    rcases List.mem_cons.mp hb with rfl | hb
    · exact (foldl_stdMin_le_init l _).trans (by rw [stdMin_eq_min]; exact min_le_right _ _)
    · exact ih _ b hb

theorem foldl_stdMin_attained (l : List ℚ) (a : ℚ) :
    l.foldl stdMin a = a ∨ l.foldl stdMin a ∈ l := by
  induction l generalizing a with
  | nil => simp
  | cons c l ih =>
    simp only [List.foldl_cons]
    rcases ih (stdMin a c) with h | h
    · rw [h, stdMin_eq_min]
      rcases min_choice a c with h2 | h2
      · exact Or.inl h2
      · exact Or.inr (by rw [h2]; exact List.mem_cons_self _ _)
    · exact Or.inr (List.mem_cons_of_mem _ h)

theorem init_le_foldl_stdMax (l : List ℚ) (a : ℚ) : a ≤ l.foldl stdMax a := by
  induction l generalizing a with
  | nil => simp
  | cons b l ih =>
    simp only [List.foldl_cons]
    exact le_trans (by rw [stdMax_eq_max]; exact le_max_left _ _) (ih _)

theorem mem_le_foldl_stdMax (l : List ℚ) (a : ℚ) : ∀ b ∈ l, b ≤ l.foldl stdMax a := by
  induction l generalizing a with
  | nil => simp
  | cons c l ih =>
    intro b hb
    simp only [List.foldl_cons]
    rcases List.mem_cons.mp hb with rfl | hb
    · exact le_trans (by rw [stdMax_eq_max]; exact le_max_right _ _) (init_le_foldl_stdMax l _)
    · exact ih _ b hb

theorem foldl_stdMax_attained (l : List ℚ) (a : ℚ) :
    l.foldl stdMax a = a ∨ l.foldl stdMax a ∈ l := by
  induction l generalizing a with
  | nil => simp
  | cons c l ih =>
    simp only [List.foldl_cons]
    rcases ih (stdMax a c) with h | h
    · rw [h, stdMax_eq_max]
      rcases max_choice a c with h2 | h2
      · exact Or.inl h2
      · exact Or.inr (by rw [h2]; exact List.mem_cons_self _ _)
    · exact Or.inr (List.mem_cons_of_mem _ h)

/-- Modifying one element by a function that keeps a key keeps the list of keys. -/
theorem map_modify_of_preserved {α β : Type} (key : α → β) (f : α → α)
    (hf : ∀ a, key (f a) = key a) (l : List α) (i : Nat) :
    (l.modify f i).map key = l.map key := by
  induction l generalizing i with
  | nil => cases i <;> rfl
  | cons a l ih =>
    cases i with
    | zero => simp [List.modify, hf]
    | succ i => simp [List.modify_succ_cons, ih]

/-- Modifying the element at a position that holds `a` sets it to `f a`. -/
theorem modify_eq_set {α : Type} (f : α → α) (l : List α) (i : Nat) (a : α)
    (h : l[i]? = some a) : l.modify f i = l.set i (f a) := by
  induction l generalizing i with
  | nil => simp at h
  | cons b l ih =>
    cases i with
    | zero =>
      simp only [List.getElem?_cons_zero, Option.some.injEq] at h
      simp [List.modify, h]
    | succ i =>
      simp only [List.getElem?_cons_succ] at h
      simp [List.modify_succ_cons, ih i h]

/-- An element that is not the one at the modified position stays in the list. -/
theorem mem_modify_of_ne {α : Type} (f : α → α) (l : List α) (i : Nat) (a : α)
    (ha : a ∈ l) (hne : ∀ b, l[i]? = some b → b ≠ a) : a ∈ l.modify f i := by
  induction l generalizing i with
  | nil => simp at ha
  | cons c l ih =>
    cases i with
    | zero =>
      have hc : c ≠ a := hne c (by simp)
      rcases List.mem_cons.mp ha with h | h
      · exact absurd h.symm hc
      · simp [List.modify, h]
    | succ i =>
      rw [List.modify_succ_cons]
      rcases List.mem_cons.mp ha with h | h
      · exact h ▸ List.mem_cons_self _ _
      · exact List.mem_cons_of_mem _ (ih i h (fun b hb => hne b (by simpa using hb)))

/-- A fold whose every step keeps a property keeps it. -/
theorem foldl_invariant {σ ι : Type} (P : σ → Prop) (f : σ → ι → σ)
    (hf : ∀ s i, P s → P (f s i)) (l : List ι) (s : σ) (hs : P s) : P (l.foldl f s) := by
  induction l generalizing s with
  | nil => exact hs
  | cons i l ih => exact ih _ (hf s i hs)

theorem stdSort_perm {α : Type} (less : α → α → Bool) (l : List α) : (stdSort less l).Perm l :=
  List.mergeSort_perm l _

/-! ## Lemmas: the bounding box -/

theorem loop_valid_iff (w2s : Vector → Option ImVec2) (matrix : Option matrix3x4)
    (smins smaxs : Vector) (is : List Nat) (b : BoundingBox) :
    (BoundingBox.loop w2s matrix smins smaxs is b).valid = true ↔
      ∀ i ∈ is, (w2s (placed matrix (cornerPoint smins smaxs i))).isSome = true := by
  induction is generalizing b with
  | nil => simp [BoundingBox.loop]
  | cons i rest ih =>
    rw [BoundingBox.loop]
    cases h : w2s (placed matrix (cornerPoint smins smaxs i)) with
    | none => simp [h]
    | some v => simp [h, ih]

theorem make_valid_iff (w2s : Vector → Option ImVec2) (mins maxs : Vector)
    (scale : ℚ × ℚ × ℚ) (matrix : Option matrix3x4) :
    (BoundingBox.make w2s mins maxs scale matrix).valid = true ↔
      ∀ c ∈ boxCorners mins maxs scale matrix, (w2s c).isSome = true := by
  unfold BoundingBox.make boxCorners
  rw [loop_valid_iff]
  simp

/-- A loop that ends valid has projected every index; its envelope is the fold
of `std::min`/`std::max` over the projections and its vertices are the
projections written at their indices. -/
theorem loop_closed_form (w2s : Vector → Option ImVec2) (matrix : Option matrix3x4)
    (smins smaxs : Vector) (is : List Nat) (b : BoundingBox)
    (hv : (BoundingBox.loop w2s matrix smins smaxs is b).valid = true) :
    ∃ vs : List ImVec2,
      is.map (fun i => w2s (placed matrix (cornerPoint smins smaxs i))) = vs.map some ∧
      BoundingBox.loop w2s matrix smins smaxs is b =
        { valid := true
          min := ⟨(vs.map ImVec2.x).foldl stdMin b.min.x, (vs.map ImVec2.y).foldl stdMin b.min.y⟩
          max := ⟨(vs.map ImVec2.x).foldl stdMax b.max.x, (vs.map ImVec2.y).foldl stdMax b.max.y⟩
          vertices := (is.zip vs).foldl (fun acc iv => acc.set iv.1 iv.2) b.vertices } := by
  induction is generalizing b with
  | nil => exact ⟨[], by simp [BoundingBox.loop]⟩
  | cons i rest ih =>
    rw [BoundingBox.loop] at hv ⊢
    cases h : w2s (placed matrix (cornerPoint smins smaxs i)) with
    | none => simp [h] at hv
    | some v =>
      simp only [h] at hv ⊢
      obtain ⟨vs, hvs, heq⟩ := ih _ hv
      refine ⟨v :: vs, by simp [h, hvs], ?_⟩
      rw [heq]
      simp

theorem scaled_axis (mins maxs : Vector) (scale : ℚ × ℚ × ℚ) (k : Fin 3) :
    (scaledMins mins maxs scale).axis k =
        mins.axis k + (maxs.axis k - mins.axis k) * 2 * (1 / 4 - arrayAxis scale k) ∧
      (scaledMaxs mins maxs scale).axis k =
        maxs.axis k - (maxs.axis k - mins.axis k) * 2 * (1 / 4 - arrayAxis scale k) := by
  fin_cases k <;>
    simp [scaledMins, scaledMaxs, Vector.axis, arrayAxis, Vector.add, Vector.sub, Vector.scale,
      Vector.mul, floatMinusArray]

/-! ## Lemmas: the records keep their handle -/

theorem playerUpdateResource_handle (g : Game) (p : PlayerData) (idx : Int) :
    (PlayerData.updateResource g p idx).handle = p.handle := by
  unfold PlayerData.updateResource
  split <;> rfl

theorem playerUpdateDormant_handle (g : Game) (p : PlayerData) (idx : Int) :
    (PlayerData.updateDormant g p idx).handle = p.handle := by
  unfold PlayerData.updateDormant
  split <;> rfl

theorem playerUpdateVisibility_handle (g : Game) (t : ℚ) (p : PlayerData) (e : Entity) :
    (PlayerData.updateVisibility g t p e).handle = p.handle := by
  unfold PlayerData.updateVisibility
  dsimp only
  repeat' split
  all_goals rfl

theorem playerUpdateWeapon_handle (g : Game) (p : PlayerData) (e : Entity) :
    (PlayerData.updateWeapon g p e).handle = p.handle := by
  unfold PlayerData.updateWeapon
  dsimp only
  repeat' split
  all_goals rfl

theorem playerUpdateSkeleton_handle (g : Game) (p : PlayerData) (e : Entity) :
    (PlayerData.updateSkeleton g p e).handle = p.handle := by
  unfold PlayerData.updateSkeleton
  dsimp only
  repeat' split
  all_goals rfl

/-- The updater `PlayerData::update` never assigns `handle`. -/
theorem playerUpdate_handle (hd : Header) (g : Game) (lp : LocalPlayerData) (t : ℚ)
    (p : PlayerData) (e : Entity) : (PlayerData.update hd g lp t p e).handle = p.handle := by
  unfold PlayerData.update
  dsimp only
  split
  · rw [playerUpdateDormant_handle, playerUpdateResource_handle]
  · rw [playerUpdateSkeleton_handle, playerUpdateWeapon_handle]
    simp only [playerUpdateVisibility_handle, playerUpdateResource_handle]

/-- A constructed player record carries the entity's handle. -/
theorem playerMake_handle (hd : Header) (g : Game) (lp : LocalPlayerData) (t : ℚ)
    (e : Entity) : (PlayerData.make hd g lp t e).1.handle = e.handle := by
  unfold PlayerData.make
  simp only [playerUpdate_handle]

/-- The updater `ProjectileData::update` never assigns `handle`. -/
theorem projectileUpdate_handle (hd : Header) (g : Game) (lp : LocalPlayerData)
    (p : ProjectileData) (e : Entity) : (ProjectileData.update hd g lp p e).handle = p.handle := by
  unfold ProjectileData.update
  dsimp only
  repeat' split
  all_goals rfl

/-- A constructed projectile record carries the entity's handle. -/
theorem projectileMake_handle (hd : Header) (g : Game) (lp : LocalPlayerData) (e : Entity) :
    (ProjectileData.make hd g lp e).handle = e.handle := by
  unfold ProjectileData.make
  rfl

/-! ## Lemmas: lookup by handle -/

theorem playerByHandleWritable_none {l : List PlayerData} {h : Int}
    (hn : playerByHandleWritable l h = none) : h ∉ l.map PlayerData.handle := by
  unfold playerByHandleWritable at hn
  simp only [ite_eq_right_iff, reduceCtorEq, imp_false, not_lt] at hn
  have hlen : l.findIdx (fun p => p.handle == h) = l.length :=
    le_antisymm (List.findIdx_le_length _) hn
  rw [List.findIdx_eq_length] at hlen
  intro hmem
  obtain ⟨p, hp, hph⟩ := List.mem_map.mp hmem
  have := hlen p hp
  simp [hph] at this

theorem playerByHandleWritable_some {l : List PlayerData} {h : Int} {i : Nat}
    (hs : playerByHandleWritable l h = some i) :
    ∃ p, l[i]? = some p ∧ p.handle = h := by
  unfold playerByHandleWritable at hs
  simp only [Option.ite_none_right_eq_some, Option.some.injEq] at hs
  obtain ⟨hlt, rfl⟩ := hs
  refine ⟨l[l.findIdx (fun p => p.handle == h)], List.getElem?_eq_getElem hlt, ?_⟩
  have := @List.findIdx_getElem _ _ _ hlt
  simpa using this

theorem playerByHandleWritable_isSome_iff (l : List PlayerData) (h : Int) :
    (playerByHandleWritable l h).isSome = true ↔ h ∈ l.map PlayerData.handle := by
  constructor
  · intro hs
    obtain ⟨i, hi⟩ := Option.isSome_iff_exists.mp hs
    obtain ⟨p, hp, hph⟩ := playerByHandleWritable_some hi
    exact List.mem_map.mpr ⟨p, List.getElem?_mem hp, hph⟩
  · intro hm
    cases hc : playerByHandleWritable l h with
    | none => exact absurd hm (playerByHandleWritable_none hc)
    | some i => rfl

theorem findProjectile_none {l : List ProjectileData} {h : Int}
    (hn : findProjectile l h = none) : h ∉ l.map ProjectileData.handle := by
  unfold findProjectile at hn
  simp only [ite_eq_right_iff, reduceCtorEq, imp_false, not_lt] at hn
  have hlen : l.findIdx (fun p => p.eqHandle h) = l.length :=
    le_antisymm (List.findIdx_le_length _) hn
  rw [List.findIdx_eq_length] at hlen
  intro hmem
  obtain ⟨p, hp, hph⟩ := List.mem_map.mp hmem
  have := hlen p hp
  simp [ProjectileData.eqHandle, hph] at this

theorem findProjectile_some {l : List ProjectileData} {h : Int} {i : Nat}
    (hs : findProjectile l h = some i) :
    ∃ p, l[i]? = some p ∧ p.handle = h := by
  unfold findProjectile at hs
  simp only [Option.ite_none_right_eq_some, Option.some.injEq] at hs
  obtain ⟨hlt, rfl⟩ := hs
  refine ⟨l[l.findIdx (fun p => p.eqHandle h)], List.getElem?_eq_getElem hlt, ?_⟩
  have := @List.findIdx_getElem _ _ _ hlt
  simpa [ProjectileData.eqHandle] using this

theorem findProjectile_isSome_iff (l : List ProjectileData) (h : Int) :
    (findProjectile l h).isSome = true ↔ h ∈ l.map ProjectileData.handle := by
  constructor
  · intro hs
    obtain ⟨i, hi⟩ := Option.isSome_iff_exists.mp hs
    obtain ⟨p, hp, hph⟩ := findProjectile_some hi
    exact List.mem_map.mpr ⟨p, List.getElem?_mem hp, hph⟩
  · intro hm
    cases hc : findProjectile l h with
    | none => exact absurd hm (findProjectile_none hc)
    | some i => rfl

/-! ## Lemmas: one entity of the loop -/

theorem upsertPlayer_lastFrame (hd : Header) (g : Game) (s : State) (e : Entity) :
    (upsertPlayer hd g s e).lastFrame = s.lastFrame := by
  unfold upsertPlayer
  split <;> rfl

theorem upsertPlayer_projectileData (hd : Header) (g : Game) (s : State) (e : Entity) :
    (upsertPlayer hd g s e).projectileData = s.projectileData := by
  unfold upsertPlayer
  split <;> rfl

theorem addObserver_lastFrame (g : Game) (s : State) (e : Entity) :
    (addObserver g s e).lastFrame = s.lastFrame := by
  unfold addObserver
  repeat' split
  all_goals rfl

theorem addObserver_playerData (g : Game) (s : State) (e : Entity) :
    (addObserver g s e).playerData = s.playerData := by
  unfold addObserver
  repeat' split
  all_goals rfl

theorem addObserver_projectileData (g : Game) (s : State) (e : Entity) :
    (addObserver g s e).projectileData = s.projectileData := by
  unfold addObserver
  repeat' split
  all_goals rfl

theorem classSwitch_lastFrame (hd : Header) (g : Game) (s : State) (e : Entity) :
    (classSwitch hd g s e).lastFrame = s.lastFrame := by
  unfold classSwitch markExploded upsertProjectile
  repeat' split
  all_goals rfl

theorem classSwitch_playerData (hd : Header) (g : Game) (s : State) (e : Entity) :
    (classSwitch hd g s e).playerData = s.playerData := by
  unfold classSwitch markExploded upsertProjectile
  repeat' split
  all_goals rfl

theorem classSwitch_projectileData (hd : Header) (g : Game) (s : State) (e : Entity) :
    (classSwitch hd g s e).projectileData = s.projectileData ∨
      (classSwitch hd g s e).projectileData = (markExploded s e.handle).projectileData ∨
      (classSwitch hd g s e).projectileData = (upsertProjectile hd g s e).projectileData := by
  unfold classSwitch
  repeat' split
  all_goals first
    | exact Or.inl rfl
    | exact Or.inr (Or.inl rfl)
    | exact Or.inr (Or.inr rfl)

theorem classSwitch_of_reachesUpsert (hd : Header) (g : Game) (s : State) (e : Entity)
    (h : reachesProjectileUpsert e = true) :
    classSwitch hd g s e = upsertProjectile hd g s e := by
  unfold reachesProjectileUpsert at h
  unfold classSwitch
  split at h <;> simp_all

theorem processEntity_lastFrame (hd : Header) (g : Game) (lpl : Entity) (ot : Option EntityRef)
    (s : State) (e : Entity) :
    (processEntity hd g lpl ot s e).lastFrame = s.lastFrame := by
  unfold processEntity smokeBlock fogBlock
  repeat' split
  all_goals first
    | rfl
    | exact (addObserver_lastFrame ..).trans (upsertPlayer_lastFrame ..)
    | exact classSwitch_lastFrame ..

/-- One entity leaves the player sequence alone or runs the player upsert on it. -/
theorem processEntity_playerData (hd : Header) (g : Game) (lpl : Entity) (ot : Option EntityRef)
    (s : State) (e : Entity) :
    (processEntity hd g lpl ot s e).playerData = s.playerData ∨
      (processEntity hd g lpl ot s e).playerData = (upsertPlayer hd g s e).playerData := by
  unfold processEntity smokeBlock fogBlock
  repeat' split
  all_goals first
    | exact Or.inl rfl
    | exact Or.inr (addObserver_playerData ..)
    | exact Or.inl (classSwitch_playerData ..)

/-- One entity leaves the projectile list alone, marks a record exploded, or
runs the projectile upsert on it. -/
theorem processEntity_projectileData (hd : Header) (g : Game) (lpl : Entity)
    (ot : Option EntityRef) (s : State) (e : Entity) :
    (processEntity hd g lpl ot s e).projectileData = s.projectileData ∨
      (processEntity hd g lpl ot s e).projectileData = (markExploded s e.handle).projectileData ∨
      (processEntity hd g lpl ot s e).projectileData = (upsertProjectile hd g s e).projectileData := by
  unfold processEntity smokeBlock fogBlock
  repeat' split
  all_goals first
    | exact Or.inl rfl
    | exact Or.inl (by rw [addObserver_projectileData, upsertPlayer_projectileData])
    | exact classSwitch_projectileData hd g s e

/-- A drawn projectile entity reaches the projectile upsert. -/
theorem processEntity_projectile_upsert (hd : Header) (g : Game) (lpl : Entity)
    (ot : Option EntityRef) (s : State) (e : Entity) (hplayer : e.isPlayer = false)
    (hdormant : e.isDormant = false) (hweapon : e.isWeapon = false)
    (h : reachesProjectileUpsert e = true) :
    (processEntity hd g lpl ot s e).projectileData = (upsertProjectile hd g s e).projectileData := by
  unfold processEntity smokeBlock fogBlock
  simp only [hplayer, hdormant, hweapon, Bool.false_eq_true, if_false,
    classSwitch_of_reachesUpsert hd g s e h]
  repeat' split
  all_goals rfl

/-- The handles of the player records after the upsert: unchanged for a known
handle; the old ones followed by the new handle otherwise. -/
theorem upsertPlayer_handles (hd : Header) (g : Game) (s : State) (e : Entity) :
    (upsertPlayer hd g s e).playerData.map PlayerData.handle =
      if e.handle ∈ s.playerData.map PlayerData.handle then s.playerData.map PlayerData.handle
      else s.playerData.map PlayerData.handle ++ [e.handle] := by
  unfold upsertPlayer
  split
  · rename_i i hi
    obtain ⟨p, hp, hph⟩ := playerByHandleWritable_some hi
    have hmem : e.handle ∈ s.playerData.map PlayerData.handle :=
      List.mem_map.mpr ⟨p, List.getElem?_mem hp, hph⟩
    rw [if_pos hmem]
    exact map_modify_of_preserved _ _ (fun a => playerUpdate_handle ..) _ _
  · rename_i hn
    rw [if_neg (playerByHandleWritable_none hn)]
    simp [playerMake_handle]

theorem markExploded_handles (s : State) (h : Int) :
    (markExploded s h).projectileData.map ProjectileData.handle =
      s.projectileData.map ProjectileData.handle := by
  unfold markExploded
  split
  · exact map_modify_of_preserved ProjectileData.handle
      (fun p : ProjectileData => { p with exploded := true }) (fun _ => rfl) _ _
  · rfl

/-- The handles of the projectile list after the upsert: unchanged for a known
handle; the new handle in front of the old ones otherwise. -/
theorem upsertProjectile_handles (hd : Header) (g : Game) (s : State) (e : Entity) :
    (upsertProjectile hd g s e).projectileData.map ProjectileData.handle =
      if e.handle ∈ s.projectileData.map ProjectileData.handle then
        s.projectileData.map ProjectileData.handle
      else e.handle :: s.projectileData.map ProjectileData.handle := by
  unfold upsertProjectile
  split
  · rename_i i hi
    obtain ⟨p, hp, hph⟩ := findProjectile_some hi
    have hmem : e.handle ∈ s.projectileData.map ProjectileData.handle :=
      List.mem_map.mpr ⟨p, List.getElem?_mem hp, hph⟩
    rw [if_pos hmem]
    exact map_modify_of_preserved _ _ (fun a => projectileUpdate_handle ..) _ _
  · rename_i hn
    rw [if_neg (findProjectile_none hn)]
    simp [projectileMake_handle]

theorem processEntity_playerHandles (hd : Header) (g : Game) (lpl : Entity)
    (ot : Option EntityRef) (s : State) (e : Entity) :
    (processEntity hd g lpl ot s e).playerData.map PlayerData.handle =
        s.playerData.map PlayerData.handle ∨
      (e.handle ∉ s.playerData.map PlayerData.handle ∧
        (processEntity hd g lpl ot s e).playerData.map PlayerData.handle =
          s.playerData.map PlayerData.handle ++ [e.handle]) := by
  rcases processEntity_playerData hd g lpl ot s e with h | h
  · exact Or.inl (by rw [h])
  · rw [h, upsertPlayer_handles]
    by_cases hm : e.handle ∈ s.playerData.map PlayerData.handle
    · exact Or.inl (by rw [if_pos hm])
    · exact Or.inr ⟨hm, by rw [if_neg hm]⟩

theorem processEntity_projectileHandles (hd : Header) (g : Game) (lpl : Entity)
    (ot : Option EntityRef) (s : State) (e : Entity) :
    (processEntity hd g lpl ot s e).projectileData.map ProjectileData.handle =
        s.projectileData.map ProjectileData.handle ∨
      (e.handle ∉ s.projectileData.map ProjectileData.handle ∧
        (processEntity hd g lpl ot s e).projectileData.map ProjectileData.handle =
          e.handle :: s.projectileData.map ProjectileData.handle) := by
  rcases processEntity_projectileData hd g lpl ot s e with h | h | h
  · exact Or.inl (by rw [h])
  · exact Or.inl (by rw [h, markExploded_handles])
  · rw [h, upsertProjectile_handles]
    by_cases hm : e.handle ∈ s.projectileData.map ProjectileData.handle
    · exact Or.inl (by rw [if_pos hm])
    · exact Or.inr ⟨hm, by rw [if_neg hm]⟩

theorem markExploded_mem_of_handle_ne (s : State) (h : Int) (p : ProjectileData)
    (hp : p ∈ s.projectileData) (hne : h ≠ p.handle) :
    p ∈ (markExploded s h).projectileData := by
  unfold markExploded
  split
  · rename_i i hi
    obtain ⟨q, hq, hqh⟩ := findProjectile_some hi
    refine mem_modify_of_ne _ _ _ _ hp ?_
    intro b hb hbp
    rw [hq] at hb
    cases hb
    exact hne (hqh.symm.trans (congrArg ProjectileData.handle hbp))
  · exact hp

theorem upsertProjectile_mem_of_handle_ne (hd : Header) (g : Game) (s : State) (e : Entity)
    (p : ProjectileData) (hp : p ∈ s.projectileData) (hne : e.handle ≠ p.handle) :
    p ∈ (upsertProjectile hd g s e).projectileData := by
  unfold upsertProjectile
  split
  · rename_i i hi
    obtain ⟨q, hq, hqh⟩ := findProjectile_some hi
    refine mem_modify_of_ne _ _ _ _ hp ?_
    intro b hb hbp
    rw [hq] at hb
    cases hb
    exact hne (hqh.symm.trans (congrArg ProjectileData.handle hbp))
  · exact List.mem_cons_of_mem _ hp

/-- An entity with another handle leaves a projectile record as it is. -/
theorem processEntity_projectile_mem_of_handle_ne (hd : Header) (g : Game) (lpl : Entity)
    (ot : Option EntityRef) (s : State) (e : Entity) (p : ProjectileData)
    (hp : p ∈ s.projectileData) (hne : e.handle ≠ p.handle) :
    p ∈ (processEntity hd g lpl ot s e).projectileData := by
  rcases processEntity_projectileData hd g lpl ot s e with h | h | h
  · rw [h]; exact hp
  · rw [h]; exact markExploded_mem_of_handle_ne s e.handle p hp hne
  · rw [h]; exact upsertProjectile_mem_of_handle_ne hd g s e p hp hne

/-! ## Lemmas: the loop and the rebuild -/

/-- A property that every visited entity keeps holds after the loop. -/
theorem entityLoop_invariant (P : State → Prop) (hd : Header) (g : Game) (lpl : Entity)
    (ot : Option EntityRef)
    (hstep : ∀ s i e, g.getEntity i = some e → P s → P (processEntity hd g lpl ot s e))
    (s : State) (hs : P s) : P (entityLoop hd g lpl ot s) := by
  unfold entityLoop
  refine foldl_invariant P _ ?_ _ s hs
  intro s i hP
  split
  · rename_i e he
    exact hstep _ i e he hP
  · exact hP

theorem entityLoop_lastFrame (hd : Header) (g : Game) (lpl : Entity) (ot : Option EntityRef)
    (s : State) : (entityLoop hd g lpl ot s).lastFrame = s.lastFrame := by
  refine entityLoop_invariant (fun t => t.lastFrame = s.lastFrame) hd g lpl ot ?_ s rfl
  intro t _ e _ hP
  exact (processEntity_lastFrame ..).trans hP

theorem entityLoop_player_nodup (hd : Header) (g : Game) (lpl : Entity) (ot : Option EntityRef)
    (s : State) (hs : (s.playerData.map PlayerData.handle).Nodup) :
    ((entityLoop hd g lpl ot s).playerData.map PlayerData.handle).Nodup := by
  refine entityLoop_invariant (fun s => (s.playerData.map PlayerData.handle).Nodup) hd g lpl ot
    ?_ s hs
  intro s _ e _ hP
  rcases processEntity_playerHandles hd g lpl ot s e with h | ⟨hn, h⟩
  · rw [h]; exact hP
  · rw [h]
    exact List.Nodup.append hP (List.nodup_singleton _) (by simpa using hn)

theorem entityLoop_player_handle_mem (hd : Header) (g : Game) (lpl : Entity)
    (ot : Option EntityRef) (s : State) (h : Int)
    (hs : h ∈ s.playerData.map PlayerData.handle) :
    h ∈ (entityLoop hd g lpl ot s).playerData.map PlayerData.handle := by
  refine entityLoop_invariant (fun s => h ∈ s.playerData.map PlayerData.handle) hd g lpl ot
    ?_ s hs
  intro s _ e _ hP
  rcases processEntity_playerHandles hd g lpl ot s e with h1 | ⟨_, h1⟩
  · rw [h1]; exact hP
  · rw [h1]; exact List.mem_append_left _ hP

theorem entityLoop_projectile_nodup (hd : Header) (g : Game) (lpl : Entity)
    (ot : Option EntityRef) (s : State)
    (hs : (s.projectileData.map ProjectileData.handle).Nodup) :
    ((entityLoop hd g lpl ot s).projectileData.map ProjectileData.handle).Nodup := by
  refine entityLoop_invariant (fun s => (s.projectileData.map ProjectileData.handle).Nodup)
    hd g lpl ot ?_ s hs
  intro s _ e _ hP
  rcases processEntity_projectileHandles hd g lpl ot s e with h | ⟨hn, h⟩
  · rw [h]; exact hP
  · rw [h]
    exact List.nodup_cons.mpr ⟨hn, hP⟩

theorem entityLoop_projectile_mem (hd : Header) (g : Game) (lpl : Entity)
    (ot : Option EntityRef) (s : State) (p : ProjectileData) (hp : p ∈ s.projectileData)
    (hne : ∀ i e, g.getEntity i = some e → e.handle ≠ p.handle) :
    p ∈ (entityLoop hd g lpl ot s).projectileData := by
  refine entityLoop_invariant (fun s => p ∈ s.projectileData) hd g lpl ot ?_ s hp
  intro s i e he hP
  exact processEntity_projectile_mem_of_handle_ne hd g lpl ot s e p hP (hne i e he)

theorem beginRebuild_lastFrame (g : Game) (s : State) :
    (beginRebuild g s).lastFrame = g.framecount := by
  unfold beginRebuild initSkillgroupNames
  dsimp only
  split <;> rfl

theorem beginRebuild_playerData (g : Game) (s : State) :
    (beginRebuild g s).playerData = s.playerData := by
  unfold beginRebuild initSkillgroupNames
  dsimp only
  split <;> rfl

theorem beginRebuild_projectileData (g : Game) (s : State) :
    (beginRebuild g s).projectileData = s.projectileData := by
  unfold beginRebuild initSkillgroupNames
  dsimp only
  split <;> rfl

theorem beginRebuild_localPlayerData (g : Game) (s : State) :
    (beginRebuild g s).localPlayerData = s.localPlayerData.update g := by
  unfold beginRebuild initSkillgroupNames
  dsimp only
  split <;> rfl

theorem finishRebuild_lastFrame (hd : Header) (g : Game) (s : State) :
    (finishRebuild hd g s).lastFrame = s.lastFrame := by
  unfold finishRebuild
  dsimp only
  split <;> rfl

theorem finishRebuild_playerData (hd : Header) (g : Game) (s : State) :
    (finishRebuild hd g s).playerData =
      (stdSort hd.playerLess s.playerData).filter fun p => !playerGone g p := by
  unfold finishRebuild
  dsimp only
  split <;> rfl

theorem finishRebuild_projectileData (hd : Header) (g : Game) (s : State) :
    (finishRebuild hd g s).projectileData =
      (explodeUnresolved g s.projectileData).filter fun p => !projectileExpired g p := by
  unfold finishRebuild
  dsimp only
  split <;> rfl

theorem finishRebuild_player_nodup (hd : Header) (g : Game) (s : State)
    (hs : (s.playerData.map PlayerData.handle).Nodup) :
    ((finishRebuild hd g s).playerData.map PlayerData.handle).Nodup := by
  rw [finishRebuild_playerData]
  have hsorted : ((stdSort hd.playerLess s.playerData).map PlayerData.handle).Nodup :=
    (((stdSort_perm hd.playerLess s.playerData).map PlayerData.handle).nodup_iff).mpr hs
  exact List.Nodup.sublist ((List.filter_sublist _).map _) hsorted

theorem explodeUnresolved_handles (g : Game) (l : List ProjectileData) :
    (explodeUnresolved g l).map ProjectileData.handle = l.map ProjectileData.handle := by
  unfold explodeUnresolved
  rw [List.map_map]
  apply List.map_congr_left
  intro p _
  simp only [Function.comp]
  split <;> rfl

theorem finishRebuild_projectile_nodup (hd : Header) (g : Game) (s : State)
    (hs : (s.projectileData.map ProjectileData.handle).Nodup) :
    ((finishRebuild hd g s).projectileData.map ProjectileData.handle).Nodup := by
  rw [finishRebuild_projectileData]
  refine List.Nodup.sublist ((List.filter_sublist _).map _) ?_
  rw [explodeUnresolved_handles]
  exact hs

/-- The erase predicate of GameData.cpp:239-240, spelled out. -/
theorem projectileExpired_iff (g : Game) (p : ProjectileData) :
    projectileExpired g p = true ↔
      unresolved g p.handle = true ∧
        (p.trajectory = [] ∨
          ∃ last, p.trajectory.getLast? = some last ∧
            toFloat32 (last.1 + 60) < g.realtime) := by
  unfold projectileExpired
  cases h : p.trajectory.getLast? with
  | none =>
    have : p.trajectory = [] := List.getLast?_eq_none_iff.mp h
    simp [this]
  | some last =>
    have : p.trajectory ≠ [] := by
      intro h0; rw [h0] at h; simp at h
    simp [this]

theorem rebuild_lastFrame (hd : Header) (g : Game) (s : State) :
    (rebuild hd g s).lastFrame = g.framecount := by
  unfold rebuild
  dsimp only
  split
  · exact beginRebuild_lastFrame g s
  · rw [finishRebuild_lastFrame]
    unfold scanEntities
    rw [entityLoop_lastFrame]
    exact beginRebuild_lastFrame g s

/-- After any call the recorded frame is the game's frame counter. -/
theorem update_lastFrame (hd : Header) (g : Game) (s : State) :
    (GameData.update hd g s).lastFrame = g.framecount := by
  unfold GameData.update
  split
  · assumption
  · exact rebuild_lastFrame hd g s

/-- The projectile list after a rebuild with a local player: the list at
pruning, without the expired records. -/
theorem update_projectiles_of_local (hd : Header) (g : Game) (s : State) (lpl : Entity)
    (hlocal : g.localPlayer = some lpl) (hframe : s.lastFrame ≠ g.framecount) :
    GameData.projectiles (GameData.update hd g s) =
      (projectilesAtPruning hd g lpl s).filter fun p => !projectileExpired g p := by
  unfold GameData.projectiles GameData.update
  rw [if_neg hframe]
  unfold rebuild
  simp only [hlocal]
  rw [finishRebuild_projectileData]
  rfl

/-- The player sequence after a rebuild with a local player: the sequence the
loop left, sorted, without the records whose handle does not resolve. -/
theorem update_players_of_local (hd : Header) (g : Game) (s : State) (lpl : Entity)
    (hlocal : g.localPlayer = some lpl) (hframe : s.lastFrame ≠ g.framecount) :
    GameData.players (GameData.update hd g s) =
      (stdSort hd.playerLess (playersAfterLoop hd g lpl s)).filter fun p => !playerGone g p := by
  unfold GameData.players GameData.update
  rw [if_neg hframe]
  unfold rebuild
  simp only [hlocal]
  rw [finishRebuild_playerData]
  rfl

theorem demo_project_range (c : Vector) (v : ImVec2) (h : Demo.project c = some v) :
    (-FLT_MAX ≤ v.x ∧ v.x ≤ FLT_MAX) ∧ (-FLT_MAX ≤ v.y ∧ v.y ≤ FLT_MAX) := by
  unfold Demo.project at h
  split at h
  · simp at h
  · simp only [Option.some.injEq] at h
    subst h
    have hx := stdClamp_bounds c.x (-1000) 1000 (by norm_num)
    have hy := stdClamp_bounds c.y (-1000) 1000 (by norm_num)
    have hbig : (1000 : ℚ) ≤ FLT_MAX := by unfold FLT_MAX; norm_num
    exact ⟨⟨by linarith [hx.1], by linarith [hx.2]⟩, ⟨by linarith [hy.1], by linarith [hy.2]⟩⟩

theorem demo_box_valid :
    (BoundingBox.make Demo.project ⟨0, 0, 0⟩ ⟨1, 2, 3⟩ (1 / 4, 1 / 2, 1 / 4) none).valid = true := by
  rw [make_valid_iff]
  intro c hc
  simp only [boxCorners, List.mem_map, List.mem_range] at hc
  obtain ⟨i, hi, rfl⟩ := hc
  have hz : 0 ≤ (placed none (cornerPoint (scaledMins ⟨0, 0, 0⟩ ⟨1, 2, 3⟩ (1 / 4, 1 / 2, 1 / 4))
      (scaledMaxs ⟨0, 0, 0⟩ ⟨1, 2, 3⟩ (1 / 4, 1 / 2, 1 / 4)) i)).z := by
    simp only [placed, cornerPoint, scaledMins, scaledMaxs, Vector.add, Vector.sub,
      Vector.scale, Vector.mul, floatMinusArray]
    split <;> norm_num
  unfold Demo.project
  rw [if_neg (not_lt.mpr hz)]
  rfl

theorem demo_box_vertices_finite :
    ∀ v ∈ (BoundingBox.make Demo.project ⟨0, 0, 0⟩ ⟨1, 2, 3⟩ (1 / 4, 1 / 2, 1 / 4) none).vertices,
      (-FLT_MAX ≤ v.x ∧ v.x ≤ FLT_MAX) ∧ (-FLT_MAX ≤ v.y ∧ v.y ≤ FLT_MAX) := by
  intro v hv
  obtain ⟨vs, hvs, heq⟩ := loop_closed_form Demo.project none _ _ _ _ demo_box_valid
  have hlen : vs.length = 8 := by
    have := congrArg List.length hvs
    simpa using this.symm
  have hverts :
      (BoundingBox.make Demo.project ⟨0, 0, 0⟩ ⟨1, 2, 3⟩ (1 / 4, 1 / 2, 1 / 4) none).vertices =
        vs := by
    unfold BoundingBox.make
    rw [heq]
    match vs, hlen with
    | [a, b, c, d, e, f, g, h], _ => simp [BoundingBox.start, List.range, List.range.loop]
  rw [hverts] at hv
  have : some v ∈ vs.map some := List.mem_map_of_mem _ hv
  rw [← hvs] at this
  obtain ⟨i, _, hi⟩ := List.mem_map.mp this
  exact demo_project_range _ v hi

/-! ## Theorems -/

/-- C1: `GameData::update` is idempotent per frame. A call made while the
game's frame counter equals the recorded one (`lastFrame`) returns the state
unchanged, every field of it: sequences, singletons, game-mode name, latency
gauge, visibility timer. The recorded counter is the frame counter of the last
call, so a second call at the same frame counter, whatever else the world now
holds, changes nothing. -/
theorem update_idempotent_per_frame (hd : Header) (g : Game) (s : State)
    (hsame : g.framecount = s.lastFrame) :
    GameData.update hd g s = s ∧
    (∀ (g0 : Game) (s0 : State), (GameData.update hd g0 s0).lastFrame = g0.framecount) ∧
    (∀ (g0 g1 : Game) (s0 : State), g1.framecount = g0.framecount →
      GameData.update hd g1 (GameData.update hd g0 s0) = GameData.update hd g0 s0) := by
  refine ⟨?_, fun g0 s0 => update_lastFrame hd g0 s0, ?_⟩
  · unfold GameData.update
    rw [if_pos hsame.symm]
  · intro g0 g1 s0 h
    have hlast : (GameData.update hd g0 s0).lastFrame = g1.framecount := by
      rw [update_lastFrame, h]
    generalize GameData.update hd g0 s0 = s1 at hlast ⊢
    unfold GameData.update
    rw [if_pos hlast]

/-- Witness for C1: the demo snapshot, once recorded at frame 7, is left as it
is by a call at frame 7. -/
theorem update_idempotent_per_frame_witness :
    Demo.game.framecount = ({ Demo.state with lastFrame := 7 } : State).lastFrame ∧
    GameData.update Demo.header Demo.game { Demo.state with lastFrame := 7 } =
      { Demo.state with lastFrame := 7 } :=
  ⟨rfl, (update_idempotent_per_frame Demo.header Demo.game { Demo.state with lastFrame := 7 } rfl).1⟩

/-- C2: a rebuild (a call with a changed frame counter) while no local player
exists leaves `players()`, `projectiles()` and `gameMode()` empty and
`local().exists` false, whatever the snapshot held before. -/
theorem update_without_local_player (hd : Header) (g : Game) (s : State)
    (hlocal : g.localPlayer = none) (hframe : s.lastFrame ≠ g.framecount) :
    GameData.players (GameData.update hd g s) = [] ∧
    GameData.projectiles (GameData.update hd g s) = [] ∧
    GameData.gameMode (GameData.update hd g s) = "" ∧
    (GameData.local (GameData.update hd g s)).«exists» = false := by
  unfold GameData.players GameData.projectiles GameData.gameMode GameData.local GameData.update
  rw [if_neg hframe]
  unfold rebuild
  simp only [hlocal, true_and]
  rw [beginRebuild_localPlayerData]
  unfold LocalPlayerData.update
  simp only [hlocal]

/-- Witness for C2: the demo snapshot (two players, four projectiles, local
player recorded as existing) rebuilt in the lobby. -/
theorem update_without_local_player_witness :
    (Demo.lobby.localPlayer.isNone = true ∧ Demo.state.lastFrame ≠ Demo.lobby.framecount) ∧
    GameData.players (GameData.update Demo.header Demo.lobby Demo.state) = [] ∧
    GameData.projectiles (GameData.update Demo.header Demo.lobby Demo.state) = [] ∧
    GameData.gameMode (GameData.update Demo.header Demo.lobby Demo.state) = "" ∧
    (GameData.local (GameData.update Demo.header Demo.lobby Demo.state)).«exists» = false :=
  ⟨⟨rfl, by decide⟩, update_without_local_player Demo.header Demo.lobby Demo.state rfl (by decide)⟩

/-- C3: handle uniqueness of the player sequence is an invariant of
`GameData::update`. If no two records of `players()` share a handle before a
call, none do after it, for every game state; and the upsert of a player
entity whose handle is known rewrites the first record with that handle in
place, appending a record only for an unknown handle. -/
theorem update_players_unique (hd : Header) (g : Game) (s : State)
    (hs : ((GameData.players s).map PlayerData.handle).Nodup) :
    ((GameData.players (GameData.update hd g s)).map PlayerData.handle).Nodup ∧
    (∀ (s0 : State) (e : Entity),
      (e.handle ∈ s0.playerData.map PlayerData.handle →
        ∃ i p, s0.playerData[i]? = some p ∧ p.handle = e.handle ∧
          (upsertPlayer hd g s0 e).playerData =
            s0.playerData.set i
              (PlayerData.update hd g s0.localPlayerData s0.nextPlayerVisibilityUpdateTime p e)) ∧
      (e.handle ∉ s0.playerData.map PlayerData.handle →
        (upsertPlayer hd g s0 e).playerData =
          s0.playerData ++
            [(PlayerData.make hd g s0.localPlayerData s0.nextPlayerVisibilityUpdateTime e).1])) := by
  refine ⟨?_, ?_⟩
  · unfold GameData.players at hs ⊢
    unfold GameData.update
    split
    · exact hs
    · unfold rebuild
      dsimp only
      split
      · simp
      · apply finishRebuild_player_nodup
        unfold scanEntities
        apply entityLoop_player_nodup
        simpa [beginRebuild_playerData] using hs
  · intro s0 e
    refine ⟨?_, ?_⟩
    · intro hm
      obtain ⟨i, hi⟩ :=
        Option.isSome_iff_exists.mp ((playerByHandleWritable_isSome_iff _ _).mpr hm)
      obtain ⟨p, hp, hph⟩ := playerByHandleWritable_some hi
      refine ⟨i, p, hp, hph, ?_⟩
      unfold upsertPlayer
      rw [hi]
      exact modify_eq_set _ _ _ _ hp
    · intro hm
      have hn : playerByHandleWritable s0.playerData e.handle = none := by
        by_contra hc
        exact hm ((playerByHandleWritable_isSome_iff _ _).mp (Option.ne_none_iff_isSome.mp hc))
      unfold upsertPlayer
      rw [hn]

/-- Witness for C3: the demo snapshot holds players 300 and 400. -/
theorem update_players_unique_witness :
    ((GameData.players Demo.state).map PlayerData.handle).Nodup ∧
    ((GameData.players (GameData.update Demo.header Demo.game Demo.state)).map
      PlayerData.handle).Nodup :=
  ⟨by decide, (update_players_unique Demo.header Demo.game Demo.state (by decide)).1⟩

/-- C4: handle uniqueness of the projectile list is an invariant of
`GameData::update`. If no two records of `projectiles()` share a handle before
a call, none do after it; a drawn projectile entity reaches the upsert, which
rewrites the record with that handle in place when there is one and puts a new
record in front only for a handle not yet in the list. -/
theorem update_projectiles_unique (hd : Header) (g : Game) (s : State)
    (hs : ((GameData.projectiles s).map ProjectileData.handle).Nodup) :
    ((GameData.projectiles (GameData.update hd g s)).map ProjectileData.handle).Nodup ∧
    (∀ (s0 : State) (e : Entity),
      (e.handle ∈ s0.projectileData.map ProjectileData.handle →
        ∃ i p, s0.projectileData[i]? = some p ∧ p.handle = e.handle ∧
          (upsertProjectile hd g s0 e).projectileData =
            s0.projectileData.set i (ProjectileData.update hd g s0.localPlayerData p e)) ∧
      (e.handle ∉ s0.projectileData.map ProjectileData.handle →
        (upsertProjectile hd g s0 e).projectileData =
          ProjectileData.make hd g s0.localPlayerData e :: s0.projectileData)) ∧
    (∀ (s0 : State) (e lpl : Entity) (ot : Option EntityRef),
      e.isPlayer = false → e.isDormant = false → e.isWeapon = false →
      reachesProjectileUpsert e = true →
      (processEntity hd g lpl ot s0 e).projectileData =
        (upsertProjectile hd g s0 e).projectileData) := by
  refine ⟨?_, ?_, ?_⟩
  · unfold GameData.projectiles at hs ⊢
    unfold GameData.update
    split
    · exact hs
    · unfold rebuild
      dsimp only
      split
      · simp
      · apply finishRebuild_projectile_nodup
        unfold scanEntities
        apply entityLoop_projectile_nodup
        simpa [beginRebuild_projectileData] using hs
  · intro s0 e
    refine ⟨?_, ?_⟩
    · intro hm
      obtain ⟨i, hi⟩ := Option.isSome_iff_exists.mp ((findProjectile_isSome_iff _ _).mpr hm)
      obtain ⟨p, hp, hph⟩ := findProjectile_some hi
      refine ⟨i, p, hp, hph, ?_⟩
      unfold upsertProjectile
      rw [hi]
      exact modify_eq_set _ _ _ _ hp
    · intro hm
      have hn : findProjectile s0.projectileData e.handle = none := by
        by_contra hc
        exact hm ((findProjectile_isSome_iff _ _).mp (Option.ne_none_iff_isSome.mp hc))
      unfold upsertProjectile
      rw [hn]
  · intro s0 e lpl ot hplayer hdormant hweapon hreach
    exact processEntity_projectile_upsert hd g lpl ot s0 e hplayer hdormant hweapon hreach

/-- Witness for C4: the demo snapshot holds projectiles 200, 500, 600, 700. -/
theorem update_projectiles_unique_witness :
    ((GameData.projectiles Demo.state).map ProjectileData.handle).Nodup ∧
    ((GameData.projectiles (GameData.update Demo.header Demo.game Demo.state)).map
      ProjectileData.handle).Nodup :=
  ⟨by decide, (update_projectiles_unique Demo.header Demo.game Demo.state (by decide)).1⟩

/-- The records of `projectiles()` after a rebuild with a local player: those
in the list when `std::erase_if` runs that the predicate does not take. -/
theorem update_projectiles_mem (hd : Header) (g : Game) (s : State) (lpl : Entity)
    (hlocal : g.localPlayer = some lpl) (hframe : s.lastFrame ≠ g.framecount)
    (p : ProjectileData) :
    p ∈ GameData.projectiles (GameData.update hd g s) ↔
      p ∈ projectilesAtPruning hd g lpl s ∧
        ¬ (unresolved g p.handle = true ∧
          (p.trajectory = [] ∨
            ∃ last, p.trajectory.getLast? = some last ∧
              toFloat32 (last.1 + 60) < g.realtime)) := by
  rw [update_projectiles_of_local hd g s lpl hlocal hframe, List.mem_filter,
    ← projectileExpired_iff]
  simp

/-- A record of the snapshot before the call whose handle no entity of the
table carries is kept, marked exploded, exactly when it is not expired. -/
theorem update_exploded_mem (hd : Header) (g : Game) (s : State) (lpl : Entity)
    (hlocal : g.localPlayer = some lpl) (hframe : s.lastFrame ≠ g.framecount)
    (p : ProjectileData) (hp : p ∈ GameData.projectiles s)
    (hun : unresolved g p.handle = true)
    (hne : ∀ i e, g.getEntity i = some e → e.handle ≠ p.handle) :
    ({ p with exploded := true } ∈ GameData.projectiles (GameData.update hd g s) ↔
      ¬ (p.trajectory = [] ∨
          ∃ last, p.trajectory.getLast? = some last ∧
            toFloat32 (last.1 + 60) < g.realtime)) := by
  have hloop : p ∈ (scanEntities hd g lpl (beginRebuild g s)).projectileData := by
    unfold scanEntities
    refine entityLoop_projectile_mem hd g lpl _ _ p ?_ hne
    simpa [beginRebuild_projectileData] using hp
  have hat : ({ p with exploded := true } : ProjectileData) ∈
      projectilesAtPruning hd g lpl s := by
    unfold projectilesAtPruning explodeUnresolved
    refine List.mem_map.mpr ⟨p, hloop, ?_⟩
    rw [if_pos hun]
  rw [update_projectiles_mem hd g s lpl hlocal hframe]
  constructor
  · rintro ⟨_, h⟩ hc
    exact h ⟨hun, hc⟩
  · intro h
    exact ⟨hat, fun hc => h hc.2⟩

/-- C5, amended: in a rebuild with a local player present, a projectile record
is removed exactly when its handle does not resolve and its trajectory is empty
or the single-precision sum of its last sample's time and 60 is earlier than
realtime. The records are those in the list when `std::erase_if` runs. In
particular, with realtime a single-precision value, an unresolved record whose
last sample is at most 60 old (so one 59.9 old) stays; one whose last sample is
older than 60 by more than the rounding error of the sum (at most
`2 ^ (k - 25)` when the sum is below `2 ^ k`) goes; one with no sample goes; and
a record of the snapshot before the call whose handle no entity of the table
carries is kept, marked exploded, exactly when it is not expired. -/
theorem update_prunes_projectiles (hd : Header) (g : Game) (s : State) (lpl : Entity)
    (hlocal : g.localPlayer = some lpl) (hframe : s.lastFrame ≠ g.framecount) :
    (∀ p, p ∈ GameData.projectiles (GameData.update hd g s) ↔
      p ∈ projectilesAtPruning hd g lpl s ∧
        ¬ (unresolved g p.handle = true ∧
          (p.trajectory = [] ∨
            ∃ last, p.trajectory.getLast? = some last ∧
              toFloat32 (last.1 + 60) < g.realtime))) ∧
    (∀ p ∈ projectilesAtPruning hd g lpl s, unresolved g p.handle = true →
      ∀ last, p.trajectory.getLast? = some last →
        (toFloat32 g.realtime = g.realtime → g.realtime - last.1 ≤ 60 →
          p ∈ GameData.projectiles (GameData.update hd g s)) ∧
        (∀ k : Int, -125 ≤ k → |last.1 + 60| < 2 ^ k →
          60 + 2 ^ (k - 25) < g.realtime - last.1 →
          p ∉ GameData.projectiles (GameData.update hd g s))) ∧
    (∀ p ∈ projectilesAtPruning hd g lpl s, unresolved g p.handle = true →
      p.trajectory = [] → p ∉ GameData.projectiles (GameData.update hd g s)) ∧
    (∀ p ∈ GameData.projectiles s, unresolved g p.handle = true →
      (∀ i e, g.getEntity i = some e → e.handle ≠ p.handle) →
      ({ p with exploded := true } ∈ GameData.projectiles (GameData.update hd g s) ↔
        ¬ (p.trajectory = [] ∨
            ∃ last, p.trajectory.getLast? = some last ∧
              toFloat32 (last.1 + 60) < g.realtime))) := by
  have hmem := update_projectiles_mem hd g s lpl hlocal hframe
  refine ⟨hmem, ?_, ?_, ?_⟩
  · intro p hp hun last hlast
    refine ⟨?_, ?_⟩
    · intro hfl hyoung
      refine (hmem p).mpr ⟨hp, ?_⟩
      rintro ⟨_, h0 | ⟨last2, hl2, hlt⟩⟩
      · rw [h0] at hlast; simp at hlast
      · rw [hlast] at hl2
        cases hl2
        have hm := toFloat32_mono g.realtime (last.1 + 60) (by linarith)
        rw [hfl] at hm
        linarith
    · intro k hk hk2 hold hin
      have he := (toFloat32_error (last.1 + 60) k hk hk2).2
      exact ((hmem p).mp hin).2 ⟨hun, Or.inr ⟨last, hlast, by linarith⟩⟩
  · intro p hp hun h0 hin
    exact ((hmem p).mp hin).2 ⟨hun, Or.inl h0⟩
  · intro p hp hun hne
    exact update_exploded_mem hd g s lpl hlocal hframe p hp hun hne

theorem demo_no_entity_with_handle (h : Int) (h1 : h ≠ 100) (h2 : h ≠ 200) (h3 : h ≠ 300) :
    ∀ i e, Demo.game.getEntity i = some e → e.handle ≠ h := by
  intro i e he
  simp only [Demo.game] at he
  split_ifs at he <;> simp only [Option.some.injEq, reduceCtorEq] at he
  · subst he; exact fun hc => h1 hc.symm
  · subst he; exact fun hc => h2 hc.symm
  · subst he; exact fun hc => h3 hc.symm

/-- Witness for C5: at realtime 100 the record 500 (last sample at 30) is
removed and the record 810 (last sample at 40.125, so 59.875 old) is kept,
marked exploded. -/
theorem update_prunes_projectiles_witness :
    (Demo.game.localPlayer.isSome = true ∧ Demo.staleState.lastFrame ≠ Demo.game.framecount) ∧
    ({ Demo.projectile 500 [(30, ⟨0, 0, 0⟩)] with exploded := true } ∉
      GameData.projectiles (GameData.update Demo.header Demo.game Demo.staleState)) ∧
    ({ Demo.projectile 810 [(321 / 8, ⟨0, 0, 0⟩)] with exploded := true } ∈
      GameData.projectiles (GameData.update Demo.header Demo.game Demo.staleState)) :=
  ⟨⟨rfl, by decide⟩,
    fun hin =>
      ((update_prunes_projectiles Demo.header Demo.game Demo.staleState Demo.localEntity rfl
          (by decide)).2.2.2 (Demo.projectile 500 [(30, ⟨0, 0, 0⟩)])
          (by simp [GameData.projectiles, Demo.staleState]) (by decide)
          (demo_no_entity_with_handle 500 (by decide) (by decide) (by decide))).mp hin
        (Or.inr ⟨(30, ⟨0, 0, 0⟩), rfl, by decide!⟩),
    ((update_prunes_projectiles Demo.header Demo.game Demo.staleState Demo.localEntity rfl
        (by decide)).2.2.2 (Demo.projectile 810 [(321 / 8, ⟨0, 0, 0⟩)])
        (by simp [GameData.projectiles, Demo.staleState]) (by decide)
        (demo_no_entity_with_handle 810 (by decide) (by decide) (by decide))).mpr
      (by
        rintro (h0 | ⟨last, hl, hlt⟩)
        · simp [Demo.projectile] at h0
        · simp only [Demo.projectile, List.getLast?_singleton, Option.some.injEq] at hl
          subst hl
          exact absurd hlt (by decide!))⟩

/-- Counterexample to C5 as stated: at realtime 100 the record 800 does not
resolve and its last sample, at `40 - 2 ^ (-18)`, is more than 60 old, yet the
rebuild keeps the record (marked exploded): the single-precision sum of the
sample time and 60 is exactly 100, which is not earlier than realtime. -/
theorem update_keeps_projectile_older_than_sixty :
    (Demo.game.localPlayer.isSome = true ∧ Demo.staleState.lastFrame ≠ Demo.game.framecount) ∧
    Demo.projectile 800 [(10485759 / 262144, ⟨0, 0, 0⟩)] ∈ GameData.projectiles Demo.staleState ∧
    (Demo.game.getEntityFromHandle 800).isNone = true ∧
    Demo.game.realtime - 10485759 / 262144 > 60 ∧
    toFloat32 (10485759 / 262144 + 60) = Demo.game.realtime ∧
    { Demo.projectile 800 [(10485759 / 262144, ⟨0, 0, 0⟩)] with exploded := true } ∈
      GameData.projectiles (GameData.update Demo.header Demo.game Demo.staleState) :=
  ⟨⟨rfl, by decide⟩, by simp [GameData.projectiles, Demo.staleState], by decide,
    by norm_num [Demo.game], by decide!,
    (update_exploded_mem Demo.header Demo.game Demo.staleState Demo.localEntity rfl (by decide)
        (Demo.projectile 800 [(10485759 / 262144, ⟨0, 0, 0⟩)])
        (by simp [GameData.projectiles, Demo.staleState]) (by decide)
        (demo_no_entity_with_handle 800 (by decide) (by decide) (by decide))).mpr
      (by
        rintro (h0 | ⟨last, hl, hlt⟩)
        · simp [Demo.projectile] at h0
        · simp only [Demo.projectile, List.getLast?_singleton, Option.some.injEq] at hl
          subst hl
          exact absurd hlt (by decide!))⟩

/-- C6: after a rebuild with a local player present every record of
`players()` has a handle that resolves. The sequence is the one the loop left
(sorted) without the records whose handle does not resolve, with no grace
window: a handle of the snapshot before the call that still resolves keeps a
record, one that does not resolve has none. -/
theorem update_players_resolve (hd : Header) (g : Game) (s : State) (lpl : Entity)
    (hlocal : g.localPlayer = some lpl) (hframe : s.lastFrame ≠ g.framecount) :
    (∀ p ∈ GameData.players (GameData.update hd g s),
      (g.getEntityFromHandle p.handle).isSome = true) ∧
    (∀ p, p ∈ GameData.players (GameData.update hd g s) ↔
      p ∈ playersAfterLoop hd g lpl s ∧ (g.getEntityFromHandle p.handle).isSome = true) ∧
    (∀ p ∈ GameData.players s,
      ((g.getEntityFromHandle p.handle).isSome = true →
        ∃ q ∈ GameData.players (GameData.update hd g s), q.handle = p.handle) ∧
      ((g.getEntityFromHandle p.handle).isNone = true →
        ∀ q ∈ GameData.players (GameData.update hd g s), q.handle ≠ p.handle)) := by
  have hmem : ∀ p, p ∈ GameData.players (GameData.update hd g s) ↔
      p ∈ playersAfterLoop hd g lpl s ∧ (g.getEntityFromHandle p.handle).isSome = true := by
    intro p
    rw [update_players_of_local hd g s lpl hlocal hframe, List.mem_filter,
      (stdSort_perm hd.playerLess _).mem_iff]
    simp [playerGone, unresolved]
  refine ⟨fun p hp => ((hmem p).mp hp).2, hmem, ?_⟩
  intro p hp
  refine ⟨?_, ?_⟩
  · intro hres
    have h1 : p.handle ∈ (playersAfterLoop hd g lpl s).map PlayerData.handle := by
      unfold playersAfterLoop scanEntities
      apply entityLoop_player_handle_mem
      simp only [beginRebuild_playerData]
      exact List.mem_map_of_mem _ hp
    obtain ⟨q, hq, hqh⟩ := List.mem_map.mp h1
    exact ⟨q, (hmem q).mpr ⟨hq, by rw [hqh]; exact hres⟩, hqh⟩
  · intro hun q hq hqh
    have := ((hmem q).mp hq).2
    rw [hqh] at this
    rw [Option.isNone_iff_eq_none] at hun
    rw [hun] at this
    simp at this

/-- Witness for C6: in the demo world handle 400 resolves to nothing and
handle 300 to the other player. -/
theorem update_players_resolve_witness :
    (Demo.game.localPlayer.isSome = true ∧ Demo.state.lastFrame ≠ Demo.game.framecount) ∧
    (∀ q ∈ GameData.players (GameData.update Demo.header Demo.game Demo.state),
      q.handle ≠ 400) ∧
    (∃ q ∈ GameData.players (GameData.update Demo.header Demo.game Demo.state),
      q.handle = 300) :=
  ⟨⟨rfl, by decide⟩,
    ((update_players_resolve Demo.header Demo.game Demo.state Demo.localEntity rfl
        (by decide)).2.2 (Demo.player 400) (by simp [GameData.players, Demo.state])).2 rfl,
    ((update_players_resolve Demo.header Demo.game Demo.state Demo.localEntity rfl
        (by decide)).2.2 (Demo.player 300) (by simp [GameData.players, Demo.state])).1 rfl⟩

/-- C7: `ProjectileData::update` grows the trajectory per position change, not
per call. It appends exactly one sample `(realtime, position)` at the end when
the trajectory is empty or the last sample's position differs from the
entity's position, and otherwise leaves the trajectory as it is; the samples
already stored stay a prefix of the result. -/
theorem projectile_update_trajectory (hd : Header) (g : Game) (lp : LocalPlayerData)
    (p : ProjectileData) (projectile : Entity) :
    (p.trajectory = [] →
      (ProjectileData.update hd g lp p projectile).trajectory =
        [(g.realtime, projectile.getAbsOrigin)]) ∧
    (∀ last, p.trajectory.getLast? = some last → last.2 ≠ projectile.getAbsOrigin →
      (ProjectileData.update hd g lp p projectile).trajectory =
        p.trajectory ++ [(g.realtime, projectile.getAbsOrigin)]) ∧
    (∀ last, p.trajectory.getLast? = some last → last.2 = projectile.getAbsOrigin →
      (ProjectileData.update hd g lp p projectile).trajectory = p.trajectory) ∧
    ((ProjectileData.update hd g lp p projectile).trajectory = p.trajectory ∨
      (ProjectileData.update hd g lp p projectile).trajectory =
        p.trajectory ++ [(g.realtime, projectile.getAbsOrigin)]) ∧
    p.trajectory <+: (ProjectileData.update hd g lp p projectile).trajectory := by
  have h1 : p.trajectory = [] →
      (ProjectileData.update hd g lp p projectile).trajectory =
        [(g.realtime, projectile.getAbsOrigin)] := by
    intro h0
    unfold ProjectileData.update
    simp [h0]
  have h2 : ∀ last, p.trajectory.getLast? = some last → last.2 ≠ projectile.getAbsOrigin →
      (ProjectileData.update hd g lp p projectile).trajectory =
        p.trajectory ++ [(g.realtime, projectile.getAbsOrigin)] := by
    intro last hlast hne
    unfold ProjectileData.update
    simp [hlast, hne]
  have h3 : ∀ last, p.trajectory.getLast? = some last → last.2 = projectile.getAbsOrigin →
      (ProjectileData.update hd g lp p projectile).trajectory = p.trajectory := by
    intro last hlast heq
    unfold ProjectileData.update
    simp [hlast, heq]
  have h4 : (ProjectileData.update hd g lp p projectile).trajectory = p.trajectory ∨
      (ProjectileData.update hd g lp p projectile).trajectory =
        p.trajectory ++ [(g.realtime, projectile.getAbsOrigin)] := by
    cases hl : p.trajectory.getLast? with
    | none =>
      have h0 : p.trajectory = [] := List.getLast?_eq_none_iff.mp hl
      exact Or.inr (by rw [h1 h0, h0]; rfl)
    | some last =>
      by_cases heq : last.2 = projectile.getAbsOrigin
      · exact Or.inl (h3 last hl heq)
      · exact Or.inr (h2 last hl heq)
  refine ⟨h1, h2, h3, h4, ?_⟩
  rcases h4 with h | h
  · rw [h]
  · rw [h]; exact List.prefix_append _ _

/-- Witness for C7: the demo grenade rests at `(1, 2, 3)`. A record last
sampled there keeps its one sample; a record last sampled at the origin gains
the sample `(100, (1, 2, 3))`. -/
theorem projectile_update_trajectory_witness :
    (ProjectileData.update Demo.header Demo.game Demo.localData
        (Demo.projectile 200 [(99, ⟨1, 2, 3⟩)]) Demo.grenade).trajectory = [(99, ⟨1, 2, 3⟩)] ∧
    (ProjectileData.update Demo.header Demo.game Demo.localData
        (Demo.projectile 200 [(99, ⟨0, 0, 0⟩)]) Demo.grenade).trajectory =
      [(99, ⟨0, 0, 0⟩), (100, ⟨1, 2, 3⟩)] :=
  ⟨(projectile_update_trajectory Demo.header Demo.game Demo.localData
      (Demo.projectile 200 [(99, ⟨1, 2, 3⟩)]) Demo.grenade).2.2.1 (99, ⟨1, 2, 3⟩) rfl rfl,
   (projectile_update_trajectory Demo.header Demo.game Demo.localData
      (Demo.projectile 200 [(99, ⟨0, 0, 0⟩)]) Demo.grenade).2.1 (99, ⟨0, 0, 0⟩) rfl
      (by simp [Demo.grenade])⟩

/-- C8: a `BoundingBox` is valid exactly when all 8 of its scaled, optionally
transformed corners project. The constructor hands 8 points to
`worldToScreen`; the box converts to true if and only if every one of them
projects, and to false if and only if one of them does not. -/
theorem boundingBox_valid_iff_all_corners_project (worldToScreen : Vector → Option ImVec2)
    (mins maxs : Vector) (scale : ℚ × ℚ × ℚ) (matrix : Option matrix3x4) :
    (boxCorners mins maxs scale matrix).length = 8 ∧
    ((BoundingBox.make worldToScreen mins maxs scale matrix).valid = true ↔
      ∀ c ∈ boxCorners mins maxs scale matrix, (worldToScreen c).isSome = true) ∧
    ((BoundingBox.make worldToScreen mins maxs scale matrix).valid = false ↔
      ∃ c ∈ boxCorners mins maxs scale matrix, worldToScreen c = none) := by
  refine ⟨by simp [boxCorners], make_valid_iff worldToScreen mins maxs scale matrix, ?_⟩
  rw [← Bool.not_eq_true, make_valid_iff]
  simp

/-- C9: for every valid `BoundingBox` the 8 vertices are the projections of
the 8 corners in order, every vertex lies in the envelope `[min, max]`, and
`min.x <= max.x`, `min.y <= max.y`. When the vertex coordinates are finite
floats (within `±FLT_MAX`, the values `min` and `max` start from), each of
`min.x`, `min.y`, `max.x`, `max.y` is attained by a vertex, so `min` and `max`
are exactly the component-wise minimum and maximum of the vertices. -/
theorem boundingBox_envelope_of_valid (worldToScreen : Vector → Option ImVec2)
    (mins maxs : Vector) (scale : ℚ × ℚ × ℚ) (matrix : Option matrix3x4)
    (hvalid : (BoundingBox.make worldToScreen mins maxs scale matrix).valid = true) :
    (BoundingBox.make worldToScreen mins maxs scale matrix).vertices.map some =
      (boxCorners mins maxs scale matrix).map worldToScreen ∧
    (∀ v ∈ (BoundingBox.make worldToScreen mins maxs scale matrix).vertices,
      ((BoundingBox.make worldToScreen mins maxs scale matrix).min.x ≤ v.x ∧
        v.x ≤ (BoundingBox.make worldToScreen mins maxs scale matrix).max.x) ∧
      ((BoundingBox.make worldToScreen mins maxs scale matrix).min.y ≤ v.y ∧
        v.y ≤ (BoundingBox.make worldToScreen mins maxs scale matrix).max.y)) ∧
    ((BoundingBox.make worldToScreen mins maxs scale matrix).min.x ≤
        (BoundingBox.make worldToScreen mins maxs scale matrix).max.x ∧
      (BoundingBox.make worldToScreen mins maxs scale matrix).min.y ≤
        (BoundingBox.make worldToScreen mins maxs scale matrix).max.y) ∧
    ((∀ v ∈ (BoundingBox.make worldToScreen mins maxs scale matrix).vertices,
        (-FLT_MAX ≤ v.x ∧ v.x ≤ FLT_MAX) ∧ (-FLT_MAX ≤ v.y ∧ v.y ≤ FLT_MAX)) →
     (∃ v ∈ (BoundingBox.make worldToScreen mins maxs scale matrix).vertices,
        v.x = (BoundingBox.make worldToScreen mins maxs scale matrix).min.x) ∧
     (∃ v ∈ (BoundingBox.make worldToScreen mins maxs scale matrix).vertices,
        v.y = (BoundingBox.make worldToScreen mins maxs scale matrix).min.y) ∧
     (∃ v ∈ (BoundingBox.make worldToScreen mins maxs scale matrix).vertices,
        v.x = (BoundingBox.make worldToScreen mins maxs scale matrix).max.x) ∧
     (∃ v ∈ (BoundingBox.make worldToScreen mins maxs scale matrix).vertices,
        v.y = (BoundingBox.make worldToScreen mins maxs scale matrix).max.y)) := by
  obtain ⟨vs, hvs, heq⟩ := loop_closed_form worldToScreen matrix _ _ _ _ hvalid
  have hlen : vs.length = 8 := by
    have := congrArg List.length hvs
    simpa using this.symm
  have hverts : (BoundingBox.make worldToScreen mins maxs scale matrix).vertices = vs := by
    unfold BoundingBox.make
    rw [heq]
    match vs, hlen with
    | [a, b, c, d, e, f, g, h], _ => simp [BoundingBox.start, List.range, List.range.loop]
  have hne : vs ≠ [] := by
    intro h0; rw [h0] at hlen; simp at hlen
  obtain ⟨v0, hv0⟩ := List.exists_mem_of_ne_nil vs hne
  have hminx : (BoundingBox.make worldToScreen mins maxs scale matrix).min.x =
      (vs.map ImVec2.x).foldl stdMin FLT_MAX := by
    unfold BoundingBox.make; rw [heq]; rfl
  have hminy : (BoundingBox.make worldToScreen mins maxs scale matrix).min.y =
      (vs.map ImVec2.y).foldl stdMin FLT_MAX := by
    unfold BoundingBox.make; rw [heq]; rfl
  have hmaxx : (BoundingBox.make worldToScreen mins maxs scale matrix).max.x =
      (vs.map ImVec2.x).foldl stdMax (-FLT_MAX) := by
    unfold BoundingBox.make; rw [heq]; rfl
  have hmaxy : (BoundingBox.make worldToScreen mins maxs scale matrix).max.y =
      (vs.map ImVec2.y).foldl stdMax (-FLT_MAX) := by
    unfold BoundingBox.make; rw [heq]; rfl
  have henv : ∀ v ∈ vs,
      ((vs.map ImVec2.x).foldl stdMin FLT_MAX ≤ v.x ∧
        v.x ≤ (vs.map ImVec2.x).foldl stdMax (-FLT_MAX)) ∧
      ((vs.map ImVec2.y).foldl stdMin FLT_MAX ≤ v.y ∧
        v.y ≤ (vs.map ImVec2.y).foldl stdMax (-FLT_MAX)) := by
    intro v hv
    exact ⟨⟨foldl_stdMin_le_mem _ _ _ (List.mem_map_of_mem _ hv),
        mem_le_foldl_stdMax _ _ _ (List.mem_map_of_mem _ hv)⟩,
      ⟨foldl_stdMin_le_mem _ _ _ (List.mem_map_of_mem _ hv),
        mem_le_foldl_stdMax _ _ _ (List.mem_map_of_mem _ hv)⟩⟩
  rw [hverts, hminx, hminy, hmaxx, hmaxy]
  refine ⟨?_, henv, ?_, ?_⟩
  · rw [← hvs]; simp [boxCorners]
  · exact ⟨(henv v0 hv0).1.1.trans (henv v0 hv0).1.2, (henv v0 hv0).2.1.trans (henv v0 hv0).2.2⟩
  · intro hin
    refine ⟨?_, ?_, ?_, ?_⟩
    · rcases foldl_stdMin_attained (vs.map ImVec2.x) FLT_MAX with h | h
      · exact ⟨v0, hv0, le_antisymm (h.symm ▸ (hin v0 hv0).1.2) ((henv v0 hv0).1.1)⟩
      · obtain ⟨v, hv, hx⟩ := List.mem_map.mp h
        exact ⟨v, hv, hx⟩
    · rcases foldl_stdMin_attained (vs.map ImVec2.y) FLT_MAX with h | h
      · exact ⟨v0, hv0, le_antisymm (h.symm ▸ (hin v0 hv0).2.2) ((henv v0 hv0).2.1)⟩
      · obtain ⟨v, hv, hx⟩ := List.mem_map.mp h
        exact ⟨v, hv, hx⟩
    · rcases foldl_stdMax_attained (vs.map ImVec2.x) (-FLT_MAX) with h | h
      · exact ⟨v0, hv0, le_antisymm ((henv v0 hv0).1.2) (h.symm ▸ (hin v0 hv0).1.1)⟩
      · obtain ⟨v, hv, hx⟩ := List.mem_map.mp h
        exact ⟨v, hv, hx⟩
    · rcases foldl_stdMax_attained (vs.map ImVec2.y) (-FLT_MAX) with h | h
      · exact ⟨v0, hv0, le_antisymm ((henv v0 hv0).2.2) (h.symm ▸ (hin v0 hv0).2.1)⟩
      · obtain ⟨v, hv, hx⟩ := List.mem_map.mp h
        exact ⟨v, hv, hx⟩

/-- Witness for C9: the box `(0,0,0)-(1,2,3)`, doubled along y, under the demo
projection: it is valid, its envelope is ordered, and `min.x` is the x of one
of its vertices. -/
theorem boundingBox_envelope_of_valid_witness :
    (BoundingBox.make Demo.project ⟨0, 0, 0⟩ ⟨1, 2, 3⟩ (1 / 4, 1 / 2, 1 / 4) none).valid = true ∧
    ((BoundingBox.make Demo.project ⟨0, 0, 0⟩ ⟨1, 2, 3⟩ (1 / 4, 1 / 2, 1 / 4) none).min.x ≤
        (BoundingBox.make Demo.project ⟨0, 0, 0⟩ ⟨1, 2, 3⟩ (1 / 4, 1 / 2, 1 / 4) none).max.x ∧
      (BoundingBox.make Demo.project ⟨0, 0, 0⟩ ⟨1, 2, 3⟩ (1 / 4, 1 / 2, 1 / 4) none).min.y ≤
        (BoundingBox.make Demo.project ⟨0, 0, 0⟩ ⟨1, 2, 3⟩ (1 / 4, 1 / 2, 1 / 4) none).max.y) ∧
    (∃ v ∈ (BoundingBox.make Demo.project ⟨0, 0, 0⟩ ⟨1, 2, 3⟩ (1 / 4, 1 / 2, 1 / 4) none).vertices,
      v.x = (BoundingBox.make Demo.project ⟨0, 0, 0⟩ ⟨1, 2, 3⟩ (1 / 4, 1 / 2, 1 / 4) none).min.x) :=
  ⟨demo_box_valid,
    (boundingBox_envelope_of_valid Demo.project ⟨0, 0, 0⟩ ⟨1, 2, 3⟩ (1 / 4, 1 / 2, 1 / 4) none
      demo_box_valid).2.2.1,
    ((boundingBox_envelope_of_valid Demo.project ⟨0, 0, 0⟩ ⟨1, 2, 3⟩ (1 / 4, 1 / 2, 1 / 4) none
      demo_box_valid).2.2.2 demo_box_vertices_finite).1⟩

/-- C10: `BoundingBox` scaling is about the box centre, with 0.25 meaning no
change. On each axis `k` the scaled corners keep the sum `mins + maxs`, their
extent is `4 * scale * (maxs - mins)`; a scale of 0.25 leaves both corners as
they are, and for `mins <= maxs` a scale below 0.25 does not enlarge the extent
(strictly shrinks it when `mins < maxs`) and a scale above 0.25 does not reduce
it (strictly grows it when `mins < maxs`). -/
theorem boundingBox_scaling_about_centre (mins maxs : Vector) (scale : ℚ × ℚ × ℚ) (k : Fin 3) :
    (scaledMins mins maxs scale).axis k + (scaledMaxs mins maxs scale).axis k =
      mins.axis k + maxs.axis k ∧
    (scaledMaxs mins maxs scale).axis k - (scaledMins mins maxs scale).axis k =
      4 * arrayAxis scale k * (maxs.axis k - mins.axis k) ∧
    (arrayAxis scale k = 1 / 4 →
      (scaledMins mins maxs scale).axis k = mins.axis k ∧
        (scaledMaxs mins maxs scale).axis k = maxs.axis k) ∧
    (arrayAxis scale k < 1 / 4 → mins.axis k ≤ maxs.axis k →
      (scaledMaxs mins maxs scale).axis k - (scaledMins mins maxs scale).axis k ≤
        maxs.axis k - mins.axis k) ∧
    (arrayAxis scale k < 1 / 4 → mins.axis k < maxs.axis k →
      (scaledMaxs mins maxs scale).axis k - (scaledMins mins maxs scale).axis k <
        maxs.axis k - mins.axis k) ∧
    (1 / 4 < arrayAxis scale k → mins.axis k ≤ maxs.axis k →
      maxs.axis k - mins.axis k ≤
        (scaledMaxs mins maxs scale).axis k - (scaledMins mins maxs scale).axis k) ∧
    (1 / 4 < arrayAxis scale k → mins.axis k < maxs.axis k →
      maxs.axis k - mins.axis k <
        (scaledMaxs mins maxs scale).axis k - (scaledMins mins maxs scale).axis k) := by
  obtain ⟨hlo, hhi⟩ := scaled_axis mins maxs scale k
  rw [hlo, hhi]
  generalize mins.axis k = a
  generalize maxs.axis k = b
  generalize arrayAxis scale k = c
  refine ⟨by ring, by ring, ?_, ?_, ?_, ?_, ?_⟩
  · intro h; subst h; constructor <;> ring
  · intro hc hab; nlinarith
  · intro hc hab; nlinarith
  · intro hc hab; nlinarith
  · intro hc hab; nlinarith

/-- Witness for C10: the cube `(0,0,0)-(8,8,8)` with scales 1/8, 1/4, 1/2:
the x extent shrinks below 8, the y corners stay, the z extent grows above 8. -/
theorem boundingBox_scaling_about_centre_witness :
    ((scaledMaxs ⟨0, 0, 0⟩ ⟨8, 8, 8⟩ (1 / 8, 1 / 4, 1 / 2)).x -
        (scaledMins ⟨0, 0, 0⟩ ⟨8, 8, 8⟩ (1 / 8, 1 / 4, 1 / 2)).x < 8 - 0) ∧
    ((scaledMins ⟨0, 0, 0⟩ ⟨8, 8, 8⟩ (1 / 8, 1 / 4, 1 / 2)).y = 0 ∧
      (scaledMaxs ⟨0, 0, 0⟩ ⟨8, 8, 8⟩ (1 / 8, 1 / 4, 1 / 2)).y = 8) ∧
    (8 - 0 < (scaledMaxs ⟨0, 0, 0⟩ ⟨8, 8, 8⟩ (1 / 8, 1 / 4, 1 / 2)).z -
        (scaledMins ⟨0, 0, 0⟩ ⟨8, 8, 8⟩ (1 / 8, 1 / 4, 1 / 2)).z) :=
  ⟨(boundingBox_scaling_about_centre ⟨0, 0, 0⟩ ⟨8, 8, 8⟩ (1 / 8, 1 / 4, 1 / 2) 0).2.2.2.2.1
      (by norm_num [arrayAxis]) (by norm_num [Vector.axis]),
   (boundingBox_scaling_about_centre ⟨0, 0, 0⟩ ⟨8, 8, 8⟩ (1 / 8, 1 / 4, 1 / 2) 1).2.2.1 rfl,
   (boundingBox_scaling_about_centre ⟨0, 0, 0⟩ ⟨8, 8, 8⟩ (1 / 8, 1 / 4, 1 / 2) 2).2.2.2.2.2.2
      (by norm_num [arrayAxis]) (by norm_num [Vector.axis])⟩

/-! ## Lemmas and theorems: fade, visibility, order, per-frame sequences -/

/-- The value under the clamp of `fadingAlpha` does not grow with the time since
the last contact: every rounding is monotone. -/
theorem fadeValue_antitone (a b : ℚ) (h : a ≤ b) :
    toFloat32 (1 - toFloat32 (toFloat32 (toFloat32 b - 1 / 4) / (3 / 2))) ≤
      toFloat32 (1 - toFloat32 (toFloat32 (toFloat32 a - 1 / 4) / (3 / 2))) := by
  have h1 := toFloat32_mono a b h
  have h2 := toFloat32_mono (toFloat32 a - 1 / 4) (toFloat32 b - 1 / 4) (by linarith)
  have h3 := toFloat32_mono (toFloat32 (toFloat32 a - 1 / 4) / (3 / 2))
    (toFloat32 (toFloat32 b - 1 / 4) / (3 / 2))
    (div_le_div_of_nonneg_right h2 (by norm_num))
  exact toFloat32_mono _ _ (by linarith)

theorem fadeValue_hold (a : ℚ) (h : a ≤ 1 / 4) :
    1 ≤ toFloat32 (1 - toFloat32 (toFloat32 (toFloat32 a - 1 / 4) / (3 / 2))) := by
  have h1 := fadeValue_antitone a (1 / 4) h
  have h2 : toFloat32 (1 - toFloat32 (toFloat32 (toFloat32 (1 / 4) - 1 / 4) / (3 / 2))) = 1 := by
    decide!
  rwa [h2] at h1

theorem fadeValue_end (a : ℚ) (h : 7 / 4 ≤ a) :
    toFloat32 (1 - toFloat32 (toFloat32 (toFloat32 a - 1 / 4) / (3 / 2))) ≤ 0 := by
  have h1 := fadeValue_antitone (7 / 4) a h
  have h2 : toFloat32 (1 - toFloat32 (toFloat32 (toFloat32 (7 / 4) - 1 / 4) / (3 / 2))) = 0 := by
    decide!
  rwa [h2] at h1

/-- C15: `PlayerData::fadingAlpha` as a function of realtime for a fixed
`lastContactTime`: it is 1 at `realtime = lastContactTime` and throughout the
hold (indeed for every realtime up to `lastContactTime + 0.25`), it is exactly
0 for every realtime from `lastContactTime + 1.75` on, and it always lies in
`[0, 1]`. -/
theorem fadingAlpha_hold_and_end (g : Game) (p : PlayerData) :
    (g.realtime = p.lastContactTime → PlayerData.fadingAlpha g p = 1) ∧
    (p.lastContactTime ≤ g.realtime → g.realtime ≤ p.lastContactTime + 1 / 4 →
      PlayerData.fadingAlpha g p = 1) ∧
    (g.realtime ≤ p.lastContactTime + 1 / 4 → PlayerData.fadingAlpha g p = 1) ∧
    (p.lastContactTime + 7 / 4 ≤ g.realtime → PlayerData.fadingAlpha g p = 0) ∧
    (0 ≤ PlayerData.fadingAlpha g p ∧ PlayerData.fadingAlpha g p ≤ 1) := by
  have hhold : g.realtime ≤ p.lastContactTime + 1 / 4 → PlayerData.fadingAlpha g p = 1 := by
    intro h
    have hv := fadeValue_hold (g.realtime - p.lastContactTime) (by linarith)
    unfold PlayerData.fadingAlpha stdClamp
    rw [if_neg (by linarith)]
    split_ifs with h2
    · rfl
    · linarith
  refine ⟨fun h => hhold (by linarith), fun _ h => hhold h, hhold, ?_, ?_⟩
  · intro h
    have hv := fadeValue_end (g.realtime - p.lastContactTime) (by linarith)
    unfold PlayerData.fadingAlpha stdClamp
    split_ifs with h1 h2
    · rfl
    · linarith
    · linarith
  · exact stdClamp_bounds _ 0 1 (by norm_num)

/-- Witness for C15: a player last contacted at time 99, seen from the demo
world at realtime 100 and from the same world at realtime 101. -/
theorem fadingAlpha_hold_and_end_witness :
    PlayerData.fadingAlpha { Demo.game with realtime := 99 }
        { Demo.player 300 with lastContactTime := 99 } = 1 ∧
    PlayerData.fadingAlpha { Demo.game with realtime := 101 }
        { Demo.player 300 with lastContactTime := 99 } = 0 :=
  ⟨(fadingAlpha_hold_and_end { Demo.game with realtime := 99 }
      { Demo.player 300 with lastContactTime := 99 }).1 rfl,
   (fadingAlpha_hold_and_end { Demo.game with realtime := 101 }
      { Demo.player 300 with lastContactTime := 99 }).2.2.2.1
      (by norm_num [Demo.player])⟩

theorem playerUpdateWeapon_visible (g : Game) (p : PlayerData) (e : Entity) :
    (PlayerData.updateWeapon g p e).visible = p.visible := by
  unfold PlayerData.updateWeapon
  dsimp only
  repeat' split
  all_goals rfl

theorem playerUpdateSkeleton_visible (g : Game) (p : PlayerData) (e : Entity) :
    (PlayerData.updateSkeleton g p e).visible = p.visible := by
  unfold PlayerData.updateSkeleton
  dsimp only
  repeat' split
  all_goals rfl

theorem playerUpdateResource_visible (g : Game) (p : PlayerData) (idx : Int) :
    (PlayerData.updateResource g p idx).visible = p.visible := by
  unfold PlayerData.updateResource
  split <;> rfl

theorem playerUpdateDormant_visible (g : Game) (p : PlayerData) (idx : Int) :
    (PlayerData.updateDormant g p idx).visible = p.visible := by
  unfold PlayerData.updateDormant
  split <;> rfl

theorem playerUpdateVisibility_visible (g : Game) (t : ℚ) (q : PlayerData) (e : Entity) :
    (PlayerData.updateVisibility g t q e).visible =
      match g.localPlayer with
      | none => q.visible
      | some lpl =>
        if !q.inViewFrustum || !q.alive then false
        else if shouldUpdatePlayerVisibility g t then e.visibleTo lpl.addr
        else q.visible := by
  unfold PlayerData.updateVisibility
  cases g.localPlayer with
  | none => rfl
  | some lpl =>
    dsimp only
    split_ifs <;> rfl

theorem playerUpdateVisibility_frustum_alive (g : Game) (t : ℚ) (q : PlayerData) (e : Entity) :
    (PlayerData.updateVisibility g t q e).inViewFrustum = q.inViewFrustum ∧
      (PlayerData.updateVisibility g t q e).alive = q.alive := by
  unfold PlayerData.updateVisibility
  cases g.localPlayer with
  | none => exact ⟨rfl, rfl⟩
  | some lpl =>
    dsimp only
    split_ifs <;> exact ⟨rfl, rfl⟩

theorem playerUpdateWeapon_frustum_alive (g : Game) (p : PlayerData) (e : Entity) :
    (PlayerData.updateWeapon g p e).inViewFrustum = p.inViewFrustum ∧
      (PlayerData.updateWeapon g p e).alive = p.alive := by
  unfold PlayerData.updateWeapon
  dsimp only
  repeat' split
  all_goals exact ⟨rfl, rfl⟩

theorem playerUpdateSkeleton_frustum_alive (g : Game) (p : PlayerData) (e : Entity) :
    (PlayerData.updateSkeleton g p e).inViewFrustum = p.inViewFrustum ∧
      (PlayerData.updateSkeleton g p e).alive = p.alive := by
  unfold PlayerData.updateSkeleton
  dsimp only
  repeat' split
  all_goals exact ⟨rfl, rfl⟩

/-- The value of `visible` after `PlayerData::update`, in every case. -/
theorem playerUpdate_visible (hd : Header) (g : Game) (lp : LocalPlayerData) (t : ℚ)
    (p : PlayerData) (e : Entity) :
    (PlayerData.update hd g lp t p e).visible =
      if e.isDormant then p.visible
      else match g.localPlayer with
        | none => p.visible
        | some lpl =>
          if !PlayerData.frustumTest hd g lp e || !e.isAlive then false
          else if shouldUpdatePlayerVisibility g t then e.visibleTo lpl.addr
          else p.visible := by
  unfold PlayerData.update
  dsimp only
  split
  · rw [playerUpdateDormant_visible, playerUpdateResource_visible]
  · rw [playerUpdateSkeleton_visible, playerUpdateWeapon_visible]
    dsimp only
    rw [playerUpdateVisibility_visible]
    dsimp only
    rw [playerUpdateResource_visible]
    rfl

/-- The values of `inViewFrustum` and `alive` after `PlayerData::update` on a
non-dormant entity. -/
theorem playerUpdate_frustum_alive (hd : Header) (g : Game) (lp : LocalPlayerData) (t : ℚ)
    (p : PlayerData) (e : Entity) (hdormant : e.isDormant = false) :
    (PlayerData.update hd g lp t p e).inViewFrustum = PlayerData.frustumTest hd g lp e ∧
      (PlayerData.update hd g lp t p e).alive = e.isAlive := by
  unfold PlayerData.update
  dsimp only
  rw [if_neg (by rw [hdormant]; simp)]
  rw [(playerUpdateSkeleton_frustum_alive ..).1, (playerUpdateSkeleton_frustum_alive ..).2,
    (playerUpdateWeapon_frustum_alive ..).1, (playerUpdateWeapon_frustum_alive ..).2]
  dsimp only
  rw [(playerUpdateVisibility_frustum_alive ..).1, (playerUpdateVisibility_frustum_alive ..).2]
  exact ⟨rfl, rfl⟩

/-- A call that does not reach the visibility test does not depend on what the
test would return. -/
theorem playerUpdate_visibleTo_unused (hd : Header) (g : Game) (lp : LocalPlayerData) (t : ℚ)
    (p : PlayerData) (e : Entity) (f : Nat → Bool)
    (h : PlayerData.reachesVisibleTo hd g lp t e = false) :
    PlayerData.update hd g lp t p { e with visibleTo := f } =
      PlayerData.update hd g lp t p e := by
  unfold PlayerData.reachesVisibleTo PlayerData.frustumTest at h
  unfold PlayerData.update
  dsimp only
  by_cases hd1 : e.isDormant = true
  · rw [if_pos hd1, if_pos hd1]
  · rw [if_neg hd1, if_neg hd1]
    have hvis : ∀ q : PlayerData,
        q.inViewFrustum = (!g.cullBox ((BaseData.make hd g lp e).obbMins.add e.getAbsOrigin)
          ((BaseData.make hd g lp e).obbMaxs.add e.getAbsOrigin)) →
        q.alive = e.isAlive →
        PlayerData.updateVisibility g t q { e with visibleTo := f } =
          PlayerData.updateVisibility g t q e := by
      intro q hq1 hq2
      unfold PlayerData.updateVisibility
      dsimp only
      cases hl : g.localPlayer with
      | none => rfl
      | some lpl =>
        dsimp only
        rw [hq1, hq2]
        by_cases hfa : (!(!g.cullBox ((BaseData.make hd g lp e).obbMins.add e.getAbsOrigin)
            ((BaseData.make hd g lp e).obbMaxs.add e.getAbsOrigin)) || !e.isAlive) = true
        · rw [if_pos hfa, if_pos hfa]
        · rw [if_neg hfa, if_neg hfa]
          have hgate : shouldUpdatePlayerVisibility g t = false := by
            simp only [Bool.not_eq_true] at hd1
            simp only [Bool.or_eq_true, Bool.not_eq_true', not_or, Bool.not_eq_false] at hfa
            simp only [hd1, hl, Option.isSome_some, hfa.1, hfa.2, Bool.not_false, Bool.and_self,
              Bool.true_and, Bool.not_true, Bool.not_eq_true'] at h
            simpa using h
          rw [hgate]
          rfl
    rw [hvis _ rfl rfl]
    rfl

/-- C17: `PlayerData::update` for a non-dormant player with a local player
present. If the player is not alive or is outside the view frustum, `visible`
becomes false; otherwise, if the gate has elapsed
(`nextPlayerVisibilityUpdateTime <= realtime`), `visible` becomes the result
of the visibility test against the local player; otherwise `visible` keeps its
previous value. The call reaches the test in exactly that one case, and in
every other case, dormant players and calls without a local player included,
the updated record does not depend on what the test would return. -/
theorem playerUpdate_visibility_cases (hd : Header) (g : Game) (lp : LocalPlayerData)
    (gateTime : ℚ) (p : PlayerData) (e lpl : Entity)
    (hdormant : e.isDormant = false) (hlocal : g.localPlayer = some lpl) :
    ((e.isAlive = false ∨ PlayerData.frustumTest hd g lp e = false) →
      (PlayerData.update hd g lp gateTime p e).visible = false) ∧
    (e.isAlive = true → PlayerData.frustumTest hd g lp e = true →
      gateTime ≤ g.realtime →
      (PlayerData.update hd g lp gateTime p e).visible = e.visibleTo lpl.addr) ∧
    (e.isAlive = true → PlayerData.frustumTest hd g lp e = true →
      g.realtime < gateTime →
      (PlayerData.update hd g lp gateTime p e).visible = p.visible) ∧
    ((PlayerData.update hd g lp gateTime p e).inViewFrustum = PlayerData.frustumTest hd g lp e ∧
      (PlayerData.update hd g lp gateTime p e).alive = e.isAlive) ∧
    (PlayerData.reachesVisibleTo hd g lp gateTime e = true ↔
      e.isAlive = true ∧ PlayerData.frustumTest hd g lp e = true ∧ gateTime ≤ g.realtime) ∧
    (∀ (e2 : Entity) (q : PlayerData) (f : Nat → Bool),
      PlayerData.reachesVisibleTo hd g lp gateTime e2 = false →
      PlayerData.update hd g lp gateTime q { e2 with visibleTo := f } =
        PlayerData.update hd g lp gateTime q e2) := by
  have hvis := playerUpdate_visible hd g lp gateTime p e
  rw [hdormant] at hvis
  simp only [Bool.false_eq_true, if_false, hlocal] at hvis
  refine ⟨?_, ?_, ?_, ?_, ?_, ?_⟩
  · rintro (h | h)
    · rw [hvis, h]; simp
    · rw [hvis, h]; simp
  · intro ha hf hg
    rw [hvis, ha, hf]
    simp [shouldUpdatePlayerVisibility, hg]
  · intro ha hf hg
    rw [hvis, ha, hf]
    simp [shouldUpdatePlayerVisibility, not_le.mpr hg]
  · exact playerUpdate_frustum_alive hd g lp gateTime p e hdormant
  · unfold PlayerData.reachesVisibleTo shouldUpdatePlayerVisibility
    rw [hdormant, hlocal]
    simp only [Bool.not_false, Option.isSome_some, Bool.and_self, Bool.true_and,
      Bool.and_eq_true, decide_eq_true_eq]
    tauto
  · intro e2 q f h
    exact playerUpdate_visibleTo_unused hd g lp gateTime q e2 f h

/-- Witness for C17: the other player of the demo world, alive and in the
frustum, with a test that succeeds and an open gate (gate time 0 at realtime
100): `visible` turns from false to true. -/
theorem playerUpdate_visibility_cases_witness :
    (Demo.player 300).visible = false ∧
    (PlayerData.update Demo.header Demo.game Demo.localData 0 (Demo.player 300)
      { Demo.enemy with visibleTo := fun _ => true }).visible = true :=
  ⟨rfl,
    (playerUpdate_visibility_cases Demo.header Demo.game Demo.localData 0 (Demo.player 300)
      { Demo.enemy with visibleTo := fun _ => true } Demo.localEntity rfl rfl).2.1 rfl rfl
      (by norm_num [Demo.game])⟩

theorem upsertPlayer_gate (hd : Header) (g : Game) (s : State) (e : Entity) :
    (upsertPlayer hd g s e).nextPlayerVisibilityUpdateTime = s.nextPlayerVisibilityUpdateTime := by
  unfold upsertPlayer
  split <;> rfl

theorem addObserver_gate (g : Game) (s : State) (e : Entity) :
    (addObserver g s e).nextPlayerVisibilityUpdateTime = s.nextPlayerVisibilityUpdateTime := by
  unfold addObserver
  repeat' split
  all_goals rfl

theorem classSwitch_gate (hd : Header) (g : Game) (s : State) (e : Entity) :
    (classSwitch hd g s e).nextPlayerVisibilityUpdateTime = s.nextPlayerVisibilityUpdateTime := by
  unfold classSwitch markExploded upsertProjectile
  repeat' split
  all_goals rfl

/-- One entity of the loop leaves the gate time as it is. -/
theorem processEntity_gate (hd : Header) (g : Game) (lpl : Entity) (ot : Option EntityRef)
    (s : State) (e : Entity) :
    (processEntity hd g lpl ot s e).nextPlayerVisibilityUpdateTime =
      s.nextPlayerVisibilityUpdateTime := by
  unfold processEntity smokeBlock fogBlock
  repeat' split
  all_goals first
    | rfl
    | exact (addObserver_gate ..).trans (upsertPlayer_gate ..)
    | exact classSwitch_gate ..

theorem entityLoop_gate (hd : Header) (g : Game) (lpl : Entity) (ot : Option EntityRef)
    (s : State) :
    (entityLoop hd g lpl ot s).nextPlayerVisibilityUpdateTime =
      s.nextPlayerVisibilityUpdateTime := by
  refine entityLoop_invariant
    (fun t => t.nextPlayerVisibilityUpdateTime = s.nextPlayerVisibilityUpdateTime)
    hd g lpl ot ?_ s rfl
  intro t _ e _ hP
  exact (processEntity_gate ..).trans hP

theorem beginRebuild_gate (g : Game) (s : State) :
    (beginRebuild g s).nextPlayerVisibilityUpdateTime = s.nextPlayerVisibilityUpdateTime := by
  unfold beginRebuild initSkillgroupNames
  dsimp only
  split <;> rfl

/-- The gate time when the entity loop of a rebuild ends is the gate time
the call started with. -/
theorem scanEntities_gate (hd : Header) (g : Game) (lpl : Entity) (s : State) :
    (scanEntities hd g lpl (beginRebuild g s)).nextPlayerVisibilityUpdateTime =
      s.nextPlayerVisibilityUpdateTime := by
  unfold scanEntities
  rw [entityLoop_gate]
  exact beginRebuild_gate g s

theorem playerVisibilityUpdateDelay_eq :
    playerVisibilityUpdateDelay = 13421773 / 134217728 := by
  decide!

theorem finishRebuild_gate (hd : Header) (g : Game) (s : State) :
    (finishRebuild hd g s).nextPlayerVisibilityUpdateTime =
      if shouldUpdatePlayerVisibility g s.nextPlayerVisibilityUpdateTime then
        toFloat32 (g.realtime + playerVisibilityUpdateDelay)
      else s.nextPlayerVisibilityUpdateTime := by
  unfold finishRebuild
  dsimp only
  split <;> rfl

/-- The gate time after a call: moved to the single-precision sum
`realtime + 0.1f` by a rebuild with a local player whose gate is open, otherwise
left as it was. -/
theorem update_gate (hd : Header) (g : Game) (s : State) :
    (GameData.update hd g s).nextPlayerVisibilityUpdateTime =
      if visibilityGateOpen g s then toFloat32 (g.realtime + playerVisibilityUpdateDelay)
      else s.nextPlayerVisibilityUpdateTime := by
  unfold GameData.update visibilityGateOpen
  by_cases hf : s.lastFrame = g.framecount
  · rw [if_pos hf]
    simp [hf]
  · rw [if_neg hf]
    unfold rebuild
    dsimp only
    cases hl : g.localPlayer with
    | none =>
      simp only [Option.isSome_none, Bool.and_false, Bool.false_and, Bool.false_eq_true, if_false]
      exact beginRebuild_gate g s
    | some lpl =>
      dsimp only
      rw [finishRebuild_gate, scanEntities_gate]
      simp [hf]

/-- The rounded sum `realtime + 0.1f` is not below a single-precision realtime. -/
theorem gate_sum_ge (r : ℚ) (hfl : toFloat32 r = r) :
    r ≤ toFloat32 (r + playerVisibilityUpdateDelay) := by
  have hm := toFloat32_mono r (r + playerVisibilityUpdateDelay)
    (by rw [playerVisibilityUpdateDelay_eq]; norm_num)
  rwa [hfl] at hm

/-- The rounded sum `realtime + 0.1f` is within `2 ^ (k - 25)` of
`realtime + 0.1` from below when the sum is below `2 ^ k`. -/
theorem gate_sum_error (r : ℚ) (k : Int) (hk : -125 ≤ k)
    (h : |r + playerVisibilityUpdateDelay| < 2 ^ k) :
    r + 1 / 10 - 2 ^ (k - 25) ≤ toFloat32 (r + playerVisibilityUpdateDelay) := by
  have he := (toFloat32_error (r + playerVisibilityUpdateDelay) k hk h).1
  have hd : (1 : ℚ) / 10 ≤ playerVisibilityUpdateDelay := by
    rw [playerVisibilityUpdateDelay_eq]
    norm_num
  linarith

/-- The gate time never moves back while realtime is a single-precision value. -/
theorem update_gate_mono (hd : Header) (g : Game) (s : State)
    (hfl : toFloat32 g.realtime = g.realtime) :
    s.nextPlayerVisibilityUpdateTime ≤ (GameData.update hd g s).nextPlayerVisibilityUpdateTime := by
  rw [update_gate]
  split
  · rename_i h
    unfold visibilityGateOpen shouldUpdatePlayerVisibility at h
    simp only [Bool.and_eq_true, decide_eq_true_eq] at h
    exact h.2.trans (gate_sum_ge g.realtime hfl)
  · exact le_refl _

theorem updates_gate_mono (hd : Header) (games : List Game) (s : State)
    (hfl : ∀ g ∈ games, toFloat32 g.realtime = g.realtime) :
    s.nextPlayerVisibilityUpdateTime ≤
      (GameData.updates hd games s).nextPlayerVisibilityUpdateTime := by
  induction games generalizing s with
  | nil => exact le_refl _
  | cons g games ih =>
    unfold GameData.updates
    exact (update_gate_mono hd g s (hfl g (List.mem_cons_self _ _))).trans
      (ih _ (fun g2 hg2 => hfl g2 (List.mem_cons_of_mem _ hg2)))

/-- C18, amended: player visibility is gated by the single-precision sum
`realtime + 0.1f`. After a rebuild with a local player, with realtime a
single-precision value, the gate time is at least that rebuild's realtime, and
it is strictly greater while realtime is below `2 ^ 21 - 1`; the gate time is
not written during the entity loop, so every player updated in one rebuild
meets the same gate decision; and of any two calls whose gate is open, the only
calls that can perform a visibility test, the later has a realtime at least
the rounded sum of the earlier realtime and `0.1f`, whatever calls lie between
them: the two are at least `0.1 - 2 ^ (k - 25)` apart when that sum is below
`2 ^ k`. -/
theorem visibility_rate_limit (hd : Header) (g : Game) (s : State) (lpl : Entity)
    (hlocal : g.localPlayer = some lpl) (hframe : s.lastFrame ≠ g.framecount) :
    (toFloat32 g.realtime = g.realtime →
      g.realtime ≤ (GameData.update hd g s).nextPlayerVisibilityUpdateTime) ∧
    (|g.realtime| ≤ 2097151 →
      g.realtime < (GameData.update hd g s).nextPlayerVisibilityUpdateTime) ∧
    (∀ (t : State) (e : Entity) (ot : Option EntityRef),
      (processEntity hd g lpl ot t e).nextPlayerVisibilityUpdateTime =
        t.nextPlayerVisibilityUpdateTime) ∧
    (scanEntities hd g lpl (beginRebuild g s)).nextPlayerVisibilityUpdateTime =
      s.nextPlayerVisibilityUpdateTime ∧
    (∀ (between : List Game) (g2 : Game),
      visibilityGateOpen g s = true →
      (∀ g1 ∈ between, toFloat32 g1.realtime = g1.realtime) →
      visibilityGateOpen g2 (GameData.updates hd between (GameData.update hd g s)) = true →
      toFloat32 (g.realtime + playerVisibilityUpdateDelay) ≤ g2.realtime ∧
      ∀ k : Int, -125 ≤ k → |g.realtime + playerVisibilityUpdateDelay| < 2 ^ k →
        g.realtime + 1 / 10 - 2 ^ (k - 25) ≤ g2.realtime) ∧
    (∀ (g0 : Game) (s0 : State) (e : Entity),
      PlayerData.reachesVisibleTo hd g0 s0.localPlayerData s0.nextPlayerVisibilityUpdateTime e =
        true →
      shouldUpdatePlayerVisibility g0 s0.nextPlayerVisibilityUpdateTime = true) := by
  have hopen : visibilityGateOpen g s = true ∨
      g.realtime < s.nextPlayerVisibilityUpdateTime := by
    unfold visibilityGateOpen shouldUpdatePlayerVisibility
    by_cases hg : s.nextPlayerVisibilityUpdateTime ≤ g.realtime
    · left
      simp [hframe, hlocal, hg]
    · right
      exact not_le.mp hg
  have hclosed : g.realtime < s.nextPlayerVisibilityUpdateTime →
      visibilityGateOpen g s = false := by
    intro h
    unfold visibilityGateOpen shouldUpdatePlayerVisibility
    simp [not_le.mpr h]
  refine ⟨?_, ?_, fun t e ot => processEntity_gate hd g lpl ot t e, scanEntities_gate hd g lpl s,
    ?_, ?_⟩
  · intro hfl
    rw [update_gate]
    rcases hopen with h | h
    · rw [if_pos h]
      exact gate_sum_ge g.realtime hfl
    · rw [hclosed h]
      exact h.le
  · intro hsmall
    rw [update_gate]
    rcases hopen with h | h
    · rw [if_pos h]
      have hb := abs_le.mp hsmall
      have hd : playerVisibilityUpdateDelay = 13421773 / 134217728 :=
        playerVisibilityUpdateDelay_eq
      have he := gate_sum_error g.realtime 21 (by norm_num) (by
        rw [abs_lt, hd]
        constructor <;> norm_num <;> linarith)
      have hp : (2 : ℚ) ^ ((21 : Int) - 25) = 1 / 16 := by norm_num
      rw [hp] at he
      linarith
    · rw [hclosed h]
      exact h
  · intro between g2 h1 hfl h2
    have hafter : (GameData.update hd g s).nextPlayerVisibilityUpdateTime =
        toFloat32 (g.realtime + playerVisibilityUpdateDelay) := by
      rw [update_gate, if_pos h1]
    have hmono := updates_gate_mono hd between (GameData.update hd g s) hfl
    unfold visibilityGateOpen shouldUpdatePlayerVisibility at h2
    simp only [Bool.and_eq_true, decide_eq_true_eq] at h2
    have hle : toFloat32 (g.realtime + playerVisibilityUpdateDelay) ≤ g2.realtime := by
      rw [← hafter]
      exact hmono.trans h2.2
    refine ⟨hle, ?_⟩
    intro k hk hk2
    exact (gate_sum_error g.realtime k hk hk2).trans hle
  · intro g0 s0 e h
    unfold PlayerData.reachesVisibleTo at h
    simp only [Bool.and_eq_true] at h
    exact h.2

/-- Witness for C18: the demo snapshot (gate time 0) rebuilt at realtime 100. -/
theorem visibility_rate_limit_witness :
    (Demo.game.localPlayer.isSome = true ∧ Demo.state.lastFrame ≠ Demo.game.framecount) ∧
    (toFloat32 Demo.game.realtime = Demo.game.realtime ∧ |Demo.game.realtime| ≤ 2097151) ∧
    Demo.game.realtime ≤
      (GameData.update Demo.header Demo.game Demo.state).nextPlayerVisibilityUpdateTime ∧
    Demo.game.realtime <
      (GameData.update Demo.header Demo.game Demo.state).nextPlayerVisibilityUpdateTime :=
  ⟨⟨rfl, by decide⟩, ⟨by decide!, by decide!⟩,
    (visibility_rate_limit Demo.header Demo.game Demo.state Demo.localEntity rfl (by decide)).1
      (by decide!),
    (visibility_rate_limit Demo.header Demo.game Demo.state Demo.localEntity rfl (by decide)).2.1
      (by decide!)⟩

/-- Counterexample to C18 as stated: rebuilt at realtime `2 ^ 21` with the gate
open, the demo snapshot gets a gate time equal to that realtime, not strictly
greater; and rebuilt at realtime 100 it gets the gate time `13120307 / 131072`,
so that the rebuild of the next frame at that realtime, less than 0.1 after the
first, has its gate open again. -/
theorem visibility_gate_rounds_down :
    (Demo.lateGame.localPlayer.isSome = true ∧
      Demo.state.lastFrame ≠ Demo.lateGame.framecount) ∧
    visibilityGateOpen Demo.lateGame Demo.state = true ∧
    (GameData.update Demo.header Demo.lateGame Demo.state).nextPlayerVisibilityUpdateTime =
      Demo.lateGame.realtime ∧
    visibilityGateOpen Demo.game Demo.state = true ∧
    (GameData.update Demo.header Demo.game Demo.state).nextPlayerVisibilityUpdateTime =
      13120307 / 131072 ∧
    visibilityGateOpen Demo.soonGame (GameData.update Demo.header Demo.game Demo.state) = true ∧
    Demo.game.realtime ≤ Demo.soonGame.realtime ∧
    Demo.soonGame.realtime - Demo.game.realtime < 1 / 10 := by
  have h1 : visibilityGateOpen Demo.lateGame Demo.state = true := by decide!
  have h2 : visibilityGateOpen Demo.game Demo.state = true := by decide!
  have hg : (GameData.update Demo.header Demo.game Demo.state).nextPlayerVisibilityUpdateTime =
      13120307 / 131072 := by
    rw [update_gate, if_pos h2]
    decide!
  refine ⟨⟨rfl, by decide⟩, h1, ?_, h2, hg, ?_, by decide!, by decide!⟩
  · rw [update_gate, if_pos h1]
    decide!
  · unfold visibilityGateOpen shouldUpdatePlayerVisibility
    rw [hg, update_lastFrame]
    decide!

/-- With a strict weak ordering `std::sort` returns a non-decreasing sequence. -/
theorem stdSort_nonDecreasing {α : Type} (less : α → α → Bool) (h : StrictWeakOrder less)
    (l : List α) : NonDecreasing less (stdSort less l) := by
  unfold NonDecreasing stdSort
  have hs := @List.sorted_mergeSort α (fun a b => !less b a)
    (fun a b c hab hbc => by
      simp only [Bool.not_eq_true'] at hab hbc ⊢
      exact h.2 a b c hab hbc)
    (fun a b => by
      cases hab : less a b with
      | false => simp [hab]
      | true => simp [h.1 a b hab])
    l
  refine hs.imp ?_
  intro a b hab
  simpa using hab

theorem nonDecreasing_filter {α : Type} (less : α → α → Bool) (keep : α → Bool) (l : List α)
    (h : NonDecreasing less l) : NonDecreasing less (l.filter keep) :=
  List.Pairwise.sublist (List.filter_sublist l) h

theorem finishRebuild_perFrame (hd : Header) (g : Game) (s : State) :
    (finishRebuild hd g s).weaponData = stdSort hd.weaponLess s.weaponData ∧
    (finishRebuild hd g s).entityData = stdSort hd.entityLess s.entityData ∧
    (finishRebuild hd g s).lootCrateData = stdSort hd.lootCrateLess s.lootCrateData ∧
    (finishRebuild hd g s).observerData = s.observerData ∧
    (finishRebuild hd g s).infernoData = s.infernoData ∧
    (finishRebuild hd g s).smokeData = s.smokeData := by
  unfold finishRebuild
  dsimp only
  split <;> exact ⟨rfl, rfl, rfl, rfl, rfl, rfl⟩

/-- C19: after a rebuild with a local player present each of `players()`,
`weapons()`, `entities()` and `lootCrates()` is in non-decreasing order of its
record type's `operator<` (no record is less than one before it, so in
particular none is less than its predecessor), given that each `operator<` is
a strict weak ordering, as `std::sort` requires. The removal of unresolved
players after the sort keeps the order. -/
theorem update_sequences_sorted (hd : Header) (g : Game) (s : State) (lpl : Entity)
    (hlocal : g.localPlayer = some lpl) (hframe : s.lastFrame ≠ g.framecount)
    (hplayer : StrictWeakOrder hd.playerLess) (hweapon : StrictWeakOrder hd.weaponLess)
    (hentity : StrictWeakOrder hd.entityLess) (hloot : StrictWeakOrder hd.lootCrateLess) :
    NonDecreasing hd.playerLess (GameData.players (GameData.update hd g s)) ∧
    NonDecreasing hd.weaponLess (GameData.update hd g s).weaponData ∧
    NonDecreasing hd.entityLess (GameData.update hd g s).entityData ∧
    NonDecreasing hd.lootCrateLess (GameData.update hd g s).lootCrateData := by
  refine ⟨?_, ?_, ?_, ?_⟩
  · rw [update_players_of_local hd g s lpl hlocal hframe]
    exact nonDecreasing_filter _ _ _ (stdSort_nonDecreasing _ hplayer _)
  · unfold GameData.update
    rw [if_neg hframe]
    unfold rebuild
    simp only [hlocal]
    rw [(finishRebuild_perFrame hd g _).1]
    exact stdSort_nonDecreasing _ hweapon _
  · unfold GameData.update
    rw [if_neg hframe]
    unfold rebuild
    simp only [hlocal]
    rw [(finishRebuild_perFrame hd g _).2.1]
    exact stdSort_nonDecreasing _ hentity _
  · unfold GameData.update
    rw [if_neg hframe]
    unfold rebuild
    simp only [hlocal]
    rw [(finishRebuild_perFrame hd g _).2.2.1]
    exact stdSort_nonDecreasing _ hloot _

/-- Ordering records by decreasing distance is a strict weak ordering. -/
theorem byDistance_strictWeakOrder {α : Type} (distance : α → ℚ) :
    StrictWeakOrder (fun a b : α => decide (distance a > distance b)) := by
  refine ⟨?_, ?_⟩
  · intro a b h
    simp only [decide_eq_true_eq, decide_eq_false_iff_not, not_lt, gt_iff_lt] at h ⊢
    exact h.le
  · intro a b c hab hbc
    simp only [decide_eq_false_iff_not, not_lt, gt_iff_lt] at hab hbc ⊢
    exact hbc.trans hab

/-- Witness for C19: the busy world rebuilt from the demo snapshot, with the
demo header, which orders every record type by decreasing distance to the local
player. The loop meets the players at the distances 10, 90, 40 and 55, the
weapons at 5 and 70, the chicken at 20 and the hostage at 60, the loot crates
at 15 and 80; each sequence comes out farthest first, and the players 300 and
400 of the snapshot, which do not resolve, are gone. -/
theorem update_sequences_sorted_witness :
    (Demo.busyGame.localPlayer.isSome = true ∧
      Demo.state.lastFrame ≠ Demo.busyGame.framecount) ∧
    (GameData.players (GameData.update Demo.header Demo.busyGame Demo.state)).map
      (fun p => (p.handle, p.distanceToLocal)) = [(320, 90), (340, 55), (330, 40), (310, 10)] ∧
    (GameData.update Demo.header Demo.busyGame Demo.state).weaponData.map
      (fun w => w.distanceToLocal) = [70, 5] ∧
    (GameData.update Demo.header Demo.busyGame Demo.state).entityData.map
      (fun e => e.distanceToLocal) = [60, 20] ∧
    (GameData.update Demo.header Demo.busyGame Demo.state).lootCrateData.map
      (fun c => c.distanceToLocal) = [80, 15] ∧
    NonDecreasing Demo.header.playerLess
      (GameData.players (GameData.update Demo.header Demo.busyGame Demo.state)) ∧
    NonDecreasing Demo.header.weaponLess
      (GameData.update Demo.header Demo.busyGame Demo.state).weaponData ∧
    NonDecreasing Demo.header.entityLess
      (GameData.update Demo.header Demo.busyGame Demo.state).entityData ∧
    NonDecreasing Demo.header.lootCrateLess
      (GameData.update Demo.header Demo.busyGame Demo.state).lootCrateData :=
  ⟨⟨rfl, by decide⟩, by decide!, by decide!, by decide!, by decide!,
    update_sequences_sorted Demo.header Demo.busyGame Demo.state Demo.localEntity rfl (by decide)
      (byDistance_strictWeakOrder _) (byDistance_strictWeakOrder _)
      (byDistance_strictWeakOrder _) (byDistance_strictWeakOrder _)⟩

theorem baseMake_congr (hd : Header) (g : Game) (lp1 lp2 : LocalPlayerData) (e : Entity)
    (h : lp1.origin = lp2.origin) : BaseData.make hd g lp1 e = BaseData.make hd g lp2 e := by
  unfold BaseData.make
  rw [h]

theorem weaponMake_congr (hd : Header) (g : Game) (lp1 lp2 : LocalPlayerData) (e : Entity)
    (h : lp1.origin = lp2.origin) : WeaponData.make hd g lp1 e = WeaponData.make hd g lp2 e := by
  unfold WeaponData.make
  rw [baseMake_congr hd g lp1 lp2 e h]

theorem entityMake_congr (hd : Header) (g : Game) (lp1 lp2 : LocalPlayerData) (e : Entity)
    (h : lp1.origin = lp2.origin) : EntityData.make hd g lp1 e = EntityData.make hd g lp2 e := by
  unfold EntityData.make
  rw [baseMake_congr hd g lp1 lp2 e h]

theorem lootCrateMake_congr (hd : Header) (g : Game) (lp1 lp2 : LocalPlayerData) (e : Entity)
    (h : lp1.origin = lp2.origin) :
    LootCrateData.make hd g lp1 e = LootCrateData.make hd g lp2 e := by
  unfold LootCrateData.make
  rw [baseMake_congr hd g lp1 lp2 e h]

theorem upsertPlayer_frameView (hd : Header) (g : Game) (s : State) (e : Entity) :
    frameView (upsertPlayer hd g s e) = frameView s := by
  unfold upsertPlayer
  split <;> rfl

theorem markExploded_frameView (s : State) (h : Int) :
    frameView (markExploded s h) = frameView s := by
  unfold markExploded
  split <;> rfl

theorem upsertProjectile_frameView (hd : Header) (g : Game) (s : State) (e : Entity) :
    frameView (upsertProjectile hd g s e) = frameView s := by
  unfold upsertProjectile
  split <;> rfl

theorem addObserver_frameView_congr (g : Game) (s t : State) (e : Entity)
    (h : frameView s = frameView t) :
    frameView (addObserver g s e) = frameView (addObserver g t e) := by
  unfold frameView perFrameSequences at h ⊢
  simp only [Prod.mk.injEq] at h
  obtain ⟨⟨h1, h2, h3, h4, h5, h6⟩, h7⟩ := h
  unfold addObserver
  repeat' split
  all_goals simp only [h1, h2, h3, h4, h5, h6, h7]

theorem classSwitch_frameView_congr (hd : Header) (g : Game) (s t : State) (e : Entity)
    (h : frameView s = frameView t) :
    frameView (classSwitch hd g s e) = frameView (classSwitch hd g t e) := by
  have hm := (markExploded_frameView s e.handle).trans (h.trans (markExploded_frameView t e.handle).symm)
  have hu := (upsertProjectile_frameView hd g s e).trans
    (h.trans (upsertProjectile_frameView hd g t e).symm)
  unfold frameView perFrameSequences at h
  simp only [Prod.mk.injEq] at h
  obtain ⟨⟨h1, h2, h3, h4, h5, h6⟩, h7⟩ := h
  unfold classSwitch
  repeat' split
  all_goals first
    | exact hm
    | exact hu
    | (unfold frameView perFrameSequences
       simp only [h1, h2, h3, h4, h5, h6, h7, entityMake_congr hd g _ _ e h7,
         lootCrateMake_congr hd g _ _ e h7])

theorem fogBlock_frameView (g : Game) (s : State) (e : Entity) :
    frameView (fogBlock g s e) = frameView s := by
  unfold fogBlock
  split <;> rfl

theorem smokeBlock_frameView_congr (s t : State) (e : Entity)
    (h : frameView s = frameView t) :
    frameView (smokeBlock s e) = frameView (smokeBlock t e) := by
  unfold frameView perFrameSequences at h ⊢
  simp only [Prod.mk.injEq] at h
  obtain ⟨⟨h1, h2, h3, h4, h5, h6⟩, h7⟩ := h
  unfold smokeBlock
  split <;> simp only [h1, h2, h3, h4, h5, h6, h7]

/-- What one entity adds to the per-frame sequences depends on the state only
through those sequences and the local-player record. -/
theorem processEntity_frameView_congr (hd : Header) (g : Game) (lpl : Entity)
    (ot : Option EntityRef) (s t : State) (e : Entity) (h : frameView s = frameView t) :
    frameView (processEntity hd g lpl ot s e) = frameView (processEntity hd g lpl ot t e) := by
  unfold processEntity
  split
  · split
    · exact h
    · exact addObserver_frameView_congr g _ _ e
        ((upsertPlayer_frameView hd g s e).trans (h.trans (upsertPlayer_frameView hd g t e).symm))
  · split
    · exact h
    · split
      · split
        · unfold frameView perFrameSequences at h ⊢
          simp only [Prod.mk.injEq] at h
          obtain ⟨⟨h1, h2, h3, h4, h5, h6⟩, h7⟩ := h
          simp only [h1, h2, h3, h4, h5, h6, h7, weaponMake_congr hd g _ _ e h7]
        · exact h
      · apply smokeBlock_frameView_congr
        rw [fogBlock_frameView, fogBlock_frameView]
        exact classSwitch_frameView_congr hd g s t e h

theorem entityLoop_frameView_congr (hd : Header) (g : Game) (lpl : Entity)
    (ot : Option EntityRef) (s t : State) (h : frameView s = frameView t) :
    frameView (entityLoop hd g lpl ot s) = frameView (entityLoop hd g lpl ot t) := by
  unfold entityLoop
  generalize entityIndices g = l
  induction l generalizing s t with
  | nil => exact h
  | cons i l ih =>
    simp only [List.foldl_cons]
    apply ih
    split
    · exact processEntity_frameView_congr hd g lpl ot s t _ h
    · exact h

theorem beginRebuild_perFrame (g : Game) (s : State) :
    perFrameSequences (beginRebuild g s) = ([], [], [], [], [], []) := by
  unfold beginRebuild initSkillgroupNames
  dsimp only
  split <;> rfl

/-- With a local player, `LocalPlayerData::update` writes every field the
entity loop reads from the record, the origin; two prior records give the same
origin. -/
theorem localUpdate_origin (g : Game) (lpl : Entity) (hlocal : g.localPlayer = some lpl)
    (d1 d2 : LocalPlayerData) :
    (LocalPlayerData.update g d1).origin = (LocalPlayerData.update g d2).origin := by
  unfold LocalPlayerData.update
  simp only [hlocal]

theorem beginRebuild_frameView (g : Game) (lpl : Entity) (hlocal : g.localPlayer = some lpl)
    (s1 s2 : State) : frameView (beginRebuild g s1) = frameView (beginRebuild g s2) := by
  unfold frameView
  rw [beginRebuild_perFrame, beginRebuild_perFrame, beginRebuild_localPlayerData,
    beginRebuild_localPlayerData, localUpdate_origin g lpl hlocal s1.localPlayerData
      s2.localPlayerData]

theorem scanEntities_frameView (hd : Header) (g : Game) (lpl : Entity)
    (hlocal : g.localPlayer = some lpl) (s1 s2 : State) :
    frameView (scanEntities hd g lpl (beginRebuild g s1)) =
      frameView (scanEntities hd g lpl (beginRebuild g s2)) := by
  unfold scanEntities
  dsimp only
  apply entityLoop_frameView_congr
  exact beginRebuild_frameView g lpl hlocal s1 s2

theorem finishRebuild_perFrame_congr (hd : Header) (g : Game) (s t : State)
    (h : perFrameSequences s = perFrameSequences t) :
    perFrameSequences (finishRebuild hd g s) = perFrameSequences (finishRebuild hd g t) := by
  obtain ⟨a1, a2, a3, a4, a5, a6⟩ := finishRebuild_perFrame hd g s
  obtain ⟨b1, b2, b3, b4, b5, b6⟩ := finishRebuild_perFrame hd g t
  unfold perFrameSequences at h ⊢
  simp only [Prod.mk.injEq] at h
  obtain ⟨h1, h2, h3, h4, h5, h6⟩ := h
  rw [a1, a2, a3, a4, a5, a6, b1, b2, b3, b4, b5, b6, h1, h2, h3, h4, h5, h6]

/-! ## Lemmas: the convex hull as an array and as a stack -/

theorem take_succ_of_getElem? {α : Type} (l : List α) (n : Nat) (a : α) (h : l[n]? = some a) :
    l.take (n + 1) = l.take n ++ [a] := by
  rw [List.take_succ, h]
  rfl

/-- The `while` loop never raises the count, keeps it at least 1 once it is at
least 1, and reads inside the array whenever the count does not exceed the
array's size. -/
theorem hullPop_spec (hull : List ImVec2) (p : ImVec2) (count : Nat)
    (hc : count ≤ hull.length) :
    ∃ c, hullPop hull p count = some c ∧ c ≤ count ∧ (1 ≤ count → 1 ≤ c) ∧
      (hull.take c).reverse = stackPop p (hull.take count).reverse := by
  induction count using Nat.strong_induction_on with
  | _ count ih =>
    match count, hc, ih with
    | 0, _, _ => exact ⟨0, rfl, le_refl _, fun h => h, by simp [stackPop]⟩
    | 1, hc, _ =>
      refine ⟨1, rfl, le_refl _, fun h => h, ?_⟩
      obtain ⟨a, ha⟩ : ∃ a, hull[0]? = some a := by
        cases hull with
        | nil => simp at hc
        | cons a l => exact ⟨a, by simp⟩
      rw [take_succ_of_getElem? hull 0 a ha]
      simp [stackPop]
    | n + 2, hc, ih =>
      have h0 : n < hull.length := by omega
      have h1 : n + 1 < hull.length := by omega
      have e0 : hull[n]? = some hull[n] := List.getElem?_eq_getElem h0
      have e1 : hull[n + 1]? = some hull[n + 1] := List.getElem?_eq_getElem h1
      have hstack : (hull.take (n + 2)).reverse =
          hull[n + 1] :: hull[n] :: (hull.take n).reverse := by
        rw [take_succ_of_getElem? hull (n + 1) _ e1, take_succ_of_getElem? hull n _ e0]
        simp
      have hstack1 : (hull.take (n + 1)).reverse = hull[n] :: (hull.take n).reverse := by
        rw [take_succ_of_getElem? hull n _ e0]
        simp
      rw [hullPop, e0, e1, hstack]
      dsimp only
      by_cases hturn : orientation hull[n] hull[n + 1] p ≥ 0
      · rw [if_pos hturn, stackPop, if_pos hturn, ← hstack1]
        obtain ⟨c, hc1, hc2, hc3, hc4⟩ := ih (n + 1) (by omega) (by omega)
        exact ⟨c, hc1, by omega, fun _ => hc3 (by omega), hc4⟩
      · rw [if_neg hturn, stackPop, if_neg hturn]
        exact ⟨n + 2, rfl, le_refl _, fun h => h, hstack⟩

/-- One iteration writes inside the array when the count is below the array's
size; the count ends between 1 and one more than before, at least 2 when it
was at least 1. -/
theorem hullPush_spec (hull : List ImVec2) (count : Nat) (p : ImVec2)
    (hc : count < hull.length) :
    ∃ hull2 c, hullPush (hull, count) p = some (hull2, c) ∧ hull2.length = hull.length ∧
      1 ≤ c ∧ c ≤ count + 1 ∧ (1 ≤ count → 2 ≤ c) ∧
      (hull2.take c).reverse = stackPush (hull.take count).reverse p := by
  obtain ⟨c, hc1, hc2, hc3, hc4⟩ := hullPop_spec hull p count hc.le
  have hlt : c < hull.length := by omega
  refine ⟨hull.set c p, c + 1, ?_, by simp, by omega, by omega, fun h => by have := hc3 h; omega,
    ?_⟩
  · unfold hullPush
    simp only [hc1, hlt, if_true]
  · have hget : (hull.set c p)[c]? = some p := by
      simp [List.getElem?_set, hlt]
    rw [take_succ_of_getElem? _ c p hget]
    unfold stackPush
    rw [← hc4]
    have htake : (hull.set c p).take c = hull.take c :=
      List.ext_getElem? fun i => by
        rw [List.getElem?_take, List.getElem?_take]
        split
        · rw [List.getElem?_set_ne (by omega)]
        · rfl
    rw [htake]
    simp

/-- The whole loop stays inside the array when the points still to come fit
into it. -/
theorem hullScan_spec (pts : List ImVec2) (hull : List ImVec2) (count : Nat)
    (hc : count + pts.length ≤ hull.length) :
    ∃ hull2 c, hullScan pts (hull, count) = some (hull2, c) ∧ hull2.length = hull.length ∧
      c ≤ count + pts.length ∧ (1 ≤ count → 1 ≤ c) ∧
      (1 ≤ pts.length → 1 ≤ c) ∧ (2 ≤ count + pts.length → 1 ≤ pts.length → 2 ≤ c) ∧
      (hull2.take c).reverse = pts.foldl stackPush (hull.take count).reverse := by
  induction pts generalizing hull count with
  | nil => exact ⟨hull, count, rfl, rfl, by simp, fun h => h, by simp, by simp, rfl⟩
  | cons p rest ih =>
    simp only [List.length_cons] at hc
    obtain ⟨h2, c2, e2, l2, a2, b2, d2, r2⟩ := hullPush_spec hull count p (by omega)
    obtain ⟨h3, c3, e3, l3, a3, b3, d3, f3, r3⟩ := ih h2 c2 (by omega)
    refine ⟨h3, c3, ?_, by omega, by simp only [List.length_cons]; omega, fun _ => b3 a2,
      fun _ => b3 a2, ?_, ?_⟩
    · rw [hullScan, e2]
      exact e3
    · intro h _
      simp only [List.length_cons] at h
      by_cases hr : 1 ≤ rest.length
      · exact f3 (by omega) hr
      · have hr0 : rest = [] := List.length_eq_zero.mp (by omega)
        subst hr0
        simp only [hullScan, Option.some.injEq, Prod.mk.injEq] at e3
        have : 1 ≤ count := by simpa using h
        have := d2 this
        omega
    · rw [r3, r2]
      rfl

/-! ## Lemmas: orientation about the pivot -/

theorem orientation_split (p0 a b c : ImVec2) :
    orientation a b c = orientation p0 a b + orientation p0 b c + orientation p0 c a := by
  unfold orientation
  ring

theorem orientation_swap (p0 a b : ImVec2) : orientation p0 b a = -orientation p0 a b := by
  unfold orientation
  ring

theorem orientation_pivot_left (p0 a : ImVec2) : orientation p0 p0 a = 0 := by
  unfold orientation
  ring

theorem orientation_pivot_right (p0 a : ImVec2) : orientation p0 a p0 = 0 := by
  unfold orientation
  ring

theorem orientation_same (p0 a : ImVec2) : orientation p0 a a = 0 := by
  unfold orientation
  ring

theorem hullLe_iff (p0 a b : ImVec2) :
    hullLe p0 a b ↔ orientation p0 a b < 0 ∨
      (orientation p0 a b = 0 ∧ ImLengthSqr (p0.sub a) ≤ ImLengthSqr (p0.sub b)) := by
  unfold hullLe hullLess
  rw [orientation_swap p0 a b]
  dsimp only
  by_cases h : orientation p0 a b = 0
  · simp [h]
  · rcases lt_or_gt_of_ne h with h1 | h1
    · simp [h, h1, h1.le]
    · simp [h, not_lt.mpr h1.le]
      exact h1

theorem hullLe_refl (p0 a : ImVec2) : hullLe p0 a a :=
  (hullLe_iff p0 a a).mpr (Or.inr ⟨orientation_same p0 a, le_refl _⟩)

theorem hullLe_total (p0 a b : ImVec2) : hullLe p0 a b ∨ hullLe p0 b a := by
  rw [hullLe_iff, hullLe_iff, orientation_swap p0 a b]
  rcases lt_trichotomy (orientation p0 a b) 0 with h | h | h
  · exact Or.inl (Or.inl h)
  · rcases le_total (ImLengthSqr (p0.sub a)) (ImLengthSqr (p0.sub b)) with h1 | h1
    · exact Or.inl (Or.inr ⟨h, h1⟩)
    · exact Or.inr (Or.inr ⟨by rw [h]; simp, h1⟩)
  · exact Or.inr (Or.inl (by linarith))

theorem hullLe_orientation (p0 a b : ImVec2) (h : hullLe p0 a b) : orientation p0 a b ≤ 0 := by
  rcases (hullLe_iff p0 a b).mp h with h1 | h1
  · exact h1.le
  · exact h1.1.le

theorem inHalfPlane_pivot (p0 : ImVec2) : InHalfPlane p0 p0 := Or.inr ⟨rfl, le_refl _⟩

theorem hullLe_pivot (p0 a : ImVec2) : hullLe p0 p0 a := by
  rw [hullLe_iff]
  refine Or.inr ⟨orientation_pivot_left p0 a, ?_⟩
  unfold ImLengthSqr ImVec2.sub
  dsimp only
  nlinarith [mul_self_nonneg (p0.x - a.x), mul_self_nonneg (p0.y - a.y)]

/-- A point on the ray from the pivot through `b`, not farther than `b`, is
`p0 + t (b - p0)` with `0 ≤ t ≤ 1`. -/
theorem ray_of_collinear (p0 a b : ImVec2) (ha : InHalfPlane p0 a) (hb : InHalfPlane p0 b)
    (ho : orientation p0 a b = 0)
    (hd : ImLengthSqr (p0.sub a) ≤ ImLengthSqr (p0.sub b)) :
    ∃ t : ℚ, 0 ≤ t ∧ t ≤ 1 ∧ a.x - p0.x = t * (b.x - p0.x) ∧ a.y - p0.y = t * (b.y - p0.y) := by
  obtain ⟨px, py⟩ := p0
  obtain ⟨ax, ay⟩ := a
  obtain ⟨bx, b_y⟩ := b
  unfold InHalfPlane at ha hb
  unfold orientation at ho
  unfold ImLengthSqr ImVec2.sub at hd
  dsimp only at ha hb ho hd ⊢
  obtain ⟨ux, hux⟩ : ∃ ux, ux = ax - px := ⟨_, rfl⟩
  obtain ⟨uy, huy⟩ : ∃ uy, uy = ay - py := ⟨_, rfl⟩
  obtain ⟨vx, hvx⟩ : ∃ vx, vx = bx - px := ⟨_, rfl⟩
  obtain ⟨vy, hvy⟩ : ∃ vy, vy = b_y - py := ⟨_, rfl⟩
  have ha2 : 0 < uy ∨ (uy = 0 ∧ 0 ≤ ux) := by
    rcases ha with h | ⟨h1, h2⟩
    · exact Or.inl (by linarith)
    · exact Or.inr ⟨by linarith, by linarith⟩
  have hb2 : 0 < vy ∨ (vy = 0 ∧ 0 ≤ vx) := by
    rcases hb with h | ⟨h1, h2⟩
    · exact Or.inl (by linarith)
    · exact Or.inr ⟨by linarith, by linarith⟩
  have ho2 : ux * vy - vx * uy = 0 := by rw [hux, huy, hvx, hvy]; exact ho
  have hd2 : ux * ux + uy * uy ≤ vx * vx + vy * vy := by
    rw [hux, huy, hvx, hvy]
    nlinarith [hd]
  rw [← hux, ← huy, ← hvx, ← hvy]
  clear ha hb ho hd hux huy hvx hvy
  rcases hb2 with hvpos | ⟨hv0, hvx0⟩
  · have huy0 : 0 ≤ uy := by
      rcases ha2 with h | h
      · exact h.le
      · exact h.1.ge
    have hne : vy ≠ 0 := ne_of_gt hvpos
    have hx : ux = uy / vy * vx := by
      field_simp
      linarith
    have hy : uy = uy / vy * vy := by
      field_simp
    refine ⟨uy / vy, div_nonneg huy0 hvpos.le, ?_, hx, hy⟩
    rw [div_le_one hvpos]
    by_contra hlt
    push_neg at hlt
    have h1 : ux * vy = vx * uy := by linarith
    have h2 : (ux * ux + uy * uy) * (vy * vy) = (vx * vx + vy * vy) * (uy * uy) := by
      have : ux * ux * (vy * vy) = vx * vx * (uy * uy) := by
        calc ux * ux * (vy * vy) = (ux * vy) * (ux * vy) := by ring
          _ = (vx * uy) * (vx * uy) := by rw [h1]
          _ = vx * vx * (uy * uy) := by ring
      linarith [this]
    have h3 : vy * vy < uy * uy := by nlinarith
    have h4 : 0 < vx * vx + vy * vy := by nlinarith [mul_self_nonneg vx]
    have h5 : 0 < vy * vy := by nlinarith
    nlinarith [mul_le_mul_of_nonneg_right hd2 h5.le, mul_lt_mul_of_pos_left h3 h4]
  · subst hv0
    have huy0 : uy = 0 := by
      rcases ha2 with h | h
      · rcases hvx0.eq_or_lt with h0 | h0
        · subst h0
          nlinarith [mul_self_nonneg ux]
        · have : vx * uy = 0 := by linarith
          rcases mul_eq_zero.mp this with h1 | h1
          · linarith
          · linarith
      · exact h.1
    subst huy0
    have hux0 : 0 ≤ ux := by
      rcases ha2 with h | h
      · exact absurd h (lt_irrefl _)
      · exact h.2
    rcases hvx0.eq_or_lt with h0 | h0
    · subst h0
      have : ux = 0 := by nlinarith [mul_self_nonneg ux]
      exact ⟨0, le_refl _, zero_le_one, by simp [this], by simp⟩
    · refine ⟨ux / vx, div_nonneg hux0 h0.le, ?_, ?_, by simp⟩
      · rw [div_le_one h0]
        by_contra hlt
        push_neg at hlt
        nlinarith
      · field_simp

/-- On the ray, orientations about the pivot scale. -/
theorem ray_scale (p0 a b : ImVec2) (ha : InHalfPlane p0 a) (hb : InHalfPlane p0 b)
    (ho : orientation p0 a b = 0)
    (hd : ImLengthSqr (p0.sub a) ≤ ImLengthSqr (p0.sub b)) :
    ∃ t : ℚ, 0 ≤ t ∧ t ≤ 1 ∧ (∀ w, orientation p0 a w = t * orientation p0 b w) ∧
      (∀ w, orientation p0 w a = t * orientation p0 w b) ∧
      ImLengthSqr (p0.sub a) = t * t * ImLengthSqr (p0.sub b) := by
  obtain ⟨t, h0, h1, hx, hy⟩ := ray_of_collinear p0 a b ha hb ho hd
  refine ⟨t, h0, h1, fun w => ?_, fun w => ?_, ?_⟩
  · unfold orientation
    rw [hx, hy]
    ring
  · unfold orientation
    rw [hx, hy]
    ring
  · unfold ImLengthSqr ImVec2.sub
    dsimp only
    have e1 : p0.x - a.x = -(t * (b.x - p0.x)) := by linarith
    have e2 : p0.y - a.y = -(t * (b.y - p0.y)) := by linarith
    rw [e1, e2]
    ring

/-! ## Lemmas: the order about the pivot -/

theorem hullLe_strict_trans (p0 a b c : ImVec2) (ha : InHalfPlane p0 a)
    (hb : InHalfPlane p0 b) (hc : InHalfPlane p0 c)
    (hab : orientation p0 a b < 0) (hbc : hullLe p0 b c) : orientation p0 a c < 0 := by
  rcases (hullLe_iff p0 b c).mp hbc with h | ⟨h0, hd⟩
  · have key : orientation p0 a c * (b.y - p0.y) =
        orientation p0 b c * (a.y - p0.y) + orientation p0 a b * (c.y - p0.y) := by
      unfold orientation
      ring
    have hay : 0 ≤ a.y - p0.y := by
      rcases ha with h1 | h1
      · linarith
      · linarith [h1.1]
    have hcy : 0 ≤ c.y - p0.y := by
      rcases hc with h1 | h1
      · linarith
      · linarith [h1.1]
    rcases hb with hb1 | ⟨hb1, hb2⟩
    · by_contra hneg
      push_neg at hneg
      have hb3 : 0 < b.y - p0.y := by linarith
      have h1 : 0 ≤ orientation p0 a c * (b.y - p0.y) := mul_nonneg hneg hb3.le
      have h2 : orientation p0 b c * (a.y - p0.y) ≤ 0 :=
        mul_nonpos_of_nonpos_of_nonneg h.le hay
      have h3 : orientation p0 a b * (c.y - p0.y) ≤ 0 :=
        mul_nonpos_of_nonpos_of_nonneg hab.le hcy
      have h4 : orientation p0 b c * (a.y - p0.y) = 0 := by linarith
      have h5 : a.y - p0.y = 0 := by
        rcases mul_eq_zero.mp h4 with h6 | h6
        · linarith
        · exact h6
      have hax : 0 ≤ a.x - p0.x := by
        rcases ha with h1 | h1
        · linarith
        · linarith [h1.2]
      have h7 : orientation p0 a b = (a.x - p0.x) * (b.y - p0.y) := by
        unfold orientation
        rw [h5]
        ring
      have h8 : 0 ≤ (a.x - p0.x) * (b.y - p0.y) := mul_nonneg hax hb3.le
      linarith
    · have h7 : orientation p0 b c = (b.x - p0.x) * (c.y - p0.y) := by
        unfold orientation
        rw [hb1]
        ring
      have h8 : 0 ≤ (b.x - p0.x) * (c.y - p0.y) := mul_nonneg (by linarith) hcy
      linarith
  · obtain ⟨t, ht0, _, _, hw, _⟩ := ray_scale p0 b c hb hc h0 hd
    rw [hw a] at hab
    by_contra hneg
    push_neg at hneg
    have := mul_nonneg ht0 hneg
    linarith

theorem imLengthSqr_nonneg (v : ImVec2) : 0 ≤ ImLengthSqr v := by
  unfold ImLengthSqr
  nlinarith [mul_self_nonneg v.x, mul_self_nonneg v.y]

theorem hullLe_trans (p0 a b c : ImVec2) (ha : InHalfPlane p0 a)
    (hb : InHalfPlane p0 b) (hc : InHalfPlane p0 c)
    (hab : hullLe p0 a b) (hbc : hullLe p0 b c) : hullLe p0 a c := by
  rw [hullLe_iff]
  rcases (hullLe_iff p0 a b).mp hab with h | ⟨h0, hd⟩
  · exact Or.inl (hullLe_strict_trans p0 a b c ha hb hc h hbc)
  · obtain ⟨t, ht0, ht1, hw, _, hlen⟩ := ray_scale p0 a b ha hb h0 hd
    rcases (hullLe_iff p0 b c).mp hbc with h | ⟨h1, hd1⟩
    · rcases ht0.eq_or_lt with ht | ht
      · refine Or.inr ⟨by rw [hw c, ← ht]; simp, ?_⟩
        rw [hlen, ← ht]
        simpa using imLengthSqr_nonneg (p0.sub c)
      · exact Or.inl (by rw [hw c]; exact mul_neg_of_pos_of_neg ht h)
    · exact Or.inr ⟨by rw [hw c, h1]; simp, le_trans hd hd1⟩

/-! ## Lemmas: signs of orientations -/

/-- A point that is right of the edges `(b, c)` and sorted after `b` is right
of the edge `(a, b)` below, when the stack turns right at `b`. -/
theorem sign_chain (p0 a b c p : ImVec2) (h1 : orientation p0 a b ≤ 0)
    (h2 : orientation b c p ≤ 0) (h3 : orientation a b c < 0)
    (h4 : orientation p0 b p ≤ 0) (h5 : orientation p0 b c < 0) :
    orientation a b p ≤ 0 := by
  have key : orientation a b p * orientation p0 b c =
      orientation p0 a b * orientation b c p + orientation a b c * orientation p0 b p := by
    unfold orientation
    ring
  by_contra hneg
  push_neg at hneg
  have e1 := mul_neg_of_pos_of_neg hneg h5
  have e2 := mul_nonneg_of_nonpos_of_nonpos h1 h2
  have e3 := mul_nonneg_of_nonpos_of_nonpos h3.le h4
  linarith

theorem sign_popA (p0 x y p q : ImVec2) (h1 : 0 ≤ orientation x y p)
    (h2 : orientation p0 q p ≤ 0) (h3 : orientation p0 x p ≤ 0)
    (h4 : orientation y p q ≤ 0) (h5 : orientation p0 y p < 0) :
    orientation x p q ≤ 0 := by
  have key : orientation x p q * orientation p0 y p =
      orientation x y p * (-orientation p0 q p) +
        (-orientation p0 x p) * (-orientation y p q) := by
    unfold orientation
    ring
  by_contra hneg
  push_neg at hneg
  have e1 := mul_neg_of_pos_of_neg hneg h5
  have e2 : 0 ≤ orientation x y p * (-orientation p0 q p) := mul_nonneg h1 (by linarith)
  have e3 : 0 ≤ (-orientation p0 x p) * (-orientation y p q) :=
    mul_nonneg (by linarith) (by linarith)
  linarith

theorem sign_popB (p0 x y p q : ImVec2) (h1 : orientation x y q ≤ 0)
    (h2 : orientation p0 x p ≤ 0) (h3 : 0 ≤ orientation x y p)
    (h4 : orientation p0 x q ≤ 0) (h5 : orientation p0 x y < 0) :
    orientation x p q ≤ 0 := by
  have key : orientation p0 x y * orientation x p q =
      orientation x y q * orientation p0 x p - orientation x y p * orientation p0 x q := by
    unfold orientation
    ring
  by_contra hneg
  push_neg at hneg
  have e1 := mul_neg_of_neg_of_pos h5 hneg
  have e2 := mul_nonneg_of_nonpos_of_nonpos h1 h2
  have e3 := mul_nonpos_of_nonneg_of_nonpos h3 h4
  linarith

theorem sign_final (p0 x y p q : ImVec2) (h1 : orientation x y p < 0)
    (h2 : orientation p0 q y < 0) (h3 : orientation p0 y p ≤ 0)
    (h4 : orientation x y q ≤ 0) (h5 : orientation p0 x y ≤ 0) :
    orientation y p q ≤ 0 := by
  have key : orientation y p q * (-orientation p0 x y) =
      orientation x y p * (-orientation p0 q y) - orientation p0 y p * orientation x y q := by
    unfold orientation
    ring
  by_contra hneg
  push_neg at hneg
  have e1 : 0 ≤ orientation y p q * (-orientation p0 x y) := mul_nonneg hneg.le (by linarith)
  have e2 : orientation x y p * (-orientation p0 q y) < 0 :=
    mul_neg_of_neg_of_pos h1 (by linarith)
  have e3 := mul_nonneg_of_nonpos_of_nonpos h3 h4
  linarith

/-- The edge from the last processed point to the new one has every processed
point of the same direction on its right. -/
theorem sign_base (p0 y p q : ImVec2) (hy : InHalfPlane p0 y) (hq : InHalfPlane p0 q)
    (hqy : hullLe p0 q y) (hyq : orientation p0 y q ≤ 0) (hyp : orientation p0 y p ≤ 0) :
    orientation y p q ≤ 0 := by
  have hswap := orientation_swap p0 q y
  have h0 : orientation p0 q y = 0 := by
    have := hullLe_orientation p0 q y hqy
    linarith
  have hd : ImLengthSqr (p0.sub q) ≤ ImLengthSqr (p0.sub y) := by
    rcases (hullLe_iff p0 q y).mp hqy with h | h
    · linarith
    · exact h.2
  obtain ⟨t, ht0, ht1, _, hw, _⟩ := ray_scale p0 q y hq hy h0 hd
  rw [orientation_split p0 y p q, hw p, orientation_swap p0 y p, h0]
  nlinarith

/-- A point on the ray of the new point makes no strict right turn with it. -/
theorem sign_same_ray (p0 x y p : ImVec2) (hy : InHalfPlane p0 y) (hp : InHalfPlane p0 p)
    (h0 : orientation p0 y p = 0)
    (hd : ImLengthSqr (p0.sub y) ≤ ImLengthSqr (p0.sub p))
    (hxp : orientation p0 x p ≤ 0) : 0 ≤ orientation x y p := by
  obtain ⟨t, ht0, ht1, _, hw, _⟩ := ray_scale p0 y p hy hp h0 hd
  rw [orientation_split p0 x y p, hw x, h0, orientation_swap p0 x p]
  nlinarith

theorem sign_collinear (p0 x y p q : ImVec2) (hy : InHalfPlane p0 y)
    (hp : InHalfPlane p0 p) (hq : InHalfPlane p0 q)
    (hqy : hullLe p0 q y) (hyq : orientation p0 y q ≤ 0)
    (h0 : orientation p0 y p = 0) (hyp : hullLe p0 y p)
    (hxp : orientation p0 x p ≤ 0) : orientation x p q ≤ 0 := by
  have hswap := orientation_swap p0 q y
  have hq0 : orientation p0 q y = 0 := by
    have := hullLe_orientation p0 q y hqy
    linarith
  have hd1 : ImLengthSqr (p0.sub q) ≤ ImLengthSqr (p0.sub y) := by
    rcases (hullLe_iff p0 q y).mp hqy with h | h
    · linarith
    · exact h.2
  have hd2 : ImLengthSqr (p0.sub y) ≤ ImLengthSqr (p0.sub p) := by
    rcases (hullLe_iff p0 y p).mp hyp with h | h
    · linarith
    · exact h.2
  obtain ⟨s, hs0, hs1, hsa, hsb, _⟩ := ray_scale p0 q y hq hy hq0 hd1
  obtain ⟨t, ht0, ht1, hta, htb, _⟩ := ray_scale p0 y p hy hp h0 hd2
  rw [orientation_split p0 x p q, hsb p, hsa x, hta x, orientation_swap p0 y p, h0,
    orientation_swap p0 x p]
  have : s * t ≤ 1 := by nlinarith
  nlinarith

/-! ## Lemmas: the scan keeps its invariant -/

theorem goodStack_tail (p0 y x : ImVec2) (rest : List ImVec2)
    (h : GoodStack p0 (y :: x :: rest)) : GoodStack p0 (x :: rest) := by
  cases rest with
  | nil => exact h
  | cons w r => exact h.2.2

theorem goodStack_pair (p0 y x : ImVec2) (rest : List ImVec2)
    (h : GoodStack p0 (y :: x :: rest)) : x = p0 ∨ orientation p0 x y < 0 := by
  cases rest with
  | nil => exact Or.inl h
  | cons w r => exact Or.inr h.2.1

theorem goodStack_pair_le (p0 y x : ImVec2) (rest : List ImVec2)
    (h : GoodStack p0 (y :: x :: rest)) : orientation p0 x y ≤ 0 := by
  rcases goodStack_pair p0 y x rest h with h1 | h1
  · rw [h1, orientation_pivot_left]
  · exact h1.le

theorem edgesRightOf_tail (q y : ImVec2) (rest : List ImVec2)
    (h : EdgesRightOf q (y :: rest)) : EdgesRightOf q rest := by
  cases rest with
  | nil => trivial
  | cons x r => exact h.2

/-- Removing the top `y` keeps the property that the edge from the top to the
new point `p` has on its right every processed point not before the top. -/
theorem pop_step (p0 x y p : ImVec2) (Q : List ImVec2)
    (hH : ∀ q ∈ Q, InHalfPlane p0 q) (hle : ∀ q ∈ Q, hullLe p0 q p)
    (hp : InHalfPlane p0 p) (hx : x ∈ Q) (hy : y ∈ Q)
    (hxy : x = p0 ∨ orientation p0 x y < 0)
    (hD : ∀ q ∈ Q, orientation x y q ≤ 0)
    (hpop : 0 ≤ orientation x y p)
    (hJ : ∀ q ∈ Q, orientation p0 y q ≤ 0 → orientation y p q ≤ 0)
    (hK : orientation p0 y p < 0 ∨ ∀ q ∈ Q, hullLe p0 q y) :
    ∀ q ∈ Q, orientation p0 x q ≤ 0 → orientation x p q ≤ 0 := by
  intro q hq hxq
  have hqp := hullLe_orientation p0 q p (hle q hq)
  have hxp := hullLe_orientation p0 x p (hle x hx)
  have hyp := hullLe_orientation p0 y p (hle y hy)
  by_cases hyq : orientation p0 y q ≤ 0
  · rcases hyp.lt_or_eq with h | h
    · exact sign_popA p0 x y p q hpop hqp hxp (hJ q hq hyq) h
    · rcases hK with hK | hK
      · linarith
      · exact sign_collinear p0 x y p q (hH y hy) hp (hH q hq) (hK q hq) hyq h (hle y hy) hxp
  · push_neg at hyq
    rcases hxy with h | h
    · have h1 := hD q hq
      rw [h] at h1
      linarith
    · exact sign_popB p0 x y p q (hD q hq) hxp hpop hxq h

theorem stackPop_spec (p0 p : ImVec2) (Q : List ImVec2)
    (hH : ∀ q ∈ Q, InHalfPlane p0 q) (hle : ∀ q ∈ Q, hullLe p0 q p)
    (hp : InHalfPlane p0 p) (rest : List ImVec2) (y : ImVec2)
    (hG : GoodStack p0 (y :: rest)) (hS : ∀ s ∈ y :: rest, s ∈ Q)
    (hD : ∀ q ∈ Q, EdgesRightOf q (y :: rest))
    (hJ : ∀ q ∈ Q, orientation p0 y q ≤ 0 → orientation y p q ≤ 0)
    (hK : rest ≠ [] → orientation p0 y p < 0 ∨ ∀ q ∈ Q, hullLe p0 q y) :
    ∃ y2 rest2, stackPop p (y :: rest) = y2 :: rest2 ∧ GoodStack p0 (y2 :: rest2) ∧
      (∀ s ∈ y2 :: rest2, s ∈ Q) ∧ (∀ q ∈ Q, EdgesRightOf q (y2 :: rest2)) ∧
      (∀ q ∈ Q, orientation p0 y2 q ≤ 0 → orientation y2 p q ≤ 0) ∧
      (∀ x r, rest2 = x :: r → orientation x y2 p < 0) := by
  induction rest generalizing y with
  | nil => exact ⟨y, [], rfl, hG, hS, hD, hJ, fun x r h => by cases h⟩
  | cons x r ih =>
    by_cases hpop : orientation x y p ≥ 0
    · have hxQ : x ∈ Q := hS x (by simp)
      have hyQ : y ∈ Q := hS y (by simp)
      have hxy := goodStack_pair p0 y x r hG
      have hJx := pop_step p0 x y p Q hH hle hp hxQ hyQ hxy (fun q hq => (hD q hq).1) hpop hJ
        (hK (by simp))
      have hKx : r ≠ [] → orientation p0 x p < 0 ∨ ∀ q ∈ Q, hullLe p0 q x := by
        intro hr
        cases r with
        | nil => exact absurd rfl hr
        | cons w r2 =>
          exact Or.inl (hullLe_strict_trans p0 x y p (hH x hxQ) (hH y hyQ) hp hG.2.1 (hle y hyQ))
      obtain ⟨y2, rest2, e, h1, h2, h3, h4, h5⟩ := ih x (goodStack_tail p0 y x r hG)
        (fun s hs => hS s (List.mem_cons_of_mem _ hs))
        (fun q hq => edgesRightOf_tail q y (x :: r) (hD q hq)) hJx hKx
      refine ⟨y2, rest2, ?_, h1, h2, h3, h4, h5⟩
      rw [stackPop, if_pos hpop]
      exact e
    · refine ⟨y, x :: r, ?_, hG, hS, hD, hJ, ?_⟩
      · rw [stackPop, if_neg hpop]
      · intro x2 r2 h
        simp only [List.cons.injEq] at h
        rw [← h.1]
        exact not_le.mp hpop

/-- The new point is right of every edge that stays on the stack. -/
theorem edgesRightOf_new (p0 p : ImVec2) (st : List ImVec2) (hG : GoodStack p0 st)
    (hle : ∀ s ∈ st, orientation p0 s p ≤ 0)
    (htop : ∀ y x r, st = y :: x :: r → orientation x y p ≤ 0) : EdgesRightOf p st := by
  induction st with
  | nil => trivial
  | cons c t ih =>
    cases t with
    | nil => trivial
    | cons b t2 =>
      have hbc : orientation b c p ≤ 0 := htop c b t2 rfl
      refine ⟨hbc, ih (goodStack_tail p0 c b t2 hG)
        (fun s hs => hle s (List.mem_cons_of_mem _ hs)) ?_⟩
      intro y x r e
      simp only [List.cons.injEq] at e
      obtain ⟨e1, e2⟩ := e
      subst e1
      subst e2
      exact sign_chain p0 x b c p (goodStack_pair_le p0 b x r (goodStack_tail p0 c b _ hG)) hbc
        hG.1 (hle b (by simp)) hG.2.1

theorem orientation_end (a b : ImVec2) : orientation a b b = 0 := by
  unfold orientation
  ring

/-- One iteration of the loop keeps the invariant, when the new point is not
below the pivot and sorted after every processed point. -/
theorem hullInv_push (p0 p : ImVec2) (Q st : List ImVec2) (h : HullInv p0 Q st)
    (hp : InHalfPlane p0 p) (hle : ∀ q ∈ Q, hullLe p0 q p) :
    HullInv p0 (p :: Q) (stackPush st p) := by
  obtain ⟨htop, hG, hS, hD, hsorted, hH⟩ := h
  cases st with
  | nil => exact absurd hG (by simp [GoodStack])
  | cons y rest =>
    cases Q with
    | nil => simp at htop
    | cons y1 Qr =>
      simp only [List.head?_cons, Option.some.injEq] at htop
      subst htop
      have hall : ∀ q ∈ y :: Qr, hullLe p0 q y := by
        intro q hq
        rcases List.mem_cons.mp hq with h1 | h1
        · rw [h1]
          exact hullLe_refl p0 y
        · exact (List.pairwise_cons.mp hsorted).1 q h1
      have hyQ : y ∈ y :: Qr := by simp
      have hJ : ∀ q ∈ y :: Qr, orientation p0 y q ≤ 0 → orientation y p q ≤ 0 :=
        fun q hq hyq => sign_base p0 y p q (hH y hyQ) (hH q hq) (hall q hq) hyq
          (hullLe_orientation p0 y p (hle y hyQ))
      obtain ⟨y2, rest2, e, hG2, hS2, hD2, hJ2, hexit⟩ :=
        stackPop_spec p0 p (y :: Qr) hH hle hp rest y hG hS hD hJ (fun _ => Or.inr hall)
      have hy2Q : y2 ∈ y :: Qr := hS2 y2 (by simp)
      have hy2p := hullLe_orientation p0 y2 p (hle y2 hy2Q)
      unfold stackPush
      rw [e]
      refine ⟨rfl, ?_, ?_, ?_, ?_, ?_⟩
      · cases rest2 with
        | nil => exact hG2
        | cons x r =>
          refine ⟨hexit x r rfl, ?_, hG2⟩
          rcases (hullLe_iff p0 y2 p).mp (hle y2 hy2Q) with h1 | ⟨h0, hd⟩
          · exact h1
          · have := sign_same_ray p0 x y2 p (hH y2 hy2Q) hp h0 hd
              (hullLe_orientation p0 x p (hle x (hS2 x (by simp))))
            have := hexit x r rfl
            linarith
      · intro s hs
        rcases List.mem_cons.mp hs with h1 | h1
        · rw [h1]
          simp
        · exact List.mem_cons_of_mem _ (hS2 s h1)
      · intro q hq
        rcases List.mem_cons.mp hq with h1 | h1
        · rw [h1]
          refine ⟨(orientation_end y2 p).le, ?_⟩
          exact edgesRightOf_new p0 p (y2 :: rest2) hG2
            (fun s hs => hullLe_orientation p0 s p (hle s (hS2 s hs)))
            (fun a b r e2 => by
              simp only [List.cons.injEq] at e2
              rw [← e2.1]
              exact (hexit b r e2.2).le)
        · refine ⟨?_, hD2 q h1⟩
          by_cases hyq : orientation p0 y2 q ≤ 0
          · exact hJ2 q h1 hyq
          · push_neg at hyq
            have hswap := orientation_swap p0 y2 q
            cases rest2 with
            | nil =>
              have e0 : y2 = p0 := hG2
              rw [e0, orientation_pivot_left] at hyq
              exact absurd hyq (lt_irrefl _)
            | cons x r =>
              exact sign_final p0 x y2 p q (hexit x r rfl) (by linarith) hy2p (hD2 q h1).1
                (goodStack_pair_le p0 y2 x r hG2)
      · exact List.pairwise_cons.mpr ⟨hle, hsorted⟩
      · intro q hq
        rcases List.mem_cons.mp hq with h1 | h1
        · rw [h1]
          exact hp
        · exact hH q h1

/-- The loop over a sorted list keeps the invariant. -/
theorem hullInv_foldl (p0 : ImVec2) (L : List ImVec2) (Q st : List ImVec2)
    (h : HullInv p0 Q st) (hL : L.Pairwise (hullLe p0))
    (hQL : ∀ q ∈ Q, ∀ p ∈ L, hullLe p0 q p) (hH : ∀ p ∈ L, InHalfPlane p0 p) :
    HullInv p0 (L.reverse ++ Q) (L.foldl stackPush st) := by
  induction L generalizing Q st with
  | nil => simpa using h
  | cons p L2 ih =>
    rw [List.foldl_cons, List.reverse_cons, List.append_assoc]
    have hp := List.pairwise_cons.mp hL
    refine ih (p :: Q) (stackPush st p)
      (hullInv_push p0 p Q st h (hH p (by simp)) (fun q hq => hQL q hq p (by simp))) hp.2 ?_
      (fun a ha => hH a (List.mem_cons_of_mem _ ha))
    intro q hq a ha
    rcases List.mem_cons.mp hq with h1 | h1
    · rw [h1]
      exact hp.1 a ha
    · exact hQL q h1 a (List.mem_cons_of_mem _ ha)

theorem hullInv_init (p0 : ImVec2) : HullInv p0 [p0] [p0] :=
  ⟨rfl, rfl, fun _ hs => hs, fun _ _ => trivial, List.pairwise_singleton _ _,
    fun q hq => by rw [List.mem_singleton.mp hq]; exact inHalfPlane_pivot p0⟩

/-! ## Lemmas: the pivot and the sort of the convex hull -/

theorem lowerLeft_false_iff (p0 a : ImVec2) : lowerLeft a p0 = false ↔ InHalfPlane p0 a := by
  unfold lowerLeft InHalfPlane
  simp only [Bool.or_eq_false_iff, Bool.and_eq_false_iff, decide_eq_false_iff_not, not_lt]
  constructor
  · rintro ⟨h1, h2⟩
    rcases h1.lt_or_eq with h | h
    · exact Or.inl h
    · rcases h2 with h3 | h3
      · exact absurd h.symm h3
      · exact Or.inr ⟨h.symm, h3⟩
  · rintro (h | ⟨h1, h2⟩)
    · exact ⟨h.le, Or.inl (ne_of_gt h)⟩
    · exact ⟨h1.ge, Or.inr h2⟩

theorem lowerLeft_irrefl (a : ImVec2) : lowerLeft a a = false := by
  rw [lowerLeft_false_iff]
  exact inHalfPlane_pivot a

theorem lowerLeft_keep (a x best : ImVec2) (hx : lowerLeft x best = true)
    (ha : lowerLeft a best = false) : lowerLeft a x = false := by
  rw [lowerLeft_false_iff] at ha ⊢
  unfold lowerLeft at hx
  simp only [Bool.or_eq_true, Bool.and_eq_true, decide_eq_true_eq] at hx
  unfold InHalfPlane at ha ⊢
  rcases hx with hx | ⟨hx1, hx2⟩
  · rcases ha with ha | ⟨ha1, _⟩
    · exact Or.inl (by linarith)
    · exact Or.inl (by linarith)
  · rcases ha with ha | ⟨ha1, ha2⟩
    · exact Or.inl (by linarith)
    · exact Or.inr ⟨by linarith, by linarith⟩

theorem minElementFrom_spec (l xs pre : List ImVec2) (hl : l = pre ++ xs) (smallest : Nat)
    (best : ImVec2) (hs : l[smallest]? = some best)
    (hpre : ∀ a ∈ pre, lowerLeft a best = false) :
    ∃ m, l[minElementFrom lowerLeft smallest best pre.length xs]? = some m ∧
      ∀ a ∈ l, lowerLeft a m = false := by
  induction xs generalizing pre smallest best with
  | nil =>
    refine ⟨best, hs, ?_⟩
    rw [hl]
    simpa using hpre
  | cons x xs2 ih =>
    have hl2 : l = (pre ++ [x]) ++ xs2 := by rw [hl]; simp
    have hlen : (pre ++ [x]).length = pre.length + 1 := by simp
    rw [minElementFrom]
    by_cases hx : lowerLeft x best = true
    · rw [if_pos hx, ← hlen]
      refine ih (pre ++ [x]) hl2 pre.length x ?_ ?_
      · rw [hl, List.getElem?_append_right (le_refl _)]
        simp
      · intro a ha
        rcases List.mem_append.mp ha with h | h
        · exact lowerLeft_keep a x best hx (hpre a h)
        · rw [List.mem_singleton.mp h]
          exact lowerLeft_irrefl x
    · rw [if_neg hx, ← hlen]
      refine ih (pre ++ [x]) hl2 smallest best hs ?_
      intro a ha
      rcases List.mem_append.mp ha with h | h
      · exact hpre a h
      · rw [List.mem_singleton.mp h]
        simpa using hx

/-- The index that `std::min_element` returns is inside the array and its
point is lowest, and leftmost among the lowest. -/
theorem minElement_spec (points : List ImVec2) (hne : points ≠ []) :
    ∃ m, points[minElement lowerLeft points]? = some m ∧
      ∀ a ∈ points, InHalfPlane m a := by
  cases points with
  | nil => exact absurd rfl hne
  | cons x xs =>
    obtain ⟨m, h1, h2⟩ := minElementFrom_spec (x :: xs) xs [x] rfl 0 x (by simp)
      (fun a ha => by rw [List.mem_singleton.mp ha]; exact lowerLeft_irrefl x)
    exact ⟨m, h1, fun a ha => (lowerLeft_false_iff m a).mp (h2 a ha)⟩

theorem perm_set_swap (a b : ImVec2) (t : List ImVec2) (j : Nat) (h : t[j]? = some b) :
    (b :: t.set j a).Perm (a :: t) := by
  induction t generalizing j with
  | nil => simp at h
  | cons c t2 ih =>
    cases j with
    | zero =>
      simp only [List.getElem?_cons_zero, Option.some.injEq] at h
      subst h
      exact List.Perm.swap a c t2
    | succ j2 =>
      simp only [List.getElem?_cons_succ] at h
      rw [List.set_cons_succ]
      exact ((List.Perm.swap c b _).trans ((ih j2 h).cons c)).trans (List.Perm.swap a c t2)

/-- The swap puts the chosen point first and keeps the points. -/
theorem swapFirst_spec (points : List ImVec2) (k : Nat) (m : ImVec2)
    (hk : points[k]? = some m) :
    ∃ rest, swapFirst points k = m :: rest ∧ (m :: rest).Perm points := by
  cases points with
  | nil => simp at hk
  | cons a t =>
    cases k with
    | zero =>
      simp only [List.getElem?_cons_zero, Option.some.injEq] at hk
      subst hk
      exact ⟨t, by simp [swapFirst], List.Perm.refl _⟩
    | succ j =>
      simp only [List.getElem?_cons_succ] at hk
      refine ⟨t.set j a, ?_, perm_set_swap a m t j hk⟩
      simp [swapFirst, hk]

/-- The sort puts points that are not below the pivot in the order of
`hullLess`. -/
theorem stdSort_hullLess_pairwise (p0 : ImVec2) (l : List ImVec2)
    (hH : ∀ a ∈ l, InHalfPlane p0 a) : (stdSort (hullLess p0) l).Pairwise (hullLe p0) := by
  obtain ⟨l2, hmap⟩ : ∃ l2 : List { a // InHalfPlane p0 a }, l2.map Subtype.val = l :=
    ⟨l.pmap (fun a h => ⟨a, h⟩) hH, by simp [List.map_pmap]⟩
  have hs := @List.sorted_mergeSort { a // InHalfPlane p0 a }
    (fun a b => !hullLess p0 b.1 a.1)
    (fun a b c hab hbc => by
      simp only [Bool.not_eq_true'] at hab hbc ⊢
      exact hullLe_trans p0 a.1 b.1 c.1 a.2 b.2 c.2 hab hbc)
    (fun a b => by
      rcases hullLe_total p0 a.1 b.1 with h | h
      · unfold hullLe at h
        simp [h]
      · unfold hullLe at h
        simp [h])
    l2
  have hm := @List.map_mergeSort { a // InHalfPlane p0 a } ImVec2
    (fun a b => !hullLess p0 b.1 a.1) (fun a b => !hullLess p0 b a) Subtype.val l2
    (fun _ _ _ _ => rfl)
  unfold stdSort
  rw [← hmap, ← hm, List.pairwise_map]
  refine hs.imp ?_
  intro a b h
  simpa [hullLe] using h

/-- What `convexHull` does on a non-empty array: it returns, all reads and
writes of `hull` being inside it, and the returned polygon read backwards is a
stack that satisfies the invariant of the scan for all the input points. -/
theorem convexHull_spec (points : List ImVec2) (hne : points ≠ []) :
    ∃ p0 hull c Q st, convexHull points = some (hull, c) ∧ (hull.take c).reverse = st ∧
      HullInv p0 Q st ∧ Q.Perm points ∧ c ≤ points.length ∧ (2 ≤ points.length → 2 ≤ c) ∧
      hull.length = points.length := by
  obtain ⟨p0, hk, hmin⟩ := minElement_spec points hne
  obtain ⟨rest, hswap, hperm⟩ := swapFirst_spec points _ p0 hk
  have hlen : rest.length + 1 = points.length := by
    rw [← hperm.length_eq]
    rfl
  have hsortperm := stdSort_perm (hullLess p0) rest
  have hrestH : ∀ a ∈ rest, InHalfPlane p0 a :=
    fun a ha => hmin a (hperm.subset (List.mem_cons_of_mem _ ha))
  have hsorted := stdSort_hullLess_pairwise p0 rest hrestH
  have hsortH : ∀ a ∈ stdSort (hullLess p0) rest, InHalfPlane p0 a :=
    fun a ha => hrestH a (hsortperm.subset ha)
  have hfit : 0 + (p0 :: stdSort (hullLess p0) rest).length ≤
      (List.replicate points.length (⟨0, 0⟩ : ImVec2)).length := by
    rw [List.length_replicate, List.length_cons, hsortperm.length_eq]
    omega
  obtain ⟨hull, c, e, hl, hc, _, _, h2, hrev⟩ :=
    hullScan_spec (p0 :: stdSort (hullLess p0) rest) (List.replicate points.length ⟨0, 0⟩) 0 hfit
  have hcount : (p0 :: stdSort (hullLess p0) rest).length = points.length := by
    rw [List.length_cons, hsortperm.length_eq]
    exact hlen
  refine ⟨p0, hull, c, (stdSort (hullLess p0) rest).reverse ++ [p0], _, ?_, rfl, ?_, ?_, ?_, ?_,
    ?_⟩
  · unfold convexHull
    rw [hswap]
    exact e
  · rw [hrev]
    exact hullInv_foldl p0 _ [p0] [p0] (hullInv_init p0) hsorted
      (fun q hq a _ => by rw [List.mem_singleton.mp hq]; exact hullLe_pivot p0 a) hsortH
  · refine List.Perm.trans ?_ hperm
    refine List.Perm.trans List.perm_append_comm ?_
    exact List.Perm.cons p0 ((List.reverse_perm _).trans hsortperm)
  · rw [hcount] at hc
    omega
  · intro h
    exact h2 (by rw [hcount]; omega) (by simp)
  · rw [hl, List.length_replicate]

/-! ## Lemmas: reading the polygon off the stack -/

theorem succ_mod_cases (i n : Nat) (hn : 0 < n) :
    (i % n + 1 < n ∧ (i + 1) % n = i % n + 1) ∨ (i % n + 1 = n ∧ (i + 1) % n = 0) := by
  have hlt : i % n < n := Nat.mod_lt i hn
  have e : (i + 1) % n = (i % n + 1) % n := by
    conv_lhs => rw [← Nat.mod_add_div i n]
    rw [Nat.add_right_comm, Nat.add_mul_mod_self_left]
  by_cases h : i % n + 1 < n
  · exact Or.inl ⟨h, by rw [e, Nat.mod_eq_of_lt h]⟩
  · have h2 : i % n + 1 = n := by omega
    exact Or.inr ⟨h2, by rw [e, h2, Nat.mod_self]⟩

theorem reverse_getD_last (y d : ImVec2) (t : List ImVec2) :
    (y :: t).reverse.getD t.length d = y := by
  rw [List.reverse_cons, List.getD_append_right _ _ _ _ (by simp)]
  simp

theorem reverse_getD_init (y d : ImVec2) (t : List ImVec2) (j : Nat) (hj : j < t.length) :
    (y :: t).reverse.getD j d = t.reverse.getD j d := by
  rw [List.reverse_cons, List.getD_append _ _ _ _ (by simpa using hj)]

theorem reverse_getD_mem (d : ImVec2) (t : List ImVec2) (j : Nat) (hj : j < t.length) :
    t.reverse.getD j d ∈ t := by
  have h : j < t.reverse.length := by simpa using hj
  rw [List.getD_eq_getElem _ _ h]
  exact List.mem_reverse.mp (List.getElem_mem h)

theorem goodStack_bottom (p0 d : ImVec2) (st : List ImVec2) (h : GoodStack p0 st) :
    st.reverse.getD 0 d = p0 := by
  induction st with
  | nil => exact absurd h (by simp [GoodStack])
  | cons y t ih =>
    cases t with
    | nil =>
      have e : y = p0 := h
      simp [e]
    | cons x r =>
      rw [reverse_getD_init y d (x :: r) 0 (by simp only [List.length_cons]; omega)]
      exact ih (goodStack_tail p0 y x r h)

theorem edgesRightOf_index (q d : ImVec2) (st : List ImVec2) (h : EdgesRightOf q st) (j : Nat)
    (hj : j + 1 < st.length) :
    orientation (st.reverse.getD j d) (st.reverse.getD (j + 1) d) q ≤ 0 := by
  induction st with
  | nil => simp at hj
  | cons y t ih =>
    cases t with
    | nil => simp at hj
    | cons x r =>
      simp only [List.length_cons] at hj
      by_cases hlt : j + 1 < (x :: r).length
      · rw [reverse_getD_init y d (x :: r) j (by omega), reverse_getD_init y d (x :: r) (j + 1) hlt]
        exact ih h.2 hlt
      · simp only [List.length_cons] at hlt
        have e : j = r.length := by omega
        subst e
        rw [show r.length + 1 = (x :: r).length from rfl, reverse_getD_last y d (x :: r),
          reverse_getD_init y d (x :: r) r.length (by simp only [List.length_cons]; omega), reverse_getD_last x d r]
        exact h.1

theorem goodStack_index (p0 d : ImVec2) (st : List ImVec2) (h : GoodStack p0 st) (j : Nat)
    (hj : j + 2 < st.length) :
    orientation (st.reverse.getD j d) (st.reverse.getD (j + 1) d) (st.reverse.getD (j + 2) d) < 0 ∧
      orientation p0 (st.reverse.getD (j + 1) d) (st.reverse.getD (j + 2) d) < 0 := by
  induction st with
  | nil => simp at hj
  | cons z t ih =>
    cases t with
    | nil => simp at hj
    | cons y t2 =>
      cases t2 with
      | nil => simp at hj
      | cons x r =>
        simp only [List.length_cons] at hj
        by_cases hlt : j + 2 < (y :: x :: r).length
        · rw [reverse_getD_init z d (y :: x :: r) j (by omega),
            reverse_getD_init z d (y :: x :: r) (j + 1) (by omega),
            reverse_getD_init z d (y :: x :: r) (j + 2) hlt]
          exact ih h.2.2 hlt
        · simp only [List.length_cons] at hlt
          have e : j = r.length := by omega
          subst e
          rw [show r.length + 2 = (y :: x :: r).length from rfl,
            reverse_getD_last z d (y :: x :: r),
            reverse_getD_init z d (y :: x :: r) (r.length + 1) (by simp only [List.length_cons]; omega),
            show r.length + 1 = (x :: r).length from rfl,
            reverse_getD_last y d (x :: r),
            reverse_getD_init z d (y :: x :: r) r.length (by simp only [List.length_cons]; omega),
            reverse_getD_init y d (x :: r) r.length (by simp only [List.length_cons]; omega), reverse_getD_last x d r]
          exact ⟨h.1, h.2.1⟩

/-- The second vertex of the polygon is strictly before the last in the order
about the pivot, when there are at least three vertices. -/
theorem goodStack_chain (p0 d : ImVec2) (st : List ImVec2) (h : GoodStack p0 st)
    (hH : ∀ s ∈ st, InHalfPlane p0 s) (h3 : 3 ≤ st.length) :
    orientation p0 (st.reverse.getD 1 d) (st.reverse.getD (st.length - 1) d) < 0 := by
  induction st with
  | nil => simp at h3
  | cons z t ih =>
    cases t with
    | nil => simp at h3
    | cons y t2 =>
      cases t2 with
      | nil => simp at h3
      | cons x r =>
        have hz : (z :: y :: x :: r).length - 1 = (y :: x :: r).length := rfl
        rw [hz, reverse_getD_last z d (y :: x :: r),
          reverse_getD_init z d (y :: x :: r) 1 (by simp only [List.length_cons]; omega)]
        cases r with
        | nil =>
          have e : [y, x].reverse.getD 1 d = y := rfl
          rw [e]
          exact h.2.1
        | cons w r2 =>
          have hy : (y :: x :: w :: r2).length - 1 = (x :: w :: r2).length := rfl
          have ih2 := ih h.2.2 (fun s hs => hH s (List.mem_cons_of_mem _ hs))
            (by simp only [List.length_cons]; omega)
          rw [hy, reverse_getD_last y d (x :: w :: r2)] at ih2
          refine hullLe_strict_trans p0 _ y z ?_ (hH y (by simp)) (hH z (by simp)) ih2
            ((hullLe_iff p0 y z).mpr (Or.inl h.2.1))
          exact hH _ (List.mem_cons_of_mem _ (reverse_getD_mem d (y :: x :: w :: r2) 1 (by simp only [List.length_cons]; omega)))

theorem hullInv_top (p0 : ImVec2) (Q st : List ImVec2) (h : HullInv p0 Q st) :
    ∃ y t Qr, st = y :: t ∧ Q = y :: Qr ∧ ∀ q ∈ Q, hullLe p0 q y := by
  obtain ⟨htop, hG, _, _, hsorted, _⟩ := h
  cases st with
  | nil => exact absurd hG (by simp [GoodStack])
  | cons y t =>
    cases Q with
    | nil => simp at htop
    | cons y1 Qr =>
      simp only [List.head?_cons, Option.some.injEq] at htop
      subst htop
      refine ⟨y, t, Qr, rfl, rfl, ?_⟩
      intro q hq
      rcases List.mem_cons.mp hq with h1 | h1
      · rw [h1]
        exact hullLe_refl p0 y
      · exact (List.pairwise_cons.mp hsorted).1 q h1

/-- Every processed point is right of, or on, every edge of the polygon, the
closing edge included. -/
theorem hullInv_edges (p0 : ImVec2) (Q st : List ImVec2) (h : HullInv p0 Q st) (i : Nat)
    (q : ImVec2) (hq : q ∈ Q) :
    orientation (polygonVertex st.reverse i) (polygonVertex st.reverse (i + 1)) q ≤ 0 := by
  obtain ⟨y, t, Qr, hst, _, hall⟩ := hullInv_top p0 Q st h
  have hn : 0 < st.length := by rw [hst]; simp
  unfold polygonVertex
  rw [List.length_reverse]
  rcases succ_mod_cases i st.length hn with ⟨h1, h2⟩ | ⟨h1, h2⟩
  · rw [h2]
    exact edgesRightOf_index q _ st (h.right q hq) _ h1
  · rw [h2, goodStack_bottom p0 _ st h.good]
    have e : i % st.length = t.length := by rw [hst] at h1 ⊢; simpa using h1
    rw [e, hst, reverse_getD_last]
    rw [orientation_split p0 y p0 q, orientation_pivot_right, orientation_pivot_left]
    have := hullLe_orientation p0 q y (hall q hq)
    linarith

/-- With at least three vertices the polygon turns strictly right at every
vertex, the first and the last included. -/
theorem hullInv_turns (p0 : ImVec2) (Q st : List ImVec2) (h : HullInv p0 Q st)
    (h3 : 3 ≤ st.length) (i : Nat) :
    orientation (polygonVertex st.reverse i) (polygonVertex st.reverse (i + 1))
      (polygonVertex st.reverse (i + 2)) < 0 := by
  obtain ⟨y, t, Qr, hst, _, _⟩ := hullInv_top p0 Q st h
  have hn : 0 < st.length := by omega
  have hH : ∀ s ∈ st, InHalfPlane p0 s := fun s hs => h.half s (h.sub s hs)
  unfold polygonVertex
  rw [List.length_reverse]
  rcases succ_mod_cases i st.length hn with ⟨h1, h2⟩ | ⟨h1, h2⟩
  · rcases succ_mod_cases (i + 1) st.length hn with ⟨h4, h5⟩ | ⟨h4, h5⟩
    · rw [h5, h2]
      rw [h2] at h4
      exact (goodStack_index p0 _ st h.good _ h4).1
    · rw [h5, h2, goodStack_bottom p0 _ st h.good]
      rw [h2] at h4
      obtain ⟨k, hk⟩ : ∃ k, i % st.length = k + 1 := ⟨i % st.length - 1, by omega⟩
      rw [hk, orientation_split p0 _ _ p0, orientation_pivot_right, orientation_pivot_left]
      have := (goodStack_index p0 ⟨0, 0⟩ st h.good k (by omega)).2
      linarith
  · rcases succ_mod_cases (i + 1) st.length hn with ⟨h4, h5⟩ | ⟨h4, h5⟩
    · rw [h5, h2, goodStack_bottom p0 _ st h.good]
      have e : i % st.length = st.length - 1 := by omega
      rw [e, orientation_split p0 _ p0 _, orientation_pivot_right, orientation_pivot_left]
      have := goodStack_chain p0 ⟨0, 0⟩ st h.good hH h3
      linarith
    · rw [h2] at h4
      omega

/-- Points that all lie on the ray of one point are collinear. -/
theorem allCollinear_of_ray (p0 y : ImVec2) (Q : List ImVec2) (hy : InHalfPlane p0 y)
    (hH : ∀ q ∈ Q, InHalfPlane p0 q) (hle : ∀ q ∈ Q, hullLe p0 q y)
    (h0 : ∀ q ∈ Q, orientation p0 q y = 0) : AllCollinear Q := by
  have hray : ∀ q ∈ Q, ∃ t : ℚ, ∀ w, orientation p0 q w = t * orientation p0 y w := by
    intro q hq
    have hd : ImLengthSqr (p0.sub q) ≤ ImLengthSqr (p0.sub y) := by
      rcases (hullLe_iff p0 q y).mp (hle q hq) with h | h
      · have := h0 q hq
        linarith
      · exact h.2
    obtain ⟨t, _, _, hw, _, _⟩ := ray_scale p0 q y (hH q hq) hy (h0 q hq) hd
    exact ⟨t, hw⟩
  have hzero : ∀ a ∈ Q, ∀ b ∈ Q, orientation p0 a b = 0 := by
    intro a ha b hb
    obtain ⟨t, ht⟩ := hray a ha
    rw [ht b, orientation_swap p0 b y, h0 b hb]
    simp
  intro a ha b hb c hc
  rw [orientation_split p0 a b c, hzero a ha b hb, hzero b hb c hc, hzero c hc a ha]
  simp

/-- A polygon of fewer than three vertices comes from collinear points only. -/
theorem hullInv_collinear (p0 : ImVec2) (Q st : List ImVec2) (h : HullInv p0 Q st)
    (h2 : st.length ≤ 2) : AllCollinear Q := by
  obtain ⟨y, t, Qr, hst, hQ, hall⟩ := hullInv_top p0 Q st h
  have hyQ : y ∈ Q := by rw [hQ]; simp
  refine allCollinear_of_ray p0 y Q (h.half y hyQ) h.half hall ?_
  intro q hq
  have hle := hullLe_orientation p0 q y (hall q hq)
  have hswap := orientation_swap p0 q y
  cases t with
  | nil =>
    have e : y = p0 := by
      have := h.good
      rw [hst] at this
      exact this
    rw [e, orientation_pivot_right]
  | cons x r =>
    cases r with
    | cons w r2 =>
      rw [hst] at h2
      simp at h2
    | nil =>
      have hg := h.good
      rw [hst] at hg
      have e : x = p0 := hg
      have hr := (h.right q hq)
      rw [hst] at hr
      have := hr.1
      rw [e] at this
      linarith

/-- Collinear points leave at most two vertices. -/
theorem hullInv_count_collinear (p0 : ImVec2) (Q st : List ImVec2) (h : HullInv p0 Q st)
    (hc : AllCollinear Q) : st.length ≤ 2 := by
  by_contra hlt
  push_neg at hlt
  match st, h, hlt with
  | z :: y :: x :: r, h, _ =>
    have h1 : orientation x y z < 0 := h.good.1
    have h2 := hc x (h.sub x (by simp)) y (h.sub y (by simp)) z (h.sub z (by simp))
    linarith

theorem allCollinear_perm (Q points : List ImVec2) (hperm : Q.Perm points) :
    AllCollinear Q ↔ AllCollinear points := by
  unfold AllCollinear
  constructor
  · intro h a ha b hb c hc
    exact h a (hperm.mem_iff.mpr ha) b (hperm.mem_iff.mpr hb) c (hperm.mem_iff.mpr hc)
  · intro h a ha b hb c hc
    exact h a (hperm.mem_iff.mp ha) b (hperm.mem_iff.mp hb) c (hperm.mem_iff.mp hc)

/-- The result of `convexHull` on eight points, with the invariant of the scan
for the returned polygon. -/
theorem convexHull_eight (points : List ImVec2) (hlen : points.length = 8) :
    ∃ p0 r Q, convexHull points = some r ∧ HullInv p0 Q (hullPolygon r).reverse ∧
      Q.Perm points ∧ (hullPolygon r).length = r.2 ∧ 2 ≤ r.2 ∧ r.2 ≤ 8 ∧ r.1.length = 8 := by
  have hne : points ≠ [] := by
    intro h
    rw [h] at hlen
    simp at hlen
  obtain ⟨p0, hull, c, Q, st, e, hst, hinv, hperm, hc, h2, hl⟩ := convexHull_spec points hne
  rw [hlen] at hc h2 hl
  refine ⟨p0, (hull, c), Q, e, ?_, hperm, ?_, h2 (by omega), hc, hl⟩
  · unfold hullPolygon
    rw [hst]
    exact hinv
  · unfold hullPolygon
    rw [List.length_take]
    dsimp only
    omega

/-! ## Lemmas and theorems: the convex hull in single precision -/

/-- The `while` loop with the rounded orientation never raises the count, keeps
it at least 1 once it is at least 1, and reads inside the array whenever the
count does not exceed the array's size. -/
theorem hullPopF32_spec (hull : List ImVec2) (p : ImVec2) (count : Nat)
    (hc : count ≤ hull.length) :
    ∃ c, hullPopF32 hull p count = some c ∧ c ≤ count ∧ (1 ≤ count → 1 ≤ c) := by
  induction count using Nat.strong_induction_on with
  | _ count ih =>
    match count, hc, ih with
    | 0, _, _ => exact ⟨0, rfl, le_refl _, fun h => h⟩
    | 1, _, _ => exact ⟨1, rfl, le_refl _, fun h => h⟩
    | n + 2, hc, ih =>
      have h0 : n < hull.length := by omega
      have h1 : n + 1 < hull.length := by omega
      have e0 : hull[n]? = some hull[n] := List.getElem?_eq_getElem h0
      have e1 : hull[n + 1]? = some hull[n + 1] := List.getElem?_eq_getElem h1
      rw [hullPopF32, e0, e1]
      dsimp only
      by_cases hturn : orientationF32 hull[n] hull[n + 1] p ≥ 0
      · rw [if_pos hturn]
        obtain ⟨c, hc1, hc2, hc3⟩ := ih (n + 1) (by omega) (by omega)
        exact ⟨c, hc1, by omega, fun _ => hc3 (by omega)⟩
      · rw [if_neg hturn]
        exact ⟨n + 2, rfl, le_refl _, fun h => h⟩

/-- One iteration with the rounded orientation writes inside the array when the
count is below the array's size; the count ends between 1 and one more than
before, at least 2 when it was at least 1. -/
theorem hullPushF32_spec (hull : List ImVec2) (count : Nat) (p : ImVec2)
    (hc : count < hull.length) :
    ∃ hull2 c, hullPushF32 (hull, count) p = some (hull2, c) ∧ hull2.length = hull.length ∧
      1 ≤ c ∧ c ≤ count + 1 ∧ (1 ≤ count → 2 ≤ c) := by
  obtain ⟨c, hc1, hc2, hc3⟩ := hullPopF32_spec hull p count hc.le
  have hlt : c < hull.length := by omega
  refine ⟨hull.set c p, c + 1, ?_, by simp, by omega, by omega, fun h => by have := hc3 h; omega⟩
  unfold hullPushF32
  simp only [hc1, hlt, if_true]

/-- The whole loop with the rounded orientation stays inside the array when the
points still to come fit into it. -/
theorem hullScanF32_spec (pts : List ImVec2) (hull : List ImVec2) (count : Nat)
    (hc : count + pts.length ≤ hull.length) :
    ∃ hull2 c, hullScanF32 pts (hull, count) = some (hull2, c) ∧ hull2.length = hull.length ∧
      c ≤ count + pts.length ∧ (1 ≤ count → 1 ≤ c) ∧
      (1 ≤ pts.length → 1 ≤ c) ∧ (2 ≤ count + pts.length → 1 ≤ pts.length → 2 ≤ c) := by
  induction pts generalizing hull count with
  | nil => exact ⟨hull, count, rfl, rfl, by simp, fun h => h, by simp, by simp⟩
  | cons p rest ih =>
    simp only [List.length_cons] at hc
    obtain ⟨h2, c2, e2, l2, a2, b2, d2⟩ := hullPushF32_spec hull count p (by omega)
    obtain ⟨h3, c3, e3, l3, a3, b3, d3, f3⟩ := ih h2 c2 (by omega)
    refine ⟨h3, c3, ?_, by omega, by simp only [List.length_cons]; omega, fun _ => b3 a2,
      fun _ => b3 a2, ?_⟩
    · rw [hullScanF32, e2]
      exact e3
    · intro h _
      simp only [List.length_cons] at h
      by_cases hr : 1 ≤ rest.length
      · exact f3 (by omega) hr
      · have hr0 : rest = [] := List.length_eq_zero.mp (by omega)
        subst hr0
        simp only [hullScanF32, Option.some.injEq, Prod.mk.injEq] at e3
        have : 1 ≤ count := by simpa using h
        have := d2 this
        omega

/-- On eight points `convexHullF32` returns, with a count between 2 and 8. -/
theorem convexHullF32_eight (points : List ImVec2) (hlen : points.length = 8) :
    ∃ r, convexHullF32 points = some r ∧ r.1.length = 8 ∧ 2 ≤ r.2 ∧ r.2 ≤ 8 := by
  have hne : points ≠ [] := by
    intro h
    rw [h] at hlen
    simp at hlen
  obtain ⟨p0, hk, _⟩ := minElement_spec points hne
  obtain ⟨rest, hswap, hperm⟩ := swapFirst_spec points _ p0 hk
  have hrest : rest.length + 1 = points.length := by
    rw [← hperm.length_eq]
    rfl
  have hsortperm := stdSort_perm (hullLessF32 p0) rest
  have hcount : (p0 :: stdSort (hullLessF32 p0) rest).length = 8 := by
    rw [List.length_cons, hsortperm.length_eq]
    omega
  have hfit : 0 + (p0 :: stdSort (hullLessF32 p0) rest).length ≤
      (List.replicate points.length (⟨0, 0⟩ : ImVec2)).length := by
    rw [List.length_replicate, hcount, hlen]
  obtain ⟨hull, c, e, hl, hc, _, _, h2⟩ :=
    hullScanF32_spec (p0 :: stdSort (hullLessF32 p0) rest)
      (List.replicate points.length ⟨0, 0⟩) 0 hfit
  refine ⟨(hull, c), ?_, ?_, ?_, ?_⟩
  · unfold convexHullF32
    rw [hswap]
    exact e
  · rw [hl, List.length_replicate, hlen]
  · exact h2 (by rw [hcount]; omega) (by simp)
  · rw [hcount] at hc
    omega

theorem demo_nearLinePoints_not_collinear : ¬AllCollinear Demo.nearLinePoints := by
  intro h
  have h1 := h ⟨0, 0⟩ (by simp [Demo.nearLinePoints]) ⟨8220 / 8, 8221 / 8⟩
    (by simp [Demo.nearLinePoints]) ⟨8217 / 8, 8218 / 8⟩ (by simp [Demo.nearLinePoints])
  norm_num [orientation] at h1

theorem demo_steepLinePoints_collinear : AllCollinear Demo.steepLinePoints := by
  have hxy : ∀ a ∈ Demo.steepLinePoints, a.y = 3 * a.x := by
    intro a ha
    simp only [Demo.steepLinePoints, List.mem_cons, List.mem_singleton, List.not_mem_nil,
      or_false] at ha
    rcases ha with h | h | h | h | h | h | h | h <;> rw [h] <;> norm_num
  intro a ha b hb c hc
  unfold orientation
  rw [hxy a ha, hxy b hb, hxy c hc]
  ring

/-! ## Theorems: the convex hull -/

theorem demo_hullPoints_not_collinear : ¬AllCollinear Demo.hullPoints := by
  intro h
  have h1 := h ⟨0, 0⟩ (by simp [Demo.hullPoints]) ⟨2, 0⟩ (by simp [Demo.hullPoints]) ⟨2, 2⟩
    (by simp [Demo.hullPoints])
  norm_num [orientation] at h1

theorem demo_linePoints_collinear : AllCollinear Demo.linePoints := by
  have hxy : ∀ a ∈ Demo.linePoints, a.x = a.y := by
    intro a ha
    simp only [Demo.linePoints, List.mem_cons, List.mem_singleton, List.not_mem_nil,
      or_false] at ha
    rcases ha with h | h | h | h | h | h | h | h <;> rw [h]
  intro a ha b hb c hc
  unfold orientation
  rw [hxy a ha, hxy b hb, hxy c hc]
  ring

/-- Fewer than three vertices are returned for collinear points only. -/
theorem convexHull_count_ge_three (points : List ImVec2) (hlen : points.length = 8)
    (hnc : ¬AllCollinear points) (r : List ImVec2 × Nat) (hr : convexHull points = some r) :
    3 ≤ r.2 := by
  obtain ⟨p0, r2, Q, e, hinv, hperm, hn, _, _, _⟩ := convexHull_eight points hlen
  rw [hr] at e
  simp only [Option.some.injEq] at e
  subst e
  by_contra hlt
  push_neg at hlt
  refine hnc ((allCollinear_perm Q points hperm).mp (hullInv_collinear p0 Q _ hinv ?_))
  rw [List.length_reverse, hn]
  omega

/-- C11: on eight points `convexHull` returns the convex hull. Every vertex of
the returned polygon (the first `count` entries of `hull`) is one of the input
points, and for every directed edge `(h[i], h[i+1 mod n])` of the polygon and
every input point `p` the cross product `(h[i+1] - h[i]) x (p - h[i])`, which is
`orientation h[i] h[i+1] p`, is at most zero: no input point lies strictly
outside. Rationals stand for exact arithmetic. The statement holds for collinear
input as well. -/
theorem convexHull_encloses_input (points : List ImVec2) (hlen : points.length = 8) :
    ∃ r, convexHull points = some r ∧ (∀ v ∈ hullPolygon r, v ∈ points) ∧
      ∀ i, ∀ p ∈ points,
        orientation (polygonVertex (hullPolygon r) i) (polygonVertex (hullPolygon r) (i + 1)) p
          ≤ 0 := by
  obtain ⟨p0, r, Q, e, hinv, hperm, _, _, _, _⟩ := convexHull_eight points hlen
  refine ⟨r, e, ?_, ?_⟩
  · intro v hv
    exact hperm.subset (hinv.sub v (List.mem_reverse.mpr hv))
  · intro i p hp
    have := hullInv_edges p0 Q _ hinv i p (hperm.mem_iff.mpr hp)
    rwa [List.reverse_reverse] at this

/-- Witness for C11: the eight demo points, the corners of a square with points
on and inside it. -/
theorem convexHull_encloses_input_witness :
    Demo.hullPoints.length = 8 ∧
    ∃ r, convexHull Demo.hullPoints = some r ∧ (∀ v ∈ hullPolygon r, v ∈ Demo.hullPoints) ∧
      ∀ i, ∀ p ∈ Demo.hullPoints,
        orientation (polygonVertex (hullPolygon r) i) (polygonVertex (hullPolygon r) (i + 1)) p
          ≤ 0 :=
  ⟨rfl, convexHull_encloses_input Demo.hullPoints rfl⟩

/-- C12, amended: in exact arithmetic, for eight points that are not all
collinear (a cube projection among them) the count returned by `convexHull` is
at least 3 and at most 8. -/
theorem convexHull_count_bounds (points : List ImVec2) (hlen : points.length = 8)
    (hnc : ¬AllCollinear points) :
    ∃ r, convexHull points = some r ∧ 3 ≤ r.2 ∧ r.2 ≤ 8 := by
  obtain ⟨_, r, _, e, _, _, _, _, h8, _⟩ := convexHull_eight points hlen
  exact ⟨r, e, convexHull_count_ge_three points hlen hnc r e, h8⟩

/-- Witness for C12: the eight demo points are not collinear. -/
theorem convexHull_count_bounds_witness :
    (Demo.hullPoints.length = 8 ∧ ¬AllCollinear Demo.hullPoints) ∧
    ∃ r, convexHull Demo.hullPoints = some r ∧ 3 ≤ r.2 ∧ r.2 ≤ 8 :=
  ⟨⟨rfl, demo_hullPoints_not_collinear⟩,
    convexHull_count_bounds Demo.hullPoints rfl demo_hullPoints_not_collinear⟩

/-- Counterexample to C12 as stated: the eight points of `nearLinePoints` are
not all collinear, and evaluated in single precision `convexHull` returns the
count 2: every cross product about the pivot `(0, 0)` rounds to zero. In exact
arithmetic the count is 3. The rounded comparison is a strict total order on
the seven points other than the pivot, so the sorted order does not depend on
the sorting algorithm. -/
theorem convexHullF32_count_two_not_collinear :
    Demo.nearLinePoints.length = 8 ∧ ¬AllCollinear Demo.nearLinePoints ∧
    convexHullF32 Demo.nearLinePoints =
      some ([⟨0, 0⟩, ⟨1028, 8225 / 8⟩, ⟨0, 0⟩, ⟨0, 0⟩, ⟨0, 0⟩, ⟨0, 0⟩, ⟨0, 0⟩, ⟨0, 0⟩], 2) ∧
    (convexHull Demo.nearLinePoints).map Prod.snd = some 3 ∧
    StrictTotalOn (hullLessF32 ⟨0, 0⟩)
      (Demo.nearLinePoints.filter fun p => decide (p ≠ ⟨0, 0⟩)) :=
  ⟨rfl, demo_nearLinePoints_not_collinear, by decide!, by decide!, by
    unfold StrictTotalOn
    decide!⟩

/-- C13, amended: in exact arithmetic the polygon returned by `convexHull` on
eight points is ordered clockwise and does not cross itself: when the returned
count `n` is at least 3,
for every `i` the cross product `(h[i+1] - h[i]) x (h[i+2] - h[i])`, which is
`orientation h[i] h[i+1] h[i+2]`, indices modulo `n`, is strictly negative, the
two wrap-around triples included. -/
theorem convexHull_strictly_clockwise (points : List ImVec2) (hlen : points.length = 8) :
    ∃ r, convexHull points = some r ∧
      (3 ≤ r.2 → ∀ i,
        orientation (polygonVertex (hullPolygon r) i) (polygonVertex (hullPolygon r) (i + 1))
          (polygonVertex (hullPolygon r) (i + 2)) < 0) := by
  obtain ⟨p0, r, Q, e, hinv, _, hn, _, _, _⟩ := convexHull_eight points hlen
  refine ⟨r, e, ?_⟩
  intro h3 i
  have := hullInv_turns p0 Q _ hinv (by rw [List.length_reverse, hn]; exact h3) i
  rwa [List.reverse_reverse] at this

/-- Witness for C13: on the eight demo points the count is at least 3, and
every consecutive triple of the polygon turns strictly right. -/
theorem convexHull_strictly_clockwise_witness :
    Demo.hullPoints.length = 8 ∧
    ∃ r, convexHull Demo.hullPoints = some r ∧ 3 ≤ r.2 ∧ ∀ i,
      orientation (polygonVertex (hullPolygon r) i) (polygonVertex (hullPolygon r) (i + 1))
        (polygonVertex (hullPolygon r) (i + 2)) < 0 :=
  ⟨rfl, by
    obtain ⟨r, e, h⟩ := convexHull_strictly_clockwise Demo.hullPoints rfl
    have h3 := convexHull_count_ge_three Demo.hullPoints rfl demo_hullPoints_not_collinear r e
    exact ⟨r, e, h3, h h3⟩⟩

/-- Counterexample to C13 as stated: evaluated in single precision `convexHull`
returns six vertices for the eight points of `reflexPoints`, and the triple of
the vertices 4, 5 and 0 turns left: its cross product is `1 / 16`, in exact
arithmetic and as the machine evaluates it. The rounded comparison is a strict
total order on the seven points other than the pivot `(0, 0)`, so the sorted
order does not depend on the sorting algorithm. -/
theorem convexHullF32_left_turn :
    Demo.reflexPoints.length = 8 ∧
    ∃ r, convexHullF32 Demo.reflexPoints = some r ∧ r.2 = 6 ∧
      hullPolygon r = [⟨0, 0⟩, ⟨2053 / 8, 19377 / 16⟩, ⟨2675 / 8, 23015 / 16⟩,
        ⟨14303 / 8, 28589 / 16⟩, ⟨1681, 1680⟩, ⟨26897 / 16, 26881 / 16⟩] ∧
      orientation (polygonVertex (hullPolygon r) 4) (polygonVertex (hullPolygon r) (4 + 1))
        (polygonVertex (hullPolygon r) (4 + 2)) = 1 / 16 ∧
      orientationF32 (polygonVertex (hullPolygon r) 4) (polygonVertex (hullPolygon r) (4 + 1))
        (polygonVertex (hullPolygon r) (4 + 2)) = 1 / 16 ∧
      StrictTotalOn (hullLessF32 ⟨0, 0⟩)
        (Demo.reflexPoints.filter fun p => decide (p ≠ ⟨0, 0⟩)) :=
  ⟨rfl, ([⟨0, 0⟩, ⟨2053 / 8, 19377 / 16⟩, ⟨2675 / 8, 23015 / 16⟩, ⟨14303 / 8, 28589 / 16⟩,
      ⟨1681, 1680⟩, ⟨26897 / 16, 26881 / 16⟩, ⟨0, 0⟩, ⟨0, 0⟩], 6),
    by decide!, rfl, by decide!, by decide!, by decide!, by
      unfold StrictTotalOn
      decide!⟩

/-- C14, amended: `convexHull` handles degenerate input inside its arrays. For
every array of eight points, identical or collinear ones included, it returns,
evaluated in single precision (`convexHullF32`) and in exact arithmetic
(`convexHull`) alike; the embedding returns `none` as soon as a read of
`hull[count-2]`, `hull[count-1]` or a write of `hull[count]` leaves the
eight-element array, so every such index is in `0..7`. The returned count is
between 2 and 8. In exact arithmetic it is 2 when all points are collinear. -/
theorem convexHull_in_bounds (points : List ImVec2) (hlen : points.length = 8) :
    (∃ r, convexHullF32 points = some r ∧ r.1.length = 8 ∧ 2 ≤ r.2 ∧ r.2 ≤ 8) ∧
    ∃ r, convexHull points = some r ∧ r.1.length = 8 ∧ 2 ≤ r.2 ∧ r.2 ≤ 8 ∧
      (AllCollinear points → r.2 = 2) := by
  refine ⟨convexHullF32_eight points hlen, ?_⟩
  obtain ⟨p0, r, Q, e, hinv, hperm, hn, h2, h8, hl⟩ := convexHull_eight points hlen
  refine ⟨r, e, hl, h2, h8, ?_⟩
  intro hc
  have := hullInv_count_collinear p0 Q _ hinv ((allCollinear_perm Q points hperm).mpr hc)
  rw [List.length_reverse, hn] at this
  omega

/-- Witness for C14: eight points on the diagonal give count 2 in exact
arithmetic and a count between 2 and 8 in single precision. -/
theorem convexHull_in_bounds_witness :
    Demo.linePoints.length = 8 ∧
    (∃ r, convexHullF32 Demo.linePoints = some r ∧ r.1.length = 8 ∧ 2 ≤ r.2 ∧ r.2 ≤ 8) ∧
    ∃ r, convexHull Demo.linePoints = some r ∧ r.1.length = 8 ∧ r.2 = 2 :=
  ⟨rfl, (convexHull_in_bounds Demo.linePoints rfl).1, by
    obtain ⟨r, e, hl, _, _, h⟩ := (convexHull_in_bounds Demo.linePoints rfl).2
    exact ⟨r, e, hl, h demo_linePoints_collinear⟩⟩

/-- Counterexample to C14 as stated: the eight points of `steepLinePoints` lie
on the line `y = 3 x`, and evaluated in single precision `convexHull` returns
the count 3, not 2: differences from the pivot are rounded, and cross products
that are zero in exact arithmetic come out negative. The rounded comparison is
a strict total order on the seven points other than the pivot, so the sorted
order does not depend on the sorting algorithm. -/
theorem convexHullF32_count_three_collinear :
    Demo.steepLinePoints.length = 8 ∧ AllCollinear Demo.steepLinePoints ∧
    convexHullF32 Demo.steepLinePoints =
      some ([⟨25 / 131072, 75 / 131072⟩, ⟨114, 342⟩, ⟨466, 1398⟩, ⟨0, 0⟩, ⟨0, 0⟩, ⟨0, 0⟩,
        ⟨0, 0⟩, ⟨0, 0⟩], 3) ∧
    StrictTotalOn (hullLessF32 ⟨25 / 131072, 75 / 131072⟩)
      (Demo.steepLinePoints.filter fun p => decide (p ≠ ⟨25 / 131072, 75 / 131072⟩)) :=
  ⟨rfl, demo_steepLinePoints_collinear, by decide!, by
    unfold StrictTotalOn
    decide!⟩

/-! ## Lemmas and theorems: the renderer, the frame gate, the rank tables -/

theorem toSizeT_of_nonneg (bits : Nat) (v : Int) (h0 : 0 ≤ v) (h1 : v < 2 ^ bits) :
    toSizeT bits v = v.toNat := by
  unfold toSizeT
  rw [Int.emod_eq_of_lt h0 h1]

theorem toSizeT_of_neg (bits : Nat) (v : Int) (hb : 32 ≤ bits) (h0 : v < 0)
    (h1 : -2 ^ 31 ≤ v) : 2 ^ 31 ≤ toSizeT bits v := by
  unfold toSizeT
  have hpow : (2 : Int) ^ 32 ≤ 2 ^ bits := pow_le_pow_right₀ (by norm_num) hb
  have hpos : (0 : Int) < 2 ^ bits := by positivity
  have e : v % 2 ^ bits = v + 2 ^ bits := by
    rw [← Int.add_mul_emod_self_left v (2 ^ bits) 1, mul_one]
    exact Int.emod_eq_of_lt (by linarith) (by linarith)
  rw [e]
  have h2 : (2 : Int) ^ 31 ≤ v + 2 ^ bits := by
    have : (2 : Int) ^ 32 = 2 * 2 ^ 31 := by norm_num
    linarith
  have := Int.toNat_le_toNat h2
  simpa using this

/-- The index expression picks `skillgroup` inside the table and 0 outside. -/
theorem rankIndex_spec (bits size : Nat) (skillgroup : Int) (hb : 32 ≤ bits)
    (hsize : size ≤ 2 ^ 31) (hint : IsInt32 skillgroup) :
    rankIndex bits size skillgroup =
      if 0 ≤ skillgroup ∧ skillgroup < size then skillgroup else 0 := by
  obtain ⟨hlo, hhi⟩ := hint
  have hpow : (2 : Int) ^ 31 ≤ 2 ^ bits := pow_le_pow_right₀ (by norm_num) (by omega)
  unfold rankIndex
  by_cases h0 : 0 ≤ skillgroup
  · rw [toSizeT_of_nonneg bits skillgroup h0 (by linarith)]
    by_cases h1 : skillgroup < size
    · rw [if_pos (by omega), if_pos ⟨h0, h1⟩]
    · rw [if_neg (by omega), if_neg (by tauto)]
  · push_neg at h0
    have := toSizeT_of_neg bits skillgroup hb h0 hlo
    rw [if_neg (by omega), if_neg (by omega)]

theorem arrayAt_rankIndex {α : Type} (bits size : Nat) (table : List α) (skillgroup : Int)
    (hb : 32 ≤ bits) (hsize : size ≤ 2 ^ 31) (hlen : table.length = size) (hpos : 0 < size)
    (hint : IsInt32 skillgroup) :
    ∃ i, i < size ∧ (i : Int) = (if 0 ≤ skillgroup ∧ skillgroup < size then skillgroup else 0) ∧
      arrayAt bits table (rankIndex bits size skillgroup) = table[i]? ∧
      (table[i]?).isSome = true := by
  rw [rankIndex_spec bits size skillgroup hb hsize hint]
  have hpow : (2 : Int) ^ 31 ≤ 2 ^ bits := pow_le_pow_right₀ (by norm_num) (by omega)
  have hs : (size : Int) ≤ 2 ^ 31 := by exact_mod_cast hsize
  by_cases h : 0 ≤ skillgroup ∧ skillgroup < size
  · rw [if_pos h]
    refine ⟨skillgroup.toNat, by omega, by omega, ?_, ?_⟩
    · unfold arrayAt
      rw [toSizeT_of_nonneg bits skillgroup h.1 (by linarith)]
    · rw [List.getElem?_eq_getElem (by omega)]
      rfl
  · rw [if_neg h]
    refine ⟨0, hpos, rfl, ?_, ?_⟩
    · unfold arrayAt
      rw [toSizeT_of_nonneg bits 0 (le_refl _) (by positivity)]
      rfl
    · rw [List.getElem?_eq_getElem (by omega)]
      rfl

/-- C30: rank-table lookups never index out of bounds. For every 32-bit `int`
skillgroup, negative values and values at or beyond the table size included,
`getRankName` and `getRankTexture` read the element at index `skillgroup` when
`0 ≤ skillgroup < N` and the element at index 0 otherwise, inside the table,
where `N` is 16 when the game mode name is "survival" and 19 otherwise.
`std::size_t` has at least 32 bits; the tables have their declared sizes. -/
theorem rank_lookup_in_bounds {τ : Type} (bits : Nat) (skillgroupImages dangerZoneImages : List τ)
    (s : State) (p : PlayerData) (hb : 32 ≤ bits) (hint : IsInt32 p.skillgroup)
    (hnames : s.skillGroupNames.length = 19) (hdz : s.skillGroupNamesDangerzone.length = 16)
    (himg : skillgroupImages.length = 19) (hdzimg : dangerZoneImages.length = 16) :
    ∃ n i : Nat, n = (if s.gameModeName = "survival" then 16 else 19) ∧ i < n ∧
      (i : Int) = (if 0 ≤ p.skillgroup ∧ p.skillgroup < n then p.skillgroup else 0) ∧
      PlayerData.getRankName bits s p =
        (if s.gameModeName = "survival" then s.skillGroupNamesDangerzone else s.skillGroupNames)[i]? ∧
      (PlayerData.getRankName bits s p).isSome = true ∧
      PlayerData.getRankTexture bits skillgroupImages dangerZoneImages s p =
        (if s.gameModeName = "survival" then dangerZoneImages else skillgroupImages)[i]? ∧
      (PlayerData.getRankTexture bits skillgroupImages dangerZoneImages s p).isSome = true := by
  unfold PlayerData.getRankName PlayerData.getRankTexture
  by_cases hmode : s.gameModeName = "survival"
  · simp only [if_pos hmode]
    obtain ⟨i, h1, h2, h3, h4⟩ := arrayAt_rankIndex bits 16 s.skillGroupNamesDangerzone
      p.skillgroup hb (by norm_num) hdz (by norm_num) hint
    obtain ⟨j, k1, k2, k3, k4⟩ := arrayAt_rankIndex bits 16 dangerZoneImages
      p.skillgroup hb (by norm_num) hdzimg (by norm_num) hint
    have hij : i = j := by
      have : (i : Int) = j := by rw [h2, k2]
      exact_mod_cast this
    subst hij
    exact ⟨16, i, rfl, h1, h2, h3, by rw [h3]; exact h4, k3, by rw [k3]; exact k4⟩
  · simp only [if_neg hmode]
    obtain ⟨i, h1, h2, h3, h4⟩ := arrayAt_rankIndex bits 19 s.skillGroupNames
      p.skillgroup hb (by norm_num) hnames (by norm_num) hint
    obtain ⟨j, k1, k2, k3, k4⟩ := arrayAt_rankIndex bits 19 skillgroupImages
      p.skillgroup hb (by norm_num) himg (by norm_num) hint
    have hij : i = j := by
      have : (i : Int) = j := by rw [h2, k2]
      exact_mod_cast this
    subst hij
    exact ⟨19, i, rfl, h1, h2, h3, by rw [h3]; exact h4, k3, by rw [k3]; exact k4⟩

/-- Witness for C30: a negative skillgroup reads element 0 of the 19 names. -/
theorem rank_lookup_in_bounds_witness :
    ((32 ≤ 32 ∧ IsInt32 ({ Demo.player 300 with skillgroup := -1 } : PlayerData).skillgroup) ∧
      Demo.state.skillGroupNames.length = 19 ∧ Demo.state.skillGroupNamesDangerzone.length = 16) ∧
    (PlayerData.getRankName 32 Demo.state { Demo.player 300 with skillgroup := -1 }).isSome = true ∧
    (PlayerData.getRankTexture 32 (List.range 19) (List.range 16) Demo.state
      { Demo.player 300 with skillgroup := -1 }).isSome = true := by
  have hint : IsInt32 ({ Demo.player 300 with skillgroup := -1 } : PlayerData).skillgroup := by
    unfold IsInt32
    decide
  obtain ⟨_, _, _, _, _, _, h1, _, h2⟩ :=
    rank_lookup_in_bounds 32 (List.range 19) (List.range 16) Demo.state
      { Demo.player 300 with skillgroup := -1 } (le_refl _) hint rfl rfl rfl rfl
  exact ⟨⟨⟨le_refl _, hint⟩, rfl, rfl⟩, h1, h2⟩

/-- C27: the frame gate starts at frame counter 0. `update` rebuilds exactly
when the frame counter differs from the recorded one, and the recorded value is
0 when the process starts: a first call at frame counter 0 returns the state
untouched (no sequence, singleton, latency gauge or lookup table is written),
and a first call at any other frame counter runs the rebuild and records the
frame counter. -/
theorem frame_gate_starts_at_zero (hd : Header) (g : Game) (lp : LocalPlayerData)
    (bomb : BombData) :
    (∀ s, GameData.update hd g s = if s.lastFrame = g.framecount then s else rebuild hd g s) ∧
    (State.initial lp bomb).lastFrame = 0 ∧
    (g.framecount = 0 →
      GameData.update hd g (State.initial lp bomb) = State.initial lp bomb) ∧
    (g.framecount ≠ 0 →
      GameData.update hd g (State.initial lp bomb) = rebuild hd g (State.initial lp bomb) ∧
      (GameData.update hd g (State.initial lp bomb)).lastFrame = g.framecount ∧
      GameData.update hd g (State.initial lp bomb) ≠ State.initial lp bomb) := by
  refine ⟨fun s => rfl, rfl, ?_, ?_⟩
  · intro h0
    unfold GameData.update
    rw [if_pos (by rw [h0]; rfl)]
  · intro hne
    have hgate : ¬(State.initial lp bomb).lastFrame = g.framecount := by
      intro h
      exact hne (by rw [← h]; rfl)
    have e : GameData.update hd g (State.initial lp bomb) = rebuild hd g (State.initial lp bomb) := by
      unfold GameData.update
      rw [if_neg hgate]
    refine ⟨e, ?_, ?_⟩
    · rw [e, rebuild_lastFrame]
    · intro h
      have h1 : (GameData.update hd g (State.initial lp bomb)).lastFrame = g.framecount := by
        rw [e, rebuild_lastFrame]
      rw [h] at h1
      exact hgate h1

/-- Witness for C27: the lobby at frame counter 0 leaves the initial state as
it is, the demo world at frame 7 rebuilds. -/
theorem frame_gate_starts_at_zero_witness :
    GameData.update Demo.header { Demo.lobby with framecount := 0 }
        (State.initial Demo.localData Demo.bomb) = State.initial Demo.localData Demo.bomb ∧
    (GameData.update Demo.header Demo.game (State.initial Demo.localData Demo.bomb)).lastFrame = 7 :=
  ⟨(frame_gate_starts_at_zero Demo.header { Demo.lobby with framecount := 0 } Demo.localData
      Demo.bomb).2.2.1 rfl,
    ((frame_gate_starts_at_zero Demo.header Demo.game Demo.localData Demo.bomb).2.2.2
      (by decide)).2.1⟩

theorem playerUpdateResource_identity (g : Game) (p : PlayerData) (idx : Int) :
    (PlayerData.updateResource g p idx).userId = p.userId ∧
      (PlayerData.updateResource g p idx).steamID = p.steamID ∧
      (PlayerData.updateResource g p idx).name = p.name := by
  unfold PlayerData.updateResource
  split <;> exact ⟨rfl, rfl, rfl⟩

theorem playerUpdateDormant_identity (g : Game) (p : PlayerData) (idx : Int) :
    (PlayerData.updateDormant g p idx).userId = p.userId ∧
      (PlayerData.updateDormant g p idx).steamID = p.steamID ∧
      (PlayerData.updateDormant g p idx).name = p.name := by
  unfold PlayerData.updateDormant
  split <;> exact ⟨rfl, rfl, rfl⟩

theorem playerUpdateVisibility_identity (g : Game) (t : ℚ) (p : PlayerData) (e : Entity) :
    (PlayerData.updateVisibility g t p e).userId = p.userId ∧
      (PlayerData.updateVisibility g t p e).steamID = p.steamID ∧
      (PlayerData.updateVisibility g t p e).name = p.name := by
  unfold PlayerData.updateVisibility
  dsimp only
  repeat' split
  all_goals exact ⟨rfl, rfl, rfl⟩

theorem playerUpdateWeapon_identity (g : Game) (p : PlayerData) (e : Entity) :
    (PlayerData.updateWeapon g p e).userId = p.userId ∧
      (PlayerData.updateWeapon g p e).steamID = p.steamID ∧
      (PlayerData.updateWeapon g p e).name = p.name := by
  unfold PlayerData.updateWeapon
  dsimp only
  repeat' split
  all_goals exact ⟨rfl, rfl, rfl⟩

theorem playerUpdateSkeleton_identity (g : Game) (p : PlayerData) (e : Entity) :
    (PlayerData.updateSkeleton g p e).userId = p.userId ∧
      (PlayerData.updateSkeleton g p e).steamID = p.steamID ∧
      (PlayerData.updateSkeleton g p e).name = p.name := by
  unfold PlayerData.updateSkeleton
  dsimp only
  repeat' split
  all_goals exact ⟨rfl, rfl, rfl⟩

/-- The updater keeps `userId` and `steamID` and assigns the entity's name to
`name`. -/
theorem playerUpdate_identity (hd : Header) (g : Game) (lp : LocalPlayerData) (t : ℚ)
    (p : PlayerData) (e : Entity) :
    (PlayerData.update hd g lp t p e).userId = p.userId ∧
      (PlayerData.update hd g lp t p e).steamID = p.steamID ∧
      (PlayerData.update hd g lp t p e).name = e.getPlayerName := by
  unfold PlayerData.update
  dsimp only
  split
  · obtain ⟨h1, h2, h3⟩ := playerUpdateDormant_identity g
      { PlayerData.updateResource g { p with name := e.getPlayerName } e.index with
        dormant := e.isDormant } e.index
    obtain ⟨k1, k2, k3⟩ := playerUpdateResource_identity g { p with name := e.getPlayerName }
      e.index
    exact ⟨h1.trans k1, h2.trans k2, h3.trans k3⟩
  · obtain ⟨k1, k2, k3⟩ := playerUpdateResource_identity g { p with name := e.getPlayerName }
      e.index
    refine ⟨?_, ?_, ?_⟩
    · rw [(playerUpdateSkeleton_identity _ _ _).1, (playerUpdateWeapon_identity _ _ _).1]
      simp only [(playerUpdateVisibility_identity _ _ _ _).1]
      exact k1
    · rw [(playerUpdateSkeleton_identity _ _ _).2.1, (playerUpdateWeapon_identity _ _ _).2.1]
      simp only [(playerUpdateVisibility_identity _ _ _ _).2.1]
      exact k2
    · rw [(playerUpdateSkeleton_identity _ _ _).2.2, (playerUpdateWeapon_identity _ _ _).2.2]
      simp only [(playerUpdateVisibility_identity _ _ _ _).2.2]
      exact k3

/-- C26, as the code has it: for every player record and every entity passed to
`PlayerData::update`, the record's user id, platform (steam) id and handle are
the same after the call as before it; `name` is assigned the name the entity
reports at the call (GameData.cpp:474). -/
theorem playerUpdate_keeps_ids (hd : Header) (g : Game) (lp : LocalPlayerData) (gateTime : ℚ)
    (p : PlayerData) (entity : Entity) :
    (PlayerData.update hd g lp gateTime p entity).userId = p.userId ∧
    (PlayerData.update hd g lp gateTime p entity).steamID = p.steamID ∧
    (PlayerData.update hd g lp gateTime p entity).handle = p.handle ∧
    (PlayerData.update hd g lp gateTime p entity).name = entity.getPlayerName := by
  obtain ⟨h1, h2, h3⟩ := playerUpdate_identity hd g lp gateTime p entity
  exact ⟨h1, h2, playerUpdate_handle hd g lp gateTime p entity, h3⟩

/-- Counterexample to C26 as stated: the record of handle 300, whose name is
empty, has the name "enemy" after an update from the entity of that name. -/
theorem playerUpdate_changes_name :
    (PlayerData.update Demo.header Demo.game Demo.localData 0 (Demo.player 300) Demo.enemy).name ≠
      (Demo.player 300).name := by
  rw [(playerUpdate_identity Demo.header Demo.game Demo.localData 0 (Demo.player 300)
    Demo.enemy).2.2]
  decide

/-- C23, as the code has it: an enabled snapline is one line from a fixed
screen anchor to the object's 2D box. It starts at the horizontal screen centre,
at the bottom edge (Bottom), the top edge (Top) or the vertical centre
(Crosshair) of the screen. It ends at the horizontal centre of the box, at the
lower edge `max.y` of the box for Bottom, at its upper edge `min.y` for Top, and
at its centre `((min.x+max.x)/2, (min.y+max.y)/2)` for Crosshair. A disabled
snapline or an unknown type emits no line. -/
theorem drawSnapline_endpoints (ov : Overlay) (config : Snapline) (min max : ImVec2) :
    (config.enabled = true → config.type = SnaplineType.Bottom →
      drawSnapline ov config min max =
        [DrawCmd.AddLine ⟨ov.displaySize.x / 2, ov.displaySize.y⟩ ⟨(min.x + max.x) / 2, max.y⟩
          (ov.snaplineColor config) config.thickness]) ∧
    (config.enabled = true → config.type = SnaplineType.Top →
      drawSnapline ov config min max =
        [DrawCmd.AddLine ⟨ov.displaySize.x / 2, 0⟩ ⟨(min.x + max.x) / 2, min.y⟩
          (ov.snaplineColor config) config.thickness]) ∧
    (config.enabled = true → config.type = SnaplineType.Crosshair →
      drawSnapline ov config min max =
        [DrawCmd.AddLine ⟨ov.displaySize.x / 2, ov.displaySize.y / 2⟩
          ⟨(min.x + max.x) / 2, (min.y + max.y) / 2⟩ (ov.snaplineColor config) config.thickness]) ∧
    (config.enabled = false → drawSnapline ov config min max = []) ∧
    (∀ value, config.type = SnaplineType.unknown value → drawSnapline ov config min max = []) := by
  unfold drawSnapline
  refine ⟨?_, ?_, ?_, ?_, ?_⟩
  · intro he ht
    simp [he, ht]
  · intro he ht
    simp [he, ht]
  · intro he ht
    simp [he, ht]
  · intro he
    simp [he]
  · intro value ht
    simp [ht]

/-- Witness for C23: the enabled bottom snapline of the demo overlay for the box
from `(0, 0)` to `(2, 4)`. -/
theorem drawSnapline_endpoints_witness :
    (Demo.bottomLine.enabled = true ∧ Demo.bottomLine.type = SnaplineType.Bottom) ∧
    drawSnapline Demo.overlay Demo.bottomLine ⟨0, 0⟩ ⟨2, 4⟩ =
      [DrawCmd.AddLine ⟨Demo.overlay.displaySize.x / 2, Demo.overlay.displaySize.y⟩
        ⟨(0 + 2) / 2, 4⟩ (Demo.overlay.snaplineColor Demo.bottomLine) Demo.bottomLine.thickness] :=
  ⟨⟨rfl, rfl⟩, (drawSnapline_endpoints Demo.overlay Demo.bottomLine ⟨0, 0⟩ ⟨2, 4⟩).1 rfl rfl⟩

/-- Counterexample to C23 as stated: the enabled bottom snapline for the box
from `(0, 0)` to `(2, 4)` ends at `(1, 4)`, the middle of the lower edge of the
box, not at the centre `(1, 2)` of the box. -/
theorem drawSnapline_bottom_misses_centre :
    ∃ p1 p2 col thickness,
      drawSnapline Demo.overlay Demo.bottomLine ⟨0, 0⟩ ⟨2, 4⟩ =
        [DrawCmd.AddLine p1 p2 col thickness] ∧
      p2 = ⟨1, 4⟩ ∧ p2 ≠ ⟨(0 + 2) / 2, (0 + 4) / 2⟩ := by
  refine ⟨⟨10 / 2, 10⟩, ⟨(0 + 2) / 2, 4⟩, 7, 1, rfl, ?_, ?_⟩
  · norm_num
  · norm_num

/-- C21: the weapon configuration is resolved with precedence exact name, then
group, then "All". For every weapon record the weapon loop of `render` hands
the record to `renderWeaponBox` with the weapon-name configuration if that is
enabled, otherwise with the weapon-group configuration if that is enabled,
otherwise with the "All" configuration, and it draws the weapon (makes that one
call) if and only if the configuration so chosen is enabled; otherwise it makes
no call. -/
theorem renderWeapon_precedence (cfg : EspConfig) (weapon : WeaponData) :
    ((cfg.weapons weapon.name).enabled = true →
      renderWeapon cfg weapon = [RenderCall.renderWeaponBox weapon (cfg.weapons weapon.name)]) ∧
    ((cfg.weapons weapon.name).enabled = false → (cfg.weapons weapon.group).enabled = true →
      renderWeapon cfg weapon = [RenderCall.renderWeaponBox weapon (cfg.weapons weapon.group)]) ∧
    ((cfg.weapons weapon.name).enabled = false → (cfg.weapons weapon.group).enabled = false →
      (cfg.weapons "All").enabled = true →
      renderWeapon cfg weapon = [RenderCall.renderWeaponBox weapon (cfg.weapons "All")]) ∧
    ((cfg.weapons weapon.name).enabled = false → (cfg.weapons weapon.group).enabled = false →
      (cfg.weapons "All").enabled = false → renderWeapon cfg weapon = []) ∧
    (drawsWeapon cfg weapon ↔ (resolveWeaponConfig cfg weapon).enabled = true) ∧
    (∀ config, RenderCall.renderWeaponBox weapon config ∈ renderWeapon cfg weapon →
      config = resolveWeaponConfig cfg weapon) := by
  unfold drawsWeapon resolveWeaponConfig renderWeapon renderWeaponEsp
  cases h1 : (cfg.weapons weapon.name).enabled <;>
    cases h2 : (cfg.weapons weapon.group).enabled <;>
    cases h3 : (cfg.weapons "All").enabled <;>
    simp [h1, h2, h3]

/-- Witness for C21: the rifle of the demo configuration, where only the group
"Rifles" is enabled, is drawn with the group configuration. -/
theorem renderWeapon_precedence_witness :
    ((Demo.espConfig.weapons Demo.rifle.name).enabled = false ∧
      (Demo.espConfig.weapons Demo.rifle.group).enabled = true) ∧
    renderWeapon Demo.espConfig Demo.rifle =
      [RenderCall.renderWeaponBox Demo.rifle (Demo.espConfig.weapons Demo.rifle.group)] :=
  ⟨⟨by decide, by decide⟩,
    (renderWeapon_precedence Demo.espConfig Demo.rifle).2.1 (by decide) (by decide)⟩

theorem renderPlayerEsp_drawn_iff (ov : Overlay) (g : Game) (playerData : PlayerData)
    (playerConfig : Player) (hen : playerConfig.enabled = true) :
    drawsPlayer ov g playerData playerConfig ↔
      ((playerConfig.audibleOnly && !playerData.audible && !playerConfig.spottedOnly) ||
        (playerConfig.spottedOnly && !playerData.spotted &&
          !(playerConfig.audibleOnly && playerData.audible))) = false := by
  unfold drawsPlayer renderPlayerEsp
  simp only [hen, Bool.not_true, Bool.false_eq_true, if_false]
  split
  · rename_i h
    constructor
    · intro hm
      simp at hm
    · intro hf
      rw [h] at hf
      cases hf
  · rename_i h
    constructor
    · intro _
      exact (Bool.not_eq_true _).mp h
    · intro _
      simp

/-- A player that is not drawn under an enabled configuration causes no call,
and the function returns `true`. -/
theorem renderPlayerEsp_not_drawn (ov : Overlay) (g : Game) (playerData : PlayerData)
    (playerConfig : Player) (hen : playerConfig.enabled = true)
    (hnot : ¬drawsPlayer ov g playerData playerConfig) :
    renderPlayerEsp ov g playerData playerConfig = (true, []) := by
  rw [renderPlayerEsp_drawn_iff ov g playerData playerConfig hen] at hnot
  simp only [Bool.not_eq_false] at hnot
  unfold renderPlayerEsp
  simp only [hen, Bool.not_true, Bool.false_eq_true, if_false]
  rw [if_pos hnot]

/-- C22: under an enabled player configuration the audible-only and
spotted-only filters are OR-combined. With both toggles set the player is drawn
(handed to `renderPlayerBox`) iff it is audible or spotted; with only
audible-only set, iff it is audible; with only spotted-only set, iff it is
spotted; with neither set, always. A player that is not drawn causes no call at
all, and the function still returns `true`. -/
theorem renderPlayerEsp_filters (ov : Overlay) (g : Game) (playerData : PlayerData)
    (playerConfig : Player) (hen : playerConfig.enabled = true) :
    (playerConfig.audibleOnly = true → playerConfig.spottedOnly = true →
      (drawsPlayer ov g playerData playerConfig ↔
        playerData.audible = true ∨ playerData.spotted = true)) ∧
    (playerConfig.audibleOnly = true → playerConfig.spottedOnly = false →
      (drawsPlayer ov g playerData playerConfig ↔ playerData.audible = true)) ∧
    (playerConfig.audibleOnly = false → playerConfig.spottedOnly = true →
      (drawsPlayer ov g playerData playerConfig ↔ playerData.spotted = true)) ∧
    (playerConfig.audibleOnly = false → playerConfig.spottedOnly = false →
      drawsPlayer ov g playerData playerConfig) ∧
    (¬drawsPlayer ov g playerData playerConfig →
      renderPlayerEsp ov g playerData playerConfig = (true, [])) := by
  refine ⟨?_, ?_, ?_, ?_, renderPlayerEsp_not_drawn ov g playerData playerConfig hen⟩ <;>
    rw [renderPlayerEsp_drawn_iff ov g playerData playerConfig hen]
  · intro hA hS
    cases ha : playerData.audible <;> cases hs : playerData.spotted <;> simp [hA, hS, ha, hs]
  · intro hA hS
    cases ha : playerData.audible <;> cases hs : playerData.spotted <;> simp [hA, hS, ha, hs]
  · intro hA hS
    cases ha : playerData.audible <;> cases hs : playerData.spotted <;> simp [hA, hS, ha, hs]
  · intro hA hS
    simp [hA, hS]

/-- Witness for C22: under the enemy configuration "All" of the demo, with both
toggles set, an enemy that is neither audible nor spotted is not drawn, and one
that is spotted is drawn. -/
theorem renderPlayerEsp_filters_witness :
    (Demo.playerConfig true true true).enabled = true ∧
    ¬drawsPlayer Demo.overlay Demo.game Demo.quietEnemy (Demo.playerConfig true true true) ∧
    drawsPlayer Demo.overlay Demo.game { Demo.quietEnemy with spotted := true }
      (Demo.playerConfig true true true) :=
  ⟨rfl,
    fun h =>
      absurd
        (((renderPlayerEsp_filters Demo.overlay Demo.game Demo.quietEnemy
          (Demo.playerConfig true true true) rfl).1 rfl rfl).mp h)
        (by decide),
    ((renderPlayerEsp_filters Demo.overlay Demo.game { Demo.quietEnemy with spotted := true }
      (Demo.playerConfig true true true) rfl).1 rfl rfl).mpr (Or.inr rfl)⟩

theorem renderPlayerEsp_fst (ov : Overlay) (g : Game) (playerData : PlayerData)
    (playerConfig : Player) :
    (renderPlayerEsp ov g playerData playerConfig).1 = playerConfig.enabled := by
  unfold renderPlayerEsp
  cases playerConfig.enabled
  · rfl
  · simp only [Bool.not_true, Bool.false_eq_true, if_false]
    split <;> rfl

theorem renderPlayerEsp_disabled (ov : Overlay) (g : Game) (playerData : PlayerData)
    (playerConfig : Player) (h : playerConfig.enabled = false) :
    renderPlayerEsp ov g playerData playerConfig = (false, []) := by
  unfold renderPlayerEsp
  simp [h]

theorem renderPlayer_of_pass (ov : Overlay) (g : Game) (cfg : EspConfig) (player : PlayerData)
    (hpass : passesRenderFilter g player) :
    renderPlayer ov g cfg player =
      if !(renderPlayerEsp ov g player (playerSide cfg player "All")).1 then
        (["All", if player.visible then "Visible" else "Occluded"],
          (renderPlayerEsp ov g player (playerSide cfg player "All")).2 ++
            (renderPlayerEsp ov g player
              (playerSide cfg player (if player.visible then "Visible" else "Occluded"))).2)
      else (["All"], (renderPlayerEsp ov g player (playerSide cfg player "All")).2) := by
  obtain ⟨h1, h2, h3⟩ := hpass
  unfold renderPlayer playerSide
  have hskip : ((player.dormant && decide (player.fadingAlpha g = 0)) || !player.alive ||
      !player.inViewFrustum) = false := by
    rw [h2, h3]
    simp only [Bool.not_true, Bool.or_false, Bool.and_eq_false_imp, decide_eq_false_iff_not]
    intro hd hz
    exact h1 ⟨hd, hz⟩
  rw [hskip]
  rfl

/-- C29: for players the general "All" configuration takes precedence over the
specific ones. For every player that passes the dormant/alive/frustum filter of
`render`: if the "All" configuration of the player's side (enemies or allies)
is enabled, `playerConfig` is read with the key "All" only and the calls are
those of `renderPlayerEsp` under "All", none at all when the audible-only or
spotted-only filter of "All" suppresses the player; if "All" is disabled, the
second key read is "Visible" when `player.visible` holds and "Occluded"
otherwise, and the calls are those of `renderPlayerEsp` under that
configuration. -/
theorem renderPlayer_all_precedence (ov : Overlay) (g : Game) (cfg : EspConfig)
    (player : PlayerData) (hpass : passesRenderFilter g player) :
    ((playerSide cfg player "All").enabled = true →
      renderPlayer ov g cfg player =
        (["All"], (renderPlayerEsp ov g player (playerSide cfg player "All")).2) ∧
      (¬drawsPlayer ov g player (playerSide cfg player "All") →
        renderPlayer ov g cfg player = (["All"], []))) ∧
    ((playerSide cfg player "All").enabled = false → player.visible = true →
      renderPlayer ov g cfg player =
        (["All", "Visible"], (renderPlayerEsp ov g player (playerSide cfg player "Visible")).2)) ∧
    ((playerSide cfg player "All").enabled = false → player.visible = false →
      renderPlayer ov g cfg player =
        (["All", "Occluded"],
          (renderPlayerEsp ov g player (playerSide cfg player "Occluded")).2)) := by
  rw [renderPlayer_of_pass ov g cfg player hpass, renderPlayerEsp_fst]
  refine ⟨?_, ?_, ?_⟩
  · intro hen
    rw [hen]
    refine ⟨rfl, ?_⟩
    intro hnot
    have := renderPlayerEsp_not_drawn ov g player (playerSide cfg player "All") hen hnot
    rw [this]
    rfl
  · intro hen hv
    rw [hen, hv, renderPlayerEsp_disabled ov g player _ hen]
    rfl
  · intro hen hv
    rw [hen, hv, renderPlayerEsp_disabled ov g player _ hen]
    rfl

theorem demo_quietEnemy_passes : passesRenderFilter Demo.game Demo.quietEnemy :=
  ⟨fun h => absurd h.1 (by decide), rfl, rfl⟩

theorem demo_hiddenAlly_passes : passesRenderFilter Demo.game Demo.hiddenAlly :=
  ⟨fun h => absurd h.1 (by decide), rfl, rfl⟩

/-- Witness for C29: the quiet enemy of the demo is suppressed by the filters of
the enabled "All" configuration and no other key is read; for the hidden ally,
whose "All" configuration is disabled, the key "Occluded" is read. -/
theorem renderPlayer_all_precedence_witness :
    (passesRenderFilter Demo.game Demo.quietEnemy ∧
      (playerSide Demo.espConfig Demo.quietEnemy "All").enabled = true) ∧
    renderPlayer Demo.overlay Demo.game Demo.espConfig Demo.quietEnemy = (["All"], []) ∧
    (passesRenderFilter Demo.game Demo.hiddenAlly ∧
      (playerSide Demo.espConfig Demo.hiddenAlly "All").enabled = false) ∧
    (renderPlayer Demo.overlay Demo.game Demo.espConfig Demo.hiddenAlly).1 = ["All", "Occluded"] :=
  ⟨⟨demo_quietEnemy_passes, by decide⟩,
    ((renderPlayer_all_precedence Demo.overlay Demo.game Demo.espConfig Demo.quietEnemy
      demo_quietEnemy_passes).1 (by decide)).2
      (fun h =>
        absurd
          ((renderPlayerEsp_drawn_iff Demo.overlay Demo.game Demo.quietEnemy
            (playerSide Demo.espConfig Demo.quietEnemy "All") (by decide)).mp h)
          (by decide)),
    ⟨demo_hiddenAlly_passes, by decide⟩,
    congrArg Prod.fst
      ((renderPlayer_all_precedence Demo.overlay Demo.game Demo.espConfig Demo.hiddenAlly
        demo_hiddenAlly_passes).2.2 (by decide) (by decide))⟩

/-! ## Lemmas and theorems: the observer records -/

theorem upsertPlayer_observerData (hd : Header) (g : Game) (s : State) (e : Entity) :
    (upsertPlayer hd g s e).observerData = s.observerData := by
  unfold upsertPlayer
  repeat' split
  all_goals rfl

theorem classSwitch_observerData (hd : Header) (g : Game) (s : State) (e : Entity) :
    (classSwitch hd g s e).observerData = s.observerData := by
  unfold classSwitch markExploded upsertProjectile
  repeat' split
  all_goals rfl

theorem addObserver_observerData (g : Game) (lpl : Entity) (hlocal : g.localPlayer = some lpl)
    (s : State) (e : Entity) :
    (addObserver g s e).observerData =
      s.observerData ++
        (if e.isDormant = false ∧ e.isAlive = false then
          e.getObserverTarget.map fun obs =>
            ({ playerHandle := e.handle, targetHandle := obs.handle
               targetIsLocalPlayer := decide (obs.addr = lpl.addr) } : ObserverData)
        else none).toList := by
  unfold addObserver ObserverData.make
  simp only [hlocal]
  cases hd : e.isDormant <;> cases ha : e.isAlive <;> cases ht : e.getObserverTarget <;> simp

/-- One visited entity appends its observer record, if it has one. -/
theorem processEntity_observerData (hd : Header) (g : Game) (lpl : Entity)
    (hlocal : g.localPlayer = some lpl) (s : State) (e : Entity) :
    (processEntity hd g lpl (inEyeTarget lpl) s e).observerData =
      s.observerData ++ (observerLink lpl e).toList := by
  unfold processEntity observerLink
  cases hp : e.isPlayer
  · have hno : ∀ t : State, t.observerData = s.observerData →
        (smokeBlock (fogBlock g t e) e).observerData = s.observerData := by
      intro t ht
      unfold smokeBlock fogBlock
      repeat' split
      all_goals exact ht
    simp only [Bool.false_eq_true, if_false, false_and, Option.toList, List.append_nil]
    repeat' split
    all_goals first
      | rfl
      | exact hno _ (classSwitch_observerData hd g s e)
  · simp only [if_true, true_and]
    cases hl : isLocalOrTarget lpl (inEyeTarget lpl) e
    · simp only [Bool.false_eq_true, if_false, true_and]
      rw [addObserver_observerData g lpl hlocal, upsertPlayer_observerData]
    · simp

theorem foldl_observerData (hd : Header) (g : Game) (lpl : Entity)
    (hlocal : g.localPlayer = some lpl) (idx : List Int) (s : State) :
    (idx.foldl
      (fun acc i =>
        match g.getEntity i with
        | some entity => processEntity hd g lpl (inEyeTarget lpl) acc entity
        | none => acc) s).observerData =
      s.observerData ++ idx.filterMap fun i => (g.getEntity i).bind (observerLink lpl) := by
  induction idx generalizing s with
  | nil => simp
  | cons i rest ih =>
    rw [List.foldl_cons, ih, List.filterMap_cons]
    cases he : g.getEntity i with
    | none => simp
    | some e =>
      simp only [Option.bind_some]
      rw [processEntity_observerData hd g lpl hlocal]
      cases hlink : observerLink lpl e <;> simp [hlink]

theorem beginRebuild_observerData (g : Game) (s : State) :
    (beginRebuild g s).observerData = [] := by
  unfold beginRebuild initSkillgroupNames
  dsimp only
  split <;> rfl

theorem finishRebuild_observerData (hd : Header) (g : Game) (s : State) :
    (finishRebuild hd g s).observerData = s.observerData := by
  unfold finishRebuild
  dsimp only
  split <;> rfl

/-- The observer records after a rebuild with a local player: one per visited
entity that has an observer link, in the order of the entity indices. -/
theorem update_observerData (hd : Header) (g : Game) (s : State) (lpl : Entity)
    (hlocal : g.localPlayer = some lpl) (hframe : s.lastFrame ≠ g.framecount) :
    (GameData.update hd g s).observerData =
      (entityIndices g).filterMap fun i => (g.getEntity i).bind (observerLink lpl) := by
  unfold GameData.update
  rw [if_neg hframe]
  unfold rebuild
  simp only [hlocal]
  rw [finishRebuild_observerData]
  change (entityLoop hd g lpl (inEyeTarget lpl) _).observerData = _
  unfold entityLoop
  refine (foldl_observerData hd g lpl hlocal (entityIndices g) _).trans ?_
  change (beginRebuild g s).observerData ++ _ = _
  rw [beginRebuild_observerData, List.nil_append]

/-- C25, as the code has it: during a rebuild with a local player, a record
(player handle, target handle, targetIsLocalPlayer) is appended to the observer
sequence for a visited player entity, other than the local player and its
in-eye target, exactly when that entity is not dormant, is not alive, and has
an observer target, with `targetIsLocalPlayer` true iff the target is the local
player. The sequence after the rebuild consists of these records, in the order
of the entity indices. -/
theorem observers_link_dead_players (hd : Header) (g : Game) (s : State) (lpl : Entity)
    (hlocal : g.localPlayer = some lpl) (hframe : s.lastFrame ≠ g.framecount) :
    (GameData.update hd g s).observerData =
        (entityIndices g).filterMap (fun i => (g.getEntity i).bind (observerLink lpl)) ∧
    ∀ entity,
      (observerLink lpl entity).isSome = true ↔
        (entity.isPlayer = true ∧ isLocalOrTarget lpl (inEyeTarget lpl) entity = false ∧
          entity.isDormant = false ∧ entity.isAlive = false ∧
          entity.getObserverTarget.isSome = true) := by
  refine ⟨update_observerData hd g s lpl hlocal hframe, ?_⟩
  intro entity
  unfold observerLink
  split
  · rename_i h
    simp only [Option.isSome_map']
    constructor
    · intro ht
      exact ⟨h.1, h.2.1, h.2.2.1, h.2.2.2, ht⟩
    · intro ht
      exact ht.2.2.2.2
  · rename_i h
    constructor
    · intro ht
      cases ht
    · intro ht
      exact absurd ⟨ht.1, ht.2.1, ht.2.2.1, ht.2.2.2.1⟩ h

/-- Witness for C25: in the demo world with the enemy dead, not dormant and
observing the local player, the rebuild leaves exactly the record
`(300, 100, true)`. -/
theorem observers_link_dead_players_witness :
    (Demo.watchGame.localPlayer = some Demo.localEntity ∧
      Demo.state.lastFrame ≠ Demo.watchGame.framecount) ∧
    (GameData.update Demo.header Demo.watchGame Demo.state).observerData =
      [{ playerHandle := 300, targetHandle := 100, targetIsLocalPlayer := true }] :=
  ⟨⟨rfl, by decide⟩,
    ((observers_link_dead_players Demo.header Demo.watchGame Demo.state Demo.localEntity rfl
      (by decide)).1).trans (by decide)⟩

/-- Counterexample to C25 as stated: the player entity at index 3 is dormant,
not alive and has an observer target, and the rebuild appends no record for
it. -/
theorem observers_skip_dormant_player :
    (Demo.spectatorGame.getEntity 3 = some Demo.dormantSpectator ∧
      (3 : Int) ∈ entityIndices Demo.spectatorGame ∧
      Demo.dormantSpectator.isPlayer = true ∧ Demo.dormantSpectator.isDormant = true ∧
      Demo.dormantSpectator.isAlive = false ∧
      Demo.dormantSpectator.getObserverTarget.isSome = true) ∧
    (GameData.update Demo.header Demo.spectatorGame Demo.state).observerData = [] :=
  ⟨⟨rfl, by decide, rfl, rfl, rfl, rfl⟩,
    (update_observerData Demo.header Demo.spectatorGame Demo.state Demo.localEntity rfl
      (by decide)).trans (by decide)⟩

/-! ## Lemmas: one projectile through the rebuilds -/

theorem bind_pure_cast (l : List Nat) :
    (do let a ← l; pure (a : Int)) = l.map (fun a : Nat => (a : Int)) := by
  induction l with
  | nil => rfl
  | cons a l ih =>
    simp only [List.bind_eq_flatMap, List.pure_def, List.flatMap_cons, List.map_cons] at ih ⊢
    rw [ih]
    rfl

/-- The loop visits every index once. -/
theorem entityIndices_nodup (g : Game) : (entityIndices g).Nodup := by
  unfold entityIndices
  have hinj : Function.Injective (fun k : Int => k + 1) := by
    intro a b hab
    simpa using hab
  refine List.Nodup.map hinj ?_
  rw [bind_pure_cast]
  have hcast : Function.Injective (fun a : Nat => (a : Int)) := by
    intro a b hab
    simpa using hab
  exact List.Nodup.map hcast (List.nodup_range _)

theorem entityLoop_eq_foldl (hd : Header) (g : Game) (lpl : Entity) (ot : Option EntityRef)
    (s : State) : entityLoop hd g lpl ot s = (entityIndices g).foldl (visitIndex hd g lpl ot) s :=
  rfl

/-- A property that every visited entity of a list of indices keeps holds after
the loop over that list. -/
theorem foldl_visit_invariant (P : State → Prop) (hd : Header) (g : Game) (lpl : Entity)
    (ot : Option EntityRef) (idx : List Int)
    (hstep : ∀ s i e, i ∈ idx → g.getEntity i = some e → P s →
      P (processEntity hd g lpl ot s e))
    (s : State) (hs : P s) : P (idx.foldl (visitIndex hd g lpl ot) s) := by
  induction idx generalizing s with
  | nil => exact hs
  | cons i rest ih =>
    rw [List.foldl_cons]
    refine ih (fun t j e hj => hstep t j e (List.mem_cons_of_mem _ hj)) _ ?_
    unfold visitIndex
    cases he : g.getEntity i with
    | none => exact hs
    | some e => exact hstep s i e (List.mem_cons_self _ _) he hs

theorem nodup_handle_unique (l : List ProjectileData)
    (hn : (l.map ProjectileData.handle).Nodup) (p q : ProjectileData) (hp : p ∈ l) (hq : q ∈ l)
    (h : p.handle = q.handle) : p = q :=
  List.inj_on_of_nodup_map hn hp hq h

theorem mem_modify_at {α : Type} (f : α → α) (l : List α) (i : Nat) (a : α)
    (h : l[i]? = some a) : f a ∈ l.modify f i := by
  rw [modify_eq_set f l i a h]
  have hlt : i < l.length := by
    by_contra hge
    rw [List.getElem?_eq_none (by omega)] at h
    cases h
  exact List.mem_iff_getElem.mpr ⟨i, by simpa using hlt, by simp⟩

theorem projectileMake_trajectory (hd : Header) (g : Game) (lp : LocalPlayerData) (e : Entity) :
    (ProjectileData.make hd g lp e).trajectory = [] := by
  unfold ProjectileData.make
  dsimp only
  repeat' split
  all_goals rfl

theorem projectileUpdate_trajectory (hd : Header) (g : Game) (lp : LocalPlayerData)
    (p : ProjectileData) (e : Entity)
    (hlast : ∀ last, p.trajectory.getLast? = some last → last.2 ≠ e.getAbsOrigin) :
    (ProjectileData.update hd g lp p e).trajectory =
      p.trajectory ++ [(g.realtime, e.getAbsOrigin)] := by
  unfold ProjectileData.update
  dsimp only
  split
  · rfl
  · rename_i last hl
    rw [if_pos (hlast last hl)]

/-- An entity with another handle keeps a known record. -/
theorem processEntity_known (hd : Header) (g : Game) (lpl : Entity) (ot : Option EntityRef)
    (s : State) (e : Entity) (h : Int) (T : List (ℚ × Vector)) (hne : e.handle ≠ h)
    (hk : KnownProjectile s h T) : KnownProjectile (processEntity hd g lpl ot s e) h T := by
  obtain ⟨hn, p, hp, hph, hpt⟩ := hk
  refine ⟨?_, p, ?_, hph, hpt⟩
  · rcases processEntity_projectileHandles hd g lpl ot s e with h1 | ⟨hnot, h1⟩
    · rw [h1]; exact hn
    · rw [h1]; exact List.nodup_cons.mpr ⟨hnot, hn⟩
  · exact processEntity_projectile_mem_of_handle_ne hd g lpl ot s e p hp (by rw [hph]; exact hne)

/-- An entity with another handle adds no record with the handle. -/
theorem processEntity_unknown (hd : Header) (g : Game) (lpl : Entity) (ot : Option EntityRef)
    (s : State) (e : Entity) (h : Int) (hne : e.handle ≠ h)
    (hu : UnknownProjectile s h) : UnknownProjectile (processEntity hd g lpl ot s e) h := by
  obtain ⟨hn, hall⟩ := hu
  have hnot : h ∉ s.projectileData.map ProjectileData.handle := by
    intro hm
    obtain ⟨p, hp, hph⟩ := List.mem_map.mp hm
    exact hall p hp hph
  rcases processEntity_projectileHandles hd g lpl ot s e with h1 | ⟨hnew, h1⟩
  · refine ⟨by rw [h1]; exact hn, ?_⟩
    intro p hp hph
    exact hnot (by rw [← h1]; exact List.mem_map.mpr ⟨p, hp, hph⟩)
  · refine ⟨by rw [h1]; exact List.nodup_cons.mpr ⟨hnew, hn⟩, ?_⟩
    intro p hp hph
    have hm : h ∈ (processEntity hd g lpl ot s e).projectileData.map ProjectileData.handle :=
      List.mem_map.mpr ⟨p, hp, hph⟩
    rw [h1] at hm
    rcases List.mem_cons.mp hm with h2 | h2
    · exact hne h2.symm
    · exact hnot h2

/-- The entity of the projectile creates the record, with an empty trajectory,
when the handle is not known. -/
theorem processEntity_creates (hd : Header) (g : Game) (lpl : Entity) (ot : Option EntityRef)
    (s : State) (e : Entity) (h : Int) (hh : e.handle = h) (hplayer : e.isPlayer = false)
    (hdormant : e.isDormant = false) (hweapon : e.isWeapon = false)
    (hup : reachesProjectileUpsert e = true) (hu : UnknownProjectile s h) :
    KnownProjectile (processEntity hd g lpl ot s e) h [] := by
  obtain ⟨hn, hall⟩ := hu
  have hnot : e.handle ∉ s.projectileData.map ProjectileData.handle := by
    intro hm
    obtain ⟨p, hp, hph⟩ := List.mem_map.mp hm
    exact hall p hp (hph.trans hh)
  have hdata := processEntity_projectile_upsert hd g lpl ot s e hplayer hdormant hweapon hup
  have hfind : findProjectile s.projectileData e.handle = none := by
    cases hc : findProjectile s.projectileData e.handle with
    | none => rfl
    | some i =>
      exact absurd ((findProjectile_isSome_iff _ _).mp (by rw [hc]; rfl)) hnot
  have hcons : (upsertProjectile hd g s e).projectileData =
      ProjectileData.make hd g s.localPlayerData e :: s.projectileData := by
    unfold upsertProjectile
    rw [hfind]
  refine ⟨?_, ProjectileData.make hd g s.localPlayerData e, ?_, ?_, ?_⟩
  · rw [hdata, hcons, List.map_cons, projectileMake_handle]
    exact List.nodup_cons.mpr ⟨hnot, hn⟩
  · rw [hdata, hcons]
    exact List.mem_cons_self _ _
  · rw [projectileMake_handle]
    exact hh
  · exact projectileMake_trajectory ..

/-- The entity of the projectile samples its position into the known record,
when the position differs from the last sample. -/
theorem processEntity_samples (hd : Header) (g : Game) (lpl : Entity) (ot : Option EntityRef)
    (s : State) (e : Entity) (h : Int) (T : List (ℚ × Vector)) (hh : e.handle = h)
    (hplayer : e.isPlayer = false) (hdormant : e.isDormant = false)
    (hweapon : e.isWeapon = false) (hup : reachesProjectileUpsert e = true)
    (hlast : ∀ last, T.getLast? = some last → last.2 ≠ e.getAbsOrigin)
    (hk : KnownProjectile s h T) :
    KnownProjectile (processEntity hd g lpl ot s e) h (T ++ [(g.realtime, e.getAbsOrigin)]) := by
  obtain ⟨hn, p, hp, hph, hpt⟩ := hk
  have hdata := processEntity_projectile_upsert hd g lpl ot s e hplayer hdormant hweapon hup
  have hmem : e.handle ∈ s.projectileData.map ProjectileData.handle :=
    List.mem_map.mpr ⟨p, hp, hph.trans hh.symm⟩
  obtain ⟨i, hi⟩ := Option.isSome_iff_exists.mp ((findProjectile_isSome_iff _ _).mpr hmem)
  obtain ⟨q, hq, hqh⟩ := findProjectile_some hi
  have hqp : q = p :=
    nodup_handle_unique _ hn q p (List.getElem?_mem hq) hp (by rw [hqh, hph, hh])
  subst hqp
  have hmod : (upsertProjectile hd g s e).projectileData =
      s.projectileData.modify (fun p => ProjectileData.update hd g s.localPlayerData p e) i := by
    unfold upsertProjectile
    rw [hi]
  refine ⟨?_, ProjectileData.update hd g s.localPlayerData q e, ?_, ?_, ?_⟩
  · rw [hdata, hmod]
    rw [map_modify_of_preserved ProjectileData.handle _ (fun a => projectileUpdate_handle ..)]
    exact hn
  · rw [hdata, hmod]
    exact mem_modify_at _ _ i q hq
  · rw [projectileUpdate_handle]
    exact hph
  · rw [projectileUpdate_trajectory hd g s.localPlayerData q e (by rw [hpt]; exact hlast), hpt]

theorem known_congr (s t : State) (h : Int) (T : List (ℚ × Vector))
    (hst : t.projectileData = s.projectileData) (hk : KnownProjectile s h T) :
    KnownProjectile t h T := by
  unfold KnownProjectile at hk ⊢
  rw [hst]
  exact hk

theorem unknown_congr (s t : State) (h : Int) (hst : t.projectileData = s.projectileData)
    (hu : UnknownProjectile s h) : UnknownProjectile t h := by
  unfold UnknownProjectile at hu ⊢
  rw [hst]
  exact hu

/-- The loop takes a property `A` to a property `B` when the one visited entity
with handle `h` does and every other visited entity keeps `A` and keeps `B`. -/
theorem entityLoop_through (A B : State → Prop) (hd : Header) (g : Game) (lpl : Entity)
    (ot : Option EntityRef) (h : Int) (e : Entity) (i : Int) (hi : i ∈ entityIndices g)
    (he : g.getEntity i = some e)
    (huniq : ∀ j ∈ entityIndices g, ∀ e2, g.getEntity j = some e2 → e2.handle = h → j = i)
    (hA : ∀ s e2, e2.handle ≠ h → A s → A (processEntity hd g lpl ot s e2))
    (hB : ∀ s e2, e2.handle ≠ h → B s → B (processEntity hd g lpl ot s e2))
    (hAB : ∀ s, A s → B (processEntity hd g lpl ot s e)) (s : State) (hs : A s) :
    B (entityLoop hd g lpl ot s) := by
  obtain ⟨pre, post, hsplit⟩ := List.append_of_mem hi
  have hnd := entityIndices_nodup g
  rw [hsplit] at hnd
  have hpre : i ∉ pre := by
    intro hm
    have := (List.nodup_append.mp hnd).2.2
    exact this hm (List.mem_cons_self _ _)
  have hpost : i ∉ post := by
    have := (List.nodup_append.mp hnd).2.1
    exact (List.nodup_cons.mp this).1
  have hother : ∀ j ∈ entityIndices g, j ≠ i → ∀ e2, g.getEntity j = some e2 → e2.handle ≠ h :=
    fun j hj hji e2 he2 hh => hji (huniq j hj e2 he2 hh)
  rw [entityLoop_eq_foldl, hsplit, List.foldl_append, List.foldl_cons]
  have h1 : A (pre.foldl (visitIndex hd g lpl ot) s) := by
    refine foldl_visit_invariant A hd g lpl ot pre ?_ s hs
    intro t j e2 hj he2 hP
    refine hA t e2 (hother j ?_ ?_ e2 he2) hP
    · rw [hsplit]
      exact List.mem_append_left _ hj
    · intro hji
      exact hpre (hji ▸ hj)
  have h2 : B (visitIndex hd g lpl ot (pre.foldl (visitIndex hd g lpl ot) s) i) := by
    unfold visitIndex
    rw [he]
    exact hAB _ h1
  refine foldl_visit_invariant B hd g lpl ot post ?_ _ h2
  intro t j e2 hj he2 hP
  refine hB t e2 (hother j ?_ ?_ e2 he2) hP
  · rw [hsplit]
    exact List.mem_append_right _ (List.mem_cons_of_mem _ hj)
  · intro hji
    exact hpost (hji ▸ hj)

/-- The loop keeps a known record when no visited entity has the handle. -/
theorem entityLoop_known_of_gone (hd : Header) (g : Game) (lpl : Entity)
    (ot : Option EntityRef) (h : Int) (T : List (ℚ × Vector))
    (hgone : ∀ j ∈ entityIndices g, ∀ e, g.getEntity j = some e → e.handle ≠ h) (s : State)
    (hk : KnownProjectile s h T) : KnownProjectile (entityLoop hd g lpl ot s) h T := by
  rw [entityLoop_eq_foldl]
  refine foldl_visit_invariant (fun t => KnownProjectile t h T) hd g lpl ot _ ?_ s hk
  intro t j e hj he hP
  exact processEntity_known hd g lpl ot t e h T (hgone j hj e he) hP

theorem explodeUnresolved_mem (g : Game) (l : List ProjectileData) (q : ProjectileData)
    (hq : q ∈ explodeUnresolved g l) :
    ∃ p ∈ l, q.handle = p.handle ∧ q.trajectory = p.trajectory := by
  unfold explodeUnresolved at hq
  obtain ⟨p, hp, hpq⟩ := List.mem_map.mp hq
  refine ⟨p, hp, ?_⟩
  rw [← hpq]
  split <;> exact ⟨rfl, rfl⟩

theorem explodeUnresolved_mem_resolved (g : Game) (l : List ProjectileData) (p : ProjectileData)
    (hp : p ∈ l) (hres : unresolved g p.handle = false) : p ∈ explodeUnresolved g l := by
  unfold explodeUnresolved
  refine List.mem_map.mpr ⟨p, hp, ?_⟩
  rw [hres]
  rfl

/-- The end of the rebuild keeps the record of a handle that resolves. -/
theorem finishRebuild_known (hd : Header) (g : Game) (s : State) (h : Int)
    (T : List (ℚ × Vector)) (hres : (g.getEntityFromHandle h).isSome = true)
    (hk : KnownProjectile s h T) : KnownProjectile (finishRebuild hd g s) h T := by
  obtain ⟨hn, p, hp, hph, hpt⟩ := hk
  have hun : unresolved g p.handle = false := by
    unfold unresolved
    rw [hph]
    cases hc : g.getEntityFromHandle h with
    | none => rw [hc] at hres; cases hres
    | some _ => rfl
  refine ⟨finishRebuild_projectile_nodup hd g s hn, p, ?_, hph, hpt⟩
  rw [finishRebuild_projectileData]
  refine List.mem_filter.mpr ⟨explodeUnresolved_mem_resolved g _ p hp hun, ?_⟩
  unfold projectileExpired
  rw [hun]
  rfl

/-- The end of the rebuild removes the record of a handle that does not
resolve when its trajectory is empty. -/
theorem finishRebuild_removes (hd : Header) (g : Game) (s : State) (h : Int)
    (hgone : (g.getEntityFromHandle h).isNone = true) (hk : KnownProjectile s h []) :
    UnknownProjectile (finishRebuild hd g s) h := by
  obtain ⟨hn, p, hp, hph, hpt⟩ := hk
  refine ⟨finishRebuild_projectile_nodup hd g s hn, ?_⟩
  intro q hq hqh
  rw [finishRebuild_projectileData] at hq
  obtain ⟨hq1, hq2⟩ := List.mem_filter.mp hq
  obtain ⟨p2, hp2, e1, e2⟩ := explodeUnresolved_mem g _ q hq1
  have hpp : p2 = p := nodup_handle_unique _ hn p2 p hp2 hp (by rw [← e1, hqh, hph])
  have hexp : projectileExpired g q = true := by
    rw [projectileExpired_iff]
    refine ⟨?_, Or.inl (by rw [e2, hpp, hpt])⟩
    unfold unresolved
    rw [hqh]
    exact hgone
  rw [hexp] at hq2
  cases hq2

theorem rebuild_projectileData_local (hd : Header) (g : Game) (s : State) (lpl : Entity)
    (hlocal : g.localPlayer = some lpl) :
    rebuild hd g s = finishRebuild hd g (scanEntities hd g lpl (beginRebuild g s)) := by
  unfold rebuild
  simp only [hlocal]

theorem scanEntities_start (hd : Header) (g : Game) (lpl : Entity) (s : State) :
    ∃ t, t.projectileData = s.projectileData ∧
      scanEntities hd g lpl s = entityLoop hd g lpl (inEyeTarget lpl) t :=
  ⟨{ s with gameModeName := g.gameModeName, viewMatrix := g.worldToScreenMatrix }, rfl, rfl⟩

/-- A rebuild in a world where the projectile is observed creates its record
with an empty trajectory. -/
theorem update_creates (hd : Header) (g : Game) (s : State) (h : Int) (e : Entity)
    (hobs : ObservedProjectile g h e) (hframe : s.lastFrame ≠ g.framecount)
    (hu : UnknownProjectile s h) : KnownProjectile (GameData.update hd g s) h [] := by
  obtain ⟨hlocal, hres, hh, hplayer, hdormant, hweapon, hup, i, hi, he, huniq⟩ := hobs
  obtain ⟨lpl, hlpl⟩ := Option.isSome_iff_exists.mp hlocal
  unfold GameData.update
  rw [if_neg hframe, rebuild_projectileData_local hd g s lpl hlpl]
  refine finishRebuild_known hd g _ h [] hres ?_
  obtain ⟨t, ht, hscan⟩ := scanEntities_start hd g lpl (beginRebuild g s)
  rw [hscan]
  refine entityLoop_through (fun t => UnknownProjectile t h) (fun t => KnownProjectile t h [])
    hd g lpl _ h e i hi he huniq
    (fun t e2 hne hA => processEntity_unknown hd g lpl _ t e2 h hne hA)
    (fun t e2 hne hB => processEntity_known hd g lpl _ t e2 h [] hne hB)
    (fun t hA => processEntity_creates hd g lpl _ t e h hh hplayer hdormant hweapon hup hA) t ?_
  exact unknown_congr s t h (ht.trans (beginRebuild_projectileData g s)) hu

/-- A rebuild in a world where the projectile is observed at a position other
than the last sample adds the sample to its record. -/
theorem update_samples (hd : Header) (g : Game) (s : State) (h : Int) (e : Entity)
    (T : List (ℚ × Vector)) (hobs : ObservedProjectile g h e)
    (hframe : s.lastFrame ≠ g.framecount)
    (hlast : ∀ last, T.getLast? = some last → last.2 ≠ e.getAbsOrigin)
    (hk : KnownProjectile s h T) :
    KnownProjectile (GameData.update hd g s) h (T ++ [(g.realtime, e.getAbsOrigin)]) := by
  obtain ⟨hlocal, hres, hh, hplayer, hdormant, hweapon, hup, i, hi, he, huniq⟩ := hobs
  obtain ⟨lpl, hlpl⟩ := Option.isSome_iff_exists.mp hlocal
  unfold GameData.update
  rw [if_neg hframe, rebuild_projectileData_local hd g s lpl hlpl]
  refine finishRebuild_known hd g _ h _ hres ?_
  obtain ⟨t, ht, hscan⟩ := scanEntities_start hd g lpl (beginRebuild g s)
  rw [hscan]
  refine entityLoop_through (fun t => KnownProjectile t h T)
    (fun t => KnownProjectile t h (T ++ [(g.realtime, e.getAbsOrigin)]))
    hd g lpl _ h e i hi he huniq
    (fun t e2 hne hA => processEntity_known hd g lpl _ t e2 h T hne hA)
    (fun t e2 hne hB => processEntity_known hd g lpl _ t e2 h _ hne hB)
    (fun t hA =>
      processEntity_samples hd g lpl _ t e h T hh hplayer hdormant hweapon hup hlast hA) t ?_
  exact known_congr s t h T (ht.trans (beginRebuild_projectileData g s)) hk

/-- A rebuild in a world from which the projectile is gone removes a record
with an empty trajectory. -/
theorem update_removes (hd : Header) (g : Game) (s : State) (h : Int)
    (hgone : GoneProjectile g h) (hframe : s.lastFrame ≠ g.framecount)
    (hk : KnownProjectile s h []) : UnknownProjectile (GameData.update hd g s) h := by
  obtain ⟨hnone, hno⟩ := hgone
  unfold GameData.update
  rw [if_neg hframe]
  cases hlocal : g.localPlayer with
  | none =>
    unfold rebuild
    simp only [hlocal]
    exact ⟨List.nodup_nil, fun p hp => absurd hp (List.not_mem_nil p)⟩
  | some lpl =>
    rw [rebuild_projectileData_local hd g s lpl hlocal]
    refine finishRebuild_removes hd g _ h hnone ?_
    obtain ⟨t, ht, hscan⟩ := scanEntities_start hd g lpl (beginRebuild g s)
    rw [hscan]
    exact entityLoop_known_of_gone hd g lpl _ h [] hno t
      (known_congr s t h [] (ht.trans (beginRebuild_projectileData g s)) hk)

theorem trajectoryOf_known (s : State) (h : Int) (T : List (ℚ × Vector))
    (hk : KnownProjectile s h T) : trajectoryOf s h = some T := by
  obtain ⟨hn, p, hp, hph, hpt⟩ := hk
  unfold trajectoryOf
  have hfind : ∀ l : List ProjectileData, (l.map ProjectileData.handle).Nodup → p ∈ l →
      l.find? (fun q => q.eqHandle h) = some p := by
    intro l
    induction l with
    | nil => intro _ hm; cases hm
    | cons a l ih =>
      intro hnd hm
      rw [List.map_cons, List.nodup_cons] at hnd
      rw [List.find?_cons]
      by_cases ha : a.handle = h
      · have hap : a = p := by
          rcases List.mem_cons.mp hm with h1 | h1
          · exact h1.symm
          · exact absurd (List.mem_map.mpr ⟨p, h1, hph.trans ha.symm⟩) hnd.1
        have : a.eqHandle h = true := by simp [ProjectileData.eqHandle, ha]
        rw [this, hap]
      · have : a.eqHandle h = false := by simp [ProjectileData.eqHandle, ha]
        rw [this]
        rcases List.mem_cons.mp hm with h1 | h1
        · exact absurd (h1 ▸ hph) ha
        · exact ih hnd.2 h1
  rw [hfind _ hn hp, Option.map_some', hpt]

theorem trajectoryOf_unknown (s : State) (h : Int) (hu : UnknownProjectile s h) :
    trajectoryOf s h = none := by
  unfold trajectoryOf
  rw [List.find?_eq_none.mpr, Option.map_none']
  intro p hp
  have := hu.2 p hp
  simp [ProjectileData.eqHandle, this]

/-- Successive rebuilds in worlds where the projectile is observed, each at a
position other than the one before, add one sample each to a known record. -/
theorem updates_sample (hd : Header) (h : Int) (games : List (Game × Entity)) :
    ∀ (s : State) (T : List (ℚ × Vector)), KnownProjectile s h T →
      (∀ ge ∈ games, ObservedProjectile ge.1 h ge.2) →
      List.Chain (fun a b => a ≠ b) s.lastFrame (games.map fun ge => ge.1.framecount) →
      List.Chain' (fun a b => a ≠ b) (games.map fun ge => ge.2.getAbsOrigin) →
      (∀ last ge, T.getLast? = some last → games.head? = some ge →
        last.2 ≠ ge.2.getAbsOrigin) →
      KnownProjectile (GameData.updates hd (games.map Prod.fst) s) h (T ++ samplesOf games) := by
  induction games with
  | nil =>
    intro s T hk _ _ _ _
    simpa [samplesOf, GameData.updates] using hk
  | cons ge rest ih =>
    intro s T hk hobs hframes hmoves hfirst
    rw [List.map_cons, List.chain_cons] at hframes
    have hstep := update_samples hd ge.1 s h ge.2 T (hobs ge (List.mem_cons_self _ _))
      hframes.1 (fun last hl => hfirst last ge hl rfl) hk
    have hrest := ih (GameData.update hd ge.1 s) (T ++ [(ge.1.realtime, ge.2.getAbsOrigin)])
      hstep (fun x hx => hobs x (List.mem_cons_of_mem _ hx))
      (by rw [update_lastFrame]; exact hframes.2)
      (by
        rw [List.map_cons] at hmoves
        exact hmoves.tail)
      (by
        intro last ge2 hl hhead
        have hl2 : (ge.1.realtime, ge.2.getAbsOrigin) = last := by
          simpa using hl
        rw [← hl2]
        cases rest with
        | nil => cases hhead
        | cons x rest2 =>
          simp only [List.head?_cons, Option.some.injEq] at hhead
          rw [← hhead]
          simp only [List.map_cons] at hmoves
          exact (List.chain'_cons.mp hmoves).1)
    have e : T ++ samplesOf (ge :: rest) =
        T ++ [(ge.1.realtime, ge.2.getAbsOrigin)] ++ samplesOf rest := by
      simp [samplesOf]
    rw [e]
    exact hrest

/-- C28: a projectile record has an empty trajectory at the end of the rebuild
in which it is first seen, since construction takes no sample and only the
update of a known handle does. From a snapshot with distinct projectile handles
that has no record with handle `h`: a projectile observed in `k ≥ 1`
consecutive rebuilds, `(g, e)` and then those of `rest`, at a different position
each time, has after them exactly the `k - 1` samples of `rest`, so its first
observed position is recorded only if it recurs; and a projectile observed in
one rebuild and gone at the next is removed by that next rebuild. Observed
means that the handle resolves and exactly one visited entity has it and
reaches the projectile upsert; gone means that the handle does not resolve and
no visited entity has it. -/
theorem projectile_first_position_not_sampled (hd : Header) (h : Int) (s : State)
    (hnodup : (s.projectileData.map ProjectileData.handle).Nodup)
    (hnew : ∀ p ∈ s.projectileData, p.handle ≠ h) :
    (∀ (g : Game) (e : Entity) (rest : List (Game × Entity)),
      (∀ ge ∈ (g, e) :: rest, ObservedProjectile ge.1 h ge.2) →
      List.Chain (fun a b => a ≠ b) s.lastFrame
        (((g, e) :: rest).map fun ge => ge.1.framecount) →
      List.Chain' (fun a b => a ≠ b) (((g, e) :: rest).map fun ge => ge.2.getAbsOrigin) →
      trajectoryOf (GameData.update hd g s) h = some [] ∧
      trajectoryOf (GameData.updates hd (((g, e) :: rest).map Prod.fst) s) h =
        some (samplesOf rest) ∧
      (samplesOf rest).length = ((g, e) :: rest).length - 1) ∧
    (∀ (g1 : Game) (e1 : Entity) (g2 : Game),
      ObservedProjectile g1 h e1 → GoneProjectile g2 h → s.lastFrame ≠ g1.framecount →
      g1.framecount ≠ g2.framecount →
      trajectoryOf (GameData.updates hd [g1, g2] s) h = none ∧
      ∀ p ∈ (GameData.updates hd [g1, g2] s).projectileData, p.handle ≠ h) := by
  have hu : UnknownProjectile s h := ⟨hnodup, hnew⟩
  refine ⟨?_, ?_⟩
  · intro g e rest hobs hframes hmoves
    rw [List.map_cons, List.chain_cons] at hframes
    have hfirst := update_creates hd g s h e (hobs (g, e) (List.mem_cons_self _ _)) hframes.1 hu
    refine ⟨trajectoryOf_known _ h [] hfirst, ?_, by simp [samplesOf]⟩
    have hrest := updates_sample hd h rest (GameData.update hd g s) [] hfirst
      (fun x hx => hobs x (List.mem_cons_of_mem _ hx))
      (by rw [update_lastFrame]; exact hframes.2)
      (by
        rw [List.map_cons] at hmoves
        exact hmoves.tail)
      (fun last ge hl _ => by cases hl)
    rw [List.nil_append] at hrest
    exact trajectoryOf_known _ h _ hrest
  · intro g1 e1 g2 hobs hgone hf1 hf2
    have hfirst := update_creates hd g1 s h e1 hobs hf1 hu
    have hgoneU := update_removes hd g2 (GameData.update hd g1 s) h hgone
      (by rw [update_lastFrame]; exact hf2) hfirst
    exact ⟨trajectoryOf_unknown _ h hgoneU, hgoneU.2⟩

theorem demo_grenade_observed : ObservedProjectile Demo.game 200 Demo.grenade := by
  refine ⟨rfl, by decide, rfl, rfl, rfl, rfl, rfl, 2, by decide, rfl, ?_⟩
  intro j _ e he hh
  simp only [Demo.game] at he
  split_ifs at he with h1 h2 h3 <;> simp only [Option.some.injEq, reduceCtorEq] at he
  · subst he; exact absurd hh (by decide)
  · exact h2
  · subst he; exact absurd hh (by decide)

theorem demo_movedGrenade_observed : ObservedProjectile Demo.laterGame 200 Demo.movedGrenade := by
  refine ⟨rfl, by decide, rfl, rfl, rfl, rfl, rfl, 2, by decide, rfl, ?_⟩
  intro j _ e he hh
  simp only [Demo.laterGame] at he
  split_ifs at he with h1 h2 h3 <;> simp only [Option.some.injEq, reduceCtorEq] at he
  · subst he; exact absurd hh (by decide)
  · exact h2
  · subst he; exact absurd hh (by decide)

theorem demo_grenade_gone : GoneProjectile Demo.goneGame 200 := by
  refine ⟨by decide, ?_⟩
  intro j _ e he hh
  simp only [Demo.goneGame] at he
  split_ifs at he with h1 h2 <;> simp only [Option.some.injEq, reduceCtorEq] at he
  · subst he; exact absurd hh (by decide)
  · subst he; exact absurd hh (by decide)

/-- Witness for C28: from the initial state, the demo grenade observed at frame
7 and again, moved, at frame 8 has the one sample of frame 8; observed at frame
7 and gone at frame 8 it has no record. -/
theorem projectile_first_position_not_sampled_witness :
    (((State.initial Demo.localData Demo.bomb).projectileData.map ProjectileData.handle).Nodup ∧
      ∀ p ∈ (State.initial Demo.localData Demo.bomb).projectileData, p.handle ≠ 200) ∧
    trajectoryOf
        (GameData.updates Demo.header [Demo.game, Demo.laterGame]
          (State.initial Demo.localData Demo.bomb)) 200 =
      some [(101, ⟨4, 5, 6⟩)] ∧
    trajectoryOf
        (GameData.updates Demo.header [Demo.game, Demo.goneGame]
          (State.initial Demo.localData Demo.bomb)) 200 = none :=
  ⟨⟨List.nodup_nil, fun p hp => absurd hp (List.not_mem_nil p)⟩,
    ((projectile_first_position_not_sampled Demo.header 200
        (State.initial Demo.localData Demo.bomb) List.nodup_nil
        (fun p hp => absurd hp (List.not_mem_nil p))).1 Demo.game Demo.grenade
        [(Demo.laterGame, Demo.movedGrenade)]
        (by
          intro ge hge
          rcases List.mem_cons.mp hge with h1 | h1
          · rw [h1]; exact demo_grenade_observed
          · rw [List.mem_singleton.mp h1]; exact demo_movedGrenade_observed)
        (List.chain_cons.mpr ⟨by decide, List.chain_cons.mpr ⟨by decide, List.Chain.nil⟩⟩)
        (by
          refine List.chain'_cons.mpr ⟨?_, List.chain'_singleton _⟩
          norm_num [Demo.grenade, Demo.movedGrenade])).2.1,
    ((projectile_first_position_not_sampled Demo.header 200
        (State.initial Demo.localData Demo.bomb) List.nodup_nil
        (fun p hp => absurd hp (List.not_mem_nil p))).2 Demo.game Demo.grenade Demo.goneGame
        demo_grenade_observed demo_grenade_gone (by decide) (by decide)).1⟩

/-! ## Lemmas and theorems: the sequences a rebuild repopulates -/

theorem upsertPlayer_sequences (hd : Header) (g : Game) (s : State) (e : Entity) :
    (upsertPlayer hd g s e).weaponData = s.weaponData ∧
    (upsertPlayer hd g s e).entityData = s.entityData ∧
    (upsertPlayer hd g s e).lootCrateData = s.lootCrateData ∧
    (upsertPlayer hd g s e).infernoData = s.infernoData ∧
    (upsertPlayer hd g s e).smokeData = s.smokeData ∧
    (upsertPlayer hd g s e).localPlayerData = s.localPlayerData := by
  unfold upsertPlayer
  split <;> exact ⟨rfl, rfl, rfl, rfl, rfl, rfl⟩

theorem addObserver_sequences (g : Game) (s : State) (e : Entity) :
    (addObserver g s e).weaponData = s.weaponData ∧
    (addObserver g s e).entityData = s.entityData ∧
    (addObserver g s e).lootCrateData = s.lootCrateData ∧
    (addObserver g s e).infernoData = s.infernoData ∧
    (addObserver g s e).smokeData = s.smokeData ∧
    (addObserver g s e).localPlayerData = s.localPlayerData := by
  unfold addObserver
  split
  · split <;> exact ⟨rfl, rfl, rfl, rfl, rfl, rfl⟩
  · exact ⟨rfl, rfl, rfl, rfl, rfl, rfl⟩

theorem markExploded_sequences (s : State) (h : Int) :
    (markExploded s h).weaponData = s.weaponData ∧
    (markExploded s h).entityData = s.entityData ∧
    (markExploded s h).lootCrateData = s.lootCrateData ∧
    (markExploded s h).infernoData = s.infernoData ∧
    (markExploded s h).smokeData = s.smokeData ∧
    (markExploded s h).localPlayerData = s.localPlayerData := by
  unfold markExploded
  split <;> exact ⟨rfl, rfl, rfl, rfl, rfl, rfl⟩

theorem upsertProjectile_sequences (hd : Header) (g : Game) (s : State) (e : Entity) :
    (upsertProjectile hd g s e).weaponData = s.weaponData ∧
    (upsertProjectile hd g s e).entityData = s.entityData ∧
    (upsertProjectile hd g s e).lootCrateData = s.lootCrateData ∧
    (upsertProjectile hd g s e).infernoData = s.infernoData ∧
    (upsertProjectile hd g s e).smokeData = s.smokeData ∧
    (upsertProjectile hd g s e).localPlayerData = s.localPlayerData := by
  unfold upsertProjectile
  split <;> exact ⟨rfl, rfl, rfl, rfl, rfl, rfl⟩

/-- What the `switch (classId)` does to the sequences: it appends a record to
`entities()` for a listed class, to `lootCrates()` for a loot crate, to
`infernos()` for a fire. -/
theorem classSwitch_sequences (hd : Header) (g : Game) (s : State) (e : Entity) :
    (classSwitch hd g s e).weaponData = s.weaponData ∧
    (classSwitch hd g s e).entityData =
      s.entityData ++ (if isListedEntity e = true then [EntityData.make hd g s.localPlayerData e]
        else []) ∧
    (classSwitch hd g s e).lootCrateData =
      s.lootCrateData ++ (if e.classId = ClassId.LootCrate then
        [LootCrateData.make hd g s.localPlayerData e] else []) ∧
    (classSwitch hd g s e).infernoData =
      s.infernoData ++ (if e.classId = ClassId.Inferno then [InfernoData.make g e] else []) ∧
    (classSwitch hd g s e).smokeData = s.smokeData ∧
    (classSwitch hd g s e).localPlayerData = s.localPlayerData := by
  have hm := markExploded_sequences s e.handle
  have hu := upsertProjectile_sequences hd g s e
  unfold classSwitch isListedEntity
  cases hc : e.classId
  case BaseCSGrenadeProjectile =>
    dsimp only
    split
    · simp [hm]
    · simp [hu]
  case DynamicProp =>
    dsimp only
    cases hmodel : e.getModel with
    | none => simp
    | some model =>
      dsimp only
      cases hs : strstr model.name "challenge_coin" <;> simp
  all_goals simp [hu]

theorem fogBlock_sequences (g : Game) (s : State) (e : Entity) :
    (fogBlock g s e).weaponData = s.weaponData ∧
    (fogBlock g s e).entityData = s.entityData ∧
    (fogBlock g s e).lootCrateData = s.lootCrateData ∧
    (fogBlock g s e).infernoData = s.infernoData ∧
    (fogBlock g s e).smokeData = s.smokeData ∧
    (fogBlock g s e).localPlayerData = s.localPlayerData := by
  unfold fogBlock
  split <;> exact ⟨rfl, rfl, rfl, rfl, rfl, rfl⟩

theorem smokeBlock_sequences (s : State) (e : Entity) :
    (smokeBlock s e).weaponData = s.weaponData ∧
    (smokeBlock s e).entityData = s.entityData ∧
    (smokeBlock s e).lootCrateData = s.lootCrateData ∧
    (smokeBlock s e).infernoData = s.infernoData ∧
    (smokeBlock s e).smokeData =
      s.smokeData ++ (if e.classId = ClassId.SmokeGrenadeProjectile ∧ e.didSmokeEffect = true then
        [SmokeData.make e] else []) ∧
    (smokeBlock s e).localPlayerData = s.localPlayerData := by
  unfold smokeBlock
  split <;> simp

/-- What one turn of the entity loop does to the five sequences other than
`observers()`: it appends the record of the entity, if there is one, and leaves
the local-player record alone. -/
theorem processEntity_sequences (hd : Header) (g : Game) (lpl : Entity)
    (ot : Option EntityRef) (s : State) (e : Entity) :
    (processEntity hd g lpl ot s e).weaponData =
      s.weaponData ++ (weaponRecord hd g s.localPlayerData e).toList ∧
    (processEntity hd g lpl ot s e).entityData =
      s.entityData ++ (entityRecord hd g s.localPlayerData e).toList ∧
    (processEntity hd g lpl ot s e).lootCrateData =
      s.lootCrateData ++ (lootCrateRecord hd g s.localPlayerData e).toList ∧
    (processEntity hd g lpl ot s e).infernoData = s.infernoData ++ (infernoRecord g e).toList ∧
    (processEntity hd g lpl ot s e).smokeData = s.smokeData ++ (smokeRecord e).toList ∧
    (processEntity hd g lpl ot s e).localPlayerData = s.localPlayerData := by
  unfold processEntity weaponRecord entityRecord lootCrateRecord infernoRecord smokeRecord
    isClassified
  cases h1 : e.isPlayer
  · cases h2 : e.isDormant
    · cases h3 : e.isWeapon
      · obtain ⟨a1, a2, a3, a4, a5, a6⟩ := classSwitch_sequences hd g s e
        obtain ⟨b1, b2, b3, b4, b5, b6⟩ := fogBlock_sequences g (classSwitch hd g s e) e
        obtain ⟨c1, c2, c3, c4, c5, c6⟩ :=
          smokeBlock_sequences (fogBlock g (classSwitch hd g s e) e) e
        simp only [Bool.false_eq_true, if_false, Bool.not_false, Bool.and_self, true_and,
          false_and, and_false, Option.toList, List.append_nil]
        rw [c1, c2, c3, c4, c5, c6, b1, b2, b3, b4, b5, b6, a1, a2, a3, a4, a5, a6]
        refine ⟨rfl, ?_, ?_, ?_, ?_, rfl⟩
        · split <;> rfl
        · split <;> rfl
        · split <;> rfl
        · split <;> rfl
      · simp only [Bool.false_eq_true, if_false, if_true, Bool.not_false, Bool.not_true,
          Bool.and_false, Bool.and_true, true_and, false_and, and_false, Option.toList,
          List.append_nil]
        split <;> simp
    · simp [Option.toList]
  · simp only [if_true, Bool.true_eq_false, Bool.not_true, Bool.false_and, Bool.false_eq_true,
      false_and, if_false, Option.toList, List.append_nil]
    split
    · exact ⟨rfl, rfl, rfl, rfl, rfl, rfl⟩
    · obtain ⟨a1, a2, a3, a4, a5, a6⟩ := upsertPlayer_sequences hd g s e
      obtain ⟨b1, b2, b3, b4, b5, b6⟩ := addObserver_sequences g (upsertPlayer hd g s e) e
      rw [b1, b2, b3, b4, b5, b6, a1, a2, a3, a4, a5, a6]
      exact ⟨rfl, rfl, rfl, rfl, rfl, rfl⟩

/-- The five sequences other than `observers()` after the entity loop over the
indices `idx`: the sequences before it followed by the records of the visited
entities, in order. -/
theorem foldl_sequences (hd : Header) (g : Game) (lpl : Entity) (ot : Option EntityRef)
    (idx : List Int) (s : State) :
    (idx.foldl (visitIndex hd g lpl ot) s).weaponData =
      s.weaponData ++
        idx.filterMap (fun i => (g.getEntity i).bind (weaponRecord hd g s.localPlayerData)) ∧
    (idx.foldl (visitIndex hd g lpl ot) s).entityData =
      s.entityData ++
        idx.filterMap (fun i => (g.getEntity i).bind (entityRecord hd g s.localPlayerData)) ∧
    (idx.foldl (visitIndex hd g lpl ot) s).lootCrateData =
      s.lootCrateData ++
        idx.filterMap (fun i => (g.getEntity i).bind (lootCrateRecord hd g s.localPlayerData)) ∧
    (idx.foldl (visitIndex hd g lpl ot) s).infernoData =
      s.infernoData ++ idx.filterMap (fun i => (g.getEntity i).bind (infernoRecord g)) ∧
    (idx.foldl (visitIndex hd g lpl ot) s).smokeData =
      s.smokeData ++ idx.filterMap (fun i => (g.getEntity i).bind smokeRecord) ∧
    (idx.foldl (visitIndex hd g lpl ot) s).localPlayerData = s.localPlayerData := by
  induction idx generalizing s with
  | nil => simp
  | cons i rest ih =>
    have hstep : (visitIndex hd g lpl ot s i).weaponData =
          s.weaponData ++ ((g.getEntity i).bind (weaponRecord hd g s.localPlayerData)).toList ∧
        (visitIndex hd g lpl ot s i).entityData =
          s.entityData ++ ((g.getEntity i).bind (entityRecord hd g s.localPlayerData)).toList ∧
        (visitIndex hd g lpl ot s i).lootCrateData =
          s.lootCrateData ++
            ((g.getEntity i).bind (lootCrateRecord hd g s.localPlayerData)).toList ∧
        (visitIndex hd g lpl ot s i).infernoData =
          s.infernoData ++ ((g.getEntity i).bind (infernoRecord g)).toList ∧
        (visitIndex hd g lpl ot s i).smokeData =
          s.smokeData ++ ((g.getEntity i).bind smokeRecord).toList ∧
        (visitIndex hd g lpl ot s i).localPlayerData = s.localPlayerData := by
      unfold visitIndex
      cases he : g.getEntity i with
      | none => simp [Option.toList]
      | some e => exact processEntity_sequences hd g lpl ot s e
    obtain ⟨a1, a2, a3, a4, a5, a6⟩ := hstep
    obtain ⟨b1, b2, b3, b4, b5, b6⟩ := ih (visitIndex hd g lpl ot s i)
    rw [List.foldl_cons, b1, b2, b3, b4, b5, b6, a1, a2, a3, a4, a5, a6]
    simp only [List.filterMap_cons, List.append_assoc]
    refine ⟨?_, ?_, ?_, ?_, ?_, ?_⟩
    · cases (g.getEntity i).bind (weaponRecord hd g s.localPlayerData) <;> rfl
    · cases (g.getEntity i).bind (entityRecord hd g s.localPlayerData) <;> rfl
    · cases (g.getEntity i).bind (lootCrateRecord hd g s.localPlayerData) <;> rfl
    · cases (g.getEntity i).bind (infernoRecord g) <;> rfl
    · cases (g.getEntity i).bind smokeRecord <;> rfl
    · trivial

theorem weaponRecord_congr (hd : Header) (g : Game) (lp1 lp2 : LocalPlayerData)
    (h : lp1.origin = lp2.origin) : weaponRecord hd g lp1 = weaponRecord hd g lp2 := by
  funext e
  unfold weaponRecord
  rw [weaponMake_congr hd g lp1 lp2 e h]

theorem entityRecord_congr (hd : Header) (g : Game) (lp1 lp2 : LocalPlayerData)
    (h : lp1.origin = lp2.origin) : entityRecord hd g lp1 = entityRecord hd g lp2 := by
  funext e
  unfold entityRecord
  rw [entityMake_congr hd g lp1 lp2 e h]

theorem lootCrateRecord_congr (hd : Header) (g : Game) (lp1 lp2 : LocalPlayerData)
    (h : lp1.origin = lp2.origin) : lootCrateRecord hd g lp1 = lootCrateRecord hd g lp2 := by
  funext e
  unfold lootCrateRecord
  rw [lootCrateMake_congr hd g lp1 lp2 e h]

theorem localUpdate_origin_eq (g : Game) (lpl : Entity) (hlocal : g.localPlayer = some lpl)
    (d : LocalPlayerData) : (LocalPlayerData.update g d).origin = localOrigin lpl := by
  unfold LocalPlayerData.update localOrigin
  simp only [hlocal]

/-- The six per-frame sequences after a rebuild with a local player are the
records of the visited entities. -/
theorem update_rebuiltSequences (hd : Header) (g : Game) (s : State) (lpl : Entity)
    (lp : LocalPlayerData) (hlocal : g.localPlayer = some lpl)
    (hframe : s.lastFrame ≠ g.framecount) (horigin : lp.origin = localOrigin lpl) :
    perFrameSequences (GameData.update hd g s) = rebuiltSequences hd g lpl lp := by
  have hobs := update_observerData hd g s lpl hlocal hframe
  have hlp : (s.localPlayerData.update g).origin = lp.origin := by
    rw [horigin]
    exact localUpdate_origin_eq g lpl hlocal _
  have hbegin := beginRebuild_perFrame g s
  unfold perFrameSequences at hbegin
  simp only [Prod.mk.injEq] at hbegin
  obtain ⟨_, w0, e0, l0, i0, k0⟩ := hbegin
  unfold perFrameSequences rebuiltSequences
  rw [hobs]
  unfold GameData.update
  rw [if_neg hframe]
  unfold rebuild
  simp only [hlocal]
  obtain ⟨f1, f2, f3, _, f5, f6⟩ := finishRebuild_perFrame hd g (scanEntities hd g lpl (beginRebuild g s))
  rw [f1, f2, f3, f5, f6]
  have hscan : scanEntities hd g lpl (beginRebuild g s) =
      (entityIndices g).foldl (visitIndex hd g lpl (inEyeTarget lpl))
        { beginRebuild g s with
          gameModeName := g.gameModeName, viewMatrix := g.worldToScreenMatrix } := rfl
  rw [hscan]
  obtain ⟨a1, a2, a3, a4, a5, _⟩ := foldl_sequences hd g lpl (inEyeTarget lpl) (entityIndices g)
    { beginRebuild g s with gameModeName := g.gameModeName, viewMatrix := g.worldToScreenMatrix }
  rw [a1, a2, a3, a4, a5]
  dsimp only
  rw [w0, e0, l0, i0, k0, beginRebuild_localPlayerData]
  simp only [List.nil_append]
  rw [weaponRecord_congr hd g _ lp hlp, entityRecord_congr hd g _ lp hlp,
    lootCrateRecord_congr hd g _ lp hlp]

/-- C20: the per-frame sequences are fully cleared and repopulated by every
rebuild. After a call with a changed frame counter, `observers()`,
`weapons()`, `entities()`, `lootCrates()`, `infernos()` and `smokes()` are the
same whatever the snapshot held before: two rebuilds over the same world from
any two prior states give equal sequences; all six are empty when no local
player exists; and with a local player they are `rebuiltSequences`, the records
of the entities of the current world at the indices `1 .. highestEntityIndex`,
in that order, the weapons, entities and loot crates then sorted. -/
theorem update_perFrame_determined (hd : Header) (g : Game) (s1 s2 : State)
    (hframe1 : s1.lastFrame ≠ g.framecount) (hframe2 : s2.lastFrame ≠ g.framecount) :
    perFrameSequences (GameData.update hd g s1) = perFrameSequences (GameData.update hd g s2) ∧
    (g.localPlayer.isNone = true →
      perFrameSequences (GameData.update hd g s1) = ([], [], [], [], [], [])) ∧
    (∀ (lpl : Entity) (lp : LocalPlayerData), g.localPlayer = some lpl →
      lp.origin = localOrigin lpl →
      perFrameSequences (GameData.update hd g s1) = rebuiltSequences hd g lpl lp) := by
  have hnone : ∀ s : State, s.lastFrame ≠ g.framecount → g.localPlayer = none →
      perFrameSequences (GameData.update hd g s) = ([], [], [], [], [], []) := by
    intro s hf hl
    unfold GameData.update
    rw [if_neg hf]
    unfold rebuild
    simp only [hl]
    exact beginRebuild_perFrame g s
  refine ⟨?_, fun h => hnone s1 hframe1 (Option.isNone_iff_eq_none.mp h),
    fun lpl lp hl ho => update_rebuiltSequences hd g s1 lpl lp hl hframe1 ho⟩
  cases hl : g.localPlayer with
  | none => rw [hnone s1 hframe1 hl, hnone s2 hframe2 hl]
  | some lpl =>
    unfold GameData.update
    rw [if_neg hframe1, if_neg hframe2]
    unfold rebuild
    simp only [hl]
    apply finishRebuild_perFrame_congr
    exact congrArg Prod.fst (scanEntities_frameView hd g lpl hl s1 s2)

/-- Witness for C20: the busy world rebuilt from the demo snapshot and from the
snapshot with stale records in all six sequences. Both rebuilds give the
records of the busy world: the dead player's observer record, the two weapons,
the hostage and the chicken, the two loot crates, the fire and the smoke, the
three sorted sequences farthest first. -/
theorem update_perFrame_determined_witness :
    (Demo.staleFrameState.lastFrame ≠ Demo.busyGame.framecount ∧
      Demo.state.lastFrame ≠ Demo.busyGame.framecount ∧
      Demo.busyGame.localPlayer = some Demo.localEntity ∧
      Demo.localData.origin = localOrigin Demo.localEntity) ∧
    (Demo.staleFrameState.smokeData = [⟨⟨9, 9, 9⟩⟩] ∧ Demo.state.smokeData = []) ∧
    perFrameSequences (GameData.update Demo.header Demo.busyGame Demo.staleFrameState) =
      perFrameSequences (GameData.update Demo.header Demo.busyGame Demo.state) ∧
    perFrameSequences (GameData.update Demo.header Demo.busyGame Demo.staleFrameState) =
      rebuiltSequences Demo.header Demo.busyGame Demo.localEntity Demo.localData ∧
    (rebuiltSequences Demo.header Demo.busyGame Demo.localEntity Demo.localData).1 =
      [⟨340, 100, true⟩] ∧
    (rebuiltSequences Demo.header Demo.busyGame Demo.localEntity Demo.localData).2.1.map
      (fun w => w.distanceToLocal) = [70, 5] ∧
    (rebuiltSequences Demo.header Demo.busyGame Demo.localEntity Demo.localData).2.2.1.map
      (fun e => (e.name, e.distanceToLocal)) = [("Hostage", 60), ("Chicken", 20)] ∧
    (rebuiltSequences Demo.header Demo.busyGame Demo.localEntity Demo.localData).2.2.2.1.map
      (fun c => c.distanceToLocal) = [80, 15] ∧
    (rebuiltSequences Demo.header Demo.busyGame Demo.localEntity Demo.localData).2.2.2.2.1 =
      [⟨none, []⟩] ∧
    (rebuiltSequences Demo.header Demo.busyGame Demo.localEntity Demo.localData).2.2.2.2.2 =
      [⟨⟨30, 0, 0⟩⟩] :=
  ⟨⟨by decide, by decide, rfl, rfl⟩, ⟨rfl, rfl⟩,
    (update_perFrame_determined Demo.header Demo.busyGame Demo.staleFrameState Demo.state
      (by decide) (by decide)).1,
    (update_perFrame_determined Demo.header Demo.busyGame Demo.staleFrameState Demo.state
      (by decide) (by decide)).2.2 Demo.localEntity Demo.localData rfl rfl,
    by decide!, by decide!, by decide!, by decide!, by decide!, by decide!⟩

end Osiris
